import Mathlib

/-!
Verification of the red-black tree engine of `ft_containers`
(`src/includes/RBTree.hpp`), shallowly embedded as functions over an
explicit heap of nodes.

Modelling choices:
* A node (`RBTreeNode<T>` from `RBTreeIterator.hpp`, declared but not part
  of the provided sources; its layout is fully determined by its uses in
  `RBTree.hpp` and by the spec, section 3) is a record holding an optional
  payload (`value`, a `T*` that is `NULL` exactly for the sentinel), a
  color, and three links (`parent`, `leftChild`, `rightChild`).
* Pointers are modelled as natural-number ids into a heap `Nat → Node`;
  the sentinel (`_nil`) is allocated first and always has id `0`.
  Allocation is a bump allocator (`nextId`); `destroy`/`deallocate` and
  `delete` reset the slot to the default (all-zero, sentinel-like) record,
  modelling that the freed memory is no longer a node of the tree.
* The template is instantiated at `T = Int` with the default comparator
  `ft::less`, i.e. `comp a b = (a < b)`.
* Every loop and every recursive rebalancing procedure of the source is
  translated with an explicit fuel parameter; the public entry points pass
  fuel that is ample for every well-formed tree (the C++ loops terminate
  only on such trees in the first place).
Each definition below mirrors one function of `RBTree.hpp` statement by
statement, reading the heap exactly where the C++ statement reads it.
-/

namespace FtContainers

inductive RBColor where
  | RED : RBColor
  | BLACK : RBColor
deriving DecidableEq, Repr

/-- One `ft::RBTreeNode<int>`: optional payload (the `T* value`, `none`
for the sentinel and for freed slots), color and the three links. -/
structure Node where
  value : Option Int
  color : RBColor
  parent : Nat
  leftChild : Nat
  rightChild : Nat
deriving DecidableEq, Repr

/-- The default record held by unallocated / freed heap slots, and the
record `make_nil` builds for the sentinel (`color = BLACK`, all three
links self-referential, `value = NULL`; the sentinel has id 0). -/
def nilNode : Node :=
  { value := none, color := RBColor.BLACK, parent := 0, leftChild := 0, rightChild := 0 }

/-- The `ft::RBTree<int>` object: member variables `_root`, `_nil`,
`_size`, plus the heap that stands for the node allocator. -/
structure RBTree where
  heap : Nat → Node
  root : Nat
  nil : Nat
  size : Nat
  nextId : Nat

/-- Write one node record to the heap. -/
def writeNode (h : Nat → Node) (i : Nat) (n : Node) : Nat → Node :=
  fun j => if j = i then n else h j

def setLeft (t : RBTree) (i l : Nat) : RBTree :=
  { t with heap := writeNode t.heap i { t.heap i with leftChild := l } }

def setRight (t : RBTree) (i r : Nat) : RBTree :=
  { t with heap := writeNode t.heap i { t.heap i with rightChild := r } }

def setParent (t : RBTree) (i p : Nat) : RBTree :=
  { t with heap := writeNode t.heap i { t.heap i with parent := p } }

def setColor (t : RBTree) (i : Nat) (c : RBColor) : RBTree :=
  { t with heap := writeNode t.heap i { t.heap i with color := c } }

/-- `_comp`: `ft::less<int>`, `a < b`. -/
def comp (a b : Int) : Bool := decide (a < b)

/-- Dereference a node's payload (`*node->value`); the C++ only ever
dereferences non-NULL payloads, the default is a modelling artifact. -/
def valOf (t : RBTree) (i : Nat) : Int := ((t.heap i).value).getD 0

/-- Default constructor `RBTree()`: `_nil = make_nil(); _root = _nil;`
(the sentinel gets id 0 from the fresh allocator). -/
def RBTree.new : RBTree :=
  { heap := fun _ => nilNode, root := 0, nil := 0, size := 0, nextId := 1 }

/-- `make_node(val)`: allocate and construct a node holding `val`.  The
node constructor is in the missing header; color/links are irrelevant
(every caller overwrites them before use), the spec says nodes are
created RED. -/
def make_node (t : RBTree) (val : Int) : RBTree × Nat :=
  let id := t.nextId
  ({ t with
      heap := writeNode t.heap id
        { value := some val, color := RBColor.RED, parent := 0, leftChild := 0, rightChild := 0 },
      nextId := id + 1 }, id)

/-- `get_grandparent`: `node->parent->parent`.  (The C++ NULL-guards never
fire: in the model every link is a valid id, as every pointer in the
running tree refers to a real node or the sentinel.) -/
def get_grandparent (t : RBTree) (node : Nat) : Nat :=
  (t.heap (t.heap node).parent).parent

/-- `get_uncle`. -/
def get_uncle (t : RBTree) (node : Nat) : Nat :=
  let grand := get_grandparent t node
  if (t.heap grand).leftChild = (t.heap node).parent then (t.heap grand).rightChild
  else (t.heap grand).leftChild

/-- `get_sibling`. -/
def get_sibling (t : RBTree) (node : Nat) : Nat :=
  if node = (t.heap (t.heap node).parent).leftChild then (t.heap (t.heap node).parent).rightChild
  else (t.heap (t.heap node).parent).leftChild

/-- The loop of `get_max_value_node`: walk `rightChild` while it is a
real node. -/
def get_max_go (t : RBTree) : Nat → Nat → Nat
  | 0, i => i
  | fuel+1, i =>
    if (t.heap (t.heap i).rightChild).value ≠ none then get_max_go t fuel (t.heap i).rightChild
    else i

/-- `get_max_value_node()`: rightmost node starting from `_root`. -/
def get_max_value_node (t : RBTree) : Nat := get_max_go t t.nextId t.root

/-- The loop of `get_begin`: walk `leftChild` while it is a real node. -/
def get_begin_go (t : RBTree) : Nat → Nat → Nat
  | 0, i => i
  | fuel+1, i =>
    if (t.heap (t.heap i).leftChild).value ≠ none then get_begin_go t fuel (t.heap i).leftChild
    else i

/-- `get_begin()`: leftmost node starting from `_root`. -/
def get_begin (t : RBTree) : Nat := get_begin_go t t.nextId t.root

/-- `get_end()`: the sentinel. -/
def get_end (t : RBTree) : Nat := t.nil

/-- `rotate_left(node)`, statement by statement. -/
def rotate_left (t0 : RBTree) (node : Nat) : RBTree :=
  let child := (t0.heap node).rightChild
  let parent := (t0.heap node).parent
  let t1 := if (t0.heap (t0.heap child).leftChild).value ≠ none
            then setParent t0 (t0.heap child).leftChild node else t0
  let t2 := setRight t1 node ((t1.heap child).leftChild)
  let t3 := setParent t2 node child
  let t4 := setLeft t3 child node
  let t5 := setParent t4 child parent
  if (t5.heap parent).value ≠ none then
    (if (t5.heap parent).leftChild = node then setLeft t5 parent child
     else setRight t5 parent child)
  else { t5 with root := child }

/-- `rotate_right(node)`, statement by statement. -/
def rotate_right (t0 : RBTree) (node : Nat) : RBTree :=
  let child := (t0.heap node).leftChild
  let parent := (t0.heap node).parent
  let t1 := if (t0.heap (t0.heap child).rightChild).value ≠ none
            then setParent t0 (t0.heap child).rightChild node else t0
  let t2 := setLeft t1 node ((t1.heap child).rightChild)
  let t3 := setParent t2 node child
  let t4 := setRight t3 child node
  let t5 := setParent t4 child parent
  if (t5.heap parent).value ≠ none then
    (if (t5.heap parent).rightChild = node then setRight t5 parent child
     else setLeft t5 parent child)
  else { t5 with root := child }

/-- `insert_case5(node)`: recolor parent/grandparent, rotate at the
grandparent away from the node's side. -/
def insert_case5 (t0 : RBTree) (node : Nat) : RBTree :=
  let grand := get_grandparent t0 node
  let t1 := setColor t0 ((t0.heap node).parent) RBColor.BLACK
  let t2 := setColor t1 grand RBColor.RED
  if node = (t2.heap (t2.heap node).parent).leftChild then rotate_right t2 grand
  else rotate_left t2 grand

/-- `insert_case4(node)`: straighten a zig-zag by rotating at the parent,
then fall through to `insert_case5`. -/
def insert_case4 (t0 : RBTree) (node : Nat) : RBTree :=
  let grand := get_grandparent t0 node
  if node = (t0.heap (t0.heap node).parent).rightChild ∧
     (t0.heap node).parent = (t0.heap grand).leftChild then
    let t1 := rotate_left t0 ((t0.heap node).parent)
    insert_case5 t1 ((t1.heap node).leftChild)
  else if node = (t0.heap (t0.heap node).parent).leftChild ∧
          (t0.heap node).parent = (t0.heap grand).rightChild then
    let t1 := rotate_right t0 ((t0.heap node).parent)
    insert_case5 t1 ((t1.heap node).rightChild)
  else insert_case5 t0 node

mutual

/-- `insert_case1(node)`: root gets recolored BLACK, otherwise continue.
The fuel bounds the only recursion of insertion (case 3 restarting at the
grandparent). -/
def insert_case1 : Nat → RBTree → Nat → RBTree
  | 0, t, _ => t
  | fuel+1, t, node =>
    if (t.heap (t.heap node).parent).value ≠ none then insert_case2 fuel t node
    else setColor t node RBColor.BLACK

/-- `insert_case2(node)`: a BLACK parent means nothing is violated. -/
def insert_case2 : Nat → RBTree → Nat → RBTree
  | 0, t, _ => t
  | fuel+1, t, node =>
    if (t.heap (t.heap node).parent).color = RBColor.RED then insert_case3 fuel t node
    else t

/-- `insert_case3(node)`: RED uncle — recolor and restart from the
grandparent; BLACK uncle — go to the rotation cases. -/
def insert_case3 : Nat → RBTree → Nat → RBTree
  | 0, t, _ => t
  | fuel+1, t, node =>
    let uncle := get_uncle t node
    if (t.heap uncle).value ≠ none ∧ (t.heap uncle).color = RBColor.RED then
      let t1 := setColor t ((t.heap node).parent) RBColor.BLACK
      let t2 := setColor t1 uncle RBColor.BLACK
      let grand := get_grandparent t2 node
      let t3 := setColor t2 grand RBColor.RED
      insert_case1 fuel t3 grand
    else insert_case4 t node

end

/-- `check_hint(val, hint)`: decide whether the descent may start at the
hint instead of the root. -/
def check_hint (t : RBTree) (val : Int) (hint : Nat) : Nat :=
  if comp (valOf t hint) (valOf t t.root) && comp val (valOf t hint) then hint
  else if comp (valOf t hint) (valOf t t.root) && comp (valOf t hint) val then t.root
  else if comp (valOf t t.root) (valOf t hint) && comp val (valOf t hint) then t.root
  else if comp (valOf t t.root) (valOf t hint) && comp (valOf t hint) val then hint
  else t.root

/-- The loop of `get_position(position, node)`: BST descent from
`position`; on reaching an empty child slot, attach `node` there (RED,
both children the sentinel) and report `true`; on finding an equal key,
report `false` with the equal node. -/
def get_position : Nat → RBTree → Nat → Nat → RBTree × Nat × Bool
  | 0, t, position, _ => (t, position, false)
  | fuel+1, t, position, node =>
    if (t.heap position).value = none then (t, position, true)
    else if comp (valOf t node) (valOf t position) then
      (if (t.heap (t.heap position).leftChild).value = none then
        let t1 := setLeft t position node
        let t2 := setParent t1 node position
        let t3 := setLeft t2 node t2.nil
        let t4 := setRight t3 node t3.nil
        let t5 := setColor t4 node RBColor.RED
        (t5, position, true)
      else get_position fuel t ((t.heap position).leftChild) node)
    else if comp (valOf t position) (valOf t node) then
      (if (t.heap (t.heap position).rightChild).value = none then
        let t1 := setRight t position node
        let t2 := setParent t1 node position
        let t3 := setLeft t2 node t2.nil
        let t4 := setRight t3 node t3.nil
        let t5 := setColor t4 node RBColor.RED
        (t5, position, true)
      else get_position fuel t ((t.heap position).rightChild) node)
    else (t, position, false)

/-- `insert(val, hint)`: returns the updated tree together with the
`ft::pair<node_type*, bool>` result. -/
def RBTree.insert (t0 : RBTree) (val : Int) (hint : Option Nat) : RBTree × Nat × Bool :=
  let mk := make_node t0 val
  let t1 := mk.1
  let new_node := mk.2
  if t1.size = 0 then
    let t2 := { t1 with root := new_node }
    let t3 := setLeft t2 t2.root t2.nil
    let t4 := setRight t3 t3.root t3.nil
    let t5 := setParent t4 t4.root t4.nil
    let t6 := setColor t5 t5.root RBColor.BLACK
    let t7 := setParent t6 t6.nil t6.root
    let t8 := { t7 with size := t7.size + 1 }
    (t8, t8.root, true)
  else
    let position :=
      match hint with
      | some h => if (t1.heap h).value ≠ none then check_hint t1 val h else t1.root
      | none => t1.root
    let res := get_position t1.nextId t1 position new_node
    let t2 := res.1
    if res.2.2 = false then
      -- duplicate key: destroy and deallocate the fresh node, no mutation
      let t3 := { t2 with heap := writeNode t2.heap new_node nilNode }
      (t3, res.2.1, false)
    else
      let t3 := insert_case1 (3 * t2.nextId + 3) t2 new_node
      let t4 := { t3 with size := t3.size + 1 }
      let t5 := setParent t4 t4.nil (get_max_value_node t4)
      (t5, new_node, true)

/-- The loop of `find(val)`: BST descent until an equal key or the
sentinel. -/
def find_go : Nat → RBTree → Int → Nat → Nat
  | 0, _, _, res => res
  | fuel+1, t, val, res =>
    if (t.heap res).value ≠ none ∧ (comp val (valOf t res) || comp (valOf t res) val) = true then
      (if comp val (valOf t res) then find_go fuel t val ((t.heap res).leftChild)
       else find_go fuel t val ((t.heap res).rightChild))
    else res

/-- `find(val)`. -/
def RBTree.find (t : RBTree) (val : Int) : Nat :=
  if t.size = 0 then t.nil else find_go t.nextId t val t.root

/-- The first loop of `replace_erase_node`: maximum of the left subtree
(walk `rightChild` while real). -/
def rep_max_go (t : RBTree) : Nat → Nat → Nat
  | 0, res => res
  | fuel+1, res =>
    if (t.heap (t.heap res).rightChild).value ≠ none then rep_max_go t fuel ((t.heap res).rightChild)
    else res

/-- The second loop of `replace_erase_node`: minimum of the right subtree
(walk `leftChild` while real). -/
def rep_min_go (t : RBTree) : Nat → Nat → Nat
  | 0, res => res
  | fuel+1, res =>
    if (t.heap (t.heap res).leftChild).value ≠ none then rep_min_go t fuel ((t.heap res).leftChild)
    else res

/-- The pointer-splice part of `replace_erase_node` once the replacement
node `res` has been found, statement by statement. -/
def replace_splice (t0 : RBTree) (node res : Nat) : RBTree :=
  let tmp_parent := (t0.heap node).parent
  let tmp_left := (t0.heap node).leftChild
  let tmp_right := (t0.heap node).rightChild
  let tmp_color := (t0.heap node).color
  -- node's left/rightChild become res's children
  let t1 := setLeft t0 node ((t0.heap res).leftChild)
  let t2 := if (t1.heap (t1.heap res).leftChild).value ≠ none
            then setParent t1 ((t1.heap res).leftChild) node else t1
  let t3 := setRight t2 node ((t2.heap res).rightChild)
  let t4 := if (t3.heap (t3.heap res).rightChild).value ≠ none
            then setParent t3 ((t3.heap res).rightChild) node else t3
  -- res becomes the child of node's old parent
  let t5 := if (t4.heap tmp_parent).leftChild = node then setLeft t4 tmp_parent res
            else if (t4.heap tmp_parent).rightChild = node then setRight t4 tmp_parent res
            else t4
  let t6 :=
    if res = tmp_left then
      let a := setParent t5 tmp_right res
      let b := setRight a res tmp_right
      let c := setParent b node res
      setLeft c res node
    else if res = tmp_right then
      let a := setParent t5 tmp_left res
      let b := setLeft a res tmp_left
      let c := setParent b node res
      setRight c res node
    else
      -- res and node far apart
      let a := setParent t5 tmp_left res
      let b := setLeft a res tmp_left
      let c := setParent b tmp_right res
      let d := setRight c res tmp_right
      let e := setParent d node ((d.heap res).parent)
      setRight e ((e.heap res).parent) node
  let t7 := setParent t6 res tmp_parent
  let t8 := if (t7.heap (t7.heap res).parent).value = none then { t7 with root := res } else t7
  let t9 := setColor t8 node ((t8.heap res).color)
  setColor t9 res tmp_color

/-- Stage cut of `replace_splice` after the first guarded reparenting
(the target adopts the replacement's left child). -/
def splice_t2 (t0 : RBTree) (node res : Nat) : RBTree :=
  let t1 := setLeft t0 node ((t0.heap res).leftChild)
  if (t1.heap (t1.heap res).leftChild).value ≠ none
  then setParent t1 ((t1.heap res).leftChild) node else t1

/-- Stage cut of `replace_splice` after the second guarded reparenting
(the target adopts the replacement's right child). -/
def splice_t4 (t0 : RBTree) (node res : Nat) : RBTree :=
  let t2 := splice_t2 t0 node res
  let t3 := setRight t2 node ((t2.heap res).rightChild)
  if (t3.heap (t3.heap res).rightChild).value ≠ none
  then setParent t3 ((t3.heap res).rightChild) node else t3

/-- Stage cut of `replace_splice` after the old parent's child slot is
redirected to the replacement. -/
def splice_t5 (t0 : RBTree) (node res : Nat) : RBTree :=
  let t4 := splice_t4 t0 node res
  let tmp_parent := (t0.heap node).parent
  if (t4.heap tmp_parent).leftChild = node then setLeft t4 tmp_parent res
  else if (t4.heap tmp_parent).rightChild = node then setRight t4 tmp_parent res
  else t4

/-- Stage cut of `replace_splice` after the three-way relink of the
target and the replacement. -/
def splice_t6 (t0 : RBTree) (node res : Nat) : RBTree :=
  let t5 := splice_t5 t0 node res
  let tmp_left := (t0.heap node).leftChild
  let tmp_right := (t0.heap node).rightChild
  if res = tmp_left then
    let a := setParent t5 tmp_right res
    let b := setRight a res tmp_right
    let c := setParent b node res
    setLeft c res node
  else if res = tmp_right then
    let a := setParent t5 tmp_left res
    let b := setLeft a res tmp_left
    let c := setParent b node res
    setRight c res node
  else
    let a := setParent t5 tmp_left res
    let b := setLeft a res tmp_left
    let c := setParent b tmp_right res
    let d := setRight c res tmp_right
    let e := setParent d node ((d.heap res).parent)
    setRight e ((e.heap res).parent) node

/-- Stage cut of `replace_splice` after the replacement is hung from the
target's old parent and the root is updated. -/
def splice_t8 (t0 : RBTree) (node res : Nat) : RBTree :=
  let t7 := setParent (splice_t6 t0 node res) res ((t0.heap node).parent)
  if (t7.heap (t7.heap res).parent).value = none then { t7 with root := res } else t7

/-- `replace_erase_node(node)`: if the node has a real child, swap its
position (links and color) with the left subtree's maximum, or with the
right subtree's minimum when only the right child is real; return the
node to be deleted. -/
def replace_erase_node (t0 : RBTree) (node : Nat) : RBTree × Nat :=
  if (t0.heap (t0.heap node).leftChild).value ≠ none then
    let res := rep_max_go t0 t0.nextId ((t0.heap node).leftChild)
    (replace_splice t0 node res, node)
  else if (t0.heap (t0.heap node).rightChild).value ≠ none then
    let res := rep_min_go t0 t0.nextId ((t0.heap node).rightChild)
    (replace_splice t0 node res, node)
  else (t0, node)

/-- `replace_node(node, child)`: put `child` into `node`'s slot in the
parent. -/
def replace_node (t0 : RBTree) (node child : Nat) : RBTree :=
  let t1 := setParent t0 child ((t0.heap node).parent)
  if (t1.heap (t1.heap node).parent).leftChild = node then
    setLeft t1 ((t1.heap node).parent) child
  else
    setRight t1 ((t1.heap node).parent) child

/-- `delete_case6(node)`: far nephew RED — recolor and rotate at the
parent toward the doubly-black side. -/
def delete_case6 (t : RBTree) (node : Nat) : RBTree :=
  let sibling := get_sibling t node
  let t1 := setColor t sibling ((t.heap (t.heap node).parent).color)
  let t2 := setColor t1 ((t1.heap node).parent) RBColor.BLACK
  if node = (t2.heap (t2.heap node).parent).leftChild then
    let t3 := setColor t2 ((t2.heap sibling).rightChild) RBColor.BLACK
    rotate_left t3 ((t3.heap node).parent)
  else
    let t3 := setColor t2 ((t2.heap sibling).leftChild) RBColor.BLACK
    rotate_right t3 ((t3.heap node).parent)

/-- `delete_case5(node)`: near nephew RED, far nephew BLACK — rotate at
the sibling to produce the case-6 shape, then fall through. -/
def delete_case5 (t : RBTree) (node : Nat) : RBTree :=
  let sibling := get_sibling t node
  let t' :=
    if (t.heap sibling).color = RBColor.BLACK then
      (if node = (t.heap (t.heap node).parent).leftChild ∧
          (t.heap (t.heap sibling).rightChild).color = RBColor.BLACK ∧
          (t.heap (t.heap sibling).leftChild).color = RBColor.RED then
        let t1 := setColor t sibling RBColor.RED
        let t2 := setColor t1 ((t1.heap sibling).leftChild) RBColor.BLACK
        rotate_right t2 sibling
      else if node = (t.heap (t.heap node).parent).rightChild ∧
              (t.heap (t.heap sibling).leftChild).color = RBColor.BLACK ∧
              (t.heap (t.heap sibling).rightChild).color = RBColor.RED then
        let t1 := setColor t sibling RBColor.RED
        let t2 := setColor t1 ((t1.heap sibling).rightChild) RBColor.BLACK
        rotate_left t2 sibling
      else t)
    else t
  delete_case6 t' node

/-- `delete_case4(node)`: RED parent, BLACK sibling with BLACK children —
exchange the parent's and sibling's colors; otherwise continue. -/
def delete_case4 (t : RBTree) (node : Nat) : RBTree :=
  let sibling := get_sibling t node
  if (t.heap (t.heap node).parent).color = RBColor.RED ∧
     (t.heap sibling).color = RBColor.BLACK ∧
     (t.heap (t.heap sibling).leftChild).color = RBColor.BLACK ∧
     (t.heap (t.heap sibling).rightChild).color = RBColor.BLACK then
    let t1 := setColor t sibling RBColor.RED
    setColor t1 ((t1.heap node).parent) RBColor.BLACK
  else delete_case5 t node

mutual

/-- `delete_case1(node)`: done at the root, otherwise continue.  The fuel
bounds the only recursion of deletion (case 3 pushing the deficiency to
the parent). -/
def delete_case1 : Nat → RBTree → Nat → RBTree
  | 0, t, _ => t
  | fuel+1, t, node =>
    if (t.heap (t.heap node).parent).value ≠ none then delete_case2 fuel t node
    else t

/-- `delete_case2(node)`: RED sibling — recolor and rotate at the parent,
then continue with the black-sibling cases. -/
def delete_case2 : Nat → RBTree → Nat → RBTree
  | 0, t, _ => t
  | fuel+1, t, node =>
    let sibling := get_sibling t node
    let t' :=
      if (t.heap sibling).color = RBColor.RED then
        let t1 := setColor t ((t.heap node).parent) RBColor.RED
        let t2 := setColor t1 sibling RBColor.BLACK
        if node = (t2.heap (t2.heap node).parent).leftChild then rotate_left t2 ((t2.heap node).parent)
        else rotate_right t2 ((t2.heap node).parent)
      else t
    delete_case3 fuel t' node

/-- `delete_case3(node)`: everything BLACK — recolor the sibling RED and
resolve recursively at the parent; otherwise go on to case 4. -/
def delete_case3 : Nat → RBTree → Nat → RBTree
  | 0, t, _ => t
  | fuel+1, t, node =>
    let sibling := get_sibling t node
    if (t.heap (t.heap node).parent).color = RBColor.BLACK ∧
       (t.heap sibling).color = RBColor.BLACK ∧
       (t.heap (t.heap sibling).leftChild).color = RBColor.BLACK ∧
       (t.heap (t.heap sibling).rightChild).color = RBColor.BLACK then
      let t1 := setColor t sibling RBColor.RED
      delete_case1 fuel t1 ((t1.heap node).parent)
    else delete_case4 t node

end

/-- `erase(node)`: returns the updated tree and the removed count. -/
def RBTree.erase (t0 : RBTree) (node : Nat) : RBTree × Nat :=
  if (t0.heap node).value = none then (t0, 0)
  else
    let pr := replace_erase_node t0 node
    let t1 := pr.1
    let target := pr.2
    let child := if (t1.heap (t1.heap target).rightChild).value = none
                 then (t1.heap target).leftChild else (t1.heap target).rightChild
    let t2 := replace_node t1 target child
    let t3 :=
      if (t2.heap target).color = RBColor.BLACK then
        (if (t2.heap child).color = RBColor.RED then setColor t2 child RBColor.BLACK
         else delete_case1 (3 * t2.nextId + 3) t2 child)
      else t2
    let t4 := { t3 with size := t3.size - 1 }
    let t5 := if (t4.heap (t4.heap target).parent).value = none then { t4 with root := t4.nil } else t4
    -- `delete target`
    let t6 := { t5 with heap := writeNode t5.heap target nilNode }
    let t7 := setParent t6 t6.nil (get_max_value_node t6)
    (t7, 1)

/-- The recursion of `clear(node)`: post-order destroy every real node of
the subtree, resetting `_root` when the root itself is destroyed. -/
def clear_go : Nat → RBTree → Nat → RBTree
  | 0, t, _ => t
  | fuel+1, t, node =>
    let t1 := if (t.heap (t.heap node).leftChild).value ≠ none then
        let a := clear_go fuel t ((t.heap node).leftChild)
        setLeft a node a.nil
      else t
    let t2 := if (t1.heap (t1.heap node).rightChild).value ≠ none then
        let a := clear_go fuel t1 ((t1.heap node).rightChild)
        setRight a node a.nil
      else t1
    if (t2.heap node).value ≠ none then
      let t3 := if node = t2.root then { t2 with root := t2.nil } else t2
      { t3 with heap := writeNode t3.heap node nilNode, size := t3.size - 1 }
    else t2

/-- `clear()` with the default argument: start at `_root`. -/
def RBTree.clear (t : RBTree) : RBTree := clear_go t.nextId t t.root

/-- The recursion of `copy(node)`: pre-order walk over the source tree
`x`, inserting each payload into `t`. -/
def copy_go (x : RBTree) : Nat → RBTree → Nat → RBTree
  | 0, t, _ => t
  | fuel+1, t, node =>
    match (x.heap node).value with
    | none => t
    | some v =>
      let t1 := (RBTree.insert t v none).1
      let t2 := if (x.heap (x.heap node).leftChild).value ≠ none
                then copy_go x fuel t1 ((x.heap node).leftChild) else t1
      if (x.heap (x.heap node).rightChild).value ≠ none
      then copy_go x fuel t2 ((x.heap node).rightChild) else t2

/-- `copy(const RBTree& x)`: `clear()` then reinsert every element of `x`
by a pre-order walk. -/
def RBTree.copy (t x : RBTree) : RBTree := copy_go x x.nextId (RBTree.clear t) x.root

/-- Modelled from the spec: the ordered iterator lives in
`RBTreeIterator.hpp`, which is not among the provided sources.  Spec,
section 4.5: "advance (successor): if a right child exists, descend to its
leftmost descendant; otherwise ascend via parent links until arriving via
a left-child edge (or reaching the sentinel, meaning end)."  This is the
descend-to-leftmost part. -/
def iter_leftmost_go (t : RBTree) : Nat → Nat → Nat
  | 0, i => i
  | fuel+1, i =>
    if (t.heap (t.heap i).leftChild).value ≠ none then iter_leftmost_go t fuel ((t.heap i).leftChild)
    else i

/-- Modelled from the spec: the ascending part of the successor — climb
parent links while arriving from a right child; stop below a left-child
edge or at the sentinel. -/
def iter_ascend_go (t : RBTree) : Nat → Nat → Nat
  | 0, _ => t.nil
  | fuel+1, i =>
    let p := (t.heap i).parent
    if (t.heap p).value = none then t.nil
    else if (t.heap p).leftChild = i then p
    else iter_ascend_go t fuel p

/-- Modelled from the spec: `RBTreeIterator::operator++` (the in-order
successor), per section 4.5 of the spec. -/
def successor (t : RBTree) (i : Nat) : Nat :=
  if (t.heap (t.heap i).rightChild).value ≠ none then
    iter_leftmost_go t t.nextId ((t.heap i).rightChild)
  else iter_ascend_go t t.nextId i

/-- The loop of `lower_bound(val)`: scan with the ordered iterator from
`get_begin()` while the current element compares less than `val`. -/
def lower_bound_go : Nat → RBTree → Int → Nat → Nat
  | 0, _, _, it => it
  | fuel+1, t, val, it =>
    if it ≠ t.nil ∧ comp (valOf t it) val = true then
      lower_bound_go fuel t val (successor t it)
    else it

/-- `lower_bound(val)`. -/
def RBTree.lower_bound (t : RBTree) (val : Int) : Nat :=
  lower_bound_go (t.size + 1) t val (get_begin t)

/-- The loop of `upper_bound(val)`: scan while `val` does not compare
less than the current element. -/
def upper_bound_go : Nat → RBTree → Int → Nat → Nat
  | 0, _, _, it => it
  | fuel+1, t, val, it =>
    if it ≠ t.nil ∧ (!comp val (valOf t it)) = true then
      upper_bound_go fuel t val (successor t it)
    else it

/-- `upper_bound(val)`. -/
def RBTree.upper_bound (t : RBTree) (val : Int) : Nat :=
  upper_bound_go (t.size + 1) t val (get_begin t)

/-!  Observers used to state the claims: the iterator walk from
`begin()` to `end()`, the recursive in-order traversal by child links,
and the full-tree red-black validity check the spec prescribes. -/

/-- The chain of nodes visited by the ordered iterator, starting at `i`,
including the final stop (ideally the sentinel) as last entry. -/
def iterChain : Nat → RBTree → Nat → List Nat
  | 0, _, i => [i]
  | fuel+1, t, i => if i = t.nil then [i] else i :: iterChain fuel t (successor t i)

/-- The iterator walk of the whole tree: nodes from `begin()` up to but
not including the first arrival at `end()`. -/
def iterSeq : Nat → RBTree → Nat → List Nat
  | 0, _, _ => []
  | fuel+1, t, i => if i = t.nil then [] else i :: iterSeq fuel t (successor t i)

/-- `iterSeq` with the fuel the bound scans use. -/
def iterList (t : RBTree) : List Nat := iterSeq (t.size + 1) t (get_begin t)

/-- The iterator walk from `begin()` reaches `end()` within `size + 1`
steps (true for every well-formed tree; a fuel-sufficiency side
condition for statements about the scanning loops). -/
def ScanEnds (t : RBTree) : Prop :=
  (iterChain (t.size + 1) t (get_begin t)).getLast? = some t.nil

instance (t : RBTree) : Decidable (ScanEnds t) :=
  inferInstanceAs (Decidable ((iterChain (t.size + 1) t (get_begin t)).getLast? = some t.nil))

/-- Recursive in-order traversal of node ids by child links, cut off at
sentinel/freed slots (`value = NULL`). -/
def inorder (h : Nat → Node) : Nat → Nat → List Nat
  | 0, _ => []
  | fuel+1, i =>
    if (h i).value = none then []
    else inorder h fuel ((h i).leftChild) ++ i :: inorder h fuel ((h i).rightChild)

/-- In-order ids of the whole tree. -/
def inorderIds (t : RBTree) : List Nat := inorder t.heap t.nextId t.root

/-- In-order key sequence of the whole tree. -/
def inorderVals (t : RBTree) : List Int := (inorderIds t).map (valOf t)

/-- A strictly increasing list of keys. -/
def sortedLt : List Int → Bool
  | a :: b :: rest => comp a b && sortedLt (b :: rest)
  | _ => true

/-- The keys are strictly increasing along the in-order traversal. -/
def Sorted (t : RBTree) : Prop := sortedLt (inorderVals t) = true

instance (t : RBTree) : Decidable (Sorted t) :=
  inferInstanceAs (Decidable (sortedLt (inorderVals t) = true))

/-- Black-height of the subtree at `i`, counting BLACK nodes down to and
including the sentinel leaves and excluding `i` itself; `none` when two
paths disagree (property 5 violated below `i`). -/
def blackHeight (h : Nat → Node) : Nat → Nat → Option Nat
  | 0, _ => none
  | fuel+1, i =>
    if (h i).value = none then some 1
    else
      match blackHeight h fuel ((h i).leftChild), blackHeight h fuel ((h i).rightChild) with
      | some bl, some br =>
        if bl = br then some (bl + (if (h i).color = RBColor.BLACK then 1 else 0)) else none
      | _, _ => none

/-- No RED node of the subtree at `i` has a RED child. -/
def noRedRed (h : Nat → Node) : Nat → Nat → Bool
  | 0, _ => false
  | fuel+1, i =>
    if (h i).value = none then true
    else
      (!((h i).color = RBColor.RED ∧
         ((h ((h i).leftChild)).value ≠ none ∧ (h ((h i).leftChild)).color = RBColor.RED ∨
          (h ((h i).rightChild)).value ≠ none ∧ (h ((h i).rightChild)).color = RBColor.RED))) &&
      noRedRed h fuel ((h i).leftChild) && noRedRed h fuel ((h i).rightChild)

/-- The full-tree red-black check of spec section 8: the root is BLACK,
the sentinel is BLACK, no RED node has a RED child, and the black-height
is the same along every path.  (Property 1 — every node is RED or BLACK —
is guaranteed by the color type itself.) -/
def RBValid (t : RBTree) : Prop :=
  (t.heap t.root).color = RBColor.BLACK ∧
  (t.heap t.nil).color = RBColor.BLACK ∧
  noRedRed t.heap t.nextId t.root = true ∧
  (blackHeight t.heap t.nextId t.root).isSome = true

instance (t : RBTree) : Decidable (RBValid t) :=
  inferInstanceAs (Decidable ((t.heap t.root).color = RBColor.BLACK ∧
    (t.heap t.nil).color = RBColor.BLACK ∧
    noRedRed t.heap t.nextId t.root = true ∧
    (blackHeight t.heap t.nextId t.root).isSome = true))

/-- A client-visible operation on the tree: insert a key (no hint, as
`map::insert(value)` does) or erase a key (resolved to a node through
`find`, as `map::erase(key)` does). -/
inductive Op where
  | ins : Int → Op
  | del : Int → Op
deriving DecidableEq, Repr

/-- Apply one operation. -/
def applyOp (t : RBTree) : Op → RBTree
  | Op.ins v => (RBTree.insert t v none).1
  | Op.del v => (RBTree.erase t (RBTree.find t v)).1

/-- Run a sequence of operations from the empty tree. -/
def runOps (ops : List Op) : RBTree := ops.foldl applyOp RBTree.new

/-- `a` differs from `b` at most in links, colors and the root: the
element count, sentinel id, allocation bound and every payload agree.
Rotations and both rebalancing state machines stay in this relation. -/
def PayloadFrame (a b : RBTree) : Prop :=
  a.size = b.size ∧ a.nil = b.nil ∧ a.nextId = b.nextId ∧
  ∀ j, (a.heap j).value = (b.heap j).value

/-!  Abstract binary trees of node ids, and the representation predicate
tying a heap to such a tree.  This is the well-formedness backbone for
the structural claims: the pointer graph reachable from the root is a
tree, every leaf-child pointer is the sentinel, and every real node's
parent pointer names the node it hangs from. -/

/-- A binary tree of heap ids: the abstract shape of the pointer
structure. -/
inductive BT where
  | lf : BT
  | nd : BT → Nat → BT → BT
deriving DecidableEq, Repr

/-- In-order list of the ids of a tree. -/
def BT.ids : BT → List Nat
  | BT.lf => []
  | BT.nd l i r => BT.ids l ++ i :: BT.ids r

/-- `Repr h nil p i bt`: slot `i` of heap `h` is the root of a pointer
structure shaped like `bt`, its parent pointer names `p`, every real node
holds a payload, and every empty child slot is the sentinel `nil` (whose
parent field is not constrained: the tree caches the maximum node
there). -/
def Repr (h : Nat → Node) (nil : Nat) : Nat → Nat → BT → Prop
  | _, i, BT.lf => i = nil
  | p, i, BT.nd l j r =>
      i = j ∧ (h i).value ≠ none ∧ (h i).parent = p ∧
      Repr h nil i ((h i).leftChild) l ∧ Repr h nil i ((h i).rightChild) r

/-- The subtree of `bt` rooted at the node with id `x`. -/
def subAt : BT → Nat → Option BT
  | BT.lf, _ => none
  | BT.nd l j r, x =>
    if j = x then some (BT.nd l j r)
    else match subAt l x with
      | some s => some s
      | none => subAt r x

/-- Replace the subtree of `bt` rooted at the node with id `x` by `s`. -/
def repAt : BT → Nat → BT → BT
  | BT.lf, _, _ => BT.lf
  | BT.nd l j r, x, s =>
    if j = x then s
    else match subAt l x with
      | some _ => BT.nd (repAt l x s) j r
      | none => BT.nd l j (repAt r x s)

/-- The color of the root of an abstract subtree; sentinel leaves are
BLACK (red-black property 3). -/
def colorOf (h : Nat → Node) : BT → RBColor
  | BT.lf => RBColor.BLACK
  | BT.nd _ i _ => (h i).color

/-- Black-height of an abstract tree, counting the sentinel level,
`none` when some two paths disagree (red-black property 5). -/
def bhOf (h : Nat → Node) : BT → Option Nat
  | BT.lf => some 1
  | BT.nd l i r =>
    match bhOf h l, bhOf h r with
    | some a, some b =>
      if a = b then some (a + (if (h i).color = RBColor.BLACK then 1 else 0)) else none
    | _, _ => none

/-- No RED node has a RED child (red-black property 4). -/
def noRR (h : Nat → Node) : BT → Prop
  | BT.lf => True
  | BT.nd l i r =>
    ((h i).color = RBColor.RED →
      colorOf h l = RBColor.BLACK ∧ colorOf h r = RBColor.BLACK) ∧
    noRR h l ∧ noRR h r

/-- The in-order key sequence of an abstract tree under a heap. -/
def valsOf (h : Nat → Node) (bt : BT) : List Int :=
  bt.ids.map (fun i => ((h i).value).getD 0)

/-- Structural well-formedness of a tree state: the root represents an
abstract tree with pairwise distinct ids, every tree id is a real
allocated non-sentinel slot, the sentinel holds no payload, slots at or
beyond the allocation bound are untouched, and the size counter matches
the number of nodes.  (That the root's parent is the sentinel and that
an empty tree has `_root == _nil` are part of `Repr`.) -/
def WF (t : RBTree) : Prop :=
  ∃ bt : BT,
    Repr t.heap t.nil t.nil t.root bt ∧
    bt.ids.Nodup ∧
    (∀ i ∈ bt.ids, i < t.nextId ∧ i ≠ t.nil) ∧
    (t.heap t.nil).value = none ∧
    (∀ i, t.nextId ≤ i → t.heap i = nilNode) ∧
    t.size = bt.ids.length

/-- The id of the rightmost (in-order last) node of an abstract tree,
with a default answer for the empty tree: the node `replace_erase_node`'s
first loop finds. -/
def rmostId : BT → Nat → Nat
  | BT.lf, d => d
  | BT.nd _ i r, _ => rmostId r i

/-- The id of the leftmost (in-order first) node of an abstract tree,
with a default answer for the empty tree: the node `replace_erase_node`'s
second loop finds. -/
def lmostId : BT → Nat → Nat
  | BT.lf, d => d
  | BT.nd l i _, _ => lmostId l i

/-- On concrete data, `Repr` is a finite conjunction of decidable
equalities. -/
def decRepr (h : Nat → Node) (nil : Nat) : (p i : Nat) → (bt : BT) →
    Decidable (Repr h nil p i bt)
  | _, i, BT.lf => inferInstanceAs (Decidable (i = nil))
  | p, i, BT.nd l j r =>
    haveI := decRepr h nil i ((h i).leftChild) l
    haveI := decRepr h nil i ((h i).rightChild) r
    inferInstanceAs (Decidable (i = j ∧ (h i).value ≠ none ∧ (h i).parent = p ∧
      Repr h nil i ((h i).leftChild) l ∧ Repr h nil i ((h i).rightChild) r))

instance (h : Nat → Node) (nil p i : Nat) (bt : BT) :
    Decidable (Repr h nil p i bt) := decRepr h nil p i bt

/-- The master state invariant maintained by the public operations: the
tree is represented, ids are distinct allocated non-sentinel slots below
the allocation bound, the sentinel is an empty BLACK slot, the size
counter is exact, the in-order key list is strictly increasing, the root
is BLACK, no RED node has a RED child, the black-height is consistent,
and the sentinel's parent caches the rightmost node. -/
def Inv (t : RBTree) (bt : BT) : Prop :=
  Repr t.heap t.nil t.nil t.root bt ∧
  bt.ids.Nodup ∧
  (∀ i ∈ bt.ids, i < t.nextId ∧ i ≠ t.nil) ∧
  (t.heap t.nil).value = none ∧
  (∀ i, t.nextId ≤ i → t.heap i = nilNode) ∧
  t.size = bt.ids.length ∧
  t.nil < t.nextId ∧
  (valsOf t.heap bt).Pairwise (fun a b => a < b) ∧
  (t.heap t.root).color = RBColor.BLACK ∧
  (t.heap t.nil).color = RBColor.BLACK ∧
  noRR t.heap bt ∧
  (bhOf t.heap bt).isSome = true ∧
  (∀ A r B, bt = BT.nd A r B → (t.heap t.nil).parent = rmostId B r)

/-- The write sequence of `insert`'s empty-tree branch. -/
def fresh_root_writes (t1 : RBTree) (n : Nat) : RBTree :=
  let t2 : RBTree := { t1 with root := n }
  let t3 := setLeft t2 t2.root t2.nil
  let t4 := setRight t3 t3.root t3.nil
  let t5 := setParent t4 t4.root t4.nil
  let t6 := setColor t5 t5.root RBColor.BLACK
  let t7 := setParent t6 t6.nil t6.root
  { t7 with size := t7.size + 1 }

/-- The tail of `insert`'s attach branch: fixup, size bump, cache refresh. -/
def insert_attach_tail (t2 : RBTree) (nu : Nat) : RBTree :=
  let t3 := insert_case1 (3 * t2.nextId + 3) t2 nu
  let t4 : RBTree := { t3 with size := t3.size + 1 }
  setParent t4 t4.nil (get_max_value_node t4)

/-- The weak form of the fixup contract: the black-height profile is
only required to stay consistent (blackening the root raises it by
one). -/
def FixOutW (t : RBTree) (bt : BT) (t' : RBTree) (bt' : BT) : Prop :=
  Repr t'.heap t.nil t.nil t'.root bt' ∧
  bt'.ids = bt.ids ∧
  (∀ j, (t'.heap j).value = (t.heap j).value) ∧
  (∀ j, j ∉ bt.ids → j ≠ t.nil → t'.heap j = t.heap j) ∧
  t'.nil = t.nil ∧ t'.nextId = t.nextId ∧ t'.size = t.size ∧
  noRR t'.heap bt' ∧
  (bhOf t'.heap bt').isSome = true ∧
  (t'.heap t'.root).color = RBColor.BLACK ∧
  (t'.heap t.nil).color = RBColor.BLACK

/-- The list of strict ancestors of `x`, from the root down to `x`'s
parent. -/
def pathTo : BT → Nat → Option (List Nat)
  | BT.lf, _ => none
  | BT.nd l i r, x =>
    if i = x then some []
    else match pathTo l x with
      | some pa => some (i :: pa)
      | none => match pathTo r x with
        | some pa => some (i :: pa)
        | none => none

/-- Stage cut of `insert_case5`: the two recolorings before the final
rotation. -/
def recolor5 (t : RBTree) (p g : Nat) : RBTree :=
  setColor (setColor t p RBColor.BLACK) g RBColor.RED

/-- The contract of the insert-fixup machinery: the result represents a
tree over the same ids, payloads and all slots outside the tree are
untouched, the frame fields agree, no-red-red holds outright, the
black-height profile is unchanged, and both the root and the sentinel
are BLACK. -/
def FixOut (t : RBTree) (bt : BT) (t' : RBTree) (bt' : BT) : Prop :=
  Repr t'.heap t.nil t.nil t'.root bt' ∧
  bt'.ids = bt.ids ∧
  (∀ j, (t'.heap j).value = (t.heap j).value) ∧
  (∀ j, j ∉ bt.ids → j ≠ t.nil → t'.heap j = t.heap j) ∧
  t'.nil = t.nil ∧ t'.nextId = t.nextId ∧ t'.size = t.size ∧
  noRR t'.heap bt' ∧
  bhOf t'.heap bt' = bhOf t.heap bt ∧
  (t'.heap t'.root).color = RBColor.BLACK ∧
  (t'.heap t.nil).color = RBColor.BLACK

/-- Stage cut of `clear(node)`: the left-subtree destruction (first
conditional of the body). -/
def clear_step1 (fuel : Nat) (t : RBTree) (node : Nat) : RBTree :=
  if (t.heap (t.heap node).leftChild).value ≠ none then
    let a := clear_go fuel t ((t.heap node).leftChild)
    setLeft a node a.nil
  else t

/-- Stage cut of `clear(node)`: the right-subtree destruction (second
conditional of the body). -/
def clear_step2 (fuel : Nat) (t1 : RBTree) (node : Nat) : RBTree :=
  if (t1.heap (t1.heap node).rightChild).value ≠ none then
    let a := clear_go fuel t1 ((t1.heap node).rightChild)
    setRight a node a.nil
  else t1

/-- Stage cut of `clear(node)`: destroying `node` itself (root reset,
`delete`, size decrement). -/
def clear_step3 (t2 : RBTree) (node : Nat) : RBTree :=
  if (t2.heap node).value ≠ none then
    let t3 := if node = t2.root then { t2 with root := t2.nil } else t2
    { t3 with heap := writeNode t3.heap node nilNode, size := t3.size - 1 }
  else t2

/-- `h` with the color of slot `x` forced BLACK: the standard device for
stating the insert-fixup invariant ("the tree would satisfy no-red-red if
the problem node were black"). -/
def blacken (h : Nat → Node) (x : Nat) : Nat → Node :=
  fun j => if j = x then { h j with color := RBColor.BLACK } else h j

/-- Ordered insertion into a key list. -/
def insertSorted (v : Int) : List Int → List Int
  | [] => [v]
  | x :: xs => if v < x then v :: x :: xs else x :: insertSorted v xs

/-- Stage cut of `get_position`: the five writes of the left-attach
branch. -/
def attachWritesL (t : RBTree) (p nu : Nat) : RBTree :=
  setColor (setRight (setLeft (setParent (setLeft t p nu) nu p) nu t.nil) nu t.nil)
    nu RBColor.RED

/-- Stage cut of `get_position`: the five writes of the right-attach
branch. -/
def attachWritesR (t : RBTree) (p nu : Nat) : RBTree :=
  setColor (setRight (setLeft (setParent (setRight t p nu) nu p) nu t.nil) nu t.nil)
    nu RBColor.RED

/-!  Frame lemmas: the four field setters touch nothing but the named
link/color field of the named slot; rotations and the rebalancing state
machines never touch a payload, the element count, the sentinel id or the
allocation bound. -/

@[simp] theorem setLeft_root (t : RBTree) (i l : Nat) : (setLeft t i l).root = t.root := rfl

@[simp] theorem setLeft_nil (t : RBTree) (i l : Nat) : (setLeft t i l).nil = t.nil := rfl

@[simp] theorem setLeft_size (t : RBTree) (i l : Nat) : (setLeft t i l).size = t.size := rfl

@[simp] theorem setLeft_nextId (t : RBTree) (i l : Nat) : (setLeft t i l).nextId = t.nextId := rfl

@[simp] theorem setRight_root (t : RBTree) (i r : Nat) : (setRight t i r).root = t.root := rfl

@[simp] theorem setRight_nil (t : RBTree) (i r : Nat) : (setRight t i r).nil = t.nil := rfl

@[simp] theorem setRight_size (t : RBTree) (i r : Nat) : (setRight t i r).size = t.size := rfl

@[simp] theorem setRight_nextId (t : RBTree) (i r : Nat) : (setRight t i r).nextId = t.nextId := rfl

@[simp] theorem setParent_root (t : RBTree) (i p : Nat) : (setParent t i p).root = t.root := rfl

@[simp] theorem setParent_nil (t : RBTree) (i p : Nat) : (setParent t i p).nil = t.nil := rfl

@[simp] theorem setParent_size (t : RBTree) (i p : Nat) : (setParent t i p).size = t.size := rfl

@[simp] theorem setParent_nextId (t : RBTree) (i p : Nat) : (setParent t i p).nextId = t.nextId := rfl

@[simp] theorem setColor_root (t : RBTree) (i : Nat) (c : RBColor) : (setColor t i c).root = t.root := rfl

@[simp] theorem setColor_nil (t : RBTree) (i : Nat) (c : RBColor) : (setColor t i c).nil = t.nil := rfl

@[simp] theorem setColor_size (t : RBTree) (i : Nat) (c : RBColor) : (setColor t i c).size = t.size := rfl

@[simp] theorem setColor_nextId (t : RBTree) (i : Nat) (c : RBColor) : (setColor t i c).nextId = t.nextId := rfl

@[simp] theorem setLeft_value (t : RBTree) (i l j : Nat) :
    ((setLeft t i l).heap j).value = (t.heap j).value := by
  simp only [setLeft, writeNode]
  split <;> simp_all

@[simp] theorem setRight_value (t : RBTree) (i r j : Nat) :
    ((setRight t i r).heap j).value = (t.heap j).value := by
  simp only [setRight, writeNode]
  split <;> simp_all

@[simp] theorem setParent_value (t : RBTree) (i p j : Nat) :
    ((setParent t i p).heap j).value = (t.heap j).value := by
  simp only [setParent, writeNode]
  split <;> simp_all

@[simp] theorem setColor_value (t : RBTree) (i : Nat) (c : RBColor) (j : Nat) :
    ((setColor t i c).heap j).value = (t.heap j).value := by
  simp only [setColor, writeNode]
  split <;> simp_all

theorem rotate_left_size (t : RBTree) (n : Nat) : (rotate_left t n).size = t.size := by
  simp only [rotate_left]
  repeat' split
  all_goals simp

theorem rotate_left_nil (t : RBTree) (n : Nat) : (rotate_left t n).nil = t.nil := by
  simp only [rotate_left]
  repeat' split
  all_goals simp

theorem rotate_left_nextId (t : RBTree) (n : Nat) : (rotate_left t n).nextId = t.nextId := by
  simp only [rotate_left]
  repeat' split
  all_goals simp

theorem rotate_left_value (t : RBTree) (n j : Nat) :
    ((rotate_left t n).heap j).value = (t.heap j).value := by
  simp only [rotate_left]
  repeat' split
  all_goals simp

theorem rotate_right_size (t : RBTree) (n : Nat) : (rotate_right t n).size = t.size := by
  simp only [rotate_right]
  repeat' split
  all_goals simp

theorem rotate_right_nil (t : RBTree) (n : Nat) : (rotate_right t n).nil = t.nil := by
  simp only [rotate_right]
  repeat' split
  all_goals simp

theorem rotate_right_nextId (t : RBTree) (n : Nat) : (rotate_right t n).nextId = t.nextId := by
  simp only [rotate_right]
  repeat' split
  all_goals simp

theorem rotate_right_value (t : RBTree) (n j : Nat) :
    ((rotate_right t n).heap j).value = (t.heap j).value := by
  simp only [rotate_right]
  repeat' split
  all_goals simp

attribute [simp] rotate_left_size rotate_left_nil rotate_left_nextId rotate_left_value
attribute [simp] rotate_right_size rotate_right_nil rotate_right_nextId rotate_right_value

theorem payloadFrame_refl (t : RBTree) : PayloadFrame t t := ⟨rfl, rfl, rfl, fun _ => rfl⟩

theorem payloadFrame_trans {a b c : RBTree} (h1 : PayloadFrame a b) (h2 : PayloadFrame b c) :
    PayloadFrame a c :=
  ⟨h1.1.trans h2.1, h1.2.1.trans h2.2.1, h1.2.2.1.trans h2.2.2.1,
   fun j => (h1.2.2.2 j).trans (h2.2.2.2 j)⟩

@[simp] theorem size_ite (c : Prop) [Decidable c] (a b : RBTree) :
    (ite c a b).size = ite c a.size b.size := by split <;> rfl

@[simp] theorem nil_ite (c : Prop) [Decidable c] (a b : RBTree) :
    (ite c a b).nil = ite c a.nil b.nil := by split <;> rfl

@[simp] theorem nextId_ite (c : Prop) [Decidable c] (a b : RBTree) :
    (ite c a b).nextId = ite c a.nextId b.nextId := by split <;> rfl

@[simp] theorem root_ite (c : Prop) [Decidable c] (a b : RBTree) :
    (ite c a b).root = ite c a.root b.root := by split <;> rfl

@[simp] theorem heap_value_ite (c : Prop) [Decidable c] (a b : RBTree) (j : Nat) :
    (((ite c a b).heap j).value) = ite c ((a.heap j).value) ((b.heap j).value) := by
  split <;> rfl

@[simp] theorem fst_ite {α β : Type} (c : Prop) [Decidable c] (a b : α × β) :
    (ite c a b).1 = ite c a.1 b.1 := by split <;> rfl

@[simp] theorem snd_ite {α β : Type} (c : Prop) [Decidable c] (a b : α × β) :
    (ite c a b).2 = ite c a.2 b.2 := by split <;> rfl

@[simp] theorem insert_case5_size (t : RBTree) (n : Nat) : (insert_case5 t n).size = t.size := by
  simp only [insert_case5]; simp

@[simp] theorem insert_case5_nil (t : RBTree) (n : Nat) : (insert_case5 t n).nil = t.nil := by
  simp only [insert_case5]; simp

@[simp] theorem insert_case5_nextId (t : RBTree) (n : Nat) : (insert_case5 t n).nextId = t.nextId := by
  simp only [insert_case5]; simp

@[simp] theorem insert_case5_value (t : RBTree) (n j : Nat) :
    ((insert_case5 t n).heap j).value = (t.heap j).value := by
  simp only [insert_case5]; simp

@[simp] theorem insert_case4_size (t : RBTree) (n : Nat) : (insert_case4 t n).size = t.size := by
  simp only [insert_case4]; simp

@[simp] theorem insert_case4_nil (t : RBTree) (n : Nat) : (insert_case4 t n).nil = t.nil := by
  simp only [insert_case4]; simp

@[simp] theorem insert_case4_nextId (t : RBTree) (n : Nat) : (insert_case4 t n).nextId = t.nextId := by
  simp only [insert_case4]; simp

@[simp] theorem insert_case4_value (t : RBTree) (n j : Nat) :
    ((insert_case4 t n).heap j).value = (t.heap j).value := by
  simp only [insert_case4]; simp

theorem insert_cases_frame (fuel : Nat) :
    ∀ t n, PayloadFrame (insert_case1 fuel t n) t ∧ PayloadFrame (insert_case2 fuel t n) t ∧
      PayloadFrame (insert_case3 fuel t n) t := by
  induction fuel with
  | zero =>
    intro t n
    simp only [insert_case1, insert_case2, insert_case3]
    exact ⟨payloadFrame_refl t, payloadFrame_refl t, payloadFrame_refl t⟩
  | succ fuel ih =>
    intro t n
    refine ⟨?_, ?_, ?_⟩
    · simp only [insert_case1]
      split
      · exact (ih t n).2.1
      · exact ⟨rfl, rfl, rfl, fun j => setColor_value ..⟩
    · simp only [insert_case2]
      split
      · exact (ih t n).2.2
      · exact payloadFrame_refl t
    · simp only [insert_case3]
      split
      · refine payloadFrame_trans ((ih _ _).1) ?_
        exact ⟨by simp, by simp, by simp, by simp⟩
      · exact ⟨by simp, by simp, by simp, by simp⟩

@[simp] theorem delete_case6_size (t : RBTree) (n : Nat) : (delete_case6 t n).size = t.size := by
  simp only [delete_case6]; simp

@[simp] theorem delete_case6_nil (t : RBTree) (n : Nat) : (delete_case6 t n).nil = t.nil := by
  simp only [delete_case6]; simp

@[simp] theorem delete_case6_nextId (t : RBTree) (n : Nat) : (delete_case6 t n).nextId = t.nextId := by
  simp only [delete_case6]; simp

@[simp] theorem delete_case6_value (t : RBTree) (n j : Nat) :
    ((delete_case6 t n).heap j).value = (t.heap j).value := by
  simp only [delete_case6]; simp

@[simp] theorem delete_case5_size (t : RBTree) (n : Nat) : (delete_case5 t n).size = t.size := by
  simp only [delete_case5]; simp

@[simp] theorem delete_case5_nil (t : RBTree) (n : Nat) : (delete_case5 t n).nil = t.nil := by
  simp only [delete_case5]; simp

@[simp] theorem delete_case5_nextId (t : RBTree) (n : Nat) : (delete_case5 t n).nextId = t.nextId := by
  simp only [delete_case5]; simp

@[simp] theorem delete_case5_value (t : RBTree) (n j : Nat) :
    ((delete_case5 t n).heap j).value = (t.heap j).value := by
  simp only [delete_case5]; simp

@[simp] theorem delete_case4_size (t : RBTree) (n : Nat) : (delete_case4 t n).size = t.size := by
  simp only [delete_case4]; simp

@[simp] theorem delete_case4_nil (t : RBTree) (n : Nat) : (delete_case4 t n).nil = t.nil := by
  simp only [delete_case4]; simp

@[simp] theorem delete_case4_nextId (t : RBTree) (n : Nat) : (delete_case4 t n).nextId = t.nextId := by
  simp only [delete_case4]; simp

@[simp] theorem delete_case4_value (t : RBTree) (n j : Nat) :
    ((delete_case4 t n).heap j).value = (t.heap j).value := by
  simp only [delete_case4]; simp

theorem delete_cases_frame (fuel : Nat) :
    ∀ t n, PayloadFrame (delete_case1 fuel t n) t ∧ PayloadFrame (delete_case2 fuel t n) t ∧
      PayloadFrame (delete_case3 fuel t n) t := by
  induction fuel with
  | zero =>
    intro t n
    simp only [delete_case1, delete_case2, delete_case3]
    exact ⟨payloadFrame_refl t, payloadFrame_refl t, payloadFrame_refl t⟩
  | succ fuel ih =>
    intro t n
    refine ⟨?_, ?_, ?_⟩
    · simp only [delete_case1]
      split
      · exact (ih t n).2.1
      · exact payloadFrame_refl t
    · simp only [delete_case2]
      refine payloadFrame_trans ((ih _ _).2.2) ?_
      exact ⟨by simp, by simp, by simp, by simp⟩
    · simp only [delete_case3]
      split
      · refine payloadFrame_trans ((ih _ _).1) ?_
        exact ⟨by simp, by simp, by simp, by simp⟩
      · exact ⟨by simp, by simp, by simp, by simp⟩

@[simp] theorem replace_node_size (t : RBTree) (n c : Nat) : (replace_node t n c).size = t.size := by
  simp only [replace_node]; simp

@[simp] theorem replace_node_nil (t : RBTree) (n c : Nat) : (replace_node t n c).nil = t.nil := by
  simp only [replace_node]; simp

@[simp] theorem replace_node_nextId (t : RBTree) (n c : Nat) :
    (replace_node t n c).nextId = t.nextId := by
  simp only [replace_node]; simp

@[simp] theorem replace_node_root (t : RBTree) (n c : Nat) : (replace_node t n c).root = t.root := by
  simp only [replace_node]; simp

@[simp] theorem replace_node_value (t : RBTree) (n c j : Nat) :
    ((replace_node t n c).heap j).value = (t.heap j).value := by
  simp only [replace_node]; simp

@[simp] theorem replace_splice_size (t : RBTree) (n r : Nat) :
    (replace_splice t n r).size = t.size := by
  simp only [replace_splice]; simp

@[simp] theorem replace_splice_nil (t : RBTree) (n r : Nat) :
    (replace_splice t n r).nil = t.nil := by
  simp only [replace_splice]; simp

@[simp] theorem replace_splice_nextId (t : RBTree) (n r : Nat) :
    (replace_splice t n r).nextId = t.nextId := by
  simp only [replace_splice]; simp

@[simp] theorem replace_splice_value (t : RBTree) (n r j : Nat) :
    ((replace_splice t n r).heap j).value = (t.heap j).value := by
  simp only [replace_splice]; simp

theorem replace_erase_node_snd (t : RBTree) (n : Nat) : (replace_erase_node t n).2 = n := by
  simp only [replace_erase_node]; simp

@[simp] theorem replace_erase_node_size (t : RBTree) (n : Nat) :
    (replace_erase_node t n).1.size = t.size := by
  simp only [replace_erase_node]; simp

@[simp] theorem replace_erase_node_nil (t : RBTree) (n : Nat) :
    (replace_erase_node t n).1.nil = t.nil := by
  simp only [replace_erase_node]; simp

@[simp] theorem replace_erase_node_nextId (t : RBTree) (n : Nat) :
    (replace_erase_node t n).1.nextId = t.nextId := by
  simp only [replace_erase_node]; simp

@[simp] theorem replace_erase_node_value (t : RBTree) (n j : Nat) :
    ((replace_erase_node t n).1.heap j).value = (t.heap j).value := by
  simp only [replace_erase_node]; simp

@[simp] theorem delete_case1_size (fuel : Nat) (t : RBTree) (n : Nat) :
    (delete_case1 fuel t n).size = t.size := (delete_cases_frame fuel t n).1.1

@[simp] theorem delete_case1_nil (fuel : Nat) (t : RBTree) (n : Nat) :
    (delete_case1 fuel t n).nil = t.nil := (delete_cases_frame fuel t n).1.2.1

@[simp] theorem delete_case1_nextId (fuel : Nat) (t : RBTree) (n : Nat) :
    (delete_case1 fuel t n).nextId = t.nextId := (delete_cases_frame fuel t n).1.2.2.1

@[simp] theorem delete_case1_value (fuel : Nat) (t : RBTree) (n j : Nat) :
    ((delete_case1 fuel t n).heap j).value = (t.heap j).value :=
  (delete_cases_frame fuel t n).1.2.2.2 j

@[simp] theorem insert_case1_size (fuel : Nat) (t : RBTree) (n : Nat) :
    (insert_case1 fuel t n).size = t.size := (insert_cases_frame fuel t n).1.1

@[simp] theorem insert_case1_nil (fuel : Nat) (t : RBTree) (n : Nat) :
    (insert_case1 fuel t n).nil = t.nil := (insert_cases_frame fuel t n).1.2.1

@[simp] theorem insert_case1_nextId (fuel : Nat) (t : RBTree) (n : Nat) :
    (insert_case1 fuel t n).nextId = t.nextId := (insert_cases_frame fuel t n).1.2.2.1

@[simp] theorem insert_case1_value (fuel : Nat) (t : RBTree) (n j : Nat) :
    ((insert_case1 fuel t n).heap j).value = (t.heap j).value :=
  (insert_cases_frame fuel t n).1.2.2.2 j

@[simp] theorem get_position_size (fuel : Nat) :
    ∀ t pos node, (get_position fuel t pos node).1.size = t.size := by
  induction fuel with
  | zero => intro t pos node; rfl
  | succ fuel ih =>
    intro t pos node
    simp only [get_position]
    simp [ih]

@[simp] theorem get_position_nil (fuel : Nat) :
    ∀ t pos node, (get_position fuel t pos node).1.nil = t.nil := by
  induction fuel with
  | zero => intro t pos node; rfl
  | succ fuel ih =>
    intro t pos node
    simp only [get_position]
    simp [ih]

@[simp] theorem get_position_nextId (fuel : Nat) :
    ∀ t pos node, (get_position fuel t pos node).1.nextId = t.nextId := by
  induction fuel with
  | zero => intro t pos node; rfl
  | succ fuel ih =>
    intro t pos node
    simp only [get_position]
    simp [ih]

@[simp] theorem get_position_root (fuel : Nat) :
    ∀ t pos node, (get_position fuel t pos node).1.root = t.root := by
  induction fuel with
  | zero => intro t pos node; rfl
  | succ fuel ih =>
    intro t pos node
    simp only [get_position]
    simp [ih]

@[simp] theorem get_position_value (fuel : Nat) :
    ∀ t pos node j, ((get_position fuel t pos node).1.heap j).value = (t.heap j).value := by
  induction fuel with
  | zero => intro t pos node j; rfl
  | succ fuel ih =>
    intro t pos node j
    simp only [get_position]
    simp [ih]

/-- On the duplicate-key path (`second == false`), `get_position` has
performed no write at all. -/
theorem get_position_false_id (fuel : Nat) :
    ∀ t pos node, (get_position fuel t pos node).2.2 = false →
      (get_position fuel t pos node).1 = t := by
  induction fuel with
  | zero => intro t pos node _; rfl
  | succ fuel ih =>
    intro t pos node
    simp only [get_position]
    split
    · intro h; simp at h
    · split
      · split
        · intro h; simp at h
        · exact ih t _ node
      · split
        · split
          · intro h; simp at h
          · exact ih t _ node
        · intro _; rfl

/-!  C8: the return value of `erase`. -/

theorem erase_of_value_none (t : RBTree) (n : Nat) (h : (t.heap n).value = none) :
    RBTree.erase t n = (t, 0) := by
  simp [RBTree.erase, h]

theorem erase_snd_of_value_some (t : RBTree) (n : Nat) (h : (t.heap n).value ≠ none) :
    (RBTree.erase t n).2 = 1 := by
  simp [RBTree.erase, h]

theorem erase_size_of_value_some (t : RBTree) (n : Nat) (h : (t.heap n).value ≠ none) :
    (RBTree.erase t n).1.size = t.size - 1 := by
  simp only [RBTree.erase, if_neg h]
  simp

theorem erase_frees_target (t : RBTree) (n : Nat) (h : (t.heap n).value ≠ none) :
    ((RBTree.erase t n).1.heap n).value = none := by
  simp only [RBTree.erase, if_neg h]
  have hsnd := replace_erase_node_snd t n
  simp [hsnd, writeNode, nilNode]

theorem erase_value_frame (t : RBTree) (a j : Nat) (hj : j ≠ a) :
    ((RBTree.erase t a).1.heap j).value = (t.heap j).value := by
  by_cases h : (t.heap a).value = none
  · rw [erase_of_value_none t a h]
  · simp only [RBTree.erase, if_neg h]
    have hsnd := replace_erase_node_snd t a
    simp [hsnd, writeNode, hj]

/-- C8: `erase(node)` returns exactly 1 when the argument is a real
(non-sentinel, payload-holding) node — and then the node is removed (its
slot is freed) and the size is decremented — and returns exactly 0 when
the argument holds no payload (the sentinel, i.e. "key not found"
upstream), in which case the tree is unchanged; no other return value is
possible. -/
theorem C8_erase_return_contract (t : RBTree) (n : Nat) :
    ((t.heap n).value = none → RBTree.erase t n = (t, 0)) ∧
    ((t.heap n).value ≠ none →
      (RBTree.erase t n).2 = 1 ∧ (RBTree.erase t n).1.size = t.size - 1 ∧
      ((RBTree.erase t n).1.heap n).value = none) ∧
    ((RBTree.erase t n).2 = 0 ∨ (RBTree.erase t n).2 = 1) := by
  refine ⟨erase_of_value_none t n,
    fun h => ⟨erase_snd_of_value_some t n h, erase_size_of_value_some t n h,
      erase_frees_target t n h⟩, ?_⟩
  by_cases h : (t.heap n).value = none
  · left; rw [erase_of_value_none t n h]
  · right; exact erase_snd_of_value_some t n h

/-- Witness for C8: in the tree `{5}` (node 5 has id 1, the sentinel id
0), erasing the sentinel returns 0 unchanged, erasing node 1 returns 1
and leaves size 0. -/
theorem C8_witness :
    RBTree.erase (runOps [Op.ins 5]) 0 = (runOps [Op.ins 5], 0) ∧
    (RBTree.erase (runOps [Op.ins 5]) 1).2 = 1 ∧
    (RBTree.erase (runOps [Op.ins 5]) 1).1.size = (runOps [Op.ins 5]).size - 1 :=
  have h0 := C8_erase_return_contract (runOps [Op.ins 5]) 0
  have h1 := C8_erase_return_contract (runOps [Op.ins 5]) 1
  ⟨h0.1 (by decide), (h1.2.1 (by decide)).1, (h1.2.1 (by decide)).2.1⟩

/-- C6: erasing node `a` does not touch the payload stored at any other
real node `b` — dereferencing `b` after the erasure yields the same
payload as before (the splice-based erase relinks pointers and never
copies payloads). -/
theorem C6_erase_keeps_other_payloads (t : RBTree) (a b : Nat) (hab : b ≠ a)
    (ha : (t.heap a).value ≠ none) (hb : (t.heap b).value ≠ none) :
    ((RBTree.erase t a).1.heap b).value = (t.heap b).value :=
  erase_value_frame t a b hab

/-- Witness for C6: in the tree `{5, 3}` (node 5 has id 1, node 3 id 2),
erasing node 2 leaves node 1's payload intact. -/
theorem C6_witness :
    ((RBTree.erase (runOps [Op.ins 5, Op.ins 3]) 2).1.heap 1).value
      = ((runOps [Op.ins 5, Op.ins 3]).heap 1).value :=
  C6_erase_keeps_other_payloads (runOps [Op.ins 5, Op.ins 3]) 2 1 (by decide) (by decide)
    (by decide)

/-- Counterexample to C3 as stated: in the tree built by inserting
10, 16, 4, 6 (shape: root 10, left child 4 with right child 6, right
child 16; the node holding 6 has id 4), inserting the value 3 with that
node as hint places 3 as left child of 6 — inside the right subtree of 4
— so the resulting in-order key sequence is [4, 3, 6, 10, 16]: the tree
no longer satisfies the binary-search-tree order, although the hint-free
insertion of 3 does keep it sorted.  `check_hint` accepted the hint
because `hint < root` and `val < hint`, without checking the lower
boundary of the hint's subtree. -/
theorem C3_counterexample :
    ¬ Sorted ((RBTree.insert (runOps [Op.ins 10, Op.ins 16, Op.ins 4, Op.ins 6]) 3 (some 4)).1) ∧
    Sorted ((RBTree.insert (runOps [Op.ins 10, Op.ins 16, Op.ins 4, Op.ins 6]) 3 none).1) ∧
    inorderVals ((RBTree.insert (runOps [Op.ins 10, Op.ins 16, Op.ins 4, Op.ins 6]) 3 (some 4)).1)
      = [4, 3, 6, 10, 16] := by
  decide

/-- C3 (amended): `insert(val, hint)` coincides with the hint-free
`insert(val)` — same resulting tree state, hence same key set and
binary-search-tree order — whenever the hint heuristic falls back to a
full root descent, i.e. whenever the hint holds no payload or
`check_hint` selects the root as starting position.  (By the
counterexample, a hint accepted by `check_hint` whose subtree does not
contain the value's correct slot can place the key out of order, so the
unconditional claim fails.) -/
theorem C3_hint_root_fallback (t : RBTree) (val : Int) (h : Nat)
    (hyp : ((make_node t val).1.heap h).value = none ∨
           check_hint (make_node t val).1 val h = t.root) :
    RBTree.insert t val (some h) = RBTree.insert t val none := by
  simp only [RBTree.insert]
  have hpos : (if ((make_node t val).1.heap h).value ≠ none
              then check_hint (make_node t val).1 val h
              else (make_node t val).1.root) = (make_node t val).1.root := by
    rcases hyp with h1 | h2
    · rw [if_neg]; simp [h1]
    · split
      · exact h2
      · rfl
  rw [hpos]

/-- Witness for the amended C3: in the tree `{10, 16, 4, 6}` with hint
the node holding 16 (id 2) and value 12, `check_hint` falls back to the
root and the hinted insertion equals the hint-free one. -/
theorem C3_witness :
    RBTree.insert (runOps [Op.ins 10, Op.ins 16, Op.ins 4, Op.ins 6]) 12 (some 2)
      = RBTree.insert (runOps [Op.ins 10, Op.ins 16, Op.ins 4, Op.ins 6]) 12 none :=
  C3_hint_root_fallback (runOps [Op.ins 10, Op.ins 16, Op.ins 4, Op.ins 6]) 12 2
    (by right; decide)

/-!  The bound scans against the iterator walk (C9, C10). -/

theorem iterChain_ne_nil (fuel : Nat) (t : RBTree) (i : Nat) : iterChain fuel t i ≠ [] := by
  cases fuel with
  | zero => simp [iterChain]
  | succ fuel =>
    simp only [iterChain]
    split <;> simp

theorem getLast?_cons_of_ne {α : Type} {l : List α} (a : α) (h : l ≠ []) :
    (a :: l).getLast? = l.getLast? := by
  obtain ⟨b, m, rfl⟩ := List.exists_cons_of_ne_nil h
  rw [List.getLast?_cons_cons]

/-- The scanning loop of `lower_bound` stops at the first element of the
iterator walk that does not compare less than `val`, or at the sentinel
when the walk ends without one. -/
theorem lower_bound_go_spec (val : Int) :
    ∀ (fuel : Nat) (t : RBTree) (i : Nat),
      (iterChain fuel t i).getLast? = some t.nil →
      lower_bound_go fuel t val i =
        ((iterSeq fuel t i).find? (fun j => !comp (valOf t j) val)).getD t.nil := by
  intro fuel
  induction fuel with
  | zero =>
    intro t i hend
    simp [iterChain] at hend
    simp [lower_bound_go, iterSeq, hend]
  | succ fuel ih =>
    intro t i hend
    by_cases hnil : i = t.nil
    · simp [lower_bound_go, iterSeq, hnil]
    · simp only [iterChain, if_neg hnil] at hend
      rw [getLast?_cons_of_ne i (iterChain_ne_nil fuel t (successor t i))] at hend
      simp only [lower_bound_go, iterSeq, if_neg hnil]
      by_cases hlt : comp (valOf t i) val = true
      · rw [if_pos ⟨hnil, hlt⟩, ih t (successor t i) hend, List.find?_cons]
        simp [hlt]
      · rw [if_neg (fun hc => hlt hc.2), List.find?_cons]
        have : (!comp (valOf t i) val) = true := by simp [Bool.not_eq_true] at hlt ⊢; exact hlt
        simp [this]

/-- The scanning loop of `upper_bound` stops at the first element of the
iterator walk that `val` compares less than, or at the sentinel when the
walk ends without one. -/
theorem upper_bound_go_spec (val : Int) :
    ∀ (fuel : Nat) (t : RBTree) (i : Nat),
      (iterChain fuel t i).getLast? = some t.nil →
      upper_bound_go fuel t val i =
        ((iterSeq fuel t i).find? (fun j => comp val (valOf t j))).getD t.nil := by
  intro fuel
  induction fuel with
  | zero =>
    intro t i hend
    simp [iterChain] at hend
    simp [upper_bound_go, iterSeq, hend]
  | succ fuel ih =>
    intro t i hend
    by_cases hnil : i = t.nil
    · simp [upper_bound_go, iterSeq, hnil]
    · simp only [iterChain, if_neg hnil] at hend
      rw [getLast?_cons_of_ne i (iterChain_ne_nil fuel t (successor t i))] at hend
      simp only [upper_bound_go, iterSeq, if_neg hnil]
      by_cases hle : comp val (valOf t i) = true
      · rw [if_neg (fun hc => by simp [hle] at hc), List.find?_cons]
        simp [hle]
      · rw [if_pos ⟨hnil, by simp [Bool.not_eq_true] at hle ⊢; exact hle⟩,
          ih t (successor t i) hend, List.find?_cons]
        simp [hle]

/-- C9: for every tree whose iterator walk terminates (every valid tree)
and every key, `lower_bound` returns the first element of the in-order
walk that does not compare less than the key, and `upper_bound` the first
element that the key compares less than; both return the sentinel when no
such element exists (`getD t.nil`). -/
theorem C9_bounds_scan (t : RBTree) (val : Int) (h : ScanEnds t) :
    RBTree.lower_bound t val
        = ((iterList t).find? (fun j => !comp (valOf t j) val)).getD t.nil ∧
    RBTree.upper_bound t val
        = ((iterList t).find? (fun j => comp val (valOf t j))).getD t.nil :=
  ⟨lower_bound_go_spec val (t.size + 1) t (get_begin t) h,
   upper_bound_go_spec val (t.size + 1) t (get_begin t) h⟩

/-- Witness for C9, the spec's own scenario: in the tree `{1, 3, 5, 7}`,
`lower_bound(4)` and `lower_bound(5)` return the node with key 5,
`upper_bound(5)` the node with key 7, and `upper_bound(7)` the
sentinel. -/
theorem C9_witness :
    valOf (runOps [Op.ins 1, Op.ins 3, Op.ins 5, Op.ins 7])
        (RBTree.lower_bound (runOps [Op.ins 1, Op.ins 3, Op.ins 5, Op.ins 7]) 4) = 5 ∧
    valOf (runOps [Op.ins 1, Op.ins 3, Op.ins 5, Op.ins 7])
        (RBTree.upper_bound (runOps [Op.ins 1, Op.ins 3, Op.ins 5, Op.ins 7]) 5) = 7 ∧
    valOf (runOps [Op.ins 1, Op.ins 3, Op.ins 5, Op.ins 7])
        (RBTree.lower_bound (runOps [Op.ins 1, Op.ins 3, Op.ins 5, Op.ins 7]) 5) = 5 ∧
    RBTree.upper_bound (runOps [Op.ins 1, Op.ins 3, Op.ins 5, Op.ins 7]) 7
      = (runOps [Op.ins 1, Op.ins 3, Op.ins 5, Op.ins 7]).nil := by
  have h4 := C9_bounds_scan (runOps [Op.ins 1, Op.ins 3, Op.ins 5, Op.ins 7]) 4 (by decide)
  have h5 := C9_bounds_scan (runOps [Op.ins 1, Op.ins 3, Op.ins 5, Op.ins 7]) 5 (by decide)
  have h7 := C9_bounds_scan (runOps [Op.ins 1, Op.ins 3, Op.ins 5, Op.ins 7]) 7 (by decide)
  refine ⟨?_, ?_, ?_, ?_⟩
  · rw [h4.1]; decide
  · rw [h5.2]; decide
  · rw [h5.1]; decide
  · rw [h7.2]; decide

/-- Both scans visit the same nodes and stop together as long as no
visited element compares equal to `val`. -/
theorem bounds_go_eq_of_ne (val : Int) :
    ∀ (fuel : Nat) (t : RBTree) (i : Nat),
      (∀ j ∈ iterSeq fuel t i, valOf t j ≠ val) →
      lower_bound_go fuel t val i = upper_bound_go fuel t val i := by
  intro fuel
  induction fuel with
  | zero => intro t i _; rfl
  | succ fuel ih =>
    intro t i hne
    by_cases hnil : i = t.nil
    · simp [lower_bound_go, upper_bound_go, hnil]
    · have hi : valOf t i ≠ val := by
        refine hne i ?_
        simp [iterSeq, hnil]
      have htail : ∀ j ∈ iterSeq fuel t (successor t i), valOf t j ≠ val := by
        intro j hj
        refine hne j ?_
        simp [iterSeq, hnil, hj]
      simp only [lower_bound_go, upper_bound_go]
      by_cases hlt : comp (valOf t i) val = true
      · have hgt : (!comp val (valOf t i)) = true := by
          simp only [comp, decide_eq_true_eq] at hlt
          simp [comp, le_of_lt hlt]
        rw [if_pos ⟨hnil, hlt⟩, if_pos ⟨hnil, hgt⟩]
        exact ih t (successor t i) htail
      · have h1 : ¬ (valOf t i < val) := by simpa [comp] using hlt
        have h2 : val < valOf t i := lt_of_le_of_ne (not_lt.mp h1) (Ne.symm hi)
        have hgt : ¬ ((!comp val (valOf t i)) = true) := by simp [comp, h2]
        rw [if_neg (fun hc => hlt hc.2), if_neg (fun hc => hgt hc.2)]

/-- C10: when no element of the tree compares equal to the key,
`lower_bound` and `upper_bound` return the same node. -/
theorem C10_bounds_agree_absent (t : RBTree) (val : Int)
    (h : ∀ j ∈ iterList t, valOf t j ≠ val) :
    RBTree.lower_bound t val = RBTree.upper_bound t val :=
  bounds_go_eq_of_ne val (t.size + 1) t (get_begin t) h

/-- Witness for C10: in the tree `{1, 3}`, key 2 is absent and both
bounds return the node holding 3. -/
theorem C10_witness :
    RBTree.lower_bound (runOps [Op.ins 1, Op.ins 3]) 2
      = RBTree.upper_bound (runOps [Op.ins 1, Op.ins 3]) 2 :=
  C10_bounds_agree_absent (runOps [Op.ins 1, Op.ins 3]) 2 (by decide)

/-!  C7: inserting an already-present key mutates nothing. -/

/-- The `find` descent stops immediately on a payload-free node. -/
theorem find_go_none (fuel : Nat) (t : RBTree) (val : Int) (p : Nat)
    (h : (t.heap p).value = none) : find_go fuel t val p = p := by
  cases fuel with
  | zero => rfl
  | succ fuel => simp [find_go, h]

/-- When the `find` descent from `p` ends on a node that holds exactly
the inserted key, the `get_position` descent from `p` (in the state with
the fresh node allocated) walks the same path, stops on the same node,
performs no write, and reports `false`.  The only extra hypothesis is
that the freshly allocated slot held no payload before. -/
theorem get_position_eq_find (t : RBTree) (val : Int)
    (hv : (t.heap t.nextId).value = none) :
    ∀ (fuel : Nat) (p : Nat),
      (t.heap (find_go fuel t val p)).value = some val →
      get_position (fuel + 1) (make_node t val).1 p t.nextId
        = ((make_node t val).1, find_go fuel t val p, false) := by
  have hheap : ∀ j, j ≠ t.nextId → (make_node t val).1.heap j = t.heap j := by
    intro j hj
    simp [make_node, writeNode, hj]
  have hnew : ((make_node t val).1.heap t.nextId).value = some val := by
    simp [make_node, writeNode]
  have hvnew : valOf (make_node t val).1 t.nextId = val := by simp [valOf, hnew]
  intro fuel
  induction fuel with
  | zero =>
    intro p hp
    simp only [find_go] at hp ⊢
    have hpne : p ≠ t.nextId := fun hc => by rw [hc, hv] at hp; exact Option.noConfusion hp
    have h1 : (make_node t val).1.heap p = t.heap p := hheap p hpne
    have hvalp : valOf (make_node t val).1 p = val := by simp [valOf, h1, hp]
    rw [get_position]
    rw [if_neg (by rw [h1, hp]; exact fun hc => Option.noConfusion hc)]
    rw [hvnew, hvalp]
    simp [comp]
  | succ fuel ih =>
    intro p hp
    by_cases hcond : (t.heap p).value ≠ none ∧
        (comp val (valOf t p) || comp (valOf t p) val) = true
    · have hpne : p ≠ t.nextId := fun hc => hcond.1 (by rw [hc]; exact hv)
      have h1 : (make_node t val).1.heap p = t.heap p := hheap p hpne
      have hvp : valOf (make_node t val).1 p = valOf t p := by simp [valOf, h1]
      by_cases hlt : comp val (valOf t p) = true
      · have hstep : find_go (fuel + 1) t val p = find_go fuel t val ((t.heap p).leftChild) := by
          rw [find_go, if_pos hcond, if_pos hlt]
        rw [hstep] at hp ⊢
        have hLne : (t.heap p).leftChild ≠ t.nextId := by
          intro hc
          rw [find_go_none fuel t val _ (by rw [hc]; exact hv), hc, hv] at hp
          exact Option.noConfusion hp
        have hLval : (t.heap ((t.heap p).leftChild)).value ≠ none := by
          intro hc
          rw [find_go_none fuel t val _ hc, hc] at hp
          exact Option.noConfusion hp
        rw [get_position]
        rw [if_neg (by rw [h1]; exact hcond.1)]
        rw [hvnew, hvp, if_pos hlt, h1]
        rw [if_neg (by rw [hheap _ hLne]; exact hLval)]
        exact ih ((t.heap p).leftChild) hp
      · have hgt : comp (valOf t p) val = true := by
          rcases Bool.or_eq_true_iff.mp hcond.2 with hc | hc
          · exact absurd hc hlt
          · exact hc
        have hstep : find_go (fuel + 1) t val p = find_go fuel t val ((t.heap p).rightChild) := by
          rw [find_go, if_pos hcond, if_neg hlt]
        rw [hstep] at hp ⊢
        have hRne : (t.heap p).rightChild ≠ t.nextId := by
          intro hc
          rw [find_go_none fuel t val _ (by rw [hc]; exact hv), hc, hv] at hp
          exact Option.noConfusion hp
        have hRval : (t.heap ((t.heap p).rightChild)).value ≠ none := by
          intro hc
          rw [find_go_none fuel t val _ hc, hc] at hp
          exact Option.noConfusion hp
        rw [get_position]
        rw [if_neg (by rw [h1]; exact hcond.1)]
        rw [hvnew, hvp, if_neg hlt, if_pos hgt, h1]
        rw [if_neg (by rw [hheap _ hRne]; exact hRval)]
        exact ih ((t.heap p).rightChild) hp
    · have hstep : find_go (fuel + 1) t val p = p := by rw [find_go, if_neg hcond]
      rw [hstep] at hp ⊢
      have hpne : p ≠ t.nextId := fun hc => by rw [hc, hv] at hp; exact Option.noConfusion hp
      have h1 : (make_node t val).1.heap p = t.heap p := hheap p hpne
      have hvp : valOf (make_node t val).1 p = valOf t p := by simp [valOf, h1]
      push_neg at hcond
      have hvals : ¬ comp val (valOf t p) = true ∧ ¬ comp (valOf t p) val = true := by
        have hsome : (t.heap p).value ≠ none := by rw [hp]; exact fun hc => Option.noConfusion hc
        have hor := hcond hsome
        constructor <;> intro hc <;> exact hor (by simp [hc])
      rw [get_position]
      rw [if_neg (by rw [h1, hp]; exact fun hc => Option.noConfusion hc)]
      rw [hvnew, hvp, if_neg hvals.1, if_neg hvals.2]

/-- C7: inserting a value whose key is already present returns the
existing node holding that key together with a `false` created-flag, and
the tree is not mutated — heap (hence key set, structure and colors),
root and size are all exactly as before; only the allocation counter
advanced, for the transient node that was created and immediately
destroyed.  The hypotheses say that the next allocator slot is free, the
sentinel holds no payload, and `find` locates a node holding exactly the
inserted key ("the tree already contains an equal key"). -/
theorem C7_duplicate_insert_no_mutation (t : RBTree) (val : Int)
    (hfresh : t.heap t.nextId = nilNode)
    (hnil : (t.heap t.nil).value = none)
    (hdup : (t.heap (RBTree.find t val)).value = some val) :
    RBTree.insert t val none = ({ t with nextId := t.nextId + 1 }, RBTree.find t val, false) := by
  by_cases hsz : t.size = 0
  · exfalso
    rw [RBTree.find, if_pos hsz, hnil] at hdup
    exact Option.noConfusion hdup
  · have hfind : RBTree.find t val = find_go t.nextId t val t.root := by
      rw [RBTree.find, if_neg hsz]
    rw [hfind] at hdup ⊢
    have hv : (t.heap t.nextId).value = none := by rw [hfresh]; rfl
    have hgp := get_position_eq_find t val hv t.nextId t.root hdup
    have hsz1 : ¬ ((make_node t val).1.size = 0) := by
      simpa [make_node] using hsz
    simp only [RBTree.insert, if_neg hsz1]
    have hroot : (make_node t val).1.root = t.root := rfl
    have hnid : (make_node t val).1.nextId = t.nextId + 1 := rfl
    rw [hroot, hnid, show (make_node t val).2 = t.nextId from rfl, hgp]
    have hh : writeNode (make_node t val).1.heap t.nextId nilNode = t.heap := by
      funext j
      by_cases hj : j = t.nextId
      · subst hj; simp [writeNode, hfresh]
      · simp [writeNode, hj, make_node]
    dsimp only
    rw [if_pos rfl]
    congr 1
    rw [hh]
    rfl

/-- Witness for C7: inserting key 5 into the tree that already holds key
5 (node id 1) returns node 1 with `false` and changes nothing but the
allocation counter; in particular `size()` stays 1. -/
theorem C7_witness :
    RBTree.insert (runOps [Op.ins 5]) 5 none
      = ({ runOps [Op.ins 5] with nextId := (runOps [Op.ins 5]).nextId + 1 },
         RBTree.find (runOps [Op.ins 5]) 5, false) :=
  C7_duplicate_insert_no_mutation (runOps [Op.ins 5]) 5 (by decide) (by decide) (by decide)


/-- Every id of a represented tree holds a payload. -/
theorem repr_ids_value {h : Nat → Node} {nil : Nat} :
    ∀ {bt : BT} {p i : Nat}, Repr h nil p i bt → ∀ j ∈ bt.ids, (h j).value ≠ none := by
  intro bt
  induction bt with
  | lf => intro p i _ j hj; simp [BT.ids] at hj
  | nd l k r ihl ihr =>
    intro p i hR j hj
    obtain ⟨hik, hv, hp, hl, hr⟩ := hR
    simp only [BT.ids, List.mem_append, List.mem_cons] at hj
    rcases hj with hj | hj | hj
    · exact ihl hl j hj
    · subst hj; subst hik; exact hv
    · exact ihr hr j hj

/-- Child pointers of represented nodes stay inside the subtree's ids or
point at the sentinel. -/
theorem repr_child_mem {h : Nat → Node} {nil : Nat} :
    ∀ {bt : BT} {p i : Nat}, Repr h nil p i bt → ∀ j ∈ bt.ids,
      ((h j).leftChild ∈ bt.ids ∨ (h j).leftChild = nil) ∧
      ((h j).rightChild ∈ bt.ids ∨ (h j).rightChild = nil) := by
  intro bt
  induction bt with
  | lf => intro p i _ j hj; simp [BT.ids] at hj
  | nd l k r ihl ihr =>
    intro p i hR j hj
    obtain ⟨hik, hv, hp, hl, hr⟩ := hR
    simp only [BT.ids, List.mem_append, List.mem_cons] at hj
    rcases hj with hj | hj | hj
    · have := ihl hl j hj
      constructor
      · rcases this.1 with hc | hc
        · left; simp [BT.ids, hc]
        · right; exact hc
      · rcases this.2 with hc | hc
        · left; simp [BT.ids, hc]
        · right; exact hc
    · subst hj; subst hik
      constructor
      · cases l with
        | lf => right; exact hl
        | nd a b c =>
          left
          obtain ⟨he, _, _, _, _⟩ := hl
          simp [BT.ids, he]
      · cases r with
        | lf => right; exact hr
        | nd a b c =>
          left
          obtain ⟨he, _, _, _, _⟩ := hr
          simp [BT.ids, he]
    · have := ihr hr j hj
      constructor
      · rcases this.1 with hc | hc
        · left; simp [BT.ids, hc]
        · right; exact hc
      · rcases this.2 with hc | hc
        · left; simp [BT.ids, hc]
        · right; exact hc

/-- Representation only reads the `value`, `parent`, `leftChild` and
`rightChild` fields of the tree's own ids: a heap agreeing there
represents the same tree (colors are free to differ). -/
theorem repr_congr {h h' : Nat → Node} {nil : Nat} :
    ∀ {bt : BT} {p i : Nat}, Repr h nil p i bt →
      (∀ j ∈ bt.ids, (h' j).value = (h j).value ∧ (h' j).parent = (h j).parent ∧
        (h' j).leftChild = (h j).leftChild ∧ (h' j).rightChild = (h j).rightChild) →
      Repr h' nil p i bt := by
  intro bt
  induction bt with
  | lf => intro p i hR _; exact hR
  | nd l k r ihl ihr =>
    intro p i hR hag
    obtain ⟨hik, hv, hp, hl, hr⟩ := hR
    have hk : k ∈ (BT.nd l k r).ids := by simp [BT.ids]
    obtain ⟨hav, hap, hal, har⟩ := hag k hk
    subst hik
    refine ⟨rfl, by rw [hav]; exact hv, by rw [hap]; exact hp, ?_, ?_⟩
    · rw [hal]
      refine ihl hl ?_
      intro j hj
      exact hag j (by simp [BT.ids, hj])
    · rw [har]
      refine ihr hr ?_
      intro j hj
      exact hag j (by simp [BT.ids, hj])

/-- `subAt` returns a subtree rooted at the requested id. -/
theorem subAt_root : ∀ {bt : BT} {x : Nat} {S : BT}, subAt bt x = some S →
    ∃ l r, S = BT.nd l x r := by
  intro bt
  induction bt with
  | lf => intro x S hs; simp [subAt] at hs
  | nd l k r ihl ihr =>
    intro x S hs
    simp only [subAt] at hs
    split at hs
    · rename_i hk
      subst hk
      exact ⟨l, r, by injection hs with hs; rw [← hs]⟩
    · split at hs
      · rename_i s hl
        injection hs with hs
        subst hs
        exact ihl hl
      · exact ihr hs

/-- The ids of a subtree are among the ids of the tree. -/
theorem subAt_ids_subset : ∀ {bt : BT} {x : Nat} {S : BT}, subAt bt x = some S →
    ∀ j ∈ S.ids, j ∈ bt.ids := by
  intro bt
  induction bt with
  | lf => intro x S hs; simp [subAt] at hs
  | nd l k r ihl ihr =>
    intro x S hs j hj
    simp only [subAt] at hs
    split at hs
    · injection hs with hs
      rw [hs]
      exact hj
    · split at hs
      · rename_i s hl
        injection hs with hs
        subst hs
        simp [BT.ids, ihl hl j hj]
      · simp [BT.ids, ihr hs j hj]

/-- A node id is in the tree exactly when `subAt` finds it. -/
theorem subAt_isSome_of_mem : ∀ {bt : BT} {x : Nat}, x ∈ bt.ids →
    ∃ S, subAt bt x = some S := by
  intro bt
  induction bt with
  | lf => intro x hx; simp [BT.ids] at hx
  | nd l k r ihl ihr =>
    intro x hx
    simp only [subAt]
    by_cases hk : k = x
    · exact ⟨_, by rw [if_pos hk]⟩
    · rw [if_neg hk]
      simp only [BT.ids, List.mem_append, List.mem_cons] at hx
      rcases hx with hx | hx | hx
      · obtain ⟨S, hS⟩ := ihl hx
        exact ⟨S, by rw [hS]⟩
      · exact absurd hx.symm hk
      · cases hl : subAt l x with
        | none =>
          obtain ⟨S, hS⟩ := ihr hx
          exact ⟨S, hS⟩
        | some s => exact ⟨s, rfl⟩

/-- The root id of a found subtree is in the tree. -/
theorem subAt_mem_self : ∀ {bt : BT} {x : Nat} {S : BT}, subAt bt x = some S →
    x ∈ S.ids := by
  intro bt x S hs
  obtain ⟨l, r, rfl⟩ := subAt_root hs
  simp [BT.ids]

/-- Context decomposition: the in-order ids of the whole tree split as a
prefix, the subtree's ids, and a suffix, and replacing the subtree
replaces exactly the middle segment. -/
theorem subAt_ids_decomp : ∀ {bt : BT} {x : Nat} {S : BT}, subAt bt x = some S →
    ∃ pre post, bt.ids = pre ++ (S.ids ++ post) ∧
      ∀ S' : BT, (repAt bt x S').ids = pre ++ (S'.ids ++ post) := by
  intro bt
  induction bt with
  | lf => intro x S hs; simp [subAt] at hs
  | nd l k r ihl ihr =>
    intro x S hs
    simp only [subAt] at hs
    split at hs
    · rename_i hk
      injection hs with hs
      subst hs
      refine ⟨[], [], by simp, ?_⟩
      intro S'
      simp [repAt, if_pos hk]
    · rename_i hk
      split at hs
      · rename_i s hl
        injection hs with hs
        subst hs
        obtain ⟨pre, post, hdec, hrep⟩ := ihl hl
        refine ⟨pre, post ++ k :: r.ids, ?_, ?_⟩
        · simp [BT.ids, hdec]
        · intro S'
          simp [repAt, if_neg hk, hl, BT.ids, hrep S']
      · rename_i hl
        obtain ⟨pre, post, hdec, hrep⟩ := ihr hs
        refine ⟨l.ids ++ k :: pre, post, ?_, ?_⟩
        · simp [BT.ids, hdec]
        · intro S'
          simp [repAt, if_neg hk, hl, BT.ids, hrep S']

/-- Grafting: replace the subtree rooted at the real node `x` by a new
subtree `S'` rooted at slot `r'`.  If the new heap `h'` represents `S'`
at `r'` hanging from `x`'s old parent, leaves every node outside the old
subtree unchanged except that a child pointer that pointed at `x` now
points at `r'`, then `h'` represents the grafted tree. -/
theorem repr_graft {h h' : Nat → Node} {nil x r' : Nat} {SL SR S' : BT}
    (hS' : Repr h' nil ((h x).parent) r' S') :
    ∀ {bt : BT} {p i : Nat},
      Repr h nil p i bt →
      bt.ids.Nodup →
      (∀ j ∈ bt.ids, j ≠ nil) →
      subAt bt x = some (BT.nd SL x SR) →
      (∀ j ∈ bt.ids, j ∉ (BT.nd SL x SR).ids →
        (h' j).value = (h j).value ∧ (h' j).parent = (h j).parent ∧
        (h' j).leftChild = (if (h j).leftChild = x then r' else (h j).leftChild) ∧
        (h' j).rightChild = (if (h j).rightChild = x then r' else (h j).rightChild)) →
      Repr h' nil p (if i = x then r' else i) (repAt bt x S') := by
  intro bt
  induction bt with
  | lf => intro p i _ _ _ hsub _; simp [subAt] at hsub
  | nd l k r ihl ihr =>
    intro p i hR hnd hnn hsub hag
    obtain ⟨hik, hv, hp, hl, hr⟩ := hR
    subst hik
    have hxnil : x ≠ nil := by
      refine hnn x (subAt_ids_subset hsub x (subAt_mem_self hsub))
    simp only [subAt] at hsub
    by_cases hkx : i = x
    · rw [if_pos hkx] at hsub
      injection hsub with hsub
      have hSL : SL = l := by injection hsub.symm
      have hSR : SR = r := by injection hsub.symm
      subst hkx
      rw [hp] at hS'
      simpa [repAt] using hS'
    · rw [if_neg (fun hc => hkx hc)] at hsub
      rw [if_neg hkx]
      have hnd' : l.ids.Nodup ∧ r.ids.Nodup ∧ i ∉ l.ids ∧ i ∉ r.ids ∧
          ∀ a ∈ l.ids, a ∉ r.ids := by
        simp only [BT.ids, List.nodup_append, List.nodup_cons] at hnd
        obtain ⟨h1, ⟨h2, h3⟩, h4⟩ := hnd
        exact ⟨h1, h3, fun hc => h4 hc (by simp), h2, fun a ha hc => h4 ha (by simp [hc])⟩
      cases hsubl : subAt l x with
      | some s =>
        rw [hsubl] at hsub
        injection hsub with hsub
        subst hsub
        have hxl : x ∈ l.ids := subAt_ids_subset hsubl x (subAt_mem_self hsubl)
        have hinotS : i ∉ (BT.nd SL x SR).ids := by
          intro hc
          exact hnd'.2.2.1 (subAt_ids_subset hsubl i hc)
        obtain ⟨hav, hap, hal, har⟩ := hag i (by simp [BT.ids]) hinotS
        simp only [repAt, if_neg hkx, hsubl]
        refine ⟨rfl, by rw [hav]; exact hv, by rw [hap]; exact hp, ?_, ?_⟩
        · rw [hal]
          exact ihl hl hnd'.1 (fun j hj => hnn j (by simp [BT.ids, hj])) hsubl
            (fun j hj hjn => hag j (by simp [BT.ids, hj]) hjn)
        · have hrx : (h i).rightChild ≠ x := by
            cases r with
            | lf => rw [hr]; exact fun hc => hxnil hc.symm
            | nd a b c =>
              obtain ⟨he, _, _, _, _⟩ := hr
              rw [he]
              intro hc
              exact hnd'.2.2.2.2 x hxl (by simp [BT.ids, hc])
          rw [har, if_neg hrx]
          refine repr_congr hr ?_
          intro j hj
          have hjS : j ∉ (BT.nd SL x SR).ids := by
            intro hc
            exact hnd'.2.2.2.2 j (subAt_ids_subset hsubl j hc) hj
          obtain ⟨hav2, hap2, hal2, har2⟩ := hag j (by simp [BT.ids, hj]) hjS
          have hch := repr_child_mem hr j hj
          have hjlx : (h j).leftChild ≠ x := by
            rcases hch.1 with hc | hc
            · intro he
              rw [he] at hc
              exact hnd'.2.2.2.2 x hxl hc
            · rw [hc]; exact fun he => hxnil he.symm
          have hjrx : (h j).rightChild ≠ x := by
            rcases hch.2 with hc | hc
            · intro he
              rw [he] at hc
              exact hnd'.2.2.2.2 x hxl hc
            · rw [hc]; exact fun he => hxnil he.symm
          exact ⟨hav2, hap2, by rw [hal2, if_neg hjlx], by rw [har2, if_neg hjrx]⟩
      | none =>
        rw [hsubl] at hsub
        have hxr : x ∈ r.ids := subAt_ids_subset hsub x (subAt_mem_self hsub)
        have hinotS : i ∉ (BT.nd SL x SR).ids := by
          intro hc
          exact hnd'.2.2.2.1 (subAt_ids_subset hsub i hc)
        obtain ⟨hav, hap, hal, har⟩ := hag i (by simp [BT.ids]) hinotS
        simp only [repAt, if_neg hkx, hsubl]
        refine ⟨rfl, by rw [hav]; exact hv, by rw [hap]; exact hp, ?_, ?_⟩
        · have hlx : (h i).leftChild ≠ x := by
            cases l with
            | lf => rw [hl]; exact fun hc => hxnil hc.symm
            | nd a b c =>
              obtain ⟨he, _, _, _, _⟩ := hl
              rw [he]
              intro hc
              exact hnd'.2.2.2.2 x (by simp [BT.ids, hc]) hxr
          rw [hal, if_neg hlx]
          refine repr_congr hl ?_
          intro j hj
          have hjS : j ∉ (BT.nd SL x SR).ids := by
            intro hc
            exact hnd'.2.2.2.2 j hj (subAt_ids_subset hsub j hc)
          obtain ⟨hav2, hap2, hal2, har2⟩ := hag j (by simp [BT.ids, hj]) hjS
          have hch := repr_child_mem hl j hj
          have hjlx : (h j).leftChild ≠ x := by
            rcases hch.1 with hc | hc
            · intro he
              rw [he] at hc
              exact hnd'.2.2.2.2 x hc hxr
            · rw [hc]; exact fun he => hxnil he.symm
          have hjrx : (h j).rightChild ≠ x := by
            rcases hch.2 with hc | hc
            · intro he
              rw [he] at hc
              exact hnd'.2.2.2.2 x hc hxr
            · rw [hc]; exact fun he => hxnil he.symm
          exact ⟨hav2, hap2, by rw [hal2, if_neg hjlx], by rw [har2, if_neg hjrx]⟩
        · rw [har]
          exact ihr hr hnd'.2.1 (fun j hj => hnn j (by simp [BT.ids, hj])) hsub
            (fun j hj hjn => hag j (by simp [BT.ids, hj]) hjn)

/-- The subtree found by `subAt` is itself represented, hanging from the
node's recorded parent. -/
theorem repr_subAt {h : Nat → Node} {nil x : Nat} {S : BT} :
    ∀ {bt : BT} {p i : Nat}, Repr h nil p i bt → subAt bt x = some S →
      Repr h nil ((h x).parent) x S := by
  intro bt
  induction bt with
  | lf => intro p i _ hsub; simp [subAt] at hsub
  | nd l k r ihl ihr =>
    intro p i hR hsub
    obtain ⟨hik, hv, hp, hl, hr⟩ := hR
    subst hik
    simp only [subAt] at hsub
    split at hsub
    · rename_i hk
      subst hk
      injection hsub with hsub
      subst hsub
      rw [hp]
      exact ⟨rfl, hv, hp, hl, hr⟩
    · split at hsub
      · rename_i s hls
        injection hsub with hsub
        subst hsub
        exact ihl hl hls
      · exact ihr hr hsub

/-- Only the recorded parent of `x` can have a child pointer at `x`. -/
theorem repr_parent_unique {h : Nat → Node} {nil x : Nat} :
    ∀ {bt : BT} {p i : Nat}, Repr h nil p i bt → bt.ids.Nodup → x ≠ nil →
      ∀ j ∈ bt.ids, ((h j).leftChild = x ∨ (h j).rightChild = x) →
      j = (h x).parent := by
  intro bt
  induction bt with
  | lf => intro p i _ _ _ j hj; simp [BT.ids] at hj
  | nd l k r ihl ihr =>
    intro p i hR hnd hxnil j hj hchild
    obtain ⟨hik, hv, hp, hl, hr⟩ := hR
    subst hik
    have hnd' : l.ids.Nodup ∧ r.ids.Nodup := by
      simp only [BT.ids, List.nodup_append, List.nodup_cons] at hnd
      exact ⟨hnd.1, hnd.2.1.2⟩
    simp only [BT.ids, List.mem_append, List.mem_cons] at hj
    rcases hj with hj | hj | hj
    · exact ihl hl hnd'.1 hxnil j hj hchild
    · subst hj
      rcases hchild with hc | hc
      · cases l with
        | lf => exact absurd (hc.symm.trans hl) hxnil
        | nd a b c =>
          obtain ⟨_, _, hpar, _, _⟩ := hl
          rw [hc] at hpar
          exact hpar.symm
      · cases r with
        | lf => exact absurd (hc.symm.trans hr) hxnil
        | nd a b c =>
          obtain ⟨_, _, hpar, _, _⟩ := hr
          rw [hc] at hpar
          exact hpar.symm
    · exact ihr hr hnd'.2 hxnil j hj hchild

/-- Either `x` is the root of the tree and its recorded parent is the
tree's parent slot, or its recorded parent is a real node outside `x`'s
subtree having `x` as exactly one of its two children. -/
theorem repr_parent_cases {h : Nat → Node} {nil x : Nat} {SL SR : BT} (hxnil : x ≠ nil) :
    ∀ {bt : BT} {p i : Nat}, Repr h nil p i bt → bt.ids.Nodup →
      subAt bt x = some (BT.nd SL x SR) →
      (i = x ∧ (h x).parent = p) ∨
      ((h x).parent ∈ bt.ids ∧ (h x).parent ∉ (BT.nd SL x SR).ids ∧
        (((h ((h x).parent)).leftChild = x ∧ (h ((h x).parent)).rightChild ≠ x) ∨
         ((h ((h x).parent)).rightChild = x ∧ (h ((h x).parent)).leftChild ≠ x))) := by
  intro bt
  induction bt with
  | lf => intro p i _ _ hsub; simp [subAt] at hsub
  | nd l k r ihl ihr =>
    intro p i hR hnd hsub
    obtain ⟨hik, hv, hp, hl, hr⟩ := hR
    subst hik
    have hnd' : l.ids.Nodup ∧ r.ids.Nodup ∧ i ∉ l.ids ∧ i ∉ r.ids ∧
        ∀ a ∈ l.ids, a ∉ r.ids := by
      simp only [BT.ids, List.nodup_append, List.nodup_cons] at hnd
      obtain ⟨h1, ⟨h2, h3⟩, h4⟩ := hnd
      exact ⟨h1, h3, fun hc => h4 hc (by simp), h2, fun a ha hc => h4 ha (by simp [hc])⟩
    simp only [subAt] at hsub
    split at hsub
    · rename_i hk
      left
      exact ⟨hk, by rw [hk] at hp; exact hp⟩
    · rename_i hk
      cases hsubl : subAt l x with
      | some s =>
        rw [hsubl] at hsub
        injection hsub with hsub
        subst hsub
        have hxl : x ∈ l.ids := subAt_ids_subset hsubl x (subAt_mem_self hsubl)
        have hrx : (h i).rightChild ≠ x := by
          intro hc
          cases r with
          | lf => exact hxnil (hc.symm.trans hr)
          | nd a b c =>
            obtain ⟨he, _, _, _, _⟩ := hr
            have hbx : b = x := he.symm.trans hc
            exact hnd'.2.2.2.2 x hxl (by simp [BT.ids, hbx])
        right
        rcases ihl hl hnd'.1 hsubl with ⟨hroot, hpar⟩ | ⟨hmem, hnotS, hside⟩
        · rw [hpar]
          refine ⟨by simp [BT.ids], ?_, Or.inl ⟨hroot, hrx⟩⟩
          intro hc
          exact hnd'.2.2.1 (subAt_ids_subset hsubl i hc)
        · exact ⟨by simp [BT.ids, hmem], hnotS, hside⟩
      | none =>
        rw [hsubl] at hsub
        have hxr : x ∈ r.ids := subAt_ids_subset hsub x (subAt_mem_self hsub)
        have hlx : (h i).leftChild ≠ x := by
          intro hc
          cases l with
          | lf => exact hxnil (hc.symm.trans hl)
          | nd a b c =>
            obtain ⟨he, _, _, _, _⟩ := hl
            have hbx : b = x := he.symm.trans hc
            exact hnd'.2.2.2.2 x (by simp [BT.ids, hbx]) hxr
        right
        rcases ihr hr hnd'.2.1 hsub with ⟨hroot, hpar⟩ | ⟨hmem, hnotS, hside⟩
        · rw [hpar]
          refine ⟨by simp [BT.ids], ?_, Or.inr ⟨hroot, hlx⟩⟩
          intro hc
          exact hnd'.2.2.2.1 (subAt_ids_subset hsub i hc)
        · exact ⟨by simp [BT.ids, hmem], hnotS, hside⟩

/-- Pointwise description of `rotate_left` at a node `x` with right
child `y`, `y`'s left child slot `b` and parent slot `px`, assuming the
four slots are suitably distinct (as they are in any represented tree).
Fields not mentioned are unchanged. -/
theorem rotate_left_desc (t : RBTree) (x y b px : Nat)
    (hy : (t.heap x).rightChild = y)
    (hb : (t.heap y).leftChild = b)
    (hpx : (t.heap x).parent = px)
    (hxy : x ≠ y)
    (hbreal : (t.heap b).value ≠ none → b ≠ x ∧ b ≠ y ∧ px ≠ b)
    (hpx1 : px ≠ x) (hpx2 : px ≠ y) :
    (∀ j, j ≠ b → j ≠ x → j ≠ y → j ≠ px → (rotate_left t x).heap j = t.heap j) ∧
    (rotate_left t x).heap x = { t.heap x with rightChild := b, parent := y } ∧
    (rotate_left t x).heap y = { t.heap y with leftChild := x, parent := px } ∧
    ((t.heap b).value ≠ none → (rotate_left t x).heap b = { t.heap b with parent := x }) ∧
    ((t.heap b).value = none → b ≠ x → b ≠ y → b ≠ px →
      (rotate_left t x).heap b = t.heap b) ∧
    ((t.heap px).value = none →
      (rotate_left t x).heap px = t.heap px ∧ (rotate_left t x).root = y) ∧
    ((t.heap px).value ≠ none → (rotate_left t x).root = t.root ∧
      ((t.heap px).leftChild = x →
        (rotate_left t x).heap px = { t.heap px with leftChild := y }) ∧
      ((t.heap px).leftChild ≠ x →
        (rotate_left t x).heap px = { t.heap px with rightChild := y })) := by
  have hpxney : ∀ j, j ≠ b → j ≠ x → j ≠ y →
      ((if (t.heap (t.heap (t.heap x).rightChild).leftChild).value ≠ none
        then setParent t (t.heap (t.heap x).rightChild).leftChild x else t).heap j) = t.heap j := by
    intro j hjb hjx hjy
    rw [hy, hb]
    split
    · simp [setParent, writeNode, hjb]
    · rfl
  by_cases hcond : (t.heap b).value ≠ none
  · obtain ⟨hbx, hby, hpxb⟩ := hbreal hcond
    simp only [rotate_left, hy, hb, hpx]
    rw [if_pos hcond]
    have e1 : ∀ j, (setParent t b x).heap j = if j = b then { t.heap b with parent := x } else t.heap j := by
      intro j; simp [setParent, writeNode]
    have hyb : (setParent t b x).heap y = t.heap y := by rw [e1]; simp [Ne.symm hby]
    rw [show ((setParent t b x).heap y).leftChild = b by rw [hyb, hb]]
    set t2 := setRight (setParent t b x) x b with ht2
    set t3 := setParent t2 x y with ht3
    set t4 := setLeft t3 y x with ht4
    set t5 := setParent t4 y px with ht5
    have e5 : ∀ j, t5.heap j =
        if j = y then { t.heap y with leftChild := x, parent := px }
        else if j = x then { t.heap x with rightChild := b, parent := y }
        else if j = b then { t.heap b with parent := x }
        else t.heap j := by
      intro j
      rw [ht5, ht4, ht3, ht2]
      by_cases hjy : j = y
      · subst hjy
        simp [setParent, setLeft, setRight, writeNode, hxy, Ne.symm hxy, hby, Ne.symm hby]
      · by_cases hjx : j = x
        · subst hjx
          simp [setParent, setLeft, setRight, writeNode, hxy, Ne.symm hxy, hbx, Ne.symm hbx, hjy]
        · by_cases hjb : j = b
          · subst hjb
            simp [setParent, setLeft, setRight, writeNode, hjy, hjx]
          · simp [setParent, setLeft, setRight, writeNode, hjy, hjx, hjb]
    have e5px : t5.heap px = t.heap px := by
      rw [e5]; simp [hpx2, hpx1, hpxb]
    refine ⟨?_, ?_, ?_, ?_, ?_, ?_, ?_⟩
    · intro j hjb hjx hjy hjpx
      split
      · split
        · simp [setLeft, writeNode, hjpx]
          rw [e5]; simp [hjy, hjx, hjb]
        · simp [setRight, writeNode, hjpx]
          rw [e5]; simp [hjy, hjx, hjb]
      · show t5.heap j = t.heap j
        rw [e5]; simp [hjy, hjx, hjb]
    · have hx5 : t5.heap x = { t.heap x with rightChild := b, parent := y } := by
        rw [e5]; simp [hxy]
      split
      · split
        · simp [setLeft, writeNode, Ne.symm hpx1, hx5]
        · simp [setRight, writeNode, Ne.symm hpx1, hx5]
      · exact hx5
    · have hy5 : t5.heap y = { t.heap y with leftChild := x, parent := px } := by
        rw [e5]; simp
      split
      · split
        · simp [setLeft, writeNode, Ne.symm hpx2, hy5]
        · simp [setRight, writeNode, Ne.symm hpx2, hy5]
      · exact hy5
    · intro _
      have hb5 : t5.heap b = { t.heap b with parent := x } := by
        rw [e5]; simp [hbx, hby]
      split
      · split
        · simp [setLeft, writeNode, Ne.symm hpxb, hb5]
        · simp [setRight, writeNode, Ne.symm hpxb, hb5]
      · exact hb5
    · intro hc; exact absurd hc hcond
    · intro hpxnone
      rw [if_neg (by rw [e5px]; simpa using hpxnone)]
      exact ⟨e5px, rfl⟩
    · intro hpxsome
      rw [if_pos (by rw [e5px]; simpa using hpxsome)]
      refine ⟨?_, ?_, ?_⟩
      · split <;> rfl
      · intro hleft
        rw [if_pos (by rw [e5px]; exact hleft)]
        simp [setLeft, writeNode, e5px]
      · intro hleft
        rw [if_neg (by rw [e5px]; exact hleft)]
        simp [setRight, writeNode, e5px]
  · push_neg at hcond
    simp only [rotate_left, hy, hb, hpx]
    rw [if_neg (show ¬ ((t.heap b).value ≠ none) by simpa using hcond)]
    rw [hb]
    set t2 := setRight t x b with ht2
    set t3 := setParent t2 x y with ht3
    set t4 := setLeft t3 y x with ht4
    set t5 := setParent t4 y px with ht5
    have e5 : ∀ j, t5.heap j =
        if j = y then { t.heap y with leftChild := x, parent := px }
        else if j = x then { t.heap x with rightChild := b, parent := y }
        else t.heap j := by
      intro j
      rw [ht5, ht4, ht3, ht2]
      by_cases hjy : j = y
      · subst hjy
        simp [setParent, setLeft, setRight, writeNode, hxy, Ne.symm hxy]
      · by_cases hjx : j = x
        · subst hjx
          simp [setParent, setLeft, setRight, writeNode, hxy, Ne.symm hxy, hjy]
        · simp [setParent, setLeft, setRight, writeNode, hjy, hjx]
    have e5px : t5.heap px = t.heap px := by
      rw [e5]; simp [hpx2, hpx1]
    refine ⟨?_, ?_, ?_, ?_, ?_, ?_, ?_⟩
    · intro j hjb hjx hjy hjpx
      split
      · split
        · simp [setLeft, writeNode, hjpx]
          rw [e5]; simp [hjy, hjx]
        · simp [setRight, writeNode, hjpx]
          rw [e5]; simp [hjy, hjx]
      · show t5.heap j = t.heap j
        rw [e5]; simp [hjy, hjx]
    · have hx5 : t5.heap x = { t.heap x with rightChild := b, parent := y } := by
        rw [e5]; simp [hxy]
      split
      · split
        · simp [setLeft, writeNode, Ne.symm hpx1, hx5]
        · simp [setRight, writeNode, Ne.symm hpx1, hx5]
      · exact hx5
    · have hy5 : t5.heap y = { t.heap y with leftChild := x, parent := px } := by
        rw [e5]; simp
      split
      · split
        · simp [setLeft, writeNode, Ne.symm hpx2, hy5]
        · simp [setRight, writeNode, Ne.symm hpx2, hy5]
      · exact hy5
    · intro hc; exact absurd hcond hc
    · intro _ hbx hby hbpx
      have hb5 : t5.heap b = t.heap b := by
        rw [e5]; simp [hbx, hby]
      split
      · split
        · simp [setLeft, writeNode, hbpx, hb5]
        · simp [setRight, writeNode, hbpx, hb5]
      · exact hb5
    · intro hpxnone
      rw [if_neg (by rw [e5px]; simpa using hpxnone)]
      exact ⟨e5px, rfl⟩
    · intro hpxsome
      rw [if_pos (by rw [e5px]; simpa using hpxsome)]
      refine ⟨?_, ?_, ?_⟩
      · split <;> rfl
      · intro hleft
        rw [if_pos (by rw [e5px]; exact hleft)]
        simp [setLeft, writeNode, e5px]
      · intro hleft
        rw [if_neg (by rw [e5px]; exact hleft)]
        simp [setRight, writeNode, e5px]

/-- Pointwise description of `rotate_right` at a node `x` with left
child `y`, `y`'s right child slot `b` and parent slot `px`, mirroring
`rotate_left_desc`. -/
theorem rotate_right_desc (t : RBTree) (x y b px : Nat)
    (hy : (t.heap x).leftChild = y)
    (hb : (t.heap y).rightChild = b)
    (hpx : (t.heap x).parent = px)
    (hxy : x ≠ y)
    (hbreal : (t.heap b).value ≠ none → b ≠ x ∧ b ≠ y ∧ px ≠ b)
    (hpx1 : px ≠ x) (hpx2 : px ≠ y) :
    (∀ j, j ≠ b → j ≠ x → j ≠ y → j ≠ px → (rotate_right t x).heap j = t.heap j) ∧
    (rotate_right t x).heap x = { t.heap x with leftChild := b, parent := y } ∧
    (rotate_right t x).heap y = { t.heap y with rightChild := x, parent := px } ∧
    ((t.heap b).value ≠ none → (rotate_right t x).heap b = { t.heap b with parent := x }) ∧
    ((t.heap b).value = none → b ≠ x → b ≠ y → b ≠ px →
      (rotate_right t x).heap b = t.heap b) ∧
    ((t.heap px).value = none →
      (rotate_right t x).heap px = t.heap px ∧ (rotate_right t x).root = y) ∧
    ((t.heap px).value ≠ none → (rotate_right t x).root = t.root ∧
      ((t.heap px).rightChild = x →
        (rotate_right t x).heap px = { t.heap px with rightChild := y }) ∧
      ((t.heap px).rightChild ≠ x →
        (rotate_right t x).heap px = { t.heap px with leftChild := y })) := by
  by_cases hcond : (t.heap b).value ≠ none
  · obtain ⟨hbx, hby, hpxb⟩ := hbreal hcond
    simp only [rotate_right, hy, hb, hpx]
    rw [if_pos hcond]
    have e1 : ∀ j, (setParent t b x).heap j = if j = b then { t.heap b with parent := x } else t.heap j := by
      intro j; simp [setParent, writeNode]
    have hyb : (setParent t b x).heap y = t.heap y := by rw [e1]; simp [Ne.symm hby]
    rw [show ((setParent t b x).heap y).rightChild = b by rw [hyb, hb]]
    set t2 := setLeft (setParent t b x) x b with ht2
    set t3 := setParent t2 x y with ht3
    set t4 := setRight t3 y x with ht4
    set t5 := setParent t4 y px with ht5
    have e5 : ∀ j, t5.heap j =
        if j = y then { t.heap y with rightChild := x, parent := px }
        else if j = x then { t.heap x with leftChild := b, parent := y }
        else if j = b then { t.heap b with parent := x }
        else t.heap j := by
      intro j
      rw [ht5, ht4, ht3, ht2]
      by_cases hjy : j = y
      · subst hjy
        simp [setParent, setLeft, setRight, writeNode, hxy, Ne.symm hxy, hby, Ne.symm hby]
      · by_cases hjx : j = x
        · subst hjx
          simp [setParent, setLeft, setRight, writeNode, hxy, Ne.symm hxy, hbx, Ne.symm hbx, hjy]
        · by_cases hjb : j = b
          · subst hjb
            simp [setParent, setLeft, setRight, writeNode, hjy, hjx]
          · simp [setParent, setLeft, setRight, writeNode, hjy, hjx, hjb]
    have e5px : t5.heap px = t.heap px := by
      rw [e5]; simp [hpx2, hpx1, hpxb]
    refine ⟨?_, ?_, ?_, ?_, ?_, ?_, ?_⟩
    · intro j hjb hjx hjy hjpx
      split
      · split
        · simp [setRight, writeNode, hjpx]
          rw [e5]; simp [hjy, hjx, hjb]
        · simp [setLeft, writeNode, hjpx]
          rw [e5]; simp [hjy, hjx, hjb]
      · show t5.heap j = t.heap j
        rw [e5]; simp [hjy, hjx, hjb]
    · have hx5 : t5.heap x = { t.heap x with leftChild := b, parent := y } := by
        rw [e5]; simp [hxy]
      split
      · split
        · simp [setRight, writeNode, Ne.symm hpx1, hx5]
        · simp [setLeft, writeNode, Ne.symm hpx1, hx5]
      · exact hx5
    · have hy5 : t5.heap y = { t.heap y with rightChild := x, parent := px } := by
        rw [e5]; simp
      split
      · split
        · simp [setRight, writeNode, Ne.symm hpx2, hy5]
        · simp [setLeft, writeNode, Ne.symm hpx2, hy5]
      · exact hy5
    · intro _
      have hb5 : t5.heap b = { t.heap b with parent := x } := by
        rw [e5]; simp [hbx, hby]
      split
      · split
        · simp [setRight, writeNode, Ne.symm hpxb, hb5]
        · simp [setLeft, writeNode, Ne.symm hpxb, hb5]
      · exact hb5
    · intro hc; exact absurd hc hcond
    · intro hpxnone
      rw [if_neg (by rw [e5px]; simpa using hpxnone)]
      exact ⟨e5px, rfl⟩
    · intro hpxsome
      rw [if_pos (by rw [e5px]; simpa using hpxsome)]
      refine ⟨?_, ?_, ?_⟩
      · split <;> rfl
      · intro hright
        rw [if_pos (by rw [e5px]; exact hright)]
        simp [setRight, writeNode, e5px]
      · intro hright
        rw [if_neg (by rw [e5px]; exact hright)]
        simp [setLeft, writeNode, e5px]
  · push_neg at hcond
    simp only [rotate_right, hy, hb, hpx]
    rw [if_neg (show ¬ ((t.heap b).value ≠ none) by simpa using hcond)]
    rw [hb]
    set t2 := setLeft t x b with ht2
    set t3 := setParent t2 x y with ht3
    set t4 := setRight t3 y x with ht4
    set t5 := setParent t4 y px with ht5
    have e5 : ∀ j, t5.heap j =
        if j = y then { t.heap y with rightChild := x, parent := px }
        else if j = x then { t.heap x with leftChild := b, parent := y }
        else t.heap j := by
      intro j
      rw [ht5, ht4, ht3, ht2]
      by_cases hjy : j = y
      · subst hjy
        simp [setParent, setLeft, setRight, writeNode, hxy, Ne.symm hxy]
      · by_cases hjx : j = x
        · subst hjx
          simp [setParent, setLeft, setRight, writeNode, hxy, Ne.symm hxy, hjy]
        · simp [setParent, setLeft, setRight, writeNode, hjy, hjx]
    have e5px : t5.heap px = t.heap px := by
      rw [e5]; simp [hpx2, hpx1]
    refine ⟨?_, ?_, ?_, ?_, ?_, ?_, ?_⟩
    · intro j hjb hjx hjy hjpx
      split
      · split
        · simp [setRight, writeNode, hjpx]
          rw [e5]; simp [hjy, hjx]
        · simp [setLeft, writeNode, hjpx]
          rw [e5]; simp [hjy, hjx]
      · show t5.heap j = t.heap j
        rw [e5]; simp [hjy, hjx]
    · have hx5 : t5.heap x = { t.heap x with leftChild := b, parent := y } := by
        rw [e5]; simp [hxy]
      split
      · split
        · simp [setRight, writeNode, Ne.symm hpx1, hx5]
        · simp [setLeft, writeNode, Ne.symm hpx1, hx5]
      · exact hx5
    · have hy5 : t5.heap y = { t.heap y with rightChild := x, parent := px } := by
        rw [e5]; simp
      split
      · split
        · simp [setRight, writeNode, Ne.symm hpx2, hy5]
        · simp [setLeft, writeNode, Ne.symm hpx2, hy5]
      · exact hy5
    · intro hc; exact absurd hcond hc
    · intro _ hbx hby hbpx
      have hb5 : t5.heap b = t.heap b := by
        rw [e5]; simp [hbx, hby]
      split
      · split
        · simp [setRight, writeNode, hbpx, hb5]
        · simp [setLeft, writeNode, hbpx, hb5]
      · exact hb5
    · intro hpxnone
      rw [if_neg (by rw [e5px]; simpa using hpxnone)]
      exact ⟨e5px, rfl⟩
    · intro hpxsome
      rw [if_pos (by rw [e5px]; simpa using hpxsome)]
      refine ⟨?_, ?_, ?_⟩
      · split <;> rfl
      · intro hright
        rw [if_pos (by rw [e5px]; exact hright)]
        simp [setRight, writeNode, e5px]
      · intro hright
        rw [if_neg (by rw [e5px]; exact hright)]
        simp [setLeft, writeNode, e5px]

/-- The ids of a subtree inherit distinctness. -/
theorem subAt_nodup {bt : BT} {x : Nat} {S : BT} (hs : subAt bt x = some S)
    (hnd : bt.ids.Nodup) : S.ids.Nodup := by
  obtain ⟨pre, post, hdec, -⟩ := subAt_ids_decomp hs
  rw [hdec] at hnd
  exact (hnd.of_append_right).of_append_left

/-- Congruence allowing the subtree to be re-hung below a new parent:
values and child links of the subtree's nodes agree, parents of all
non-root nodes agree, and the root's parent field (if any) is the new
expected parent. -/
theorem repr_congr2 {h h' : Nat → Node} {nil : Nat} :
    ∀ {bt : BT} {p q i : Nat}, Repr h nil p i bt → bt.ids.Nodup →
      (∀ j ∈ bt.ids, (h' j).value = (h j).value ∧
        (h' j).leftChild = (h j).leftChild ∧ (h' j).rightChild = (h j).rightChild) →
      (∀ j ∈ bt.ids, j ≠ i → (h' j).parent = (h j).parent) →
      (bt = BT.lf ∨ (h' i).parent = q) →
      Repr h' nil q i bt := by
  intro bt
  induction bt with
  | lf => intro p q i hR _ _ _ _; exact hR
  | nd l k r ihl ihr =>
    intro p q i hR hnd hag hpar hq
    obtain ⟨hik, hv, hp, hl, hr⟩ := hR
    subst hik
    have hnd' : l.ids.Nodup ∧ r.ids.Nodup ∧ i ∉ l.ids ∧ i ∉ r.ids := by
      simp only [BT.ids, List.nodup_append, List.nodup_cons] at hnd
      obtain ⟨h1, ⟨h2, h3⟩, h4⟩ := hnd
      exact ⟨h1, h3, fun hc => h4 hc (by simp), h2⟩
    have hqi : (h' i).parent = q := by
      rcases hq with hq | hq
      · exact absurd hq (by intro hc; cases hc)
      · exact hq
    obtain ⟨hav, hal, har⟩ := hag i (by simp [BT.ids])
    refine ⟨rfl, by rw [hav]; exact hv, hqi, ?_, ?_⟩
    · rw [hal]
      refine ihl hl hnd'.1 (fun j hj => hag j (by simp [BT.ids, hj]))
        (fun j hj hji => hpar j (by simp [BT.ids, hj])
          (fun hc => hnd'.2.2.1 (hc ▸ hj))) ?_
      cases l with
      | lf => exact Or.inl rfl
      | nd a c d =>
        right
        obtain ⟨he, -, hpar2, -, -⟩ := hl
        have hcm : c ∈ BT.ids (BT.nd a c d) := by simp [BT.ids]
        have hm : (h i).leftChild ∈ BT.ids (BT.nd (BT.nd a c d) i r) := by
          rw [he]; simp [BT.ids]
        have hne : (h i).leftChild ≠ i := by
          rw [he]; intro hc; exact hnd'.2.2.1 (hc ▸ hcm)
        rw [hpar _ hm hne]
        exact hpar2
    · rw [har]
      refine ihr hr hnd'.2.1 (fun j hj => hag j (by simp [BT.ids, hj]))
        (fun j hj hji => hpar j (by simp [BT.ids, hj])
          (fun hc => hnd'.2.2.2 (hc ▸ hj))) ?_
      cases r with
      | lf => exact Or.inl rfl
      | nd a c d =>
        right
        obtain ⟨he, -, hpar2, -, -⟩ := hr
        have hcm : c ∈ BT.ids (BT.nd a c d) := by simp [BT.ids]
        have hm : (h i).rightChild ∈ BT.ids (BT.nd l i (BT.nd a c d)) := by
          rw [he]; simp [BT.ids]
        have hne : (h i).rightChild ≠ i := by
          rw [he]; intro hc; exact hnd'.2.2.2 (hc ▸ hcm)
        rw [hpar _ hm hne]
        exact hpar2

/-- Rotation refinement: on a represented tree, `rotate_left` at a node
`x` whose right child is the real node `y` rewrites the local shape
`nd A x (nd B y C)` into `nd (nd A x B) y C`, leaving every other part
of the tree in place. -/
theorem rotate_left_refine {t : RBTree} {bt A B C : BT} {x y : Nat}
    (hR : Repr t.heap t.nil t.nil t.root bt)
    (hnd : bt.ids.Nodup)
    (hnn : ∀ j ∈ bt.ids, j ≠ t.nil)
    (hnil : (t.heap t.nil).value = none)
    (hsub : subAt bt x = some (BT.nd A x (BT.nd B y C))) :
    Repr (rotate_left t x).heap t.nil t.nil (rotate_left t x).root
      (repAt bt x (BT.nd (BT.nd A x B) y C)) := by
  have hxS : x ∈ (BT.nd A x (BT.nd B y C)).ids := by simp [BT.ids]
  have hyS : y ∈ (BT.nd A x (BT.nd B y C)).ids := by simp [BT.ids]
  have hxbt : x ∈ bt.ids := subAt_ids_subset hsub x hxS
  have hybt : y ∈ bt.ids := subAt_ids_subset hsub y hyS
  have hxnil : x ≠ t.nil := hnn x hxbt
  have hSrep := repr_subAt hR hsub
  obtain ⟨-, hxv, -, hA, hyRest⟩ := hSrep
  obtain ⟨hyx, hyv, hyp, hB, hC⟩ := hyRest
  rw [hyx] at hyv hyp hB hC
  have hSnd : (BT.nd A x (BT.nd B y C)).ids.Nodup := subAt_nodup hsub hnd
  have h1 : A.ids.Nodup ∧ (x :: (B.ids ++ y :: C.ids)).Nodup ∧
      A.ids.Disjoint (x :: (B.ids ++ y :: C.ids)) := by
    have hs := hSnd
    simp only [BT.ids] at hs
    exact List.nodup_append.mp hs
  have h2 := List.nodup_cons.mp h1.2.1
  have h3 := List.nodup_append.mp h2.2
  have h4 := List.nodup_cons.mp h3.2.1
  have hx2 := h2.1
  simp only [List.mem_append, List.mem_cons, not_or] at hx2
  have hxB : x ∉ B.ids := hx2.1
  have hxy : x ≠ y := hx2.2.1
  have hxA : x ∉ A.ids := fun hc => h1.2.2 hc (by simp)
  have hyA : y ∉ A.ids := fun hc => h1.2.2 hc (by simp)
  have hyB : y ∉ B.ids := fun hc => h3.2.2 hc (by simp)
  have hABd : ∀ a ∈ A.ids, a ∉ B.ids := fun a ha hc => h1.2.2 ha (by simp [hc])
  have hyC : y ∉ C.ids := h4.1
  have hxC : x ∉ C.ids := hx2.2.2
  have hCBd : ∀ a ∈ C.ids, a ∉ B.ids := fun a ha hc => h3.2.2 hc (by simp [ha])
  have hAS : ∀ a ∈ A.ids, a ∈ (BT.nd A x (BT.nd B y C)).ids := by
    intro a ha; simp [BT.ids]; tauto
  have hBS : ∀ a ∈ B.ids, a ∈ (BT.nd A x (BT.nd B y C)).ids := by
    intro a ha; simp [BT.ids]; tauto
  have hCS : ∀ a ∈ C.ids, a ∈ (BT.nd A x (BT.nd B y C)).ids := by
    intro a ha; simp [BT.ids]; tauto
  have hpxcases : ((t.heap x).parent = t.nil ∧ t.root = x) ∨
      ((t.heap x).parent ∈ bt.ids ∧
       (t.heap x).parent ∉ (BT.nd A x (BT.nd B y C)).ids ∧
       (((t.heap ((t.heap x).parent)).leftChild = x ∧
         (t.heap ((t.heap x).parent)).rightChild ≠ x) ∨
        ((t.heap ((t.heap x).parent)).rightChild = x ∧
         (t.heap ((t.heap x).parent)).leftChild ≠ x))) := by
    rcases repr_parent_cases hxnil hR hnd hsub with ⟨hc1, hc2⟩ | hc
    · exact Or.inl ⟨hc2, hc1⟩
    · exact Or.inr hc
  have hpx1 : (t.heap x).parent ≠ x := by
    rcases hpxcases with ⟨hpxnil, -⟩ | ⟨-, hpxnS, -⟩
    · rw [hpxnil]; exact Ne.symm (hnn x hxbt)
    · exact fun hc => hpxnS (by rw [hc]; exact hxS)
  have hpx2 : (t.heap x).parent ≠ y := by
    rcases hpxcases with ⟨hpxnil, -⟩ | ⟨-, hpxnS, -⟩
    · rw [hpxnil]; exact Ne.symm (hnn y hybt)
    · exact fun hc => hpxnS (by rw [hc]; exact hyS)
  have hjpxne : ∀ j ∈ (BT.nd A x (BT.nd B y C)).ids, j ≠ (t.heap x).parent := by
    intro j hj
    rcases hpxcases with ⟨hpxnil, -⟩ | ⟨-, hpxnS, -⟩
    · rw [hpxnil]; exact hnn j (subAt_ids_subset hsub j hj)
    · exact fun hc => hpxnS (hc ▸ hj)
  have hbalt : (t.heap y).leftChild = t.nil ∨ (t.heap y).leftChild ∈ B.ids := by
    cases B with
    | lf => exact Or.inl hB
    | nd B1 rt B2 =>
      right
      rw [hB.1]
      simp [BT.ids]
  have hbmem : (t.heap ((t.heap y).leftChild)).value ≠ none →
      (t.heap y).leftChild ∈ B.ids := by
    intro hbv
    rcases hbalt with hbn | hbB
    · rw [hbn] at hbv; exact absurd hnil hbv
    · exact hbB
  have hjbne : ∀ j ∈ bt.ids, j ∉ B.ids → j ≠ (t.heap y).leftChild := by
    intro j hjbt hjB
    rcases hbalt with hbn | hbB
    · rw [hbn]; exact hnn j hjbt
    · exact fun hc => hjB (hc ▸ hbB)
  have hbreal : (t.heap ((t.heap y).leftChild)).value ≠ none →
      (t.heap y).leftChild ≠ x ∧ (t.heap y).leftChild ≠ y ∧
      (t.heap x).parent ≠ (t.heap y).leftChild := by
    intro hbv
    have hbB := hbmem hbv
    refine ⟨fun hc => hxB (hc ▸ hbB), fun hc => hyB (hc ▸ hbB), ?_⟩
    rcases hpxcases with ⟨hpxnil, -⟩ | ⟨-, hpxnS, -⟩
    · rw [hpxnil]
      exact Ne.symm (hnn _ (subAt_ids_subset hsub _ (hBS _ hbB)))
    · exact fun hc => hpxnS (by rw [hc]; exact hBS _ hbB)
  obtain ⟨hfr, hhx, hhy, hhb, hhbn, hpxnone, hpxsome⟩ :=
    rotate_left_desc t x y ((t.heap y).leftChild) ((t.heap x).parent)
      hyx rfl rfl hxy hbreal hpx1 hpx2
  have hArep : Repr (rotate_left t x).heap t.nil x ((t.heap x).leftChild) A := by
    refine repr_congr hA ?_
    intro j hj
    rw [hfr j (hjbne j (subAt_ids_subset hsub j (hAS j hj)) (hABd j hj))
      (fun hc => hxA (hc ▸ hj)) (fun hc => hyA (hc ▸ hj)) (hjpxne j (hAS j hj))]
    exact ⟨rfl, rfl, rfl, rfl⟩
  have hCrep : Repr (rotate_left t x).heap t.nil y ((t.heap y).rightChild) C := by
    refine repr_congr hC ?_
    intro j hj
    rw [hfr j (hjbne j (subAt_ids_subset hsub j (hCS j hj)) (hCBd j hj))
      (fun hc => hxC (hc ▸ hj)) (fun hc => hyC (hc ▸ hj)) (hjpxne j (hCS j hj))]
    exact ⟨rfl, rfl, rfl, rfl⟩
  have hBrep : Repr (rotate_left t x).heap t.nil x ((t.heap y).leftChild) B := by
    refine repr_congr2 hB h3.1 ?_ ?_ ?_
    · intro j hjB
      by_cases hc : j = (t.heap y).leftChild
      · have hjv := repr_ids_value hB j hjB
        rw [hc] at hjv ⊢
        rw [hhb hjv]
        exact ⟨rfl, rfl, rfl⟩
      · rw [hfr j hc (fun h => hxB (h ▸ hjB)) (fun h => hyB (h ▸ hjB))
          (hjpxne j (hBS j hjB))]
        exact ⟨rfl, rfl, rfl⟩
    · intro j hjB hjne
      rw [hfr j hjne (fun h => hxB (h ▸ hjB)) (fun h => hyB (h ▸ hjB))
        (hjpxne j (hBS j hjB))]
    · cases B with
      | lf => exact Or.inl rfl
      | nd B1 rt B2 =>
        right
        rw [hhb hB.2.1]
  have hS' : Repr (rotate_left t x).heap t.nil ((t.heap x).parent) y
      (BT.nd (BT.nd A x B) y C) := by
    refine ⟨rfl, ?_, ?_, ?_, ?_⟩
    · rw [hhy]; exact hyv
    · rw [hhy]
    · rw [show ((rotate_left t x).heap y).leftChild = x by rw [hhy]]
      refine ⟨rfl, ?_, ?_, ?_, ?_⟩
      · rw [hhx]; exact hxv
      · rw [hhx]
      · rw [show ((rotate_left t x).heap x).leftChild = (t.heap x).leftChild by
          rw [hhx]]
        exact hArep
      · rw [show ((rotate_left t x).heap x).rightChild = (t.heap y).leftChild by
          rw [hhx]]
        exact hBrep
    · rw [show ((rotate_left t x).heap y).rightChild = (t.heap y).rightChild by
        rw [hhy]]
      exact hCrep
  have hag : ∀ j ∈ bt.ids, j ∉ (BT.nd A x (BT.nd B y C)).ids →
      (((rotate_left t x).heap j).value = (t.heap j).value ∧
       ((rotate_left t x).heap j).parent = (t.heap j).parent ∧
       ((rotate_left t x).heap j).leftChild =
         (if (t.heap j).leftChild = x then y else (t.heap j).leftChild) ∧
       ((rotate_left t x).heap j).rightChild =
         (if (t.heap j).rightChild = x then y else (t.heap j).rightChild)) := by
    intro j hjbt hjS
    have hjx : j ≠ x := fun hc => hjS (hc ▸ hxS)
    have hjy : j ≠ y := fun hc => hjS (hc ▸ hyS)
    have hjb : j ≠ (t.heap y).leftChild :=
      hjbne j hjbt (fun hc => hjS (hBS j hc))
    by_cases hjpx : j = (t.heap x).parent
    · rcases hpxcases with ⟨hpxnil, -⟩ | ⟨-, -, hchild⟩
      · exact absurd (hjpx.trans hpxnil) (hnn j hjbt)
      · have hpxval : (t.heap ((t.heap x).parent)).value ≠ none := by
          rw [← hjpx]
          exact repr_ids_value hR j hjbt
        rw [hjpx]
        rcases hchild with ⟨hlx, hrx⟩ | ⟨hrx, hlx⟩
        · rw [(hpxsome hpxval).2.1 hlx]
          refine ⟨rfl, rfl, ?_, ?_⟩
          · rw [if_pos hlx]
          · rw [if_neg hrx]
        · rw [(hpxsome hpxval).2.2 hlx]
          refine ⟨rfl, rfl, ?_, ?_⟩
          · rw [if_neg hlx]
          · rw [if_pos hrx]
    · rw [hfr j hjb hjx hjy hjpx]
      have hjlx : (t.heap j).leftChild ≠ x := by
        intro hc
        exact hjpx (repr_parent_unique hR hnd hxnil j hjbt (Or.inl hc))
      have hjrx : (t.heap j).rightChild ≠ x := by
        intro hc
        exact hjpx (repr_parent_unique hR hnd hxnil j hjbt (Or.inr hc))
      refine ⟨rfl, rfl, ?_, ?_⟩
      · rw [if_neg hjlx]
      · rw [if_neg hjrx]
  have hG := repr_graft hS' hR hnd hnn hsub hag
  rcases hpxcases with ⟨hpxnil, hroot⟩ | ⟨hpxbt, -, -⟩
  · have hv0 : (t.heap ((t.heap x).parent)).value = none := by
      rw [hpxnil]; exact hnil
    rw [show (rotate_left t x).root = y from (hpxnone hv0).2]
    rw [if_pos hroot] at hG
    exact hG
  · have hpxval : (t.heap ((t.heap x).parent)).value ≠ none :=
      repr_ids_value hR _ hpxbt
    have hrx : t.root ≠ x := by
      intro hc
      cases bt with
      | lf => simp [subAt] at hsub
      | nd l k r =>
        obtain ⟨-, -, hp, -, -⟩ := hR
        rw [hc] at hp
        rw [hp] at hpxbt
        exact hnn t.nil hpxbt rfl
    rw [show (rotate_left t x).root = t.root from (hpxsome hpxval).1]
    rw [if_neg hrx] at hG
    exact hG

/-- Rotation refinement for `rotate_right`: the local shape
`nd (nd A y B) x C` becomes `nd A y (nd B x C)`. -/
theorem rotate_right_refine {t : RBTree} {bt A B C : BT} {x y : Nat}
    (hR : Repr t.heap t.nil t.nil t.root bt)
    (hnd : bt.ids.Nodup)
    (hnn : ∀ j ∈ bt.ids, j ≠ t.nil)
    (hnil : (t.heap t.nil).value = none)
    (hsub : subAt bt x = some (BT.nd (BT.nd A y B) x C)) :
    Repr (rotate_right t x).heap t.nil t.nil (rotate_right t x).root
      (repAt bt x (BT.nd A y (BT.nd B x C))) := by
  have hxS : x ∈ (BT.nd (BT.nd A y B) x C).ids := by simp [BT.ids]
  have hyS : y ∈ (BT.nd (BT.nd A y B) x C).ids := by simp [BT.ids]
  have hxbt : x ∈ bt.ids := subAt_ids_subset hsub x hxS
  have hybt : y ∈ bt.ids := subAt_ids_subset hsub y hyS
  have hxnil : x ≠ t.nil := hnn x hxbt
  have hSrep := repr_subAt hR hsub
  obtain ⟨-, hxv, -, hyRest, hC⟩ := hSrep
  obtain ⟨hyx, hyv, hyp, hA, hB⟩ := hyRest
  rw [hyx] at hyv hyp hA hB
  have hSnd : (BT.nd (BT.nd A y B) x C).ids.Nodup := subAt_nodup hsub hnd
  have h1 : (A.ids ++ y :: B.ids).Nodup ∧ (x :: C.ids).Nodup ∧
      (A.ids ++ y :: B.ids).Disjoint (x :: C.ids) := by
    have hs := hSnd
    simp only [BT.ids] at hs
    exact List.nodup_append.mp hs
  have h2 := List.nodup_append.mp h1.1
  have h3 := List.nodup_cons.mp h2.2.1
  have h4 := List.nodup_cons.mp h1.2.1
  have hxy : x ≠ y := fun hc =>
    h1.2.2 (show y ∈ A.ids ++ y :: B.ids by simp) (by simp [hc])
  have hxA : x ∉ A.ids := fun hc =>
    h1.2.2 (show x ∈ A.ids ++ y :: B.ids by simp [hc]) (by simp)
  have hxB : x ∉ B.ids := fun hc =>
    h1.2.2 (show x ∈ A.ids ++ y :: B.ids by simp [hc]) (by simp)
  have hxC : x ∉ C.ids := h4.1
  have hyA : y ∉ A.ids := fun hc => h2.2.2 hc (by simp)
  have hyB : y ∉ B.ids := h3.1
  have hyC : y ∉ C.ids := fun hc =>
    h1.2.2 (show y ∈ A.ids ++ y :: B.ids by simp) (by simp [hc])
  have hABd : ∀ a ∈ A.ids, a ∉ B.ids := fun a ha hc => h2.2.2 ha (by simp [hc])
  have hCBd : ∀ a ∈ C.ids, a ∉ B.ids := fun a ha hc =>
    h1.2.2 (show a ∈ A.ids ++ y :: B.ids by simp [hc]) (by simp [ha])
  have hAS : ∀ a ∈ A.ids, a ∈ (BT.nd (BT.nd A y B) x C).ids := by
    intro a ha; simp [BT.ids]; tauto
  have hBS : ∀ a ∈ B.ids, a ∈ (BT.nd (BT.nd A y B) x C).ids := by
    intro a ha; simp [BT.ids]; tauto
  have hCS : ∀ a ∈ C.ids, a ∈ (BT.nd (BT.nd A y B) x C).ids := by
    intro a ha; simp [BT.ids]; tauto
  have hpxcases : ((t.heap x).parent = t.nil ∧ t.root = x) ∨
      ((t.heap x).parent ∈ bt.ids ∧
       (t.heap x).parent ∉ (BT.nd (BT.nd A y B) x C).ids ∧
       (((t.heap ((t.heap x).parent)).leftChild = x ∧
         (t.heap ((t.heap x).parent)).rightChild ≠ x) ∨
        ((t.heap ((t.heap x).parent)).rightChild = x ∧
         (t.heap ((t.heap x).parent)).leftChild ≠ x))) := by
    rcases repr_parent_cases hxnil hR hnd hsub with ⟨hc1, hc2⟩ | hc
    · exact Or.inl ⟨hc2, hc1⟩
    · exact Or.inr hc
  have hpx1 : (t.heap x).parent ≠ x := by
    rcases hpxcases with ⟨hpxnil, -⟩ | ⟨-, hpxnS, -⟩
    · rw [hpxnil]; exact Ne.symm (hnn x hxbt)
    · exact fun hc => hpxnS (by rw [hc]; exact hxS)
  have hpx2 : (t.heap x).parent ≠ y := by
    rcases hpxcases with ⟨hpxnil, -⟩ | ⟨-, hpxnS, -⟩
    · rw [hpxnil]; exact Ne.symm (hnn y hybt)
    · exact fun hc => hpxnS (by rw [hc]; exact hyS)
  have hjpxne : ∀ j ∈ (BT.nd (BT.nd A y B) x C).ids, j ≠ (t.heap x).parent := by
    intro j hj
    rcases hpxcases with ⟨hpxnil, -⟩ | ⟨-, hpxnS, -⟩
    · rw [hpxnil]; exact hnn j (subAt_ids_subset hsub j hj)
    · exact fun hc => hpxnS (hc ▸ hj)
  have hbalt : (t.heap y).rightChild = t.nil ∨ (t.heap y).rightChild ∈ B.ids := by
    cases B with
    | lf => exact Or.inl hB
    | nd B1 rt B2 =>
      right
      rw [hB.1]
      simp [BT.ids]
  have hbmem : (t.heap ((t.heap y).rightChild)).value ≠ none →
      (t.heap y).rightChild ∈ B.ids := by
    intro hbv
    rcases hbalt with hbn | hbB
    · rw [hbn] at hbv; exact absurd hnil hbv
    · exact hbB
  have hjbne : ∀ j ∈ bt.ids, j ∉ B.ids → j ≠ (t.heap y).rightChild := by
    intro j hjbt hjB
    rcases hbalt with hbn | hbB
    · rw [hbn]; exact hnn j hjbt
    · exact fun hc => hjB (hc ▸ hbB)
  have hbreal : (t.heap ((t.heap y).rightChild)).value ≠ none →
      (t.heap y).rightChild ≠ x ∧ (t.heap y).rightChild ≠ y ∧
      (t.heap x).parent ≠ (t.heap y).rightChild := by
    intro hbv
    have hbB := hbmem hbv
    refine ⟨fun hc => hxB (hc ▸ hbB), fun hc => hyB (hc ▸ hbB), ?_⟩
    rcases hpxcases with ⟨hpxnil, -⟩ | ⟨-, hpxnS, -⟩
    · rw [hpxnil]
      exact Ne.symm (hnn _ (subAt_ids_subset hsub _ (hBS _ hbB)))
    · exact fun hc => hpxnS (by rw [hc]; exact hBS _ hbB)
  obtain ⟨hfr, hhx, hhy, hhb, hhbn, hpxnone, hpxsome⟩ :=
    rotate_right_desc t x y ((t.heap y).rightChild) ((t.heap x).parent)
      hyx rfl rfl hxy hbreal hpx1 hpx2
  have hArep : Repr (rotate_right t x).heap t.nil y ((t.heap y).leftChild) A := by
    refine repr_congr hA ?_
    intro j hj
    rw [hfr j (hjbne j (subAt_ids_subset hsub j (hAS j hj)) (hABd j hj))
      (fun hc => hxA (hc ▸ hj)) (fun hc => hyA (hc ▸ hj)) (hjpxne j (hAS j hj))]
    exact ⟨rfl, rfl, rfl, rfl⟩
  have hCrep : Repr (rotate_right t x).heap t.nil x ((t.heap x).rightChild) C := by
    refine repr_congr hC ?_
    intro j hj
    rw [hfr j (hjbne j (subAt_ids_subset hsub j (hCS j hj)) (hCBd j hj))
      (fun hc => hxC (hc ▸ hj)) (fun hc => hyC (hc ▸ hj)) (hjpxne j (hCS j hj))]
    exact ⟨rfl, rfl, rfl, rfl⟩
  have hBrep : Repr (rotate_right t x).heap t.nil x ((t.heap y).rightChild) B := by
    refine repr_congr2 hB h3.2 ?_ ?_ ?_
    · intro j hjB
      by_cases hc : j = (t.heap y).rightChild
      · have hjv := repr_ids_value hB j hjB
        rw [hc] at hjv ⊢
        rw [hhb hjv]
        exact ⟨rfl, rfl, rfl⟩
      · rw [hfr j hc (fun h => hxB (h ▸ hjB)) (fun h => hyB (h ▸ hjB))
          (hjpxne j (hBS j hjB))]
        exact ⟨rfl, rfl, rfl⟩
    · intro j hjB hjne
      rw [hfr j hjne (fun h => hxB (h ▸ hjB)) (fun h => hyB (h ▸ hjB))
        (hjpxne j (hBS j hjB))]
    · cases B with
      | lf => exact Or.inl rfl
      | nd B1 rt B2 =>
        right
        rw [hhb hB.2.1]
  have hS' : Repr (rotate_right t x).heap t.nil ((t.heap x).parent) y
      (BT.nd A y (BT.nd B x C)) := by
    refine ⟨rfl, ?_, ?_, ?_, ?_⟩
    · rw [hhy]; exact hyv
    · rw [hhy]
    · rw [show ((rotate_right t x).heap y).leftChild = (t.heap y).leftChild by
        rw [hhy]]
      exact hArep
    · rw [show ((rotate_right t x).heap y).rightChild = x by rw [hhy]]
      refine ⟨rfl, ?_, ?_, ?_, ?_⟩
      · rw [hhx]; exact hxv
      · rw [hhx]
      · rw [show ((rotate_right t x).heap x).leftChild = (t.heap y).rightChild by
          rw [hhx]]
        exact hBrep
      · rw [show ((rotate_right t x).heap x).rightChild = (t.heap x).rightChild by
          rw [hhx]]
        exact hCrep
  have hag : ∀ j ∈ bt.ids, j ∉ (BT.nd (BT.nd A y B) x C).ids →
      (((rotate_right t x).heap j).value = (t.heap j).value ∧
       ((rotate_right t x).heap j).parent = (t.heap j).parent ∧
       ((rotate_right t x).heap j).leftChild =
         (if (t.heap j).leftChild = x then y else (t.heap j).leftChild) ∧
       ((rotate_right t x).heap j).rightChild =
         (if (t.heap j).rightChild = x then y else (t.heap j).rightChild)) := by
    intro j hjbt hjS
    have hjx : j ≠ x := fun hc => hjS (hc ▸ hxS)
    have hjy : j ≠ y := fun hc => hjS (hc ▸ hyS)
    have hjb : j ≠ (t.heap y).rightChild :=
      hjbne j hjbt (fun hc => hjS (hBS j hc))
    by_cases hjpx : j = (t.heap x).parent
    · rcases hpxcases with ⟨hpxnil, -⟩ | ⟨-, -, hchild⟩
      · exact absurd (hjpx.trans hpxnil) (hnn j hjbt)
      · have hpxval : (t.heap ((t.heap x).parent)).value ≠ none := by
          rw [← hjpx]
          exact repr_ids_value hR j hjbt
        rw [hjpx]
        rcases hchild with ⟨hlx, hrx⟩ | ⟨hrx, hlx⟩
        · rw [(hpxsome hpxval).2.2 hrx]
          refine ⟨rfl, rfl, ?_, ?_⟩
          · rw [if_pos hlx]
          · rw [if_neg hrx]
        · rw [(hpxsome hpxval).2.1 hrx]
          refine ⟨rfl, rfl, ?_, ?_⟩
          · rw [if_neg hlx]
          · rw [if_pos hrx]
    · rw [hfr j hjb hjx hjy hjpx]
      have hjlx : (t.heap j).leftChild ≠ x := by
        intro hc
        exact hjpx (repr_parent_unique hR hnd hxnil j hjbt (Or.inl hc))
      have hjrx : (t.heap j).rightChild ≠ x := by
        intro hc
        exact hjpx (repr_parent_unique hR hnd hxnil j hjbt (Or.inr hc))
      refine ⟨rfl, rfl, ?_, ?_⟩
      · rw [if_neg hjlx]
      · rw [if_neg hjrx]
  have hG := repr_graft hS' hR hnd hnn hsub hag
  rcases hpxcases with ⟨hpxnil, hroot⟩ | ⟨hpxbt, -, -⟩
  · have hv0 : (t.heap ((t.heap x).parent)).value = none := by
      rw [hpxnil]; exact hnil
    rw [show (rotate_right t x).root = y from (hpxnone hv0).2]
    rw [if_pos hroot] at hG
    exact hG
  · have hpxval : (t.heap ((t.heap x).parent)).value ≠ none :=
      repr_ids_value hR _ hpxbt
    have hrx : t.root ≠ x := by
      intro hc
      cases bt with
      | lf => simp [subAt] at hsub
      | nd l k r =>
        obtain ⟨-, -, hp, -, -⟩ := hR
        rw [hc] at hp
        rw [hp] at hpxbt
        exact hnn t.nil hpxbt rfl
    rw [show (rotate_right t x).root = t.root from (hpxsome hpxval).1]
    rw [if_neg hrx] at hG
    exact hG

/-- The first loop of `replace_erase_node` walks to the rightmost node
of the subtree it starts on. -/
theorem rep_max_go_spec {t : RBTree}
    (hnil : (t.heap t.nil).value = none) :
    ∀ {B A : BT} {r : Nat} {p s fuel : Nat},
      Repr t.heap t.nil p s (BT.nd A r B) → B.ids.length < fuel →
      rep_max_go t fuel s = rmostId B r := by
  intro B
  induction B with
  | lf =>
    intro A r p s fuel hR hfuel
    obtain ⟨hsr, -, -, -, hright⟩ := hR
    cases fuel with
    | zero => omega
    | succ f =>
      rw [rep_max_go]
      rw [if_neg (by rw [hright]; simpa using hnil)]
      rw [hsr, rmostId]
  | nd B1 br B2 ih1 ih2 =>
    intro A r p s fuel hR hfuel
    obtain ⟨hsr, -, -, -, hright⟩ := hR
    cases fuel with
    | zero => simp [BT.ids] at hfuel
    | succ f =>
      rw [rep_max_go]
      rw [if_pos hright.2.1]
      rw [show rmostId (BT.nd B1 br B2) r = rmostId B2 br from rfl]
      refine ih2 hright ?_
      simp [BT.ids] at hfuel ⊢
      omega

/-- The rightmost node of a (distinct-id) tree is found by `subAt`, has
an empty right subtree, and closes the in-order id list; replacing its
subtree replaces the final segment. -/
theorem rmost_spec : ∀ {B A : BT} {r : Nat}, (BT.nd A r B).ids.Nodup →
    ∃ RL pre,
      subAt (BT.nd A r B) (rmostId B r) = some (BT.nd RL (rmostId B r) BT.lf) ∧
      (BT.nd A r B).ids = pre ++ (RL.ids ++ [rmostId B r]) ∧
      (∀ S' : BT, (repAt (BT.nd A r B) (rmostId B r) S').ids = pre ++ S'.ids) := by
  intro B
  induction B with
  | lf =>
    intro A r _
    refine ⟨A, [], ?_, ?_, ?_⟩
    · simp [rmostId, subAt]
    · simp [rmostId, BT.ids]
    · intro S'
      simp [rmostId, repAt]
  | nd B1 br B2 ih1 ih2 =>
    intro A r hnd
    have h0 : (A.ids ++ r :: (BT.nd B1 br B2).ids).Nodup := hnd
    have hnd' : (BT.nd B1 br B2).ids.Nodup :=
      (List.nodup_cons.mp (List.nodup_append.mp h0).2.1).2
    obtain ⟨RL, pre', hsub', hids', hrep'⟩ := ih2 hnd'
    have hm : rmostId (BT.nd B1 br B2) r = rmostId B2 br := rfl
    have hmB : rmostId B2 br ∈ (BT.nd B1 br B2).ids := by
      rw [hids']
      simp
    have hr0 : r ∉ (BT.nd B1 br B2).ids :=
      (List.nodup_cons.mp (List.nodup_append.mp h0).2.1).1
    have hrm : r ≠ rmostId B2 br := fun hc => hr0 (by rw [hc]; exact hmB)
    have hmA : rmostId B2 br ∉ A.ids := fun hc =>
      (List.nodup_append.mp h0).2.2 hc (by simp [hmB])
    refine ⟨RL, A.ids ++ r :: pre', ?_, ?_, ?_⟩
    · rw [hm]
      simp only [subAt]
      rw [if_neg hrm]
      cases hs : subAt A (rmostId B2 br) with
      | some s =>
        exact absurd (subAt_ids_subset hs _ (subAt_mem_self hs)) hmA
      | none => exact hsub'
    · rw [hm]
      show A.ids ++ r :: (BT.nd B1 br B2).ids =
        (A.ids ++ r :: pre') ++ (RL.ids ++ [rmostId B2 br])
      rw [hids']
      simp [List.append_assoc]
    · intro S'
      rw [hm]
      simp only [repAt]
      rw [if_neg hrm]
      cases hs : subAt A (rmostId B2 br) with
      | some s =>
        exact absurd (subAt_ids_subset hs _ (subAt_mem_self hs)) hmA
      | none =>
        show A.ids ++ r :: (repAt (BT.nd B1 br B2) (rmostId B2 br) S').ids =
          (A.ids ++ r :: pre') ++ S'.ids
        rw [hrep' S']
        simp [List.append_assoc]

/-- A found subtree avoids the root of a node it was found strictly
below. -/
theorem subAt_strict {a : BT} {c : Nat} {d : BT} {x : Nat} {S : BT}
    (hs : subAt (BT.nd a c d) x = some S) (hcx : ¬ (c = x)) :
    (∀ j ∈ S.ids, j ∈ a.ids) ∨ (∀ j ∈ S.ids, j ∈ d.ids) := by
  simp only [subAt] at hs
  rw [if_neg hcx] at hs
  cases hsl : subAt a x with
  | some s =>
    rw [hsl] at hs
    injection hs with hs
    subst hs
    exact Or.inl (subAt_ids_subset hsl)
  | none =>
    rw [hsl] at hs
    exact Or.inr (subAt_ids_subset hs)

/-- Grafting combined with re-hanging: like `repr_graft`, but the
grafted tree hangs from a caller-chosen parent `q`, outside nodes may
keep their parents only when they are not the root, and the root's new
parent field is `q`. -/
theorem repr_graft2 {h h' : Nat → Node} {nil x r' : Nat} {SL SR S' : BT}
    (hS' : Repr h' nil ((h x).parent) r' S') :
    ∀ {bt : BT} {p q i : Nat},
      Repr h nil p i bt →
      bt.ids.Nodup →
      (∀ j ∈ bt.ids, j ≠ nil) →
      subAt bt x = some (BT.nd SL x SR) →
      (∀ j ∈ bt.ids, j ∉ (BT.nd SL x SR).ids →
        (h' j).value = (h j).value ∧
        (h' j).leftChild = (if (h j).leftChild = x then r' else (h j).leftChild) ∧
        (h' j).rightChild = (if (h j).rightChild = x then r' else (h j).rightChild)) →
      (∀ j ∈ bt.ids, j ∉ (BT.nd SL x SR).ids → j ≠ i → (h' j).parent = (h j).parent) →
      (i = x → q = (h x).parent) →
      (i ≠ x → (h' i).parent = q) →
      Repr h' nil q (if i = x then r' else i) (repAt bt x S') := by
  intro bt
  induction bt with
  | lf => intro p q i _ _ _ hsub _ _ _ _; simp [subAt] at hsub
  | nd l k r ihl ihr =>
    intro p q i hR hnd hnn hsub hag hpar hq1 hq2
    obtain ⟨hik, hv, hp, hl, hr⟩ := hR
    subst hik
    have hxnil : x ≠ nil := by
      refine hnn x (subAt_ids_subset hsub x (subAt_mem_self hsub))
    simp only [subAt] at hsub
    by_cases hkx : i = x
    · rw [if_pos hkx] at hsub
      injection hsub with hsub
      subst hkx
      rw [hq1 rfl]
      simpa [repAt] using hS'
    · rw [if_neg (fun hc => hkx hc)] at hsub
      rw [if_neg hkx]
      have hnd' : l.ids.Nodup ∧ r.ids.Nodup ∧ i ∉ l.ids ∧ i ∉ r.ids ∧
          ∀ a ∈ l.ids, a ∉ r.ids := by
        simp only [BT.ids, List.nodup_append, List.nodup_cons] at hnd
        obtain ⟨h1, ⟨h2, h3⟩, h4⟩ := hnd
        exact ⟨h1, h3, fun hc => h4 hc (by simp), h2, fun a ha hc => h4 ha (by simp [hc])⟩
      have hparq : (h' i).parent = q := hq2 hkx
      cases hsubl : subAt l x with
      | some s =>
        rw [hsubl] at hsub
        injection hsub with hsub
        subst hsub
        have hxl : x ∈ l.ids := subAt_ids_subset hsubl x (subAt_mem_self hsubl)
        have hinotS : i ∉ (BT.nd SL x SR).ids := by
          intro hc
          exact hnd'.2.2.1 (subAt_ids_subset hsubl i hc)
        obtain ⟨hav, hal, har⟩ := hag i (by simp [BT.ids]) hinotS
        simp only [repAt, if_neg hkx, hsubl]
        refine ⟨rfl, by rw [hav]; exact hv, hparq, ?_, ?_⟩
        · rw [hal]
          refine ihl hl hnd'.1 (fun j hj => hnn j (by simp [BT.ids, hj])) hsubl
            (fun j hj hjn => hag j (by simp [BT.ids, hj]) hjn)
            (fun j hj hjn hji => hpar j (by simp [BT.ids, hj]) hjn
              (fun hc => hnd'.2.2.1 (hc ▸ hj))) ?_ ?_
          · intro hlslot
            cases l with
            | lf =>
              have hln : (h i).leftChild = nil := hl
              exact absurd (hlslot.symm.trans hln) hxnil
            | nd a c d =>
              obtain ⟨he, -, hpc, -, -⟩ := hl
              rw [hlslot] at hpc
              exact hpc.symm
          · intro hlslot
            cases l with
            | lf => simp [subAt] at hsubl
            | nd a c d =>
              obtain ⟨he, -, hpc, -, -⟩ := hl
              have hcx : ¬ (c = x) := by
                rw [← he]; exact hlslot
              have hcS : c ∉ (BT.nd SL x SR).ids := by
                intro hc
                rcases subAt_strict hsubl hcx with hss | hss
                · have : c ∈ a.ids := hss c hc
                  have hnda : (a.ids ++ c :: d.ids).Nodup := hnd'.1
                  exact (List.nodup_append.mp hnda).2.2 this (by simp)
                · have : c ∈ d.ids := hss c hc
                  have hnda : (a.ids ++ c :: d.ids).Nodup := hnd'.1
                  exact (List.nodup_cons.mp (List.nodup_append.mp hnda).2.1).1 this
              rw [hpar ((h i).leftChild) (by rw [he]; simp [BT.ids])
                (by rw [he]; exact hcS)
                (by rw [he]; intro hc; exact hnd'.2.2.1 (hc ▸ (by simp [BT.ids] : c ∈ (BT.nd a c d).ids)))]
              exact hpc
        · have hrx : (h i).rightChild ≠ x := by
            cases r with
            | lf => rw [hr]; exact fun hc => hxnil hc.symm
            | nd a b c =>
              obtain ⟨he, _, _, _, _⟩ := hr
              rw [he]
              intro hc
              exact hnd'.2.2.2.2 x hxl (by simp [BT.ids, hc])
          rw [har, if_neg hrx]
          refine repr_congr hr ?_
          intro j hj
          have hjS : j ∉ (BT.nd SL x SR).ids := by
            intro hc
            exact hnd'.2.2.2.2 j (subAt_ids_subset hsubl j hc) hj
          obtain ⟨hav2, hal2, har2⟩ := hag j (by simp [BT.ids, hj]) hjS
          have hap2 : (h' j).parent = (h j).parent :=
            hpar j (by simp [BT.ids, hj]) hjS (fun hc => hnd'.2.2.2.1 (hc ▸ hj))
          have hch := repr_child_mem hr j hj
          have hjlx : (h j).leftChild ≠ x := by
            rcases hch.1 with hc | hc
            · intro he
              rw [he] at hc
              exact hnd'.2.2.2.2 x hxl hc
            · rw [hc]; exact fun he => hxnil he.symm
          have hjrx : (h j).rightChild ≠ x := by
            rcases hch.2 with hc | hc
            · intro he
              rw [he] at hc
              exact hnd'.2.2.2.2 x hxl hc
            · rw [hc]; exact fun he => hxnil he.symm
          exact ⟨hav2, hap2, by rw [hal2, if_neg hjlx], by rw [har2, if_neg hjrx]⟩
      | none =>
        rw [hsubl] at hsub
        have hxr : x ∈ r.ids := subAt_ids_subset hsub x (subAt_mem_self hsub)
        have hinotS : i ∉ (BT.nd SL x SR).ids := by
          intro hc
          exact hnd'.2.2.2.1 (subAt_ids_subset hsub i hc)
        obtain ⟨hav, hal, har⟩ := hag i (by simp [BT.ids]) hinotS
        simp only [repAt, if_neg hkx, hsubl]
        refine ⟨rfl, by rw [hav]; exact hv, hparq, ?_, ?_⟩
        · have hlx : (h i).leftChild ≠ x := by
            cases l with
            | lf => rw [hl]; exact fun hc => hxnil hc.symm
            | nd a b c =>
              obtain ⟨he, _, _, _, _⟩ := hl
              rw [he]
              intro hc
              exact hnd'.2.2.2.2 x (by simp [BT.ids, hc]) hxr
          rw [hal, if_neg hlx]
          refine repr_congr hl ?_
          intro j hj
          have hjS : j ∉ (BT.nd SL x SR).ids := by
            intro hc
            exact hnd'.2.2.2.2 j hj (subAt_ids_subset hsub j hc)
          obtain ⟨hav2, hal2, har2⟩ := hag j (by simp [BT.ids, hj]) hjS
          have hap2 : (h' j).parent = (h j).parent :=
            hpar j (by simp [BT.ids, hj]) hjS (fun hc => hnd'.2.2.1 (hc ▸ hj))
          have hch := repr_child_mem hl j hj
          have hjlx : (h j).leftChild ≠ x := by
            rcases hch.1 with hc | hc
            · intro he
              rw [he] at hc
              exact hnd'.2.2.2.2 x hc hxr
            · rw [hc]; exact fun he => hxnil he.symm
          have hjrx : (h j).rightChild ≠ x := by
            rcases hch.2 with hc | hc
            · intro he
              rw [he] at hc
              exact hnd'.2.2.2.2 x hc hxr
            · rw [hc]; exact fun he => hxnil he.symm
          exact ⟨hav2, hap2, by rw [hal2, if_neg hjlx], by rw [har2, if_neg hjrx]⟩
        · rw [har]
          refine ihr hr hnd'.2.1 (fun j hj => hnn j (by simp [BT.ids, hj])) hsub
            (fun j hj hjn => hag j (by simp [BT.ids, hj]) hjn)
            (fun j hj hjn hji => hpar j (by simp [BT.ids, hj]) hjn
              (fun hc => hnd'.2.2.2.1 (hc ▸ hj))) ?_ ?_
          · intro hrslot
            cases r with
            | lf =>
              have hrn : (h i).rightChild = nil := hr
              exact absurd (hrslot.symm.trans hrn) hxnil
            | nd a c d =>
              obtain ⟨he, -, hpc, -, -⟩ := hr
              rw [hrslot] at hpc
              exact hpc.symm
          · intro hrslot
            cases r with
            | lf => simp [subAt] at hsub
            | nd a c d =>
              obtain ⟨he, -, hpc, -, -⟩ := hr
              have hcx : ¬ (c = x) := by
                rw [← he]; exact hrslot
              have hcS : c ∉ (BT.nd SL x SR).ids := by
                intro hc
                rcases subAt_strict hsub hcx with hss | hss
                · have : c ∈ a.ids := hss c hc
                  have hnda : (a.ids ++ c :: d.ids).Nodup := hnd'.2.1
                  exact (List.nodup_append.mp hnda).2.2 this (by simp)
                · have : c ∈ d.ids := hss c hc
                  have hnda : (a.ids ++ c :: d.ids).Nodup := hnd'.2.1
                  exact (List.nodup_cons.mp (List.nodup_append.mp hnda).2.1).1 this
              rw [hpar ((h i).rightChild) (by rw [he]; simp [BT.ids])
                (by rw [he]; exact hcS)
                (by rw [he]; intro hc; exact hnd'.2.2.2.1 (hc ▸ (by simp [BT.ids] : c ∈ (BT.nd a c d).ids)))]
              exact hpc

/-- `replace_splice` in terms of its stage cuts. -/
theorem replace_splice_eq (t0 : RBTree) (node res : Nat) :
    replace_splice t0 node res =
      setColor (setColor (splice_t8 t0 node res) node
        (((splice_t8 t0 node res).heap res).color)) res ((t0.heap node).color) := rfl

/-- Heap of the first splice stage: the target's left child is replaced
by the replacement's left child, which is reparented when real. -/
theorem splice_t2_heap (t : RBTree) (x res rl : Nat)
    (hrl : (t.heap res).leftChild = rl)
    (hresx : res ≠ x) (hrlx : rl ≠ x) :
    ∀ j, (splice_t2 t x res).heap j =
      if (t.heap rl).value ≠ none ∧ j = rl then { t.heap rl with parent := x }
      else if j = x then { t.heap x with leftChild := rl }
      else t.heap j := by
  intro j
  have e1 : ∀ k, (setLeft t x rl).heap k =
      if k = x then { t.heap x with leftChild := rl } else t.heap k := by
    intro k; simp [setLeft, writeNode]
  simp only [splice_t2, hrl]
  rw [show ((setLeft t x rl).heap res).leftChild = rl by rw [e1]; simp [hresx, hrl]]
  by_cases hc : (t.heap rl).value ≠ none
  · rw [if_pos (show ((setLeft t x rl).heap rl).value ≠ none by rw [e1]; simp [hrlx]; exact hc)]
    have e2 : ∀ k, (setParent (setLeft t x rl) rl x).heap k =
        if k = rl then { t.heap rl with parent := x }
        else if k = x then { t.heap x with leftChild := rl } else t.heap k := by
      intro k
      by_cases hk : k = rl
      · subst hk; simp [setParent, setLeft, writeNode, hrlx]
      · by_cases hk2 : k = x
        · subst hk2; simp [setParent, setLeft, writeNode, hk, hrlx]
        · simp [setParent, setLeft, writeNode, hk, hk2]
    rw [e2]
    by_cases hj : j = rl
    · simp [hj, hc]
    · simp [hj]
  · rw [if_neg (show ¬ ((setLeft t x rl).heap rl).value ≠ none by rw [e1]; simp [hrlx]; simpa using hc)]
    rw [e1]
    by_cases hj : j = rl
    · simp [hj, hc, hrlx]
    · simp [hj]

/-- Values are untouched by the first splice stage. -/
theorem splice_t2_value (t : RBTree) (x res rl : Nat)
    (hrl : (t.heap res).leftChild = rl)
    (hresx : res ≠ x) (hrlx : rl ≠ x) :
    ∀ j, ((splice_t2 t x res).heap j).value = (t.heap j).value := by
  intro j
  rw [splice_t2_heap t x res rl hrl hresx hrlx]
  split
  · rename_i h; rw [h.2]
  · split
    · rename_i h; rw [h]
    · rfl

/-- Heap of the second splice stage: the target has also adopted the
replacement's (non-real) right child. -/
theorem splice_t4_heap (t : RBTree) (x res rl : Nat)
    (hrl : (t.heap res).leftChild = rl)
    (hresx : res ≠ x) (hrlx : rl ≠ x) (hrlres : rl ≠ res)
    (hrr : (t.heap ((t.heap res).rightChild)).value = none) :
    ∀ j, (splice_t4 t x res).heap j =
      if (t.heap rl).value ≠ none ∧ j = rl then { t.heap rl with parent := x }
      else if j = x then
        { t.heap x with leftChild := rl, rightChild := (t.heap res).rightChild }
      else t.heap j := by
  intro j
  have e2 := splice_t2_heap t x res rl hrl hresx hrlx
  have e2v := splice_t2_value t x res rl hrl hresx hrlx
  have e2res : (splice_t2 t x res).heap res = t.heap res := by
    rw [e2]; simp [Ne.symm hrlres, hresx]
  simp only [splice_t4, e2res]
  have e3 : ∀ k, (setRight (splice_t2 t x res) x ((t.heap res).rightChild)).heap k =
      if k = x then { (splice_t2 t x res).heap x with
        rightChild := (t.heap res).rightChild }
      else (splice_t2 t x res).heap k := by
    intro k; simp [setRight, writeNode]
  have e3res : ((setRight (splice_t2 t x res) x ((t.heap res).rightChild)).heap res) =
      t.heap res := by
    rw [e3]; simp [hresx, e2res]
  rw [show ((setRight (splice_t2 t x res) x ((t.heap res).rightChild)).heap res).rightChild
      = (t.heap res).rightChild by rw [e3res]]
  rw [if_neg (show ¬ ((setRight (splice_t2 t x res) x ((t.heap res).rightChild)).heap
      ((t.heap res).rightChild)).value ≠ none by
    rw [e3]
    split
    · rename_i h
      rw [show ((splice_t2 t x res).heap x).value = (t.heap x).value from e2v x]
      rw [← h]
      simpa using hrr
    · rw [e2v]
      simpa using hrr)]
  by_cases hj : j = x
  · subst hj
    rw [e3, if_pos rfl, e2]
    simp [Ne.symm hrlx]
  · rw [e3, if_neg hj, e2]
    simp [hj]

/-- Values are untouched by the second splice stage. -/
theorem splice_t4_value (t : RBTree) (x res rl : Nat)
    (hrl : (t.heap res).leftChild = rl)
    (hresx : res ≠ x) (hrlx : rl ≠ x) (hrlres : rl ≠ res)
    (hrr : (t.heap ((t.heap res).rightChild)).value = none) :
    ∀ j, ((splice_t4 t x res).heap j).value = (t.heap j).value := by
  intro j
  rw [splice_t4_heap t x res rl hrl hresx hrlx hrlres hrr]
  split
  · rename_i h; rw [h.2]
  · split
    · rename_i h; rw [h]
    · rfl

/-- Heap of the third splice stage: the old parent's child slot now
names the replacement. -/
theorem splice_t5_heap (t : RBTree) (x res rl px : Nat)
    (hrl : (t.heap res).leftChild = rl)
    (hresx : res ≠ x) (hrlx : rl ≠ x) (hrlres : rl ≠ res)
    (hrr : (t.heap ((t.heap res).rightChild)).value = none)
    (hpx : (t.heap x).parent = px)
    (hpx1 : px ≠ x)
    (hpxrl : (t.heap rl).value ≠ none → px ≠ rl) :
    ∀ j, (splice_t5 t x res).heap j =
      if j = px then
        (if (t.heap px).leftChild = x then { t.heap px with leftChild := res }
         else if (t.heap px).rightChild = x then { t.heap px with rightChild := res }
         else t.heap px)
      else (splice_t4 t x res).heap j := by
  intro j
  have e4 := splice_t4_heap t x res rl hrl hresx hrlx hrlres hrr
  have e4px : (splice_t4 t x res).heap px = t.heap px := by
    rw [e4]
    by_cases hv : (t.heap rl).value ≠ none
    · simp [hpx1, hpxrl hv]
    · simp [hpx1, hv]
  simp only [splice_t5, hpx]
  rw [e4px]
  by_cases h1 : (t.heap px).leftChild = x
  · rw [if_pos h1]
    have e5 : ∀ k, (setLeft (splice_t4 t x res) px res).heap k =
        if k = px then { (splice_t4 t x res).heap px with leftChild := res }
        else (splice_t4 t x res).heap k := by
      intro k; simp [setLeft, writeNode]
    by_cases hj : j = px
    · subst hj; rw [e5, if_pos rfl, e4px]; simp [h1]
    · rw [e5, if_neg hj]; simp [hj]
  · rw [if_neg h1]
    by_cases h2 : (t.heap px).rightChild = x
    · rw [if_pos h2]
      have e5 : ∀ k, (setRight (splice_t4 t x res) px res).heap k =
          if k = px then { (splice_t4 t x res).heap px with rightChild := res }
          else (splice_t4 t x res).heap k := by
        intro k; simp [setRight, writeNode]
      by_cases hj : j = px
      · subst hj; rw [e5, if_pos rfl, e4px]; simp [h1, h2]
      · rw [e5, if_neg hj]; simp [hj]
    · rw [if_neg h2]
      by_cases hj : j = px
      · subst hj; rw [e4px]; simp [h1, h2]
      · simp [hj]

/-- Heap of the fourth splice stage in the adjacent case (the
replacement is the target's own left child): target and replacement have
traded places. -/
theorem splice_t6near_heap (t : RBTree) (x res rl rgt px : Nat)
    (hres : (t.heap x).leftChild = res)
    (hrgt : (t.heap x).rightChild = rgt)
    (hrl : (t.heap res).leftChild = rl)
    (hresx : res ≠ x) (hrlx : rl ≠ x) (hrlres : rl ≠ res)
    (hrr : (t.heap ((t.heap res).rightChild)).value = none)
    (hpx : (t.heap x).parent = px)
    (hpx1 : px ≠ x) (hpx2 : px ≠ res)
    (hpxrl : (t.heap rl).value ≠ none → px ≠ rl)
    (hrgtx : rgt ≠ x) (hrgtres : rgt ≠ res) :
    ∀ j, (splice_t6 t x res).heap j =
      if j = res then { t.heap res with leftChild := x, rightChild := rgt }
      else if j = x then
        { t.heap x with
          parent := res, leftChild := rl, rightChild := (t.heap res).rightChild }
      else if j = rgt then { (splice_t5 t x res).heap rgt with parent := res }
      else (splice_t5 t x res).heap j := by
  intro j
  have e5 := splice_t5_heap t x res rl px hrl hresx hrlx hrlres hrr hpx hpx1 hpxrl
  have e5res : (splice_t5 t x res).heap res = t.heap res := by
    rw [e5]; simp [Ne.symm hpx2, Ne.symm hrlres, hresx,
      splice_t4_heap t x res rl hrl hresx hrlx hrlres hrr]
  have e5x : (splice_t5 t x res).heap x =
      { t.heap x with leftChild := rl, rightChild := (t.heap res).rightChild } := by
    rw [e5]; simp [Ne.symm hpx1, Ne.symm hrlx,
      splice_t4_heap t x res rl hrl hresx hrlx hrlres hrr]
  simp only [splice_t6, hres, hrgt]
  rw [if_pos trivial]
  have ed : ∀ k, (setLeft (setParent (setRight (setParent (splice_t5 t x res) rgt res)
      res rgt) x res) res x).heap k =
      if k = res then { (splice_t5 t x res).heap res with rightChild := rgt, leftChild := x }
      else if k = x then { (splice_t5 t x res).heap x with parent := res }
      else if k = rgt then { (splice_t5 t x res).heap rgt with parent := res }
      else (splice_t5 t x res).heap k := by
    intro k
    by_cases hk : k = res
    · subst hk
      simp [setParent, setLeft, setRight, writeNode, hresx, Ne.symm hrgtres, hrgtres]
    · by_cases hk2 : k = x
      · subst hk2
        simp [setParent, setLeft, setRight, writeNode, hk, Ne.symm hrgtx, hrgtx, hresx]
      · by_cases hk3 : k = rgt
        · subst hk3
          simp [setParent, setLeft, setRight, writeNode, hk, hk2]
        · simp [setParent, setLeft, setRight, writeNode, hk, hk2, hk3]
  rw [ed]
  by_cases hj : j = res
  · subst hj
    rw [if_pos rfl, if_pos rfl, e5res]
  · rw [if_neg hj, if_neg hj]
    by_cases hj2 : j = x
    · subst hj2
      rw [if_pos rfl, if_pos rfl, e5x]
    · rw [if_neg hj2, if_neg hj2]

/-- The splice stages never move the root pointer or the bookkeeping
fields. -/
theorem splice_t5_frame (t : RBTree) (x res : Nat) :
    (splice_t5 t x res).root = t.root ∧ (splice_t5 t x res).nil = t.nil ∧
    (splice_t5 t x res).size = t.size ∧ (splice_t5 t x res).nextId = t.nextId := by
  refine ⟨?_, ?_, ?_, ?_⟩ <;> simp [splice_t5, splice_t4, splice_t2]

/-- Bookkeeping frame for the fourth stage. -/
theorem splice_t6_frame (t : RBTree) (x res : Nat) :
    (splice_t6 t x res).root = t.root ∧ (splice_t6 t x res).nil = t.nil ∧
    (splice_t6 t x res).size = t.size ∧ (splice_t6 t x res).nextId = t.nextId := by
  have h5 := splice_t5_frame t x res
  refine ⟨?_, ?_, ?_, ?_⟩ <;>
    simp [splice_t6, h5.1, h5.2.1, h5.2.2.1, h5.2.2.2]

/-- Bookkeeping frame for `replace_splice` as a whole. -/
theorem replace_splice_frame (t : RBTree) (x res : Nat) :
    (replace_splice t x res).nil = t.nil ∧
    (replace_splice t x res).size = t.size ∧
    (replace_splice t x res).nextId = t.nextId := by
  have h6 := splice_t6_frame t x res
  rw [replace_splice_eq]
  refine ⟨?_, ?_, ?_⟩ <;>
    simp [splice_t8, h6.2.1, h6.2.2.1, h6.2.2.2]

/-- Values are untouched by the third splice stage. -/
theorem splice_t5_value (t : RBTree) (x res rl px : Nat)
    (hrl : (t.heap res).leftChild = rl)
    (hresx : res ≠ x) (hrlx : rl ≠ x) (hrlres : rl ≠ res)
    (hrr : (t.heap ((t.heap res).rightChild)).value = none)
    (hpx : (t.heap x).parent = px)
    (hpx1 : px ≠ x)
    (hpxrl : (t.heap rl).value ≠ none → px ≠ rl) :
    ∀ j, ((splice_t5 t x res).heap j).value = (t.heap j).value := by
  intro j
  rw [splice_t5_heap t x res rl px hrl hresx hrlx hrlres hrr hpx hpx1 hpxrl]
  by_cases hj : j = px
  · rw [if_pos hj, hj]
    split
    · rfl
    · split <;> rfl
  · rw [if_neg hj]
    exact splice_t4_value t x res rl hrl hresx hrlx hrlres hrr j

/-- Values are untouched by the fourth splice stage (adjacent case). -/
theorem splice_t6near_value (t : RBTree) (x res rl rgt px : Nat)
    (hres : (t.heap x).leftChild = res)
    (hrgt : (t.heap x).rightChild = rgt)
    (hrl : (t.heap res).leftChild = rl)
    (hresx : res ≠ x) (hrlx : rl ≠ x) (hrlres : rl ≠ res)
    (hrr : (t.heap ((t.heap res).rightChild)).value = none)
    (hpx : (t.heap x).parent = px)
    (hpx1 : px ≠ x) (hpx2 : px ≠ res)
    (hpxrl : (t.heap rl).value ≠ none → px ≠ rl)
    (hrgtx : rgt ≠ x) (hrgtres : rgt ≠ res) :
    ∀ j, ((splice_t6 t x res).heap j).value = (t.heap j).value := by
  intro j
  rw [splice_t6near_heap t x res rl rgt px hres hrgt hrl hresx hrlx hrlres hrr
    hpx hpx1 hpx2 hpxrl hrgtx hrgtres]
  have h5v := splice_t5_value t x res rl px hrl hresx hrlx hrlres hrr hpx hpx1 hpxrl
  by_cases hj : j = res
  · rw [if_pos hj, hj]
  · rw [if_neg hj]
    by_cases hj2 : j = x
    · rw [if_pos hj2, hj2]
    · rw [if_neg hj2]
      by_cases hj3 : j = rgt
      · rw [if_pos hj3, hj3]
        exact h5v rgt
      · rw [if_neg hj3]
        exact h5v j

/-- Full pointwise description of `replace_splice` in the adjacent
case: the replacement is the target's own left child and has no real
right child.  `rl` is the replacement's left-child slot, `rgt` the
target's right-child slot, `px` the target's parent slot. -/
theorem splice_near_desc (t : RBTree) (x res rl rgt px : Nat)
    (hres : (t.heap x).leftChild = res)
    (hrgt : (t.heap x).rightChild = rgt)
    (hrl : (t.heap res).leftChild = rl)
    (hresx : res ≠ x) (hrlx : rl ≠ x) (hrlres : rl ≠ res)
    (hrr : (t.heap ((t.heap res).rightChild)).value = none)
    (hpx : (t.heap x).parent = px)
    (hpx1 : px ≠ x) (hpx2 : px ≠ res)
    (hpxrl : (t.heap rl).value ≠ none → px ≠ rl)
    (hrgtx : rgt ≠ x) (hrgtres : rgt ≠ res)
    (hrlrgt : (t.heap rl).value ≠ none → rl ≠ rgt)
    (hpxrgt : (t.heap px).value ≠ none → px ≠ rgt) :
    (∀ j, j ≠ x → j ≠ res → j ≠ rl → j ≠ rgt → j ≠ px →
      (replace_splice t x res).heap j = t.heap j) ∧
    (replace_splice t x res).heap x =
      { t.heap x with
        parent := res, leftChild := rl, rightChild := (t.heap res).rightChild,
        color := (t.heap res).color } ∧
    (replace_splice t x res).heap res =
      { t.heap res with
        parent := px, leftChild := x, rightChild := rgt,
        color := (t.heap x).color } ∧
    ((t.heap rl).value ≠ none →
      (replace_splice t x res).heap rl = { t.heap rl with parent := x }) ∧
    ((replace_splice t x res).heap rgt).parent = res ∧
    (rgt ≠ px →
      (replace_splice t x res).heap rgt = { t.heap rgt with parent := res }) ∧
    ((t.heap px).value = none → (replace_splice t x res).root = res) ∧
    ((t.heap px).value ≠ none → (replace_splice t x res).root = t.root ∧
      ((t.heap px).leftChild = x →
        (replace_splice t x res).heap px = { t.heap px with leftChild := res }) ∧
      ((t.heap px).leftChild ≠ x → (t.heap px).rightChild = x →
        (replace_splice t x res).heap px = { t.heap px with rightChild := res }) ∧
      ((t.heap px).leftChild ≠ x → (t.heap px).rightChild ≠ x →
        (replace_splice t x res).heap px = t.heap px)) ∧
    (∀ j, ((replace_splice t x res).heap j).value = (t.heap j).value) := by
  have e4 := splice_t4_heap t x res rl hrl hresx hrlx hrlres hrr
  have e5 := splice_t5_heap t x res rl px hrl hresx hrlx hrlres hrr hpx hpx1 hpxrl
  have e6 := splice_t6near_heap t x res rl rgt px hres hrgt hrl hresx hrlx hrlres hrr
    hpx hpx1 hpx2 hpxrl hrgtx hrgtres
  have e6v := splice_t6near_value t x res rl rgt px hres hrgt hrl hresx hrlx hrlres hrr
    hpx hpx1 hpx2 hpxrl hrgtx hrgtres
  have h6f := splice_t6_frame t x res
  have e7 : ∀ k, (setParent (splice_t6 t x res) res ((t.heap x).parent)).heap k =
      if k = res then { (splice_t6 t x res).heap res with parent := px }
      else (splice_t6 t x res).heap k := by
    intro k; simp [setParent, writeNode, hpx]
  have e8 : ∀ k, (splice_t8 t x res).heap k =
      (setParent (splice_t6 t x res) res ((t.heap x).parent)).heap k := by
    intro k
    simp only [splice_t8]
    split <;> rfl
  have e8v : ∀ k, ((splice_t8 t x res).heap k).value = (t.heap k).value := by
    intro k
    rw [e8]
    by_cases hk : k = res
    · rw [hk, e7, if_pos rfl]
      exact e6v res
    · rw [e7, if_neg hk]
      exact e6v k
  have efin : ∀ k, (replace_splice t x res).heap k =
      if k = res then { (splice_t8 t x res).heap res with color := (t.heap x).color }
      else if k = x then
        { (splice_t8 t x res).heap x with color := ((splice_t8 t x res).heap res).color }
      else (splice_t8 t x res).heap k := by
    intro k
    rw [replace_splice_eq]
    by_cases hk : k = res
    · subst hk; simp [setColor, writeNode, hresx]
    · by_cases hk2 : k = x
      · subst hk2; simp [setColor, writeNode, hk, hresx]
      · simp [setColor, writeNode, hk, hk2]
  have h8res : (splice_t8 t x res).heap res =
      { t.heap res with parent := px, leftChild := x, rightChild := rgt } := by
    rw [e8, e7, if_pos rfl, e6, if_pos rfl]
  have h8x : (splice_t8 t x res).heap x =
      { t.heap x with
        parent := res, leftChild := rl, rightChild := (t.heap res).rightChild } := by
    rw [e8, e7, if_neg (Ne.symm hresx), e6, if_neg (Ne.symm hresx), if_pos rfl]
  refine ⟨?_, ?_, ?_, ?_, ?_, ?_, ?_, ?_, ?_⟩
  · intro j hjx hjres hjrl hjrgt hjpx
    rw [efin, if_neg hjres, if_neg hjx, e8, e7, if_neg hjres, e6, if_neg hjres,
      if_neg hjx, if_neg hjrgt, e5, if_neg hjpx, e4]
    simp [hjrl, hjx]
  · rw [efin, if_neg (Ne.symm hresx), if_pos rfl, h8x, h8res]
  · rw [efin, if_pos rfl, h8res]
  · intro hv
    rw [efin, if_neg hrlres, if_neg hrlx, e8, e7, if_neg hrlres, e6, if_neg hrlres,
      if_neg hrlx, if_neg (hrlrgt hv), e5, if_neg (Ne.symm (hpxrl hv)), e4,
      if_pos ⟨hv, rfl⟩]
  · rw [efin, if_neg hrgtres, if_neg hrgtx, e8, e7, if_neg hrgtres, e6,
      if_neg hrgtres, if_neg hrgtx, if_pos rfl]
  · intro hrgtpx
    rw [efin, if_neg hrgtres, if_neg hrgtx, e8, e7, if_neg hrgtres, e6,
      if_neg hrgtres, if_neg hrgtx, if_pos rfl, e5, if_neg hrgtpx, e4]
    by_cases hv : (t.heap rl).value ≠ none
    · simp [Ne.symm (hrlrgt hv), hrgtx]
    · simp [hv, hrgtx]
  · intro hnone
    rw [replace_splice_eq]
    simp only [setColor_root]
    simp only [splice_t8]
    rw [show ((setParent (splice_t6 t x res) res ((t.heap x).parent)).heap
        ((setParent (splice_t6 t x res) res ((t.heap x).parent)).heap res).parent).value
        = (t.heap px).value by
      rw [show ((setParent (splice_t6 t x res) res ((t.heap x).parent)).heap res).parent
          = px by rw [e7, if_pos rfl]]
      rw [e7, if_neg hpx2]
      exact e6v px]
    rw [if_pos hnone]
  · intro hsome
    refine ⟨?_, ?_, ?_, ?_⟩
    · rw [replace_splice_eq]
      simp only [setColor_root]
      simp only [splice_t8]
      rw [show ((setParent (splice_t6 t x res) res ((t.heap x).parent)).heap
          ((setParent (splice_t6 t x res) res ((t.heap x).parent)).heap res).parent).value
          = (t.heap px).value by
        rw [show ((setParent (splice_t6 t x res) res ((t.heap x).parent)).heap res).parent
            = px by rw [e7, if_pos rfl]]
        rw [e7, if_neg hpx2]
        exact e6v px]
      rw [if_neg (by simpa using hsome)]
      simp [h6f.1]
    · intro hlx
      rw [efin, if_neg hpx2, if_neg hpx1, e8, e7, if_neg hpx2, e6, if_neg hpx2,
        if_neg hpx1, if_neg (hpxrgt hsome), e5, if_pos rfl, if_pos hlx]
    · intro hlx hrx
      rw [efin, if_neg hpx2, if_neg hpx1, e8, e7, if_neg hpx2, e6, if_neg hpx2,
        if_neg hpx1, if_neg (hpxrgt hsome), e5, if_pos rfl, if_neg hlx, if_pos hrx]
    · intro hlx hrx
      rw [efin, if_neg hpx2, if_neg hpx1, e8, e7, if_neg hpx2, e6, if_neg hpx2,
        if_neg hpx1, if_neg (hpxrgt hsome), e5, if_pos rfl, if_neg hlx, if_neg hrx]
  · intro j
    rw [efin]
    by_cases hj : j = res
    · rw [if_pos hj, hj]
      exact e8v res
    · rw [if_neg hj]
      by_cases hj2 : j = x
      · rw [if_pos hj2, hj2]
        exact e8v x
      · rw [if_neg hj2]
        exact e8v j

/-- Heap of the fourth splice stage in the distant case (the
replacement sits deeper in the target's left subtree): the replacement's
old parent adopts the target as right child. -/
theorem splice_t6far_heap (t : RBTree) (x res rl rgt px lft pr : Nat)
    (hlft : (t.heap x).leftChild = lft)
    (hrgt : (t.heap x).rightChild = rgt)
    (hrl : (t.heap res).leftChild = rl)
    (hpr : (t.heap res).parent = pr)
    (hresx : res ≠ x) (hrlx : rl ≠ x) (hrlres : rl ≠ res)
    (hrr : (t.heap ((t.heap res).rightChild)).value = none)
    (hpx : (t.heap x).parent = px)
    (hpx1 : px ≠ x) (hpx2 : px ≠ res)
    (hpxrl : (t.heap rl).value ≠ none → px ≠ rl)
    (hrgtx : rgt ≠ x)
    (hreslft : res ≠ lft) (hresrgt : res ≠ rgt)
    (hlftx : lft ≠ x) (hlftrgt : lft ≠ rgt)
    (hprx : pr ≠ x) (hprres : pr ≠ res) (hprrgt : pr ≠ rgt) :
    ∀ j, (splice_t6 t x res).heap j =
      if j = res then { (splice_t5 t x res).heap res with leftChild := lft, rightChild := rgt }
      else if j = x then { (splice_t5 t x res).heap x with parent := pr }
      else if j = pr then
        (if pr = lft then { (splice_t5 t x res).heap pr with parent := res, rightChild := x }
         else { (splice_t5 t x res).heap pr with rightChild := x })
      else if j = lft then { (splice_t5 t x res).heap lft with parent := res }
      else if j = rgt then { (splice_t5 t x res).heap rgt with parent := res }
      else (splice_t5 t x res).heap j := by
  intro j
  have e5 := splice_t5_heap t x res rl px hrl hresx hrlx hrlres hrr hpx hpx1 hpxrl
  have e5res : (splice_t5 t x res).heap res = t.heap res := by
    rw [e5]; simp [Ne.symm hpx2, Ne.symm hrlres, hresx,
      splice_t4_heap t x res rl hrl hresx hrlx hrlres hrr]
  simp only [splice_t6, hlft, hrgt]
  rw [if_neg hreslft, if_neg hresrgt]
  rw [show ((setRight (setParent (setLeft (setParent (splice_t5 t x res) lft res)
      res lft) rgt res) res rgt).heap res).parent = pr by
    simp [setParent, setLeft, setRight, writeNode, hreslft, Ne.symm hreslft,
      hresrgt, Ne.symm hresrgt, e5res, hpr]]
  rw [show ((setParent (setRight (setParent (setLeft (setParent (splice_t5 t x res)
      lft res) res lft) rgt res) res rgt) x pr).heap res).parent = pr by
    simp [setParent, setLeft, setRight, writeNode, hresx, Ne.symm hresx,
      hreslft, Ne.symm hreslft, hresrgt, Ne.symm hresrgt, e5res, hpr]]
  by_cases hk : j = res
  · simp [hk, setParent, setLeft, setRight, writeNode, hresx, Ne.symm hresx,
      hreslft, Ne.symm hreslft, hresrgt, Ne.symm hresrgt, hprres, Ne.symm hprres]
  · by_cases hk2 : j = x
    · simp [hk2, setParent, setLeft, setRight, writeNode, hresx, Ne.symm hresx,
        hlftx, Ne.symm hlftx, hrgtx, Ne.symm hrgtx, hprx, Ne.symm hprx]
    · by_cases hk3 : j = pr
      · by_cases hpl : pr = lft
        · rw [hk3, if_neg hprres, if_neg hprx, if_pos rfl, if_pos hpl]
          simp [hpl, setParent, setLeft, setRight, writeNode, hprx, Ne.symm hprx,
            hprres, Ne.symm hprres, hprrgt, Ne.symm hprrgt, hlftrgt, Ne.symm hlftrgt,
            hlftx, Ne.symm hlftx, hreslft, Ne.symm hreslft]
        · rw [hk3, if_neg hprres, if_neg hprx, if_pos rfl, if_neg hpl]
          simp [hpl, setParent, setLeft, setRight, writeNode, hprx, Ne.symm hprx,
            hprres, Ne.symm hprres, hprrgt, Ne.symm hprrgt]
      · by_cases hk4 : j = lft
        · simp [hk4, setParent, setLeft, setRight, writeNode,
            (show lft ≠ pr from fun hc => hk3 (hk4.trans hc)), hlftx, Ne.symm hlftx,
            hreslft, Ne.symm hreslft, hlftrgt, Ne.symm hlftrgt]
        · by_cases hk5 : j = rgt
          · simp [hk5, setParent, setLeft, setRight, writeNode,
              (show rgt ≠ pr from fun hc => hk3 (hk5.trans hc)), hrgtx, Ne.symm hrgtx,
              hresrgt, Ne.symm hresrgt,
              (show rgt ≠ lft from Ne.symm hlftrgt)]
          · simp [setParent, setLeft, setRight, writeNode, hk, hk2, hk3, hk4, hk5]

/-- Values are untouched by the fourth splice stage (distant case). -/
theorem splice_t6far_value (t : RBTree) (x res rl rgt px lft pr : Nat)
    (hlft : (t.heap x).leftChild = lft)
    (hrgt : (t.heap x).rightChild = rgt)
    (hrl : (t.heap res).leftChild = rl)
    (hpr : (t.heap res).parent = pr)
    (hresx : res ≠ x) (hrlx : rl ≠ x) (hrlres : rl ≠ res)
    (hrr : (t.heap ((t.heap res).rightChild)).value = none)
    (hpx : (t.heap x).parent = px)
    (hpx1 : px ≠ x) (hpx2 : px ≠ res)
    (hpxrl : (t.heap rl).value ≠ none → px ≠ rl)
    (hrgtx : rgt ≠ x) (hrgtres : rgt ≠ res)
    (hreslft : res ≠ lft) (hresrgt : res ≠ rgt)
    (hlftx : lft ≠ x) (hlftrgt : lft ≠ rgt)
    (hprx : pr ≠ x) (hprres : pr ≠ res) (hprrgt : pr ≠ rgt)
    (hprpx : pr ≠ px) :
    ∀ j, ((splice_t6 t x res).heap j).value = (t.heap j).value := by
  intro j
  have h5v := splice_t5_value t x res rl px hrl hresx hrlx hrlres hrr hpx hpx1 hpxrl
  rw [splice_t6far_heap t x res rl rgt px lft pr hlft hrgt hrl hpr hresx hrlx
    hrlres hrr hpx hpx1 hpx2 hpxrl hrgtx hreslft hresrgt hlftx hlftrgt
    hprx hprres hprrgt]
  by_cases h1 : j = res
  · rw [if_pos h1, h1]; exact h5v res
  · rw [if_neg h1]
    by_cases h2 : j = x
    · rw [if_pos h2, h2]; exact h5v x
    · rw [if_neg h2]
      by_cases h3 : j = pr
      · rw [if_pos h3, h3]
        by_cases hpl : pr = lft
        · rw [if_pos hpl]; exact h5v pr
        · rw [if_neg hpl]; exact h5v pr
      · rw [if_neg h3]
        by_cases h4 : j = lft
        · rw [if_pos h4, h4]; exact h5v lft
        · rw [if_neg h4]
          by_cases h5 : j = rgt
          · rw [if_pos h5, h5]; exact h5v rgt
          · rw [if_neg h5]; exact h5v j

/-- Full pointwise description of `replace_splice` in the distant case:
the replacement lies strictly below the target's left child `lft`, has
old parent `pr` inside the left subtree, left-child slot `rl` and no
real right child. -/
theorem splice_far_desc (t : RBTree) (x res rl rgt px lft pr : Nat)
    (hlft : (t.heap x).leftChild = lft)
    (hrgt : (t.heap x).rightChild = rgt)
    (hrl : (t.heap res).leftChild = rl)
    (hpr : (t.heap res).parent = pr)
    (hresx : res ≠ x) (hrlx : rl ≠ x) (hrlres : rl ≠ res)
    (hrr : (t.heap ((t.heap res).rightChild)).value = none)
    (hpx : (t.heap x).parent = px)
    (hpx1 : px ≠ x) (hpx2 : px ≠ res)
    (hpxrl : (t.heap rl).value ≠ none → px ≠ rl)
    (hrgtx : rgt ≠ x) (hrgtres : rgt ≠ res)
    (hreslft : res ≠ lft) (hresrgt : res ≠ rgt)
    (hlftx : lft ≠ x) (hlftrgt : lft ≠ rgt) (hlftpx : lft ≠ px)
    (hprx : pr ≠ x) (hprres : pr ≠ res) (hprrgt : pr ≠ rgt)
    (hprpx : pr ≠ px)
    (hrlreal : (t.heap rl).value ≠ none → rl ≠ rgt ∧ rl ≠ lft ∧ rl ≠ pr)
    (hpxrgt : (t.heap px).value ≠ none → px ≠ rgt) :
    (∀ j, j ≠ x → j ≠ res → j ≠ rl → j ≠ rgt → j ≠ px → j ≠ lft → j ≠ pr →
      (replace_splice t x res).heap j = t.heap j) ∧
    (replace_splice t x res).heap x =
      { t.heap x with
        parent := pr, leftChild := rl, rightChild := (t.heap res).rightChild,
        color := (t.heap res).color } ∧
    (replace_splice t x res).heap res =
      { t.heap res with
        parent := px, leftChild := lft, rightChild := rgt,
        color := (t.heap x).color } ∧
    ((t.heap rl).value ≠ none →
      (replace_splice t x res).heap rl = { t.heap rl with parent := x }) ∧
    ((replace_splice t x res).heap rgt).parent = res ∧
    (rgt ≠ px →
      (replace_splice t x res).heap rgt = { t.heap rgt with parent := res }) ∧
    ((replace_splice t x res).heap lft).parent = res ∧
    (lft ≠ pr →
      (replace_splice t x res).heap lft = { t.heap lft with parent := res }) ∧
    (((replace_splice t x res).heap pr).leftChild = (t.heap pr).leftChild ∧
     ((replace_splice t x res).heap pr).rightChild = x ∧
     ((replace_splice t x res).heap pr).color = (t.heap pr).color ∧
     (pr ≠ lft → ((replace_splice t x res).heap pr).parent = (t.heap pr).parent)) ∧
    ((t.heap px).value = none → (replace_splice t x res).root = res) ∧
    ((t.heap px).value ≠ none → (replace_splice t x res).root = t.root ∧
      ((t.heap px).leftChild = x →
        (replace_splice t x res).heap px = { t.heap px with leftChild := res }) ∧
      ((t.heap px).leftChild ≠ x → (t.heap px).rightChild = x →
        (replace_splice t x res).heap px = { t.heap px with rightChild := res }) ∧
      ((t.heap px).leftChild ≠ x → (t.heap px).rightChild ≠ x →
        (replace_splice t x res).heap px = t.heap px)) ∧
    (∀ j, ((replace_splice t x res).heap j).value = (t.heap j).value) := by
  have e4 := splice_t4_heap t x res rl hrl hresx hrlx hrlres hrr
  have e5 := splice_t5_heap t x res rl px hrl hresx hrlx hrlres hrr hpx hpx1 hpxrl
  have e6 := splice_t6far_heap t x res rl rgt px lft pr hlft hrgt hrl hpr hresx hrlx
    hrlres hrr hpx hpx1 hpx2 hpxrl hrgtx hreslft hresrgt hlftx hlftrgt
    hprx hprres hprrgt
  have e6v := splice_t6far_value t x res rl rgt px lft pr hlft hrgt hrl hpr hresx hrlx
    hrlres hrr hpx hpx1 hpx2 hpxrl hrgtx hrgtres hreslft hresrgt hlftx hlftrgt
    hprx hprres hprrgt hprpx
  have h6f := splice_t6_frame t x res
  have e5res : (splice_t5 t x res).heap res = t.heap res := by
    rw [e5]; simp [Ne.symm hpx2, Ne.symm hrlres, hresx, e4]
  have e5x : (splice_t5 t x res).heap x =
      { t.heap x with leftChild := rl, rightChild := (t.heap res).rightChild } := by
    rw [e5]; simp [Ne.symm hpx1, Ne.symm hrlx, e4]
  have e7 : ∀ k, (setParent (splice_t6 t x res) res ((t.heap x).parent)).heap k =
      if k = res then { (splice_t6 t x res).heap res with parent := px }
      else (splice_t6 t x res).heap k := by
    intro k; simp [setParent, writeNode, hpx]
  have e8 : ∀ k, (splice_t8 t x res).heap k =
      (setParent (splice_t6 t x res) res ((t.heap x).parent)).heap k := by
    intro k
    simp only [splice_t8]
    split <;> rfl
  have e8v : ∀ k, ((splice_t8 t x res).heap k).value = (t.heap k).value := by
    intro k
    rw [e8]
    by_cases hk : k = res
    · rw [hk, e7, if_pos rfl]
      exact e6v res
    · rw [e7, if_neg hk]
      exact e6v k
  have efin : ∀ k, (replace_splice t x res).heap k =
      if k = res then { (splice_t8 t x res).heap res with color := (t.heap x).color }
      else if k = x then
        { (splice_t8 t x res).heap x with color := ((splice_t8 t x res).heap res).color }
      else (splice_t8 t x res).heap k := by
    intro k
    rw [replace_splice_eq]
    by_cases hk : k = res
    · subst hk; simp [setColor, writeNode, hresx]
    · by_cases hk2 : k = x
      · subst hk2; simp [setColor, writeNode, hk, hresx]
      · simp [setColor, writeNode, hk, hk2]
  have h8res : (splice_t8 t x res).heap res =
      { t.heap res with parent := px, leftChild := lft, rightChild := rgt } := by
    rw [e8, e7, if_pos rfl, e6, if_pos rfl, e5res]
  have h8x : (splice_t8 t x res).heap x =
      { t.heap x with
        parent := pr, leftChild := rl, rightChild := (t.heap res).rightChild } := by
    rw [e8, e7, if_neg (Ne.symm hresx), e6, if_neg (Ne.symm hresx), if_pos rfl, e5x]
  refine ⟨?_, ?_, ?_, ?_, ?_, ?_, ?_, ?_, ?_, ?_, ?_, ?_⟩
  · intro j hjx hjres hjrl hjrgt hjpx hjlft hjpr
    rw [efin, if_neg hjres, if_neg hjx, e8, e7, if_neg hjres, e6, if_neg hjres,
      if_neg hjx, if_neg hjpr, if_neg hjlft, if_neg hjrgt, e5, if_neg hjpx, e4]
    simp [hjrl, hjx]
  · rw [efin, if_neg (Ne.symm hresx), if_pos rfl, h8x, h8res]
  · rw [efin, if_pos rfl, h8res]
  · intro hv
    obtain ⟨hrlrgt, hrllft, hrlpr⟩ := hrlreal hv
    rw [efin, if_neg hrlres, if_neg hrlx, e8, e7, if_neg hrlres, e6, if_neg hrlres,
      if_neg hrlx, if_neg hrlpr, if_neg hrllft, if_neg hrlrgt, e5,
      if_neg (Ne.symm (hpxrl hv)), e4, if_pos ⟨hv, rfl⟩]
  · rw [efin, if_neg hrgtres, if_neg hrgtx, e8, e7, if_neg hrgtres, e6,
      if_neg hrgtres, if_neg hrgtx, if_neg (Ne.symm hprrgt),
      if_neg (Ne.symm hlftrgt), if_pos rfl]
  · intro hrgtpx
    rw [efin, if_neg hrgtres, if_neg hrgtx, e8, e7, if_neg hrgtres, e6,
      if_neg hrgtres, if_neg hrgtx, if_neg (Ne.symm hprrgt),
      if_neg (Ne.symm hlftrgt), if_pos rfl, e5, if_neg hrgtpx, e4]
    by_cases hv : (t.heap rl).value ≠ none
    · simp [Ne.symm (hrlreal hv).1, hrgtx]
    · simp [hv, hrgtx]
  · by_cases hpl : lft = pr
    · rw [efin, if_neg (Ne.symm hreslft), if_neg hlftx, e8, e7,
        if_neg (Ne.symm hreslft), e6, if_neg (Ne.symm hreslft), if_neg hlftx,
        if_pos hpl, if_pos hpl.symm]
    · rw [efin, if_neg (Ne.symm hreslft), if_neg hlftx, e8, e7,
        if_neg (Ne.symm hreslft), e6, if_neg (Ne.symm hreslft), if_neg hlftx,
        if_neg hpl, if_pos rfl]
  · intro hlp
    rw [efin, if_neg (Ne.symm hreslft), if_neg hlftx, e8, e7,
      if_neg (Ne.symm hreslft), e6, if_neg (Ne.symm hreslft), if_neg hlftx,
      if_neg hlp, if_pos rfl, e5, if_neg hlftpx, e4]
    by_cases hv : (t.heap rl).value ≠ none
    · simp [Ne.symm (hrlreal hv).2.1, hlftx]
    · simp [hv, hlftx]
  · have e5pr : (splice_t5 t x res).heap pr = t.heap pr := by
      rw [e5]
      by_cases hv : (t.heap rl).value ≠ none
      · simp [hprpx, Ne.symm (hrlreal hv).2.2, hprx, e4]
      · simp [hprpx, hv, hprx, e4]
    by_cases hpl : pr = lft
    · rw [efin, if_neg hprres, if_neg hprx, e8, e7, if_neg hprres, e6,
        if_neg hprres, if_neg hprx, if_pos rfl, if_pos hpl, e5pr]
      exact ⟨rfl, rfl, rfl, fun hc => absurd hpl hc⟩
    · rw [efin, if_neg hprres, if_neg hprx, e8, e7, if_neg hprres, e6,
        if_neg hprres, if_neg hprx, if_pos rfl, if_neg hpl, e5pr]
      exact ⟨rfl, rfl, rfl, fun _ => rfl⟩
  · intro hnone
    rw [replace_splice_eq]
    simp only [setColor_root]
    simp only [splice_t8]
    rw [show ((setParent (splice_t6 t x res) res ((t.heap x).parent)).heap
        ((setParent (splice_t6 t x res) res ((t.heap x).parent)).heap res).parent).value
        = (t.heap px).value by
      rw [show ((setParent (splice_t6 t x res) res ((t.heap x).parent)).heap res).parent
          = px by rw [e7, if_pos rfl]]
      rw [e7, if_neg hpx2]
      exact e6v px]
    rw [if_pos hnone]
  · intro hsome
    refine ⟨?_, ?_, ?_, ?_⟩
    · rw [replace_splice_eq]
      simp only [setColor_root]
      simp only [splice_t8]
      rw [show ((setParent (splice_t6 t x res) res ((t.heap x).parent)).heap
          ((setParent (splice_t6 t x res) res ((t.heap x).parent)).heap res).parent).value
          = (t.heap px).value by
        rw [show ((setParent (splice_t6 t x res) res ((t.heap x).parent)).heap res).parent
            = px by rw [e7, if_pos rfl]]
        rw [e7, if_neg hpx2]
        exact e6v px]
      rw [if_neg (by simpa using hsome)]
      simp [h6f.1]
    · intro hlx
      rw [efin, if_neg hpx2, if_neg hpx1, e8, e7, if_neg hpx2, e6, if_neg hpx2,
        if_neg hpx1, if_neg (Ne.symm hprpx), if_neg (Ne.symm hlftpx),
        if_neg (hpxrgt hsome), e5, if_pos rfl, if_pos hlx]
    · intro hlx hrx
      rw [efin, if_neg hpx2, if_neg hpx1, e8, e7, if_neg hpx2, e6, if_neg hpx2,
        if_neg hpx1, if_neg (Ne.symm hprpx), if_neg (Ne.symm hlftpx),
        if_neg (hpxrgt hsome), e5, if_pos rfl, if_neg hlx, if_pos hrx]
    · intro hlx hrx
      rw [efin, if_neg hpx2, if_neg hpx1, e8, e7, if_neg hpx2, e6, if_neg hpx2,
        if_neg hpx1, if_neg (Ne.symm hprpx), if_neg (Ne.symm hlftpx),
        if_neg (hpxrgt hsome), e5, if_pos rfl, if_neg hlx, if_neg hrx]
  · intro j
    rw [efin]
    by_cases hj : j = res
    · rw [if_pos hj, hj]
      exact e8v res
    · rw [if_neg hj]
      by_cases hj2 : j = x
      · rw [if_pos hj2, hj2]
        exact e8v x
      · rw [if_neg hj2]
        exact e8v j

/-- Splice refinement, adjacent case: when the replacement `res` is the
target's own left child (with no real right child), `replace_splice`
rewrites the local shape `nd (nd RL res lf) x R` into
`nd (nd RL x lf) res R`. -/
theorem splice_near_refine {t : RBTree} {bt RL R : BT} {x res : Nat}
    (hR : Repr t.heap t.nil t.nil t.root bt)
    (hnd : bt.ids.Nodup)
    (hnn : ∀ j ∈ bt.ids, j ≠ t.nil)
    (hnil : (t.heap t.nil).value = none)
    (hsub : subAt bt x = some (BT.nd (BT.nd RL res BT.lf) x R)) :
    Repr (replace_splice t x res).heap t.nil t.nil (replace_splice t x res).root
      (repAt bt x (BT.nd (BT.nd RL x BT.lf) res R)) ∧
    (∀ j, ((replace_splice t x res).heap j).value = (t.heap j).value) ∧
    ((replace_splice t x res).heap x).rightChild = t.nil := by
  have hxS : x ∈ (BT.nd (BT.nd RL res BT.lf) x R).ids := by simp [BT.ids]
  have hresS : res ∈ (BT.nd (BT.nd RL res BT.lf) x R).ids := by simp [BT.ids]
  have hxbt : x ∈ bt.ids := subAt_ids_subset hsub x hxS
  have hresbt : res ∈ bt.ids := subAt_ids_subset hsub res hresS
  have hxnil : x ≠ t.nil := hnn x hxbt
  have hSrep := repr_subAt hR hsub
  obtain ⟨-, hxv, -, hLrep, hRrep⟩ := hSrep
  obtain ⟨hres, hresv, hresp, hRLrep, hreslf⟩ := hLrep
  rw [hres] at hresv hresp hRLrep hreslf
  have hreslf' : (t.heap res).rightChild = t.nil := hreslf
  have hSnd : (BT.nd (BT.nd RL res BT.lf) x R).ids.Nodup := subAt_nodup hsub hnd
  have h1 : ((RL.ids ++ [res]).Nodup ∧ (x :: R.ids).Nodup ∧
      (RL.ids ++ [res]).Disjoint (x :: R.ids)) := by
    have hs : ((RL.ids ++ res :: BT.ids BT.lf) ++ x :: R.ids).Nodup := hSnd
    simp only [BT.ids] at hs ⊢
    exact List.nodup_append.mp hs
  have h2 := List.nodup_cons.mp h1.2.1
  have hxres : x ≠ res := by
    intro hc
    exact h1.2.2 (show res ∈ RL.ids ++ [res] by simp) (by simp [hc])
  have hxRL : x ∉ RL.ids := fun hc =>
    h1.2.2 (show x ∈ RL.ids ++ [res] by simp [hc]) (by simp)
  have hxR : x ∉ R.ids := h2.1
  have hL1 := List.nodup_append.mp h1.1
  have hresRL : res ∉ RL.ids := fun hc => hL1.2.2 hc (by simp)
  have hresR : res ∉ R.ids := fun hc =>
    h1.2.2 (show res ∈ RL.ids ++ [res] by simp) (by simp [hc])
  have hRLR : ∀ a ∈ RL.ids, a ∉ R.ids := fun a ha hc =>
    h1.2.2 (show a ∈ RL.ids ++ [res] by simp [ha]) (by simp [hc])
  have hRLS : ∀ a ∈ RL.ids, a ∈ (BT.nd (BT.nd RL res BT.lf) x R).ids := by
    intro a ha; simp [BT.ids]; tauto
  have hRS : ∀ a ∈ R.ids, a ∈ (BT.nd (BT.nd RL res BT.lf) x R).ids := by
    intro a ha; simp [BT.ids]; tauto
  have hpxcases : ((t.heap x).parent = t.nil ∧ t.root = x) ∨
      ((t.heap x).parent ∈ bt.ids ∧
       (t.heap x).parent ∉ (BT.nd (BT.nd RL res BT.lf) x R).ids ∧
       (((t.heap ((t.heap x).parent)).leftChild = x ∧
         (t.heap ((t.heap x).parent)).rightChild ≠ x) ∨
        ((t.heap ((t.heap x).parent)).rightChild = x ∧
         (t.heap ((t.heap x).parent)).leftChild ≠ x))) := by
    rcases repr_parent_cases hxnil hR hnd hsub with ⟨hc1, hc2⟩ | hc
    · exact Or.inl ⟨hc2, hc1⟩
    · exact Or.inr hc
  have hpx1 : (t.heap x).parent ≠ x := by
    rcases hpxcases with ⟨hpxnil, -⟩ | ⟨-, hpxnS, -⟩
    · rw [hpxnil]; exact Ne.symm (hnn x hxbt)
    · exact fun hc => hpxnS (by rw [hc]; exact hxS)
  have hpx2 : (t.heap x).parent ≠ res := by
    rcases hpxcases with ⟨hpxnil, -⟩ | ⟨-, hpxnS, -⟩
    · rw [hpxnil]; exact Ne.symm (hnn res hresbt)
    · exact fun hc => hpxnS (by rw [hc]; exact hresS)
  have hjpxne : ∀ j ∈ (BT.nd (BT.nd RL res BT.lf) x R).ids, j ≠ (t.heap x).parent := by
    intro j hj
    rcases hpxcases with ⟨hpxnil, -⟩ | ⟨-, hpxnS, -⟩
    · rw [hpxnil]; exact hnn j (subAt_ids_subset hsub j hj)
    · exact fun hc => hpxnS (hc ▸ hj)
  have hrlalt : (t.heap res).leftChild = t.nil ∨ (t.heap res).leftChild ∈ RL.ids := by
    cases RL with
    | lf => exact Or.inl hRLrep
    | nd R1 rt R2 =>
      right
      rw [hRLrep.1]
      simp [BT.ids]
  have hrlmem : (t.heap ((t.heap res).leftChild)).value ≠ none →
      (t.heap res).leftChild ∈ RL.ids := by
    intro hbv
    rcases hrlalt with hbn | hbB
    · rw [hbn] at hbv; exact absurd hnil hbv
    · exact hbB
  have hjrlne : ∀ j ∈ bt.ids, j ∉ RL.ids → j ≠ (t.heap res).leftChild := by
    intro j hjbt hjB
    rcases hrlalt with hbn | hbB
    · rw [hbn]; exact hnn j hjbt
    · exact fun hc => hjB (hc ▸ hbB)
  have hrgtalt : (t.heap x).rightChild = t.nil ∨ (t.heap x).rightChild ∈ R.ids := by
    cases R with
    | lf => exact Or.inl hRrep
    | nd R1 rt R2 =>
      right
      rw [hRrep.1]
      simp [BT.ids]
  have hjrgtne : ∀ j ∈ bt.ids, j ∉ R.ids → j ≠ (t.heap x).rightChild := by
    intro j hjbt hjB
    rcases hrgtalt with hbn | hbB
    · rw [hbn]; exact hnn j hjbt
    · exact fun hc => hjB (hc ▸ hbB)
  have hresx : res ≠ x := Ne.symm hxres
  have hrlx : (t.heap res).leftChild ≠ x :=
    Ne.symm (hjrlne x hxbt hxRL)
  have hrlres : (t.heap res).leftChild ≠ res :=
    Ne.symm (hjrlne res hresbt hresRL)
  have hrr : (t.heap ((t.heap res).rightChild)).value = none := by
    rw [hreslf']; exact hnil
  have hpxrl : (t.heap ((t.heap res).leftChild)).value ≠ none →
      (t.heap x).parent ≠ (t.heap res).leftChild := by
    intro hv
    have hm := hrlmem hv
    rcases hpxcases with ⟨hpxnil, -⟩ | ⟨-, hpxnS, -⟩
    · rw [hpxnil]
      exact Ne.symm (hnn _ (subAt_ids_subset hsub _ (hRLS _ hm)))
    · exact fun hc => hpxnS (by rw [hc]; exact hRLS _ hm)
  have hrgtx : (t.heap x).rightChild ≠ x :=
    Ne.symm (hjrgtne x hxbt hxR)
  have hrgtres : (t.heap x).rightChild ≠ res :=
    Ne.symm (hjrgtne res hresbt hresR)
  have hrlrgt : (t.heap ((t.heap res).leftChild)).value ≠ none →
      (t.heap res).leftChild ≠ (t.heap x).rightChild := by
    intro hv
    have hm := hrlmem hv
    exact hjrgtne _ (subAt_ids_subset hsub _ (hRLS _ hm)) (hRLR _ hm)
  have hpxrgt : (t.heap ((t.heap x).parent)).value ≠ none →
      (t.heap x).parent ≠ (t.heap x).rightChild := by
    intro hv
    rcases hpxcases with ⟨hpxnil, -⟩ | ⟨hpxbt, hpxnS, -⟩
    · rw [hpxnil] at hv; exact absurd hnil hv
    · exact hjrgtne _ hpxbt (fun hc => hpxnS (hRS _ hc))
  obtain ⟨hfr, hhx, hhres, hhrl, hhrgtp, hhrgt, hrootn, hroots, hval⟩ :=
    splice_near_desc t x res ((t.heap res).leftChild) ((t.heap x).rightChild)
      ((t.heap x).parent) hres rfl rfl hresx hrlx hrlres hrr rfl hpx1 hpx2 hpxrl
      hrgtx hrgtres hrlrgt hpxrgt
  have hRLrep' : Repr (replace_splice t x res).heap t.nil x ((t.heap res).leftChild) RL := by
    refine repr_congr2 hRLrep hL1.1 ?_ ?_ ?_
    · intro j hjB
      by_cases hc : j = (t.heap res).leftChild
      · have hjv := repr_ids_value hRLrep j hjB
        rw [hc] at hjv ⊢
        rw [hhrl hjv]
        exact ⟨rfl, rfl, rfl⟩
      · rw [hfr j (fun h => hxRL (h ▸ hjB)) (fun h => hresRL (h ▸ hjB)) hc
          (hjrgtne j (subAt_ids_subset hsub j (hRLS j hjB)) (hRLR j hjB))
          (hjpxne j (hRLS j hjB))]
        exact ⟨rfl, rfl, rfl⟩
    · intro j hjB hjne
      rw [hfr j (fun h => hxRL (h ▸ hjB)) (fun h => hresRL (h ▸ hjB)) hjne
        (hjrgtne j (subAt_ids_subset hsub j (hRLS j hjB)) (hRLR j hjB))
        (hjpxne j (hRLS j hjB))]
    · cases RL with
      | lf => exact Or.inl rfl
      | nd R1 rt R2 =>
        right
        rw [hhrl hRLrep.2.1]
  have hRrep' : Repr (replace_splice t x res).heap t.nil res ((t.heap x).rightChild) R := by
    refine repr_congr2 hRrep h2.2 ?_ ?_ ?_
    · intro j hjB
      by_cases hc : j = (t.heap x).rightChild
      · have hrgtpx : (t.heap x).rightChild ≠ (t.heap x).parent :=
          hjpxne _ (hRS _ (hc ▸ hjB))
        rw [hc, hhrgt hrgtpx]
        exact ⟨rfl, rfl, rfl⟩
      · rw [hfr j (fun h => hxR (h ▸ hjB)) (fun h => hresR (h ▸ hjB))
          (hjrlne j (subAt_ids_subset hsub j (hRS j hjB)) (fun hm => hRLR j hm hjB))
          hc (hjpxne j (hRS j hjB))]
        exact ⟨rfl, rfl, rfl⟩
    · intro j hjB hjne
      rw [hfr j (fun h => hxR (h ▸ hjB)) (fun h => hresR (h ▸ hjB))
        (hjrlne j (subAt_ids_subset hsub j (hRS j hjB)) (fun hm => hRLR j hm hjB))
        hjne (hjpxne j (hRS j hjB))]
    · cases R with
      | lf => exact Or.inl rfl
      | nd R1 rt R2 =>
        right
        rw [hhrgtp]
  have hS' : Repr (replace_splice t x res).heap t.nil ((t.heap x).parent) res
      (BT.nd (BT.nd RL x BT.lf) res R) := by
    refine ⟨rfl, ?_, ?_, ?_, ?_⟩
    · rw [hhres]; exact hresv
    · rw [hhres]
    · rw [show ((replace_splice t x res).heap res).leftChild = x by rw [hhres]]
      refine ⟨rfl, ?_, ?_, ?_, ?_⟩
      · rw [hhx]; exact hxv
      · rw [hhx]
      · rw [show ((replace_splice t x res).heap x).leftChild = (t.heap res).leftChild by
          rw [hhx]]
        exact hRLrep'
      · rw [show ((replace_splice t x res).heap x).rightChild = (t.heap res).rightChild by
          rw [hhx]]
        rw [hreslf']
        rfl
    · rw [show ((replace_splice t x res).heap res).rightChild = (t.heap x).rightChild by
        rw [hhres]]
      exact hRrep'
  have hag : ∀ j ∈ bt.ids, j ∉ (BT.nd (BT.nd RL res BT.lf) x R).ids →
      (((replace_splice t x res).heap j).value = (t.heap j).value ∧
       ((replace_splice t x res).heap j).parent = (t.heap j).parent ∧
       ((replace_splice t x res).heap j).leftChild =
         (if (t.heap j).leftChild = x then res else (t.heap j).leftChild) ∧
       ((replace_splice t x res).heap j).rightChild =
         (if (t.heap j).rightChild = x then res else (t.heap j).rightChild)) := by
    intro j hjbt hjS
    have hjx : j ≠ x := fun hc => hjS (hc ▸ hxS)
    have hjres : j ≠ res := fun hc => hjS (hc ▸ hresS)
    have hjrl : j ≠ (t.heap res).leftChild :=
      hjrlne j hjbt (fun hm => hjS (hRLS j hm))
    have hjrgt : j ≠ (t.heap x).rightChild :=
      hjrgtne j hjbt (fun hm => hjS (hRS j hm))
    by_cases hjpx : j = (t.heap x).parent
    · rcases hpxcases with ⟨hpxnil, -⟩ | ⟨-, -, hchild⟩
      · exact absurd (hjpx.trans hpxnil) (hnn j hjbt)
      · have hpxval : (t.heap ((t.heap x).parent)).value ≠ none := by
          rw [← hjpx]
          exact repr_ids_value hR j hjbt
        rw [hjpx]
        rcases hchild with ⟨hlx, hrx⟩ | ⟨hrx, hlx⟩
        · rw [(hroots hpxval).2.1 hlx]
          refine ⟨rfl, rfl, ?_, ?_⟩
          · rw [if_pos hlx]
          · rw [if_neg hrx]
        · rw [(hroots hpxval).2.2.1 hlx hrx]
          refine ⟨rfl, rfl, ?_, ?_⟩
          · rw [if_neg hlx]
          · rw [if_pos hrx]
    · rw [hfr j hjx hjres hjrl hjrgt hjpx]
      have hjlx : (t.heap j).leftChild ≠ x := fun hc =>
        hjpx (repr_parent_unique hR hnd hxnil j hjbt (Or.inl hc))
      have hjrx : (t.heap j).rightChild ≠ x := fun hc =>
        hjpx (repr_parent_unique hR hnd hxnil j hjbt (Or.inr hc))
      refine ⟨rfl, rfl, ?_, ?_⟩
      · rw [if_neg hjlx]
      · rw [if_neg hjrx]
  have hG := repr_graft hS' hR hnd hnn hsub hag
  refine ⟨?_, hval, ?_⟩
  · rcases hpxcases with ⟨hpxnil, hroot⟩ | ⟨hpxbt, -, -⟩
    · have hv0 : (t.heap ((t.heap x).parent)).value = none := by
        rw [hpxnil]; exact hnil
      rw [show (replace_splice t x res).root = res from hrootn hv0]
      rw [if_pos hroot] at hG
      exact hG
    · have hpxval : (t.heap ((t.heap x).parent)).value ≠ none :=
        repr_ids_value hR _ hpxbt
      have hrx : t.root ≠ x := by
        intro hc
        cases bt with
        | lf => simp [subAt] at hsub
        | nd l k r =>
          obtain ⟨-, -, hp, -, -⟩ := hR
          rw [hc] at hp
          rw [hp] at hpxbt
          exact hnn t.nil hpxbt rfl
      rw [show (replace_splice t x res).root = t.root from (hroots hpxval).1]
      rw [if_neg hrx] at hG
      exact hG
  · rw [show ((replace_splice t x res).heap x).rightChild = (t.heap res).rightChild by
      rw [hhx]]
    exact hreslf'

/-- The in-order last node of a represented subtree, when it is not the
subtree's root, is the right child of its recorded parent. -/
theorem last_parent_right {h : Nat → Node} {nil : Nat} :
    ∀ {B : BT} {p s : Nat} {pre : List Nat} {res : Nat},
      Repr h nil p s B → B.ids = pre ++ [res] → s ≠ res →
      (h ((h res).parent)).rightChild = res := by
  intro B
  induction B with
  | lf =>
    intro p s pre res _ hids _
    exact absurd hids (by simp [BT.ids])
  | nd A c B2 ihA ihB2 =>
    intro p s pre res hrep hids hsres
    obtain ⟨hsc, -, -, -, hrepB2⟩ := hrep
    cases B2 with
    | lf =>
      exfalso
      have hlast : (BT.ids (BT.nd A c BT.lf)).getLast? = some res := by
        rw [hids, List.getLast?_concat]
      have hlast2 : (BT.ids (BT.nd A c BT.lf)).getLast? = some c := by
        show (A.ids ++ c :: BT.ids BT.lf).getLast? = some c
        rw [show A.ids ++ c :: BT.ids BT.lf = A.ids ++ [c] from rfl,
          List.getLast?_concat]
      rw [hlast2] at hlast
      injection hlast with hlast
      exact hsres (hsc.trans hlast)
    | nd B21 c2 B22 =>
      have hne : BT.ids (BT.nd B21 c2 B22) ≠ [] := by
        simp [BT.ids]
      rcases List.eq_nil_or_concat (BT.ids (BT.nd B21 c2 B22)) with h0 | ⟨q, b, hq⟩
      · exact absurd h0 hne
      · rw [List.concat_eq_append] at hq
        have hb : b = res := by
          have h1 : (BT.ids (BT.nd A c (BT.nd B21 c2 B22))).getLast? = some res := by
            rw [hids, List.getLast?_concat]
          have h2 : (BT.ids (BT.nd A c (BT.nd B21 c2 B22))).getLast? = some b := by
            show (A.ids ++ c :: BT.ids (BT.nd B21 c2 B22)).getLast? = some b
            rw [hq]
            rw [show A.ids ++ c :: (q ++ [b]) = (A.ids ++ c :: q) ++ [b] by simp]
            rw [List.getLast?_concat]
          rw [h2] at h1
          exact Option.some.inj h1
        rw [hb] at hq
        by_cases hc2 : c2 = res
        · obtain ⟨hslot, -, hpar, -, -⟩ := hrepB2
          rw [hslot, hc2] at hpar
          rw [hpar]
          rw [hslot, hc2]
        · have hslot : (h s).rightChild = c2 := hrepB2.1
          exact ihB2 hrepB2 hq (by rw [hslot]; exact hc2)

/-- Splice refinement, distant case: the replacement `res` is the
rightmost node of the target's left subtree `L` and is not `L`'s root.
`replace_splice` removes `res` from its place (promoting its left
subtree), puts the target `x` there, and puts `res` at the target's old
place. -/
theorem splice_far_refine {t : RBTree} {bt L R RL LA LB : BT} {x res lroot : Nat}
    (hR : Repr t.heap t.nil t.nil t.root bt)
    (hnd : bt.ids.Nodup)
    (hnn : ∀ j ∈ bt.ids, j ≠ t.nil)
    (hnil : (t.heap t.nil).value = none)
    (hsub : subAt bt x = some (BT.nd L x R))
    (hLshape : L = BT.nd LA lroot LB)
    (hsubL : subAt L res = some (BT.nd RL res BT.lf))
    (hlr : lroot ≠ res)
    (hlast : ∃ pre, L.ids = pre ++ [res]) :
    Repr (replace_splice t x res).heap t.nil t.nil (replace_splice t x res).root
      (repAt bt x (BT.nd (repAt L res (BT.nd RL x BT.lf)) res R)) ∧
    (∀ j, ((replace_splice t x res).heap j).value = (t.heap j).value) ∧
    ((replace_splice t x res).heap x).rightChild = t.nil := by
  subst hLshape
  have hxS : x ∈ (BT.nd (BT.nd LA lroot LB) x R).ids := by simp [BT.ids]
  have hresL : res ∈ (BT.nd LA lroot LB).ids :=
    subAt_ids_subset hsubL res (subAt_mem_self hsubL)
  have hLsubS : ∀ a ∈ (BT.nd LA lroot LB).ids, a ∈ (BT.nd (BT.nd LA lroot LB) x R).ids := by
    intro a ha; simp [BT.ids] at ha ⊢; tauto
  have hRsubS : ∀ a ∈ R.ids, a ∈ (BT.nd (BT.nd LA lroot LB) x R).ids := by
    intro a ha; simp [BT.ids]; tauto
  have hresS : res ∈ (BT.nd (BT.nd LA lroot LB) x R).ids := hLsubS res hresL
  have hxbt : x ∈ bt.ids := subAt_ids_subset hsub x hxS
  have hresbt : res ∈ bt.ids := subAt_ids_subset hsub res hresS
  have hxnil : x ≠ t.nil := hnn x hxbt
  have hresnil : res ≠ t.nil := hnn res hresbt
  have hSnd : (BT.nd (BT.nd LA lroot LB) x R).ids.Nodup := subAt_nodup hsub hnd
  have h1 : ((BT.nd LA lroot LB).ids.Nodup ∧ (x :: R.ids).Nodup ∧
      (BT.nd LA lroot LB).ids.Disjoint (x :: R.ids)) := by
    have hs : ((BT.nd LA lroot LB).ids ++ x :: R.ids).Nodup := hSnd
    exact List.nodup_append.mp hs
  have hLnd : (BT.nd LA lroot LB).ids.Nodup := h1.1
  have h2 := List.nodup_cons.mp h1.2.1
  have hxR : x ∉ R.ids := h2.1
  have hRnd : R.ids.Nodup := h2.2
  have hxL : x ∉ (BT.nd LA lroot LB).ids := fun hc => h1.2.2 hc (by simp)
  have hLR : ∀ a ∈ (BT.nd LA lroot LB).ids, a ∉ R.ids := fun a ha hc =>
    h1.2.2 ha (by simp [hc])
  have hSrep := repr_subAt hR hsub
  obtain ⟨-, hxv, -, hLrep, hRrep⟩ := hSrep
  have hresSrep := repr_subAt hLrep hsubL
  obtain ⟨-, hresv, -, hRLrep, hreslfrep⟩ := hresSrep
  have hreslf' : (t.heap res).rightChild = t.nil := hreslfrep
  have hresSsubL : ∀ a ∈ (BT.nd RL res BT.lf).ids, a ∈ (BT.nd LA lroot LB).ids :=
    subAt_ids_subset hsubL
  have hresSnd : (BT.nd RL res BT.lf).ids.Nodup := subAt_nodup hsubL hLnd
  have hresSnd' : (RL.ids ++ [res]).Nodup := hresSnd
  have hL1 := List.nodup_append.mp hresSnd'
  have hresRL : res ∉ RL.ids := fun hc => hL1.2.2 hc (by simp)
  have hRLnd : RL.ids.Nodup := hL1.1
  have hRLresS : ∀ a ∈ RL.ids, a ∈ (BT.nd RL res BT.lf).ids := by
    intro a ha; simp [BT.ids, ha]
  have hRLL : ∀ a ∈ RL.ids, a ∈ (BT.nd LA lroot LB).ids := fun a ha =>
    hresSsubL a (hRLresS a ha)
  have hlfteq : (t.heap x).leftChild = lroot := hLrep.1
  have hlrootL : lroot ∈ (BT.nd LA lroot LB).ids := by simp [BT.ids]
  have hlrootres : lroot ∉ (BT.nd RL res BT.lf).ids := by
    intro hc
    have hLnd2 : (LA.ids ++ lroot :: LB.ids).Nodup := hLnd
    rcases subAt_strict hsubL (fun hcc => hlr hcc) with hss | hss
    · exact (List.nodup_append.mp hLnd2).2.2 (hss lroot hc) (by simp)
    · exact (List.nodup_cons.mp (List.nodup_append.mp hLnd2).2.1).1 (hss lroot hc)
  have hprcases := repr_parent_cases hresnil hLrep hLnd hsubL
  have hprL : (t.heap res).parent ∈ (BT.nd LA lroot LB).ids ∧
      (t.heap res).parent ∉ (BT.nd RL res BT.lf).ids := by
    rcases hprcases with ⟨hc1, -⟩ | ⟨ha, hb, -⟩
    · rw [hlfteq] at hc1
      exact absurd hc1 hlr
    · exact ⟨ha, hb⟩
  obtain ⟨pre0, hpre0⟩ := hlast
  have hprright : (t.heap ((t.heap res).parent)).rightChild = res :=
    last_parent_right hLrep hpre0 (by rw [hlfteq]; exact hlr)
  have hprleftne : (t.heap ((t.heap res).parent)).leftChild ≠ res := by
    rcases hprcases with ⟨hc1, -⟩ | ⟨-, -, hch⟩
    · rw [hlfteq] at hc1
      exact absurd hc1 hlr
    · rcases hch with ⟨-, hr⟩ | ⟨-, hl⟩
      · exact absurd hprright hr
      · exact hl
  have hpxcases : ((t.heap x).parent = t.nil ∧ t.root = x) ∨
      ((t.heap x).parent ∈ bt.ids ∧
       (t.heap x).parent ∉ (BT.nd (BT.nd LA lroot LB) x R).ids ∧
       (((t.heap ((t.heap x).parent)).leftChild = x ∧
         (t.heap ((t.heap x).parent)).rightChild ≠ x) ∨
        ((t.heap ((t.heap x).parent)).rightChild = x ∧
         (t.heap ((t.heap x).parent)).leftChild ≠ x))) := by
    rcases repr_parent_cases hxnil hR hnd hsub with ⟨hc1, hc2⟩ | hc
    · exact Or.inl ⟨hc2, hc1⟩
    · exact Or.inr hc
  have hpx1 : (t.heap x).parent ≠ x := by
    rcases hpxcases with ⟨hpxnil, -⟩ | ⟨-, hpxnS, -⟩
    · rw [hpxnil]; exact Ne.symm (hnn x hxbt)
    · exact fun hc => hpxnS (by rw [hc]; exact hxS)
  have hpx2 : (t.heap x).parent ≠ res := by
    rcases hpxcases with ⟨hpxnil, -⟩ | ⟨-, hpxnS, -⟩
    · rw [hpxnil]; exact Ne.symm hresnil
    · exact fun hc => hpxnS (by rw [hc]; exact hresS)
  have hjpxne : ∀ j ∈ (BT.nd (BT.nd LA lroot LB) x R).ids,
      j ≠ (t.heap x).parent := by
    intro j hj
    rcases hpxcases with ⟨hpxnil, -⟩ | ⟨-, hpxnS, -⟩
    · rw [hpxnil]; exact hnn j (subAt_ids_subset hsub j hj)
    · exact fun hc => hpxnS (hc ▸ hj)
  have hrlalt : (t.heap res).leftChild = t.nil ∨ (t.heap res).leftChild ∈ RL.ids := by
    cases RL with
    | lf => exact Or.inl hRLrep
    | nd R1 rt R2 =>
      right
      rw [hRLrep.1]
      simp [BT.ids]
  have hrlmem : (t.heap ((t.heap res).leftChild)).value ≠ none →
      (t.heap res).leftChild ∈ RL.ids := by
    intro hbv
    rcases hrlalt with hbn | hbB
    · rw [hbn] at hbv; exact absurd hnil hbv
    · exact hbB
  have hjrlne : ∀ j ∈ bt.ids, j ∉ RL.ids → j ≠ (t.heap res).leftChild := by
    intro j hjbt hjB
    rcases hrlalt with hbn | hbB
    · rw [hbn]; exact hnn j hjbt
    · exact fun hc => hjB (hc ▸ hbB)
  have hrgtalt : (t.heap x).rightChild = t.nil ∨ (t.heap x).rightChild ∈ R.ids := by
    cases R with
    | lf => exact Or.inl hRrep
    | nd R1 rt R2 =>
      right
      rw [hRrep.1]
      simp [BT.ids]
  have hjrgtne : ∀ j ∈ bt.ids, j ∉ R.ids → j ≠ (t.heap x).rightChild := by
    intro j hjbt hjB
    rcases hrgtalt with hbn | hbB
    · rw [hbn]; exact hnn j hjbt
    · exact fun hc => hjB (hc ▸ hbB)
  have hresx : res ≠ x := fun hc => hxL (hc ▸ hresL)
  have hrlx : (t.heap res).leftChild ≠ x :=
    Ne.symm (hjrlne x hxbt (fun hm => hxL (hRLL _ hm)))
  have hrlres : (t.heap res).leftChild ≠ res :=
    Ne.symm (hjrlne res hresbt hresRL)
  have hrr : (t.heap ((t.heap res).rightChild)).value = none := by
    rw [hreslf']; exact hnil
  have hpxrl : (t.heap ((t.heap res).leftChild)).value ≠ none →
      (t.heap x).parent ≠ (t.heap res).leftChild := by
    intro hv
    have hm := hrlmem hv
    rcases hpxcases with ⟨hpxnil, -⟩ | ⟨-, hpxnS, -⟩
    · rw [hpxnil]
      exact Ne.symm (hnn _ (subAt_ids_subset hsub _ (hLsubS _ (hRLL _ hm))))
    · exact fun hc => hpxnS (by rw [hc]; exact hLsubS _ (hRLL _ hm))
  have hrgtx : (t.heap x).rightChild ≠ x :=
    Ne.symm (hjrgtne x hxbt hxR)
  have hrgtres : (t.heap x).rightChild ≠ res :=
    Ne.symm (hjrgtne res hresbt (hLR res hresL))
  have hreslft : res ≠ lroot := Ne.symm hlr
  have hresrgt : res ≠ (t.heap x).rightChild := Ne.symm hrgtres
  have hlftx : lroot ≠ x := fun hc => hxL (hc ▸ hlrootL)
  have hlftrgt : lroot ≠ (t.heap x).rightChild :=
    hjrgtne lroot (subAt_ids_subset hsub _ (hLsubS _ hlrootL)) (hLR lroot hlrootL)
  have hlftpx : lroot ≠ (t.heap x).parent := hjpxne lroot (hLsubS _ hlrootL)
  have hprx : (t.heap res).parent ≠ x := fun hc => hxL (hc ▸ hprL.1)
  have hprres : (t.heap res).parent ≠ res := fun hc =>
    hprL.2 (by rw [hc]; simp [BT.ids])
  have hprrgt : (t.heap res).parent ≠ (t.heap x).rightChild :=
    hjrgtne _ (subAt_ids_subset hsub _ (hLsubS _ hprL.1)) (hLR _ hprL.1)
  have hprpx : (t.heap res).parent ≠ (t.heap x).parent :=
    hjpxne _ (hLsubS _ hprL.1)
  have hrlreal : (t.heap ((t.heap res).leftChild)).value ≠ none →
      (t.heap res).leftChild ≠ (t.heap x).rightChild ∧
      (t.heap res).leftChild ≠ lroot ∧
      (t.heap res).leftChild ≠ (t.heap res).parent := by
    intro hv
    have hm := hrlmem hv
    refine ⟨hjrgtne _ (subAt_ids_subset hsub _ (hLsubS _ (hRLL _ hm)))
      (hLR _ (hRLL _ hm)), ?_, ?_⟩
    · exact fun hc => hlrootres (hc ▸ hRLresS _ hm)
    · exact fun hc => hprL.2 (hc ▸ hRLresS _ hm)
  have hpxrgt : (t.heap ((t.heap x).parent)).value ≠ none →
      (t.heap x).parent ≠ (t.heap x).rightChild := by
    intro hv
    rcases hpxcases with ⟨hpxnil, -⟩ | ⟨hpxbt, hpxnS, -⟩
    · rw [hpxnil] at hv; exact absurd hnil hv
    · exact hjrgtne _ hpxbt (fun hc => hpxnS (hRsubS _ hc))
  obtain ⟨hfr, hhx, hhres, hhrl, hhrgtp, hhrgt, hhlftp, hhlft, hhpr, hrootn,
      hroots, hval⟩ :=
    splice_far_desc t x res ((t.heap res).leftChild) ((t.heap x).rightChild)
      ((t.heap x).parent) lroot ((t.heap res).parent) hlfteq rfl rfl rfl hresx
      hrlx hrlres hrr rfl hpx1 hpx2 hpxrl hrgtx hrgtres hreslft hresrgt hlftx
      hlftrgt hlftpx hprx hprres hprrgt hprpx hrlreal hpxrgt
  have hRLrep' : Repr (replace_splice t x res).heap t.nil x
      ((t.heap res).leftChild) RL := by
    refine repr_congr2 hRLrep hRLnd ?_ ?_ ?_
    · intro j hjB
      by_cases hc : j = (t.heap res).leftChild
      · have hjv := repr_ids_value hRLrep j hjB
        rw [hc] at hjv ⊢
        rw [hhrl hjv]
        exact ⟨rfl, rfl, rfl⟩
      · rw [hfr j (fun h => hxL (h ▸ hRLL j hjB))
          (fun h => hresRL (h ▸ hjB)) hc
          (hjrgtne j (subAt_ids_subset hsub j (hLsubS _ (hRLL j hjB)))
            (hLR j (hRLL j hjB)))
          (hjpxne j (hLsubS _ (hRLL j hjB)))
          (fun h => hlrootres (h ▸ hRLresS j hjB))
          (fun h => hprL.2 (h ▸ hRLresS j hjB))]
        exact ⟨rfl, rfl, rfl⟩
    · intro j hjB hjne
      rw [hfr j (fun h => hxL (h ▸ hRLL j hjB))
        (fun h => hresRL (h ▸ hjB)) hjne
        (hjrgtne j (subAt_ids_subset hsub j (hLsubS _ (hRLL j hjB)))
          (hLR j (hRLL j hjB)))
        (hjpxne j (hLsubS _ (hRLL j hjB)))
        (fun h => hlrootres (h ▸ hRLresS j hjB))
        (fun h => hprL.2 (h ▸ hRLresS j hjB))]
    · cases RL with
      | lf => exact Or.inl rfl
      | nd R1 rt R2 =>
        right
        rw [hhrl hRLrep.2.1]
  have hS'' : Repr (replace_splice t x res).heap t.nil ((t.heap res).parent) x
      (BT.nd RL x BT.lf) := by
    refine ⟨rfl, ?_, ?_, ?_, ?_⟩
    · rw [hhx]; exact hxv
    · rw [hhx]
    · rw [show ((replace_splice t x res).heap x).leftChild = (t.heap res).leftChild by
        rw [hhx]]
      exact hRLrep'
    · rw [show ((replace_splice t x res).heap x).rightChild = (t.heap res).rightChild by
        rw [hhx]]
      rw [hreslf']
      rfl
  have hLnn : ∀ j ∈ (BT.nd LA lroot LB).ids, j ≠ t.nil := fun j hj =>
    hnn j (subAt_ids_subset hsub j (hLsubS j hj))
  have hagL : ∀ j ∈ (BT.nd LA lroot LB).ids, j ∉ (BT.nd RL res BT.lf).ids →
      (((replace_splice t x res).heap j).value = (t.heap j).value ∧
       ((replace_splice t x res).heap j).leftChild =
         (if (t.heap j).leftChild = res then x else (t.heap j).leftChild) ∧
       ((replace_splice t x res).heap j).rightChild =
         (if (t.heap j).rightChild = res then x else (t.heap j).rightChild)) := by
    intro j hjL hjS
    by_cases hjpr : j = (t.heap res).parent
    · rw [hjpr]
      refine ⟨hval _, ?_, ?_⟩
      · rw [hhpr.1, if_neg hprleftne]
      · rw [hhpr.2.1, if_pos hprright]
    · have hjx : j ≠ x := fun h => hxL (h ▸ hjL)
      have hjres : j ≠ res := fun h =>
        hjS (h ▸ (by simp [BT.ids] : res ∈ (BT.nd RL res BT.lf).ids))
      have hjrl : j ≠ (t.heap res).leftChild :=
        hjrlne j (subAt_ids_subset hsub j (hLsubS j hjL))
          (fun hm => hjS (hRLresS j hm))
      have hjrgt : j ≠ (t.heap x).rightChild :=
        hjrgtne j (subAt_ids_subset hsub j (hLsubS j hjL)) (hLR j hjL)
      have hjpx : j ≠ (t.heap x).parent := hjpxne j (hLsubS j hjL)
      have hjlne : (t.heap j).leftChild ≠ res := fun hc =>
        hjpr (repr_parent_unique hLrep hLnd hresnil j hjL (Or.inl hc))
      have hjrne : (t.heap j).rightChild ≠ res := fun hc =>
        hjpr (repr_parent_unique hLrep hLnd hresnil j hjL (Or.inr hc))
      by_cases hjlft : j = lroot
      · have hlftpr : lroot ≠ (t.heap res).parent := fun hc => hjpr (hjlft.trans hc)
        rw [hjlft] at hjlne hjrne ⊢
        rw [hhlft hlftpr]
        refine ⟨rfl, ?_, ?_⟩
        · rw [if_neg hjlne]
        · rw [if_neg hjrne]
      · rw [hfr j hjx hjres hjrl hjrgt hjpx hjlft hjpr]
        refine ⟨rfl, ?_, ?_⟩
        · rw [if_neg hjlne]
        · rw [if_neg hjrne]
  have hparL : ∀ j ∈ (BT.nd LA lroot LB).ids, j ∉ (BT.nd RL res BT.lf).ids →
      j ≠ (t.heap x).leftChild →
      ((replace_splice t x res).heap j).parent = (t.heap j).parent := by
    intro j hjL hjS hji
    rw [hlfteq] at hji
    by_cases hjpr : j = (t.heap res).parent
    · rw [hjpr]
      exact hhpr.2.2.2 (fun hc => hji (hjpr ▸ hc ▸ rfl))
    · have hjx : j ≠ x := fun h => hxL (h ▸ hjL)
      have hjres : j ≠ res := fun h =>
        hjS (h ▸ (by simp [BT.ids] : res ∈ (BT.nd RL res BT.lf).ids))
      have hjrl : j ≠ (t.heap res).leftChild :=
        hjrlne j (subAt_ids_subset hsub j (hLsubS j hjL))
          (fun hm => hjS (hRLresS j hm))
      have hjrgt : j ≠ (t.heap x).rightChild :=
        hjrgtne j (subAt_ids_subset hsub j (hLsubS j hjL)) (hLR j hjL)
      have hjpx : j ≠ (t.heap x).parent := hjpxne j (hLsubS j hjL)
      rw [hfr j hjx hjres hjrl hjrgt hjpx hji hjpr]
  have hInner0 := repr_graft2 hS'' hLrep hLnd hLnn hsubL hagL hparL
    (fun hc => absurd (hlfteq.symm.trans hc) hlr)
    (fun _ => show ((replace_splice t x res).heap ((t.heap x).leftChild)).parent = res
      by rw [hlfteq]; exact hhlftp)
  rw [if_neg (by rw [hlfteq]; exact fun hc => hlr hc)] at hInner0
  have hS' : Repr (replace_splice t x res).heap t.nil ((t.heap x).parent) res
      (BT.nd (repAt (BT.nd LA lroot LB) res (BT.nd RL x BT.lf)) res R) := by
    refine ⟨rfl, ?_, ?_, ?_, ?_⟩
    · rw [hhres]; exact hresv
    · rw [hhres]
    · rw [show ((replace_splice t x res).heap res).leftChild = lroot by rw [hhres]]
      rw [hlfteq] at hInner0
      exact hInner0
    · rw [show ((replace_splice t x res).heap res).rightChild = (t.heap x).rightChild by
        rw [hhres]]
      refine repr_congr2 hRrep hRnd ?_ ?_ ?_
      · intro j hjB
        by_cases hc : j = (t.heap x).rightChild
        · have hrgtpx : (t.heap x).rightChild ≠ (t.heap x).parent :=
            hjpxne _ (hRsubS _ (hc ▸ hjB))
          rw [hc, hhrgt hrgtpx]
          exact ⟨rfl, rfl, rfl⟩
        · rw [hfr j (fun h => hxR (h ▸ hjB))
            (fun h => hLR res hresL (h ▸ hjB))
            (hjrlne j (subAt_ids_subset hsub j (hRsubS j hjB))
              (fun hm => hLR _ (hRLL _ hm) hjB))
            hc (hjpxne j (hRsubS j hjB))
            (fun h => hLR lroot hlrootL (h ▸ hjB))
            (fun h => hLR _ hprL.1 (h ▸ hjB))]
          exact ⟨rfl, rfl, rfl⟩
      · intro j hjB hjne
        rw [hfr j (fun h => hxR (h ▸ hjB))
          (fun h => hLR res hresL (h ▸ hjB))
          (hjrlne j (subAt_ids_subset hsub j (hRsubS j hjB))
            (fun hm => hLR _ (hRLL _ hm) hjB))
          hjne (hjpxne j (hRsubS j hjB))
          (fun h => hLR lroot hlrootL (h ▸ hjB))
          (fun h => hLR _ hprL.1 (h ▸ hjB))]
      · cases R with
        | lf => exact Or.inl rfl
        | nd R1 rt R2 =>
          right
          rw [hhrgtp]
  have hag : ∀ j ∈ bt.ids, j ∉ (BT.nd (BT.nd LA lroot LB) x R).ids →
      (((replace_splice t x res).heap j).value = (t.heap j).value ∧
       ((replace_splice t x res).heap j).parent = (t.heap j).parent ∧
       ((replace_splice t x res).heap j).leftChild =
         (if (t.heap j).leftChild = x then res else (t.heap j).leftChild) ∧
       ((replace_splice t x res).heap j).rightChild =
         (if (t.heap j).rightChild = x then res else (t.heap j).rightChild)) := by
    intro j hjbt hjS
    have hjx : j ≠ x := fun hc => hjS (hc ▸ hxS)
    have hjres : j ≠ res := fun hc => hjS (hc ▸ hresS)
    have hjrl : j ≠ (t.heap res).leftChild :=
      hjrlne j hjbt (fun hm => hjS (hLsubS _ (hRLL _ hm)))
    have hjrgt : j ≠ (t.heap x).rightChild :=
      hjrgtne j hjbt (fun hm => hjS (hRsubS _ hm))
    have hjlft : j ≠ lroot := fun hc => hjS (hc ▸ hLsubS _ hlrootL)
    have hjpr : j ≠ (t.heap res).parent := fun hc => hjS (hc ▸ hLsubS _ hprL.1)
    by_cases hjpx : j = (t.heap x).parent
    · rcases hpxcases with ⟨hpxnil, -⟩ | ⟨-, -, hchild⟩
      · exact absurd (hjpx.trans hpxnil) (hnn j hjbt)
      · have hpxval : (t.heap ((t.heap x).parent)).value ≠ none := by
          rw [← hjpx]
          exact repr_ids_value hR j hjbt
        rw [hjpx]
        rcases hchild with ⟨hlx, hrx⟩ | ⟨hrx, hlx⟩
        · rw [(hroots hpxval).2.1 hlx]
          refine ⟨rfl, rfl, ?_, ?_⟩
          · rw [if_pos hlx]
          · rw [if_neg hrx]
        · rw [(hroots hpxval).2.2.1 hlx hrx]
          refine ⟨rfl, rfl, ?_, ?_⟩
          · rw [if_neg hlx]
          · rw [if_pos hrx]
    · rw [hfr j hjx hjres hjrl hjrgt hjpx hjlft hjpr]
      have hjlx : (t.heap j).leftChild ≠ x := fun hc =>
        hjpx (repr_parent_unique hR hnd hxnil j hjbt (Or.inl hc))
      have hjrx : (t.heap j).rightChild ≠ x := fun hc =>
        hjpx (repr_parent_unique hR hnd hxnil j hjbt (Or.inr hc))
      refine ⟨rfl, rfl, ?_, ?_⟩
      · rw [if_neg hjlx]
      · rw [if_neg hjrx]
  have hG := repr_graft hS' hR hnd hnn hsub hag
  refine ⟨?_, hval, ?_⟩
  · rcases hpxcases with ⟨hpxnil, hroot⟩ | ⟨hpxbt, -, -⟩
    · have hv0 : (t.heap ((t.heap x).parent)).value = none := by
        rw [hpxnil]; exact hnil
      rw [show (replace_splice t x res).root = res from hrootn hv0]
      rw [if_pos hroot] at hG
      exact hG
    · have hpxval : (t.heap ((t.heap x).parent)).value ≠ none :=
        repr_ids_value hR _ hpxbt
      have hrx : t.root ≠ x := by
        intro hc
        cases bt with
        | lf => simp [subAt] at hsub
        | nd l k r =>
          obtain ⟨-, -, hp, -, -⟩ := hR
          rw [hc] at hp
          rw [hp] at hpxbt
          exact hnn t.nil hpxbt rfl
      rw [show (replace_splice t x res).root = t.root from (hroots hpxval).1]
      rw [if_neg hrx] at hG
      exact hG
  · rw [show ((replace_splice t x res).heap x).rightChild = (t.heap res).rightChild by
      rw [hhx]]
    exact hreslf'

/-- `replace_erase_node` on a target with two real children: it returns
the target itself, swaps the target with its in-order predecessor (the
two are adjacent in the in-order id sequence, which is otherwise
unchanged), copies no payloads, and leaves the target with no real right
child. -/
theorem replace_erase_two_children {t : RBTree} {bt L R : BT} {x : Nat}
    (hR : Repr t.heap t.nil t.nil t.root bt)
    (hnd : bt.ids.Nodup)
    (hnn : ∀ j ∈ bt.ids, j ≠ t.nil)
    (hnil : (t.heap t.nil).value = none)
    (hlt : ∀ i ∈ bt.ids, i < t.nextId)
    (hsub : subAt bt x = some (BT.nd L x R))
    (hL : L ≠ BT.lf) (hRr : R ≠ BT.lf) :
    ∃ res RL u v,
      (replace_erase_node t x).2 = x ∧
      bt.ids = u ++ res :: x :: v ∧
      (repAt bt x (BT.nd (repAt L res (BT.nd RL x BT.lf)) res R)).ids
        = u ++ x :: res :: v ∧
      Repr ((replace_erase_node t x).1).heap t.nil t.nil
        ((replace_erase_node t x).1).root
        (repAt bt x (BT.nd (repAt L res (BT.nd RL x BT.lf)) res R)) ∧
      (∀ j, (((replace_erase_node t x).1).heap j).value = (t.heap j).value) ∧
      (((replace_erase_node t x).1).heap x).rightChild = t.nil := by
  cases L with
  | lf => exact absurd rfl hL
  | nd LA lroot LB =>
  have hSrep := repr_subAt hR hsub
  obtain ⟨-, hxv, -, hLrep, hRrep⟩ := hSrep
  have hcond : (t.heap ((t.heap x).leftChild)).value ≠ none := hLrep.2.1
  have hbranch : replace_erase_node t x =
      (replace_splice t x (rep_max_go t t.nextId ((t.heap x).leftChild)), x) := by
    simp only [replace_erase_node]
    rw [if_pos hcond]
  have hSnd : (BT.nd (BT.nd LA lroot LB) x R).ids.Nodup := subAt_nodup hsub hnd
  have hLnd : (BT.nd LA lroot LB).ids.Nodup := by
    have hs : ((BT.nd LA lroot LB).ids ++ x :: R.ids).Nodup := hSnd
    exact (List.nodup_append.mp hs).1
  obtain ⟨preO, postO, hdecO, hrepO⟩ := subAt_ids_decomp hsub
  have hlen : bt.ids.length ≤ t.nextId := by
    have hcard : bt.ids.toFinset.card = bt.ids.length :=
      List.toFinset_card_of_nodup hnd
    have hsubs : bt.ids.toFinset ⊆ Finset.range t.nextId := by
      intro a ha
      rw [List.mem_toFinset] at ha
      exact Finset.mem_range.mpr (hlt a ha)
    calc bt.ids.length = bt.ids.toFinset.card := hcard.symm
      _ ≤ (Finset.range t.nextId).card := Finset.card_le_card hsubs
      _ = t.nextId := Finset.card_range _
  have hfuel : LB.ids.length < t.nextId := by
    have : bt.ids.length =
        preO.length + ((LA.ids.length + 1 + LB.ids.length) + 1 + R.ids.length)
          + postO.length := by
      rw [hdecO]
      simp [BT.ids]
      omega
    omega
  have hresdef : rep_max_go t t.nextId ((t.heap x).leftChild) = rmostId LB lroot :=
    rep_max_go_spec hnil hLrep hfuel
  obtain ⟨RL, pre, hsubres, hidsL, hreps⟩ := rmost_spec (B := LB) (A := LA) (r := lroot) hLnd
  refine ⟨rmostId LB lroot, RL, preO ++ (pre ++ RL.ids), R.ids ++ postO,
    by rw [hbranch], ?_, ?_, ?_, ?_, ?_⟩
  · rw [hdecO]
    rw [show BT.ids (BT.nd (BT.nd LA lroot LB) x R)
        = (BT.nd LA lroot LB).ids ++ x :: R.ids from rfl]
    rw [hidsL]
    simp [List.append_assoc]
  · rw [hrepO]
    rw [show BT.ids (BT.nd (repAt (BT.nd LA lroot LB) (rmostId LB lroot)
        (BT.nd RL x BT.lf)) (rmostId LB lroot) R)
        = (repAt (BT.nd LA lroot LB) (rmostId LB lroot) (BT.nd RL x BT.lf)).ids
          ++ rmostId LB lroot :: R.ids from rfl]
    rw [hreps]
    simp [BT.ids, List.append_assoc]
  · rw [hbranch]
    show Repr (replace_splice t x (rep_max_go t t.nextId ((t.heap x).leftChild))).heap
      t.nil t.nil
      (replace_splice t x (rep_max_go t t.nextId ((t.heap x).leftChild))).root _
    rw [hresdef]
    by_cases hnear : lroot = rmostId LB lroot
    · have hcollapse : BT.nd LA lroot LB = BT.nd RL (rmostId LB lroot) BT.lf := by
        have h0 : subAt (BT.nd LA lroot LB) (rmostId LB lroot)
            = some (BT.nd LA lroot LB) := by
          simp only [subAt]
          rw [if_pos hnear]
        rw [h0] at hsubres
        exact Option.some.inj hsubres
      rw [show repAt (BT.nd LA lroot LB) (rmostId LB lroot) (BT.nd RL x BT.lf)
          = BT.nd RL x BT.lf by rw [hcollapse]; simp [repAt]]
      exact (splice_near_refine hR hnd hnn hnil (by rw [← hcollapse]; exact hsub)).1
    · exact (splice_far_refine hR hnd hnn hnil hsub rfl hsubres
        (fun hc => hnear hc) ⟨pre ++ RL.ids, by rw [hidsL]; simp [List.append_assoc]⟩).1
  · rw [hbranch]
    show ∀ j, ((replace_splice t x (rep_max_go t t.nextId ((t.heap x).leftChild))).heap j).value
      = (t.heap j).value
    rw [hresdef]
    by_cases hnear : lroot = rmostId LB lroot
    · have hcollapse : BT.nd LA lroot LB = BT.nd RL (rmostId LB lroot) BT.lf := by
        have h0 : subAt (BT.nd LA lroot LB) (rmostId LB lroot)
            = some (BT.nd LA lroot LB) := by
          simp only [subAt]
          rw [if_pos hnear]
        rw [h0] at hsubres
        exact Option.some.inj hsubres
      exact (splice_near_refine hR hnd hnn hnil (by rw [← hcollapse]; exact hsub)).2.1
    · exact (splice_far_refine hR hnd hnn hnil hsub rfl hsubres
        (fun hc => hnear hc) ⟨pre ++ RL.ids, by rw [hidsL]; simp [List.append_assoc]⟩).2.1
  · rw [hbranch]
    show ((replace_splice t x (rep_max_go t t.nextId ((t.heap x).leftChild))).heap x).rightChild
      = t.nil
    rw [hresdef]
    by_cases hnear : lroot = rmostId LB lroot
    · have hcollapse : BT.nd LA lroot LB = BT.nd RL (rmostId LB lroot) BT.lf := by
        have h0 : subAt (BT.nd LA lroot LB) (rmostId LB lroot)
            = some (BT.nd LA lroot LB) := by
          simp only [subAt]
          rw [if_pos hnear]
        rw [h0] at hsubres
        exact Option.some.inj hsubres
      exact (splice_near_refine hR hnd hnn hnil (by rw [← hcollapse]; exact hsub)).2.2
    · exact (splice_far_refine hR hnd hnn hnil hsub rfl hsubres
        (fun hc => hnear hc) ⟨pre ++ RL.ids, by rw [hidsL]; simp [List.append_assoc]⟩).2.2

/-- C5: on a valid tree, for a target node with two real (non-sentinel)
children, the two-children reduction step of `erase`
(`replace_erase_node`) swaps the target's position with its in-order
predecessor by relinking parent/child pointers: it returns the target
for the subsequent deletion; the replacement `res` is the node
immediately before the target in the in-order id sequence; the resulting
heap represents the same tree with exactly those two adjacent positions
exchanged — so the node set is unchanged and the binary-search-tree
order over the remaining keys (the in-order sequence with the target
dropped) is preserved; no payload moves between slots; and the target
ends with no real right child, hence at most one real child. -/
theorem C5_two_children_splice {t : RBTree} {bt L R : BT} {x : Nat}
    (hR : Repr t.heap t.nil t.nil t.root bt)
    (hnd : bt.ids.Nodup)
    (hnn : ∀ j ∈ bt.ids, j ≠ t.nil)
    (hnil : (t.heap t.nil).value = none)
    (hlt : ∀ i ∈ bt.ids, i < t.nextId)
    (hsub : subAt bt x = some (BT.nd L x R))
    (hL : L ≠ BT.lf) (hRr : R ≠ BT.lf) :
    ∃ res RL u v,
      (replace_erase_node t x).2 = x ∧
      bt.ids = u ++ res :: x :: v ∧
      (repAt bt x (BT.nd (repAt L res (BT.nd RL x BT.lf)) res R)).ids
        = u ++ x :: res :: v ∧
      Repr ((replace_erase_node t x).1).heap t.nil t.nil
        ((replace_erase_node t x).1).root
        (repAt bt x (BT.nd (repAt L res (BT.nd RL x BT.lf)) res R)) ∧
      (∀ j, (((replace_erase_node t x).1).heap j).value = (t.heap j).value) ∧
      (((replace_erase_node t x).1).heap x).rightChild = t.nil :=
  replace_erase_two_children hR hnd hnn hnil hlt hsub hL hRr

/-- Witness for C5: in the tree built by inserting 2, 1, 3 (root node 1
holding key 2, with real children 2 and 3), the root has two real
children and the splice applies. -/
theorem C5_witness :
    ∃ res RL u v,
      (replace_erase_node (runOps [Op.ins 2, Op.ins 1, Op.ins 3]) 1).2 = 1 ∧
      (BT.nd (BT.nd BT.lf 2 BT.lf) 1 (BT.nd BT.lf 3 BT.lf)).ids
        = u ++ res :: 1 :: v ∧
      (repAt (BT.nd (BT.nd BT.lf 2 BT.lf) 1 (BT.nd BT.lf 3 BT.lf)) 1
        (BT.nd (repAt (BT.nd BT.lf 2 BT.lf) res (BT.nd RL 1 BT.lf)) res
          (BT.nd BT.lf 3 BT.lf))).ids = u ++ 1 :: res :: v ∧
      Repr ((replace_erase_node (runOps [Op.ins 2, Op.ins 1, Op.ins 3]) 1).1).heap
        (runOps [Op.ins 2, Op.ins 1, Op.ins 3]).nil
        (runOps [Op.ins 2, Op.ins 1, Op.ins 3]).nil
        ((replace_erase_node (runOps [Op.ins 2, Op.ins 1, Op.ins 3]) 1).1).root
        (repAt (BT.nd (BT.nd BT.lf 2 BT.lf) 1 (BT.nd BT.lf 3 BT.lf)) 1
          (BT.nd (repAt (BT.nd BT.lf 2 BT.lf) res (BT.nd RL 1 BT.lf)) res
            (BT.nd BT.lf 3 BT.lf))) ∧
      (∀ j, (((replace_erase_node (runOps [Op.ins 2, Op.ins 1, Op.ins 3]) 1).1).heap j).value
        = ((runOps [Op.ins 2, Op.ins 1, Op.ins 3]).heap j).value) ∧
      (((replace_erase_node (runOps [Op.ins 2, Op.ins 1, Op.ins 3]) 1).1).heap 1).rightChild
        = (runOps [Op.ins 2, Op.ins 1, Op.ins 3]).nil :=
  C5_two_children_splice (by decide) (by decide) (by decide) (by decide)
    (by decide) (by decide) (by decide) (by decide)


/-- `setParent` leaves every slot's `rightChild` untouched. -/
theorem setParent_rightChild (t : RBTree) (i p j : Nat) :
    ((setParent t i p).heap j).rightChild = (t.heap j).rightChild := by
  simp only [setParent, writeNode]
  split <;> simp_all

/-- The `get_max_value_node` walk reads only `rightChild` and `value`
fields, so `setParent` cannot change its course. -/
theorem get_max_go_setParent (t : RBTree) (i p : Nat) :
    ∀ fuel s, get_max_go (setParent t i p) fuel s = get_max_go t fuel s := by
  intro fuel
  induction fuel with
  | zero => intro s; rfl
  | succ f ih =>
    intro s
    rw [get_max_go, get_max_go, setParent_rightChild, setParent_value]
    split
    · exact ih _
    · rfl

theorem get_max_value_node_setParent (t : RBTree) (i p : Nat) :
    get_max_value_node (setParent t i p) = get_max_value_node t := by
  rw [get_max_value_node, get_max_value_node, setParent_nextId, setParent_root,
      get_max_go_setParent]

/-- The common tail `_nil->parent = get_max_value_node()` of `insert` and
`erase` establishes the cache equation on the resulting state. -/
theorem setParent_nil_max_cache (t : RBTree) :
    ((setParent t t.nil (get_max_value_node t)).heap
        (setParent t t.nil (get_max_value_node t)).nil).parent
      = get_max_value_node (setParent t t.nil (get_max_value_node t)) := by
  rw [get_max_value_node_setParent]
  simp [setParent, writeNode]

/-- `erase` on a real node ends with `_nil->parent = get_max_value_node()`:
the sentinel's parent caches the rightmost node of the resulting tree. -/
theorem erase_cache_refresh (t0 : RBTree) (node : Nat)
    (h : (t0.heap node).value ≠ none) :
    (((RBTree.erase t0 node).1).heap ((RBTree.erase t0 node).1).nil).parent
      = get_max_value_node ((RBTree.erase t0 node).1) := by
  rw [RBTree.erase, if_neg h]
  exact setParent_nil_max_cache _

/-- `erase` on the sentinel / a freed slot does nothing and reports 0. -/
theorem erase_notfound (t0 : RBTree) (node : Nat)
    (h : (t0.heap node).value = none) :
    RBTree.erase t0 node = (t0, 0) := by
  rw [RBTree.erase, if_pos h]

/-- Reading the written slot of `setLeft`. -/
theorem setLeft_heap_eq (t : RBTree) (i l : Nat) :
    (setLeft t i l).heap i = { t.heap i with leftChild := l } := by
  simp [setLeft, writeNode]

/-- Reading another slot of `setLeft`. -/
theorem setLeft_heap_ne (t : RBTree) (i l j : Nat) (h : j ≠ i) :
    (setLeft t i l).heap j = t.heap j := by
  simp [setLeft, writeNode, h]

/-- Reading the written slot of `setRight`. -/
theorem setRight_heap_eq (t : RBTree) (i r : Nat) :
    (setRight t i r).heap i = { t.heap i with rightChild := r } := by
  simp [setRight, writeNode]

/-- Reading another slot of `setRight`. -/
theorem setRight_heap_ne (t : RBTree) (i r j : Nat) (h : j ≠ i) :
    (setRight t i r).heap j = t.heap j := by
  simp [setRight, writeNode, h]

/-- Reading the written slot of `setParent`. -/
theorem setParent_heap_eq (t : RBTree) (i p : Nat) :
    (setParent t i p).heap i = { t.heap i with parent := p } := by
  simp [setParent, writeNode]

/-- Reading another slot of `setParent`. -/
theorem setParent_heap_ne (t : RBTree) (i p j : Nat) (h : j ≠ i) :
    (setParent t i p).heap j = t.heap j := by
  simp [setParent, writeNode, h]

/-- Reading the written slot of `setColor`. -/
theorem setColor_heap_eq (t : RBTree) (i : Nat) (c : RBColor) :
    (setColor t i c).heap i = { t.heap i with color := c } := by
  simp [setColor, writeNode]

/-- Reading another slot of `setColor`. -/
theorem setColor_heap_ne (t : RBTree) (i : Nat) (c : RBColor) (j : Nat) (h : j ≠ i) :
    (setColor t i c).heap j = t.heap j := by
  simp [setColor, writeNode, h]

/-- The link-up chain of `insert`'s empty-tree branch hangs the single
fresh node `n` under the sentinel on both sides: the sentinel's parent
points at `n`, which is also what the `get_max_value_node` walk finds. -/
theorem fresh_root_cache (t1 : RBTree) (n : Nat)
    (hnilv : (t1.heap t1.nil).value = none) (hne : t1.nil ≠ n)
    (hpos : t1.nextId ≠ 0) :
    let t2 : RBTree := { t1 with root := n }
    let t3 := setLeft t2 t2.root t2.nil
    let t4 := setRight t3 t3.root t3.nil
    let t5 := setParent t4 t4.root t4.nil
    let t6 := setColor t5 t5.root RBColor.BLACK
    let t7 := setParent t6 t6.nil t6.root
    let t8 : RBTree := { t7 with size := t7.size + 1 }
    (t8.heap t8.nil).parent = get_max_value_node t8 := by
  intro t2 t3 t4 t5 t6 t7 t8
  have hn' : n ≠ t1.nil := Ne.symm hne
  have hLhs : (t8.heap t8.nil).parent = n := by
    show ((setParent t6 t6.nil t6.root).heap t1.nil).parent = n
    rw [show t6.nil = t1.nil from rfl, show t6.root = n from rfl, setParent_heap_eq]
  have hn8 : (t8.heap n).rightChild = t1.nil := by
    show ((setParent t6 t6.nil t6.root).heap n).rightChild = t1.nil
    rw [show t6.nil = t1.nil from rfl, setParent_heap_ne _ _ _ _ hn']
    show ((setColor t5 t5.root RBColor.BLACK).heap n).rightChild = t1.nil
    rw [show t5.root = n from rfl, setColor_heap_eq]
    show ((setParent t4 t4.root t4.nil).heap n).rightChild = t1.nil
    rw [show t4.root = n from rfl, setParent_heap_eq]
    show ((setRight t3 t3.root t3.nil).heap n).rightChild = t1.nil
    rw [show t3.root = n from rfl, show t3.nil = t1.nil from rfl, setRight_heap_eq]
  have hnil8 : (t8.heap t1.nil).value = none := by
    show ((setParent t6 t6.nil t6.root).heap t1.nil).value = none
    rw [show t6.nil = t1.nil from rfl, setParent_heap_eq]
    show ((setColor t5 t5.root RBColor.BLACK).heap t1.nil).value = none
    rw [show t5.root = n from rfl, setColor_heap_ne _ _ _ _ hne]
    show ((setParent t4 t4.root t4.nil).heap t1.nil).value = none
    rw [show t4.root = n from rfl, setParent_heap_ne _ _ _ _ hne]
    show ((setRight t3 t3.root t3.nil).heap t1.nil).value = none
    rw [show t3.root = n from rfl, setRight_heap_ne _ _ _ _ hne]
    show ((setLeft t2 t2.root t2.nil).heap t1.nil).value = none
    rw [show t2.root = n from rfl, setLeft_heap_ne _ _ _ _ hne]
    exact hnilv
  rw [hLhs]
  obtain ⟨k, hk⟩ : ∃ k, t1.nextId = k + 1 :=
    ⟨t1.nextId - 1, by omega⟩
  have hnil7 : (t7.heap t1.nil).value = none := hnil8
  show n = get_max_go t8 t1.nextId n
  rw [hk, get_max_go, hn8]
  rw [if_neg (by simp [hnil8, hnil7])]

/-- Every `insert` either reports `false` (duplicate key, no attach) or
ends with `_nil->parent = get_max_value_node()`: the sentinel's parent
caches the rightmost node of the resulting tree. -/
theorem insert_cache_dichotomy (t0 : RBTree) (val : Int) (hint : Option Nat)
    (hnil : (t0.heap t0.nil).value = none) (hne : t0.nil ≠ t0.nextId) :
    (RBTree.insert t0 val hint).2.2 = false ∨
    (((RBTree.insert t0 val hint).1).heap ((RBTree.insert t0 val hint).1).nil).parent
      = get_max_value_node ((RBTree.insert t0 val hint).1) := by
  have hne' : t0.nextId ≠ t0.nil := Ne.symm hne
  rw [RBTree.insert.eq_def]
  by_cases hsz : (make_node t0 val).1.size = 0
  · rw [if_pos hsz]
    right
    have h1 : ((make_node t0 val).1.heap (make_node t0 val).1.nil).value = none := by
      simp [make_node, writeNode, hne, hnil]
    have h2 : (make_node t0 val).1.nil ≠ (make_node t0 val).2 := hne
    have h3 : (make_node t0 val).1.nextId ≠ 0 := by
      simp [make_node]
    exact fresh_root_cache (make_node t0 val).1 (make_node t0 val).2 h1 h2 h3
  · rw [if_neg hsz]
    lift_lets
    extract_lets
    repeat' split
    all_goals first
      | (left; rfl)
      | (right; exact setParent_nil_max_cache _)

/-- `get_max_go` mirrors `rep_max_go`: from the root of a represented
subtree it lands on the rightmost node. -/
theorem get_max_go_spec {t : RBTree}
    (hnil : (t.heap t.nil).value = none) :
    ∀ {B A : BT} {r : Nat} {p s fuel : Nat},
      Repr t.heap t.nil p s (BT.nd A r B) → B.ids.length < fuel →
      get_max_go t fuel s = rmostId B r := by
  intro B
  induction B with
  | lf =>
    intro A r p s fuel hR hfuel
    obtain ⟨hsr, -, -, -, hright⟩ := hR
    cases fuel with
    | zero => omega
    | succ f =>
      rw [get_max_go]
      rw [if_neg (by rw [hright]; simpa using hnil)]
      rw [hsr, rmostId]
  | nd B1 br B2 ih1 ih2 =>
    intro A r p s fuel hR hfuel
    obtain ⟨hsr, -, -, -, hright⟩ := hR
    cases fuel with
    | zero => simp [BT.ids] at hfuel
    | succ f =>
      rw [get_max_go]
      rw [if_pos hright.2.1]
      rw [show rmostId (BT.nd B1 br B2) r = rmostId B2 br from rfl]
      refine ih2 hright ?_
      simp [BT.ids] at hfuel ⊢
      omega

/-- `sortedLt` is the chain of `<` along the list. -/
theorem sortedLt_chain : ∀ xs : List Int,
    sortedLt xs = true ↔ List.Chain' (fun a b => a < b) xs
  | [] => by simp [sortedLt]
  | [_] => by simp [sortedLt]
  | a :: b :: rest => by
    rw [sortedLt, Bool.and_eq_true, sortedLt_chain (b :: rest), List.chain'_cons]
    constructor
    · rintro ⟨h1, h2⟩
      exact ⟨by simpa [comp] using h1, h2⟩
    · rintro ⟨h1, h2⟩
      exact ⟨by simpa [comp] using h1, h2⟩

/-- The in-order id list of a nonempty tree ends at the rightmost node. -/
theorem rmost_last : ∀ (B A : BT) (r : Nat),
    ∃ u, (BT.nd A r B).ids = u ++ [rmostId B r] := by
  intro B
  induction B with
  | lf => intro A r; exact ⟨A.ids, by simp [BT.ids, rmostId]⟩
  | nd B1 br B2 ih1 ih2 =>
    intro A r
    obtain ⟨u, hu⟩ := ih2 B1 br
    refine ⟨A.ids ++ r :: u, ?_⟩
    show A.ids ++ r :: (BT.nd B1 br B2).ids = (A.ids ++ r :: u) ++ [rmostId B2 br]
    rw [hu]
    simp

/-- In a strictly sorted key list that ends at `m`, every key is at most
`m`'s key. -/
theorem pairwise_last_ge {f : Nat → Int} {u : List Nat} {m j : Nat}
    (hpw : ((u ++ [m]).map f).Pairwise (fun a b => a < b))
    (hj : j ∈ u ++ [m]) : f j ≤ f m := by
  rw [List.map_append] at hpw
  rcases List.mem_append.mp hj with hju | hjm
  · exact le_of_lt
      ((List.pairwise_append.mp hpw).2.2 (f j) (List.mem_map_of_mem f hju) (f m) (by simp))
  · simp at hjm
    subst hjm
    exact le_refl _

/-- `get_max_value_node` on a represented sorted tree: it finds the
in-order last node, a node of the tree whose key is at least every key
in the tree. -/
theorem get_max_is_max {t : RBTree} {A B : BT} {r : Nat}
    (hR : Repr t.heap t.nil t.nil t.root (BT.nd A r B))
    (hnd : (BT.nd A r B).ids.Nodup)
    (hlt : ∀ i ∈ (BT.nd A r B).ids, i < t.nextId)
    (hnil : (t.heap t.nil).value = none)
    (hs : sortedLt (valsOf t.heap (BT.nd A r B)) = true) :
    get_max_value_node t = rmostId B r ∧
    rmostId B r ∈ (BT.nd A r B).ids ∧
    ∀ j ∈ (BT.nd A r B).ids, valOf t j ≤ valOf t (rmostId B r) := by
  have hlen : (BT.nd A r B).ids.length ≤ t.nextId := by
    have hcard : (BT.nd A r B).ids.toFinset.card = (BT.nd A r B).ids.length :=
      List.toFinset_card_of_nodup hnd
    have hsubs : (BT.nd A r B).ids.toFinset ⊆ Finset.range t.nextId := by
      intro a ha
      rw [List.mem_toFinset] at ha
      exact Finset.mem_range.mpr (hlt a ha)
    calc (BT.nd A r B).ids.length = (BT.nd A r B).ids.toFinset.card := hcard.symm
      _ ≤ (Finset.range t.nextId).card := Finset.card_le_card hsubs
      _ = t.nextId := Finset.card_range _
  have hfuel : B.ids.length < t.nextId := by
    simp [BT.ids] at hlen
    omega
  obtain ⟨u, hu⟩ := rmost_last B A r
  refine ⟨?_, ?_, ?_⟩
  · rw [get_max_value_node]
    exact get_max_go_spec hnil hR hfuel
  · rw [hu]
    simp
  · intro j hj
    have hpw : (valsOf t.heap (BT.nd A r B)).Pairwise (fun a b => a < b) := by
      rw [← List.chain'_iff_pairwise]
      exact (sortedLt_chain _).mp hs
    rw [valsOf, hu] at hpw
    exact pairwise_last_ge hpw (by rw [hu] at hj; exact hj)

/-- One unrolling of `clear_go` equals the three stages in sequence. -/
theorem clear_go_succ (fuel : Nat) (t : RBTree) (node : Nat) :
    clear_go (fuel+1) t node =
      clear_step3 (clear_step2 fuel (clear_step1 fuel t node) node) node := rfl

/-- Pointwise description of `clear_step3` on a payload-carrying node. -/
theorem clear_step3_desc (t2 : RBTree) (node : Nat) (hg : (t2.heap node).value ≠ none) :
    (∀ j, j ≠ node → (clear_step3 t2 node).heap j = t2.heap j) ∧
    (clear_step3 t2 node).heap node = nilNode ∧
    (clear_step3 t2 node).root = (if node = t2.root then t2.nil else t2.root) ∧
    (clear_step3 t2 node).size = t2.size - 1 ∧
    (clear_step3 t2 node).nil = t2.nil ∧
    (clear_step3 t2 node).nextId = t2.nextId := by
  rw [clear_step3, if_pos hg]
  refine ⟨?_, ?_, ?_, ?_, ?_, ?_⟩
  · intro j hj
    show writeNode (if node = t2.root then { t2 with root := t2.nil } else t2).heap
        node nilNode j = t2.heap j
    rw [writeNode]
    rw [if_neg hj]
    split <;> rfl
  · show writeNode (if node = t2.root then { t2 with root := t2.nil } else t2).heap
        node nilNode node = nilNode
    rw [writeNode, if_pos rfl]
  · show (if node = t2.root then { t2 with root := t2.nil } else t2).root = _
    split <;> rfl
  · show (if node = t2.root then { t2 with root := t2.nil } else t2).size - 1 = t2.size - 1
    split <;> rfl
  · show (if node = t2.root then { t2 with root := t2.nil } else t2).nil = t2.nil
    split <;> rfl
  · show (if node = t2.root then { t2 with root := t2.nil } else t2).nextId = t2.nextId
    split <;> rfl

/-- `clear(node)` destroys exactly the represented subtree: every slot of
the subtree is freed, every other slot is untouched, `_root` is reset to
the sentinel when the tree root was in the destroyed subtree, and `_size`
drops by the node count. -/
theorem clear_go_spec : ∀ {bt : BT} {t : RBTree} {p x fuel : Nat},
    Repr t.heap t.nil p x bt → bt.ids.Nodup →
    (∀ j ∈ bt.ids, j ≠ t.nil) → (t.heap t.nil).value = none →
    bt.ids.length < fuel → bt ≠ BT.lf →
    (∀ j, j ∉ bt.ids → (clear_go fuel t x).heap j = t.heap j) ∧
    (∀ j ∈ bt.ids, (clear_go fuel t x).heap j = nilNode) ∧
    (clear_go fuel t x).root = (if t.root ∈ bt.ids then t.nil else t.root) ∧
    (clear_go fuel t x).size = t.size - bt.ids.length ∧
    (clear_go fuel t x).nil = t.nil ∧
    (clear_go fuel t x).nextId = t.nextId := by
  intro bt
  induction bt with
  | lf =>
    intro t p x fuel _ _ _ _ _ hne
    exact absurd rfl hne
  | nd l i r ihl ihr =>
    intro t p x fuel hR hnd hnn hnil hfuel _
    obtain ⟨hxi, hv, hp, hl, hr⟩ := hR
    subst hxi
    cases fuel with
    | zero => exact absurd hfuel (Nat.not_lt_zero _)
    | succ f =>
    -- Nodup pieces
    have hnd' : (l.ids ++ x :: r.ids).Nodup := hnd
    obtain ⟨hndl, hndcons, hdisj⟩ := List.nodup_append.mp hnd'
    obtain ⟨hir, hndr⟩ := List.nodup_cons.mp hndcons
    have hil : x ∉ l.ids := fun hc => hdisj hc (by simp)
    have hdlr : ∀ j ∈ l.ids, j ∉ r.ids := fun j hj hc => hdisj hj (by simp [hc])
    -- sentinel pieces
    have hinil : x ≠ t.nil := hnn x (by simp [BT.ids])
    have hnnl : ∀ j ∈ l.ids, j ≠ t.nil := fun j hj => hnn j (by simp [BT.ids, hj])
    have hnnr : ∀ j ∈ r.ids, j ≠ t.nil := fun j hj => hnn j (by simp [BT.ids, hj])
    have hnill : t.nil ∉ l.ids := fun hc => (hnnl _ hc) rfl
    have hnilr : t.nil ∉ r.ids := fun hc => (hnnr _ hc) rfl
    rw [clear_go_succ]
    -- the left phase
    have T1 : (∀ j, j ∉ l.ids → j ≠ x → (clear_step1 f t x).heap j = t.heap j) ∧
        (∀ j ∈ l.ids, (clear_step1 f t x).heap j = nilNode) ∧
        ((clear_step1 f t x).heap x).value = (t.heap x).value ∧
        ((clear_step1 f t x).heap x).rightChild = (t.heap x).rightChild ∧
        (clear_step1 f t x).root = (if t.root ∈ l.ids then t.nil else t.root) ∧
        (clear_step1 f t x).size = t.size - l.ids.length ∧
        (clear_step1 f t x).nil = t.nil ∧ (clear_step1 f t x).nextId = t.nextId := by
      cases l with
      | lf =>
        have hlc : (t.heap x).leftChild = t.nil := hl
        have hg1 : ¬((t.heap (t.heap x).leftChild).value ≠ none) := by
          rw [hlc]
          simpa using hnil
        have ht1 : clear_step1 f t x = t := by
          rw [clear_step1, if_neg hg1]
        rw [ht1]
        simp [BT.ids]
      | nd la lj lb =>
        have hg1 : (t.heap (t.heap x).leftChild).value ≠ none := hl.2.1
        have ht1 : clear_step1 f t x =
            setLeft (clear_go f t ((t.heap x).leftChild)) x
              (clear_go f t ((t.heap x).leftChild)).nil := by
          rw [clear_step1, if_pos hg1]
        obtain ⟨Aout, Ain, Aroot, Asize, Anil, Anext⟩ :=
          @ihl t x ((t.heap x).leftChild) f hl hndl hnnl hnil
            (by simp [BT.ids] at hfuel ⊢; omega) (by simp)
        refine ⟨?_, ?_, ?_, ?_, ?_, ?_, ?_, ?_⟩
        · intro j hjl hji
          rw [ht1, setLeft_heap_ne _ _ _ _ hji, Aout j hjl]
        · intro j hj
          rw [ht1, setLeft_heap_ne _ _ _ _ (show j ≠ x from fun hc => hil (hc ▸ hj)), Ain j hj]
        · rw [ht1, setLeft_heap_eq]
          show ((clear_go f t ((t.heap x).leftChild)).heap x).value = (t.heap x).value
          rw [Aout x hil]
        · rw [ht1, setLeft_heap_eq]
          show ((clear_go f t ((t.heap x).leftChild)).heap x).rightChild
            = (t.heap x).rightChild
          rw [Aout x hil]
        · rw [ht1]
          show (clear_go f t ((t.heap x).leftChild)).root = _
          exact Aroot
        · rw [ht1]
          show (clear_go f t ((t.heap x).leftChild)).size = _
          exact Asize
        · rw [ht1]
          show (clear_go f t ((t.heap x).leftChild)).nil = _
          exact Anil
        · rw [ht1]
          show (clear_go f t ((t.heap x).leftChild)).nextId = _
          exact Anext
    obtain ⟨T1out, T1in, T1v, T1rc, T1root, T1size, T1nil, T1next⟩ := T1
    -- the right phase
    have T2 : (∀ j, j ∉ l.ids → j ∉ r.ids → j ≠ x →
          (clear_step2 f (clear_step1 f t x) x).heap j = t.heap j) ∧
        (∀ j, j ∈ l.ids ∨ j ∈ r.ids →
          (clear_step2 f (clear_step1 f t x) x).heap j = nilNode) ∧
        ((clear_step2 f (clear_step1 f t x) x).heap x).value = (t.heap x).value ∧
        (clear_step2 f (clear_step1 f t x) x).root
          = (if t.root ∈ l.ids ∨ t.root ∈ r.ids then t.nil else t.root) ∧
        (clear_step2 f (clear_step1 f t x) x).size
          = t.size - l.ids.length - r.ids.length ∧
        (clear_step2 f (clear_step1 f t x) x).nil = t.nil ∧
        (clear_step2 f (clear_step1 f t x) x).nextId = t.nextId := by
      cases r with
      | lf =>
        have hrc : (t.heap x).rightChild = t.nil := hr
        have hg2 : ¬(((clear_step1 f t x).heap
            ((clear_step1 f t x).heap x).rightChild).value ≠ none) := by
          rw [T1rc, hrc, T1out t.nil hnill (Ne.symm hinil)]
          simpa using hnil
        have ht2 : clear_step2 f (clear_step1 f t x) x = clear_step1 f t x := by
          rw [clear_step2, if_neg hg2]
        rw [ht2]
        refine ⟨?_, ?_, T1v, ?_, ?_, T1nil, T1next⟩
        · intro j hjl _ hji
          exact T1out j hjl hji
        · intro j hj
          rcases hj with hj | hj
          · exact T1in j hj
          · simp [BT.ids] at hj
        · simp only [BT.ids, List.not_mem_nil, or_false]
          exact T1root
        · simp only [BT.ids, List.length_nil]
          exact T1size
      | nd ra rj rb =>
        have hrj : (t.heap x).rightChild = rj := hr.1
        have hrjr : rj ∈ (BT.nd ra rj rb).ids := by simp [BT.ids]
        have hagree : ∀ j ∈ (BT.nd ra rj rb).ids, (clear_step1 f t x).heap j = t.heap j := by
          intro j hj
          exact T1out j (fun hc => hdlr j hc hj) (fun hc => hir (hc ▸ hj))
        have hRr1 : Repr (clear_step1 f t x).heap (clear_step1 f t x).nil x
            (((clear_step1 f t x).heap x).rightChild) (BT.nd ra rj rb) := by
          rw [T1nil, T1rc]
          refine repr_congr hr ?_
          intro j hj
          rw [hagree j hj]
          exact ⟨rfl, rfl, rfl, rfl⟩
        have hg2 : (((clear_step1 f t x).heap
            ((clear_step1 f t x).heap x).rightChild).value ≠ none) := by
          rw [T1rc, hrj, hagree rj hrjr, ← hrj]
          exact hr.2.1
        have ht2 : clear_step2 f (clear_step1 f t x) x =
            setRight (clear_go f (clear_step1 f t x)
                (((clear_step1 f t x).heap x).rightChild)) x
              (clear_go f (clear_step1 f t x)
                (((clear_step1 f t x).heap x).rightChild)).nil := by
          rw [clear_step2, if_pos hg2]
        have hnnr1 : ∀ j ∈ (BT.nd ra rj rb).ids, j ≠ (clear_step1 f t x).nil := by
          rw [T1nil]
          exact hnnr
        have hnil1 : ((clear_step1 f t x).heap (clear_step1 f t x).nil).value = none := by
          rw [T1nil, T1out t.nil hnill (Ne.symm hinil)]
          exact hnil
        obtain ⟨Bout, Bin, Broot, Bsize, Bnil, Bnext⟩ :=
          @ihr (clear_step1 f t x) x (((clear_step1 f t x).heap x).rightChild) f
            hRr1 hndr hnnr1 hnil1 (by simp [BT.ids] at hfuel ⊢; omega) (by simp)
        refine ⟨?_, ?_, ?_, ?_, ?_, ?_, ?_⟩
        · intro j hjl hjr hji
          rw [ht2, setRight_heap_ne _ _ _ _ hji, Bout j hjr, T1out j hjl hji]
        · intro j hj
          rcases hj with hj | hj
          · have hji : j ≠ x := fun hc => hil (hc ▸ hj)
            have hjr : j ∉ (BT.nd ra rj rb).ids := hdlr j hj
            rw [ht2, setRight_heap_ne _ _ _ _ hji, Bout j hjr, T1in j hj]
          · have hji : j ≠ x := fun hc => hir (hc ▸ hj)
            rw [ht2, setRight_heap_ne _ _ _ _ hji, Bin j hj]
        · rw [ht2, setRight_heap_eq]
          show ((clear_go f (clear_step1 f t x)
              (((clear_step1 f t x).heap x).rightChild)).heap x).value
            = (t.heap x).value
          rw [Bout x hir, T1v]
        · rw [ht2]
          show (clear_go f (clear_step1 f t x)
              (((clear_step1 f t x).heap x).rightChild)).root = _
          rw [Broot, T1root]
          by_cases hc1 : t.root ∈ l.ids
          · rw [if_pos hc1, if_pos (Or.inl hc1)]
            rw [if_neg hnilr]
          · rw [if_neg hc1]
            by_cases hc2 : t.root ∈ (BT.nd ra rj rb).ids
            · rw [if_pos hc2, if_pos (Or.inr hc2)]
              exact T1nil
            · rw [if_neg hc2, if_neg (by rw [not_or]; exact ⟨hc1, hc2⟩)]
        · rw [ht2]
          show (clear_go f (clear_step1 f t x)
              (((clear_step1 f t x).heap x).rightChild)).size = _
          rw [Bsize, T1size]
        · rw [ht2]
          show (clear_go f (clear_step1 f t x)
              (((clear_step1 f t x).heap x).rightChild)).nil = _
          rw [Bnil, T1nil]
        · rw [ht2]
          show (clear_go f (clear_step1 f t x)
              (((clear_step1 f t x).heap x).rightChild)).nextId = _
          rw [Bnext, T1next]
    obtain ⟨T2out, T2in, T2v, T2root, T2size, T2nil, T2next⟩ := T2
    -- the destroy-this-node phase
    have hg3 : ((clear_step2 f (clear_step1 f t x) x).heap x).value ≠ none := by
      rw [T2v]
      exact hv
    obtain ⟨D1, D2, D3, D4, D5, D6⟩ := clear_step3_desc _ x hg3
    have hmem : ∀ j : Nat, j ∈ (BT.nd l x r).ids ↔ (j ∈ l.ids ∨ j = x ∨ j ∈ r.ids) := by
      intro j
      simp [BT.ids]
    refine ⟨?_, ?_, ?_, ?_, ?_, ?_⟩
    · intro j hj
      rw [hmem j] at hj
      push_neg at hj
      obtain ⟨hjl, hji, hjr⟩ := hj
      rw [D1 j hji, T2out j hjl hjr hji]
    · intro j hj
      rw [hmem j] at hj
      rcases hj with hj | hj | hj
      · rw [D1 j (fun hc => hil (hc ▸ hj)), T2in j (Or.inl hj)]
      · rw [hj, D2]
      · rw [D1 j (fun hc => hir (hc ▸ hj)), T2in j (Or.inr hj)]
    · rw [D3]
      by_cases hc : t.root ∈ (BT.nd l x r).ids
      · rw [if_pos hc]
        rw [hmem t.root] at hc
        rcases hc with hc | hc | hc
        · have h2 : (clear_step2 f (clear_step1 f t x) x).root = t.nil := by
            rw [T2root, if_pos (Or.inl hc)]
          rw [h2, if_neg hinil]
        · have h2 : (clear_step2 f (clear_step1 f t x) x).root = x := by
            rw [T2root, if_neg (by rw [hc, not_or]; exact ⟨hil, hir⟩)]
            exact hc
          rw [h2, if_pos rfl, T2nil]
        · have h2 : (clear_step2 f (clear_step1 f t x) x).root = t.nil := by
            rw [T2root, if_pos (Or.inr hc)]
          rw [h2, if_neg hinil]
      · rw [if_neg hc]
        have h2 : (clear_step2 f (clear_step1 f t x) x).root = t.root := by
          rw [T2root, if_neg (by
            rw [not_or]
            exact ⟨fun hh => hc (by rw [hmem t.root]; exact Or.inl hh),
                   fun hh => hc (by rw [hmem t.root]; exact Or.inr (Or.inr hh))⟩)]
        rw [h2, if_neg (fun hcc => hc (by rw [hmem t.root]; exact Or.inr (Or.inl hcc.symm)))]
    · rw [D4, T2size]
      have hlen : (BT.nd l x r).ids.length = l.ids.length + 1 + r.ids.length := by
        simp [BT.ids]
        omega
      omega
    · rw [D5, T2nil]
    · rw [D6, T2next]

/-- An `insert` that reports `false` (duplicate key) leaves the whole
state unchanged except for the allocation counter: the fresh node was
created and immediately destroyed. -/
theorem insert_false_state (t0 : RBTree) (val : Int) (hint : Option Nat)
    (hfresh : t0.heap t0.nextId = nilNode) :
    (RBTree.insert t0 val hint).2.2 = true ∨
    (RBTree.insert t0 val hint).1 = { t0 with nextId := t0.nextId + 1 } := by
  have hh : writeNode (make_node t0 val).1.heap t0.nextId nilNode = t0.heap := by
    funext j
    by_cases hj : j = t0.nextId
    · subst hj
      simp [writeNode, hfresh]
    · simp [writeNode, hj, make_node]
  rw [RBTree.insert.eq_def]
  by_cases hsz : (make_node t0 val).1.size = 0
  · rw [if_pos hsz]
    left
    rfl
  · rw [if_neg hsz]
    lift_lets
    extract_lets position res t2 at *
    split
    · rename_i hres
      right
      have h1 : res.1 = (make_node t0 val).1 :=
        get_position_false_id _ _ _ _ hres
      show ({ t2 with heap := writeNode t2.heap (make_node t0 val).2 nilNode } : RBTree)
          = { t0 with nextId := t0.nextId + 1 }
      have h2 : t2 = (make_node t0 val).1 := h1
      rw [h2]
      show ({ (make_node t0 val).1 with
          heap := writeNode (make_node t0 val).1.heap t0.nextId nilNode } : RBTree)
        = { t0 with nextId := t0.nextId + 1 }
      rw [hh]
      show ({ t0 with heap := t0.heap, nextId := t0.nextId + 1 } : RBTree)
        = { t0 with nextId := t0.nextId + 1 }
      rfl
    · left
      rfl

theorem blacken_ne (h : Nat → Node) (x j : Nat) (hj : j ≠ x) : blacken h x j = h j := by
  simp [blacken, hj]

theorem blacken_eq (h : Nat → Node) (x : Nat) :
    blacken h x x = { h x with color := RBColor.BLACK } := by
  simp [blacken]

theorem blacken_value (h : Nat → Node) (x j : Nat) : (blacken h x j).value = (h j).value := by
  simp only [blacken]
  split <;> rfl

/-- `colorOf` only reads the root slot. -/
theorem colorOf_congr {h h' : Nat → Node} {bt : BT}
    (hag : ∀ j ∈ bt.ids, (h' j).color = (h j).color) : colorOf h' bt = colorOf h bt := by
  cases bt with
  | lf => rfl
  | nd l i r => exact hag i (by simp [BT.ids])

/-- `bhOf` only reads colors of the tree's own slots. -/
theorem bhOf_congr {h h' : Nat → Node} : ∀ {bt : BT},
    (∀ j ∈ bt.ids, (h' j).color = (h j).color) → bhOf h' bt = bhOf h bt := by
  intro bt
  induction bt with
  | lf => intro _; rfl
  | nd l i r ihl ihr =>
    intro hag
    have h1 : bhOf h' l = bhOf h l := ihl (fun j hj => hag j (by simp [BT.ids, hj]))
    have h2 : bhOf h' r = bhOf h r := ihr (fun j hj => hag j (by simp [BT.ids, hj]))
    have h3 : (h' i).color = (h i).color := hag i (by simp [BT.ids])
    simp only [bhOf, h1, h2, h3]

/-- `noRR` only reads colors of the tree's own slots. -/
theorem noRR_congr {h h' : Nat → Node} : ∀ {bt : BT},
    (∀ j ∈ bt.ids, (h' j).color = (h j).color) → (noRR h' bt ↔ noRR h bt) := by
  intro bt
  induction bt with
  | lf => intro _; exact Iff.rfl
  | nd l i r ihl ihr =>
    intro hag
    have h1 := ihl (fun j hj => hag j (by simp [BT.ids, hj]))
    have h2 := ihr (fun j hj => hag j (by simp [BT.ids, hj]))
    have h3 : (h' i).color = (h i).color := hag i (by simp [BT.ids])
    have h4 : colorOf h' l = colorOf h l :=
      colorOf_congr (fun j hj => hag j (by simp [BT.ids, hj]))
    have h5 : colorOf h' r = colorOf h r :=
      colorOf_congr (fun j hj => hag j (by simp [BT.ids, hj]))
    simp only [noRR, h1, h2, h3, h4, h5]

/-- `valsOf` only reads payloads of the tree's own slots. -/
theorem valsOf_congr {h h' : Nat → Node} {bt : BT}
    (hag : ∀ j ∈ bt.ids, (h' j).value = (h j).value) : valsOf h' bt = valsOf h bt := by
  rw [valsOf, valsOf]
  exact List.map_congr_left (fun j hj => by rw [hag j hj])

/-- Replacing a subtree by one of the same root color keeps `colorOf`. -/
theorem colorOf_repAt {h : Nat → Node} : ∀ {bt : BT} {x : Nat} {S S' : BT},
    subAt bt x = some S → colorOf h S' = colorOf h S →
    colorOf h (repAt bt x S') = colorOf h bt := by
  intro bt x S S' hsub hc
  cases bt with
  | lf => rfl
  | nd l i r =>
    simp only [subAt] at hsub
    simp only [repAt]
    by_cases hix : i = x
    · rw [if_pos hix] at hsub ⊢
      have : S = BT.nd l i r := by
        exact (Option.some.inj hsub).symm
      rw [hc, this]
    · rw [if_neg hix] at hsub ⊢
      cases hs : subAt l x with
      | some s => rfl
      | none => rfl

/-- Replacing a subtree by one of equal black-height keeps every path
count: `bhOf` of the whole tree is unchanged. -/
theorem bhOf_repAt {h : Nat → Node} : ∀ {bt : BT} {x : Nat} {S S' : BT},
    subAt bt x = some S → bhOf h S' = bhOf h S →
    bhOf h (repAt bt x S') = bhOf h bt := by
  intro bt
  induction bt with
  | lf => intro x S S' _ _; rfl
  | nd l i r ihl ihr =>
    intro x S S' hsub hbh
    simp only [subAt] at hsub
    simp only [repAt]
    by_cases hix : i = x
    · rw [if_pos hix] at hsub ⊢
      have : S = BT.nd l i r := (Option.some.inj hsub).symm
      rw [hbh, this]
    · rw [if_neg hix] at hsub ⊢
      cases hs : subAt l x with
      | some s =>
        rw [hs] at hsub
        have hsS : s = S := Option.some.inj hsub
        subst hsS
        have hl' := ihl hs hbh
        show bhOf h (BT.nd (repAt l x S') i r) = _
        simp only [bhOf, hl']
      | none =>
        rw [hs] at hsub
        have hr' := ihr hsub hbh
        show bhOf h (BT.nd l i (repAt r x S')) = _
        simp only [bhOf, hr']

/-- Replacing a subtree by a no-red-red subtree of the same root color
keeps the whole tree no-red-red. -/
theorem noRR_repAt {h : Nat → Node} : ∀ {bt : BT} {x : Nat} {S S' : BT},
    subAt bt x = some S → colorOf h S' = colorOf h S → noRR h S' →
    noRR h bt → noRR h (repAt bt x S') := by
  intro bt
  induction bt with
  | lf => intro x S S' _ _ _ _; exact trivial
  | nd l i r ihl ihr =>
    intro x S S' hsub hc hS' hNR
    simp only [subAt] at hsub
    simp only [repAt]
    by_cases hix : i = x
    · rw [if_pos hix] at hsub ⊢
      exact hS'
    · rw [if_neg hix] at hsub ⊢
      cases hs : subAt l x with
      | some s =>
        rw [hs] at hsub
        have hsS : s = S := Option.some.inj hsub
        subst hsS
        show noRR h (BT.nd (repAt l x S') i r)
        refine ⟨?_, ihl hs hc hS' hNR.2.1, hNR.2.2⟩
        intro hred
        have hcl : colorOf h (repAt l x S') = colorOf h l := colorOf_repAt hs hc
        rw [hcl]
        exact hNR.1 hred
      | none =>
        rw [hs] at hsub
        show noRR h (BT.nd l i (repAt r x S'))
        refine ⟨?_, hNR.2.1, ihr hsub hc hS' hNR.2.2⟩
        intro hred
        have hcr : colorOf h (repAt r x S') = colorOf h r := colorOf_repAt hsub hc
        rw [hcr]
        exact hNR.1 hred

/-- A subtree of a no-red-red tree is no-red-red. -/
theorem noRR_subAt {h : Nat → Node} : ∀ {bt : BT} {x : Nat} {S : BT},
    subAt bt x = some S → noRR h bt → noRR h S := by
  intro bt
  induction bt with
  | lf => intro x S hsub _; exact absurd hsub (by simp [subAt])
  | nd l i r ihl ihr =>
    intro x S hsub hNR
    simp only [subAt] at hsub
    by_cases hix : i = x
    · rw [if_pos hix] at hsub
      rw [← Option.some.inj hsub]
      exact hNR
    · rw [if_neg hix] at hsub
      cases hs : subAt l x with
      | some s =>
        rw [hs] at hsub
        rw [← Option.some.inj hsub]
        exact ihl hs hNR.2.1
      | none =>
        rw [hs] at hsub
        exact ihr hsub hNR.2.2

/-- A subtree of a consistent-black-height tree has consistent black
height. -/
theorem bhOf_subAt {h : Nat → Node} : ∀ {bt : BT} {x : Nat} {S : BT},
    subAt bt x = some S → (bhOf h bt).isSome = true → (bhOf h S).isSome = true := by
  intro bt
  induction bt with
  | lf => intro x S hsub _; exact absurd hsub (by simp [subAt])
  | nd l i r ihl ihr =>
    intro x S hsub hbh
    have hparts : (bhOf h l).isSome = true ∧ (bhOf h r).isSome = true := by
      simp only [bhOf] at hbh
      cases hl : bhOf h l with
      | none => rw [hl] at hbh; simp at hbh
      | some a =>
        cases hr : bhOf h r with
        | none => rw [hl, hr] at hbh; simp at hbh
        | some b => simp
    simp only [subAt] at hsub
    by_cases hix : i = x
    · rw [if_pos hix] at hsub
      rw [← Option.some.inj hsub]
      exact hbh
    · rw [if_neg hix] at hsub
      cases hs : subAt l x with
      | some s =>
        rw [hs] at hsub
        rw [← Option.some.inj hsub]
        exact ihl hs hparts.1
      | none =>
        rw [hs] at hsub
        exact ihr hsub hparts.2

/-- Reading the color of the slot a represented subtree hangs at gives
the abstract color, provided the sentinel is BLACK. -/
theorem repr_color_read {h : Nat → Node} {nil : Nat} {S : BT} {p c : Nat}
    (hR : Repr h nil p c S) (hnilB : (h nil).color = RBColor.BLACK) :
    (h c).color = colorOf h S := by
  cases S with
  | lf =>
    have hc : c = nil := hR
    rw [hc, hnilB]
    rfl
  | nd l i r =>
    have hc : c = i := hR.1
    rw [hc]
    rfl

theorem insertSorted_append_lt (v y : Int) (xs ys : List Int) (h : v < y) :
    insertSorted v (xs ++ y :: ys) = insertSorted v xs ++ y :: ys := by
  induction xs with
  | nil => simp [insertSorted, if_pos h]
  | cons x xs ih =>
    show insertSorted v (x :: (xs ++ y :: ys)) = insertSorted v (x :: xs) ++ y :: ys
    rw [insertSorted, insertSorted]
    by_cases hvx : v < x
    · rw [if_pos hvx, if_pos hvx]
      simp
    · rw [if_neg hvx, if_neg hvx, ih]
      simp

theorem insertSorted_append_ge (v : Int) (xs ys : List Int) (h : ∀ x ∈ xs, ¬ v < x) :
    insertSorted v (xs ++ ys) = xs ++ insertSorted v ys := by
  induction xs with
  | nil => simp
  | cons x xs ih =>
    show insertSorted v (x :: (xs ++ ys)) = x :: xs ++ insertSorted v ys
    rw [insertSorted, if_neg (h x (by simp))]
    rw [ih (fun a ha => h a (by simp [ha]))]
    simp

theorem insertSorted_mem (v : Int) : ∀ (xs : List Int) (y : Int),
    y ∈ insertSorted v xs ↔ y = v ∨ y ∈ xs := by
  intro xs
  induction xs with
  | nil => intro y; simp [insertSorted]
  | cons x xs ih =>
    intro y
    rw [insertSorted]
    by_cases hvx : v < x
    · rw [if_pos hvx]
      simp
    · rw [if_neg hvx]
      simp only [List.mem_cons, ih y]
      constructor
      · rintro (hy | hy | hy)
        · exact Or.inr (Or.inl hy)
        · exact Or.inl hy
        · exact Or.inr (Or.inr hy)
      · rintro (hy | hy | hy)
        · exact Or.inr (Or.inl hy)
        · exact Or.inl hy
        · exact Or.inr (Or.inr hy)

theorem insertSorted_length (v : Int) : ∀ xs : List Int,
    (insertSorted v xs).length = xs.length + 1 := by
  intro xs
  induction xs with
  | nil => rfl
  | cons x xs ih =>
    rw [insertSorted]
    by_cases hvx : v < x
    · rw [if_pos hvx]
      rfl
    · rw [if_neg hvx]
      simp [ih]

theorem insertSorted_pairwise (v : Int) : ∀ (xs : List Int),
    xs.Pairwise (fun a b => a < b) → v ∉ xs →
    (insertSorted v xs).Pairwise (fun a b => a < b) := by
  intro xs
  induction xs with
  | nil => intro _ _; simp [insertSorted]
  | cons x xs ih =>
    intro hpw hv
    rw [insertSorted]
    obtain ⟨hx, hxs⟩ := List.pairwise_cons.mp hpw
    by_cases hvx : v < x
    · rw [if_pos hvx]
      refine List.Pairwise.cons ?_ hpw
      intro b hb
      rcases List.mem_cons.mp hb with hb | hb
      · rw [hb]; exact hvx
      · exact lt_trans hvx (hx b hb)
    · rw [if_neg hvx]
      have hxv : x < v := by
        rcases lt_or_ge v x with hcase | hcase
        · exact absurd hcase hvx
        · rcases lt_or_eq_of_le hcase with hcase2 | hcase2
          · exact hcase2
          · exact absurd hcase2.symm (fun hc => hv (by rw [hc]; simp))
      refine List.Pairwise.cons ?_ (ih hxs (fun hc => hv (by simp [hc])))
      intro b hb
      rcases (insertSorted_mem v xs b).mp hb with hb | hb
      · rw [hb]; exact hxv
      · exact hx b hb

/-- `valsOf` at a node splits along the in-order traversal. -/
theorem valsOf_node (h : Nat → Node) (l : BT) (i : Nat) (r : BT) :
    valsOf h (BT.nd l i r) = valsOf h l ++ ((h i).value).getD 0 :: valsOf h r := by
  simp [valsOf, BT.ids]

/-- The five writes of `get_position`'s left-attach branch, slot by
slot. -/
theorem attach_left_heap (t : RBTree) (p nu : Nat) (hpnu : p ≠ nu) :
    (∀ j, j ≠ p → j ≠ nu → (attachWritesL t p nu).heap j = t.heap j) ∧
    (attachWritesL t p nu).heap p = { t.heap p with leftChild := nu } ∧
    (attachWritesL t p nu).heap nu = { t.heap nu with
                   parent := p, leftChild := t.nil, rightChild := t.nil,
                   color := RBColor.RED } ∧
    (attachWritesL t p nu).nil = t.nil ∧ (attachWritesL t p nu).root = t.root ∧
    (attachWritesL t p nu).size = t.size ∧ (attachWritesL t p nu).nextId = t.nextId := by
  have hnup : nu ≠ p := Ne.symm hpnu
  refine ⟨?_, ?_, ?_, rfl, rfl, rfl, rfl⟩
  · intro j hjp hjnu
    rw [attachWritesL, setColor_heap_ne _ _ _ _ hjnu, setRight_heap_ne _ _ _ _ hjnu,
        setLeft_heap_ne _ _ _ _ hjnu, setParent_heap_ne _ _ _ _ hjnu,
        setLeft_heap_ne _ _ _ _ hjp]
  · rw [attachWritesL, setColor_heap_ne _ _ _ _ hpnu, setRight_heap_ne _ _ _ _ hpnu,
        setLeft_heap_ne _ _ _ _ hpnu, setParent_heap_ne _ _ _ _ hpnu, setLeft_heap_eq]
  · rw [attachWritesL, setColor_heap_eq, setRight_heap_eq, setLeft_heap_eq,
        setParent_heap_eq, setLeft_heap_ne _ _ _ _ hnup]

/-- The five writes of `get_position`'s right-attach branch, slot by
slot. -/
theorem attach_right_heap (t : RBTree) (p nu : Nat) (hpnu : p ≠ nu) :
    (∀ j, j ≠ p → j ≠ nu → (attachWritesR t p nu).heap j = t.heap j) ∧
    (attachWritesR t p nu).heap p = { t.heap p with rightChild := nu } ∧
    (attachWritesR t p nu).heap nu = { t.heap nu with
                   parent := p, leftChild := t.nil, rightChild := t.nil,
                   color := RBColor.RED } ∧
    (attachWritesR t p nu).nil = t.nil ∧ (attachWritesR t p nu).root = t.root ∧
    (attachWritesR t p nu).size = t.size ∧ (attachWritesR t p nu).nextId = t.nextId := by
  have hnup : nu ≠ p := Ne.symm hpnu
  refine ⟨?_, ?_, ?_, rfl, rfl, rfl, rfl⟩
  · intro j hjp hjnu
    rw [attachWritesR, setColor_heap_ne _ _ _ _ hjnu, setRight_heap_ne _ _ _ _ hjnu,
        setLeft_heap_ne _ _ _ _ hjnu, setParent_heap_ne _ _ _ _ hjnu,
        setRight_heap_ne _ _ _ _ hjp]
  · rw [attachWritesR, setColor_heap_ne _ _ _ _ hpnu, setRight_heap_ne _ _ _ _ hpnu,
        setLeft_heap_ne _ _ _ _ hpnu, setParent_heap_ne _ _ _ _ hpnu, setRight_heap_eq]
  · rw [attachWritesR, setColor_heap_eq, setRight_heap_eq, setLeft_heap_eq,
        setParent_heap_eq, setRight_heap_ne _ _ _ _ hnup]

set_option maxHeartbeats 1600000 in

/-- The attach run of `get_position` from the root of a represented,
sorted subtree holding no equal key: the descent reports `true` and hangs
the fresh node `nu` as a RED leaf at its ordered place.  The heap is
described pointwise; the new abstract subtree keeps the same root, its
in-order keys become `insertSorted v`, its black heights are unchanged,
and it is no-red-red once the fresh node is discounted. -/
theorem get_position_attach {t : RBTree} {nu : Nat} {v : Int}
    (hnuv : (t.heap nu).value = some v)
    (hnil : (t.heap t.nil).value = none) :
    ∀ {S : BT} {q p fuel : Nat},
      Repr t.heap t.nil q p S →
      S.ids.Nodup →
      nu ∉ S.ids →
      (∀ j ∈ S.ids, j ≠ t.nil) →
      (valsOf t.heap S).Pairwise (fun a b => a < b) →
      v ∉ valsOf t.heap S →
      S ≠ BT.lf →
      S.ids.length < fuel →
      ∃ S' : BT,
        (get_position fuel t p nu).2.2 = true ∧
        Repr ((get_position fuel t p nu).1).heap t.nil q p S' ∧
        (∀ j, j ∈ S'.ids ↔ j = nu ∨ j ∈ S.ids) ∧
        S'.ids.Nodup ∧
        valsOf ((get_position fuel t p nu).1).heap S'
          = insertSorted v (valsOf t.heap S) ∧
        (∀ j, j ∉ S.ids → j ≠ nu → ((get_position fuel t p nu).1).heap j = t.heap j) ∧
        (∀ j, (((get_position fuel t p nu).1).heap j).value = (t.heap j).value) ∧
        (∀ j, j ≠ nu → (((get_position fuel t p nu).1).heap j).color = (t.heap j).color) ∧
        (((get_position fuel t p nu).1).heap nu).color = RBColor.RED ∧
        subAt S' nu = some (BT.nd BT.lf nu BT.lf) ∧
        bhOf ((get_position fuel t p nu).1).heap S' = bhOf t.heap S ∧
        (noRR t.heap S → noRR (blacken ((get_position fuel t p nu).1).heap nu) S') ∧
        colorOf ((get_position fuel t p nu).1).heap S' = colorOf t.heap S ∧
        S'.ids.length = S.ids.length + 1 ∧
        (∃ SA SB, S' = BT.nd SA p SB) := by
  intro S
  induction S with
  | lf => intro q p fuel _ _ _ _ _ _ hne _; exact absurd rfl hne
  | nd l i r ihl ihr =>
    intro q p fuel hR hnd hnu hnn hsorted hvnot _ hfuel
    obtain ⟨hpi, hv, hpq, hl, hr⟩ := hR
    subst hpi
    cases fuel with
    | zero => exact absurd hfuel (Nat.not_lt_zero _)
    | succ f =>
    have hinu : p ≠ nu := fun hc => hnu (by rw [← hc]; simp [BT.ids])
    have hvnu : valOf t nu = v := by simp [valOf, hnuv]
    have hndflat : (l.ids ++ p :: r.ids).Nodup := hnd
    obtain ⟨hndl, hndcons, hdisj⟩ := List.nodup_append.mp hndflat
    obtain ⟨hirn, hndr⟩ := List.nodup_cons.mp hndcons
    have hil : p ∉ l.ids := fun hc => hdisj hc (by simp)
    have hnul : nu ∉ l.ids := fun hc => hnu (by simp [BT.ids, hc])
    have hnur : nu ∉ r.ids := fun hc => hnu (by simp [BT.ids, hc])
    have hnnl : ∀ j ∈ l.ids, j ≠ t.nil := fun j hj => hnn j (by simp [BT.ids, hj])
    have hnnr : ∀ j ∈ r.ids, j ≠ t.nil := fun j hj => hnn j (by simp [BT.ids, hj])
    rw [valsOf_node] at hsorted hvnot
    obtain ⟨hpwl, hpwvr, hcross⟩ := List.pairwise_append.mp hsorted
    have hpwr : (valsOf t.heap r).Pairwise (fun a b => a < b) :=
      (List.pairwise_cons.mp hpwvr).2
    have hlv : ∀ a ∈ valsOf t.heap l, a < valOf t p :=
      fun a ha => hcross a ha _ (List.mem_cons.mpr (Or.inl rfl))
    have hrv : ∀ b ∈ valsOf t.heap r, valOf t p < b :=
      (List.pairwise_cons.mp hpwvr).1
    have hvnotl : v ∉ valsOf t.heap l := fun hc => hvnot (by simp [hc])
    have hvnotr : v ∉ valsOf t.heap r := fun hc => hvnot (by simp [hc])
    have hvnoti : v ≠ valOf t p := fun hc => hvnot (by
      rw [hc]
      exact List.mem_append.mpr (Or.inr (List.mem_cons.mpr (Or.inl rfl))))
    rcases lt_trichotomy v (valOf t p) with hlt | hveq | hgt
    · -- v belongs to the left: descend or attach left
      have hcomp1 : comp (valOf t nu) (valOf t p) = true := by
        simp [comp, hvnu, hlt]
      cases l with
      | lf =>
        -- left child is the sentinel: attach here
        have hlc : (t.heap p).leftChild = t.nil := hl
        have hguard : (t.heap (t.heap p).leftChild).value = none := by
          rw [hlc]
          exact hnil
        have hstep : get_position (f+1) t p nu = (attachWritesL t p nu, p, true) := by
          rw [get_position, if_neg hv, if_pos hcomp1, if_pos hguard]
          rfl
        have hres1 : (get_position (f+1) t p nu).1 = attachWritesL t p nu := by
          rw [hstep]
        have hres22 : (get_position (f+1) t p nu).2.2 = true := by
          rw [hstep]
        obtain ⟨F1, F2, F3, -, -, -, -⟩ := attach_left_heap t p nu hinu
        have hrfr : ∀ j ∈ r.ids, (attachWritesL t p nu).heap j = t.heap j :=
          fun j hj => F1 j (fun hc => hirn (hc ▸ hj)) (fun hc => hnur (hc ▸ hj))
        refine ⟨BT.nd (BT.nd BT.lf nu BT.lf) p r, hres22, ?_, ?_, ?_, ?_, ?_, ?_, ?_, ?_,
          ?_, ?_, ?_, ?_, ?_, ⟨_, _, rfl⟩⟩
        · rw [hres1]
          refine ⟨rfl, ?_, ?_, ?_, ?_⟩
          · rw [F2]
            exact hv
          · rw [F2]
            exact hpq
          · rw [F2]
            show Repr (attachWritesL t p nu).heap t.nil p nu (BT.nd BT.lf nu BT.lf)
            refine ⟨rfl, ?_, ?_, ?_, ?_⟩
            · rw [F3]
              show (t.heap nu).value ≠ none
              rw [hnuv]
              exact fun hc => Option.noConfusion hc
            · rw [F3]
            · show ((attachWritesL t p nu).heap nu).leftChild = t.nil
              rw [F3]
            · show ((attachWritesL t p nu).heap nu).rightChild = t.nil
              rw [F3]
          · rw [F2]
            show Repr (attachWritesL t p nu).heap t.nil p ((t.heap p).rightChild) r
            refine repr_congr hr ?_
            intro j hj
            rw [hrfr j hj]
            exact ⟨rfl, rfl, rfl, rfl⟩
        · intro j
          simp [BT.ids]
          try tauto
        · have hids : (BT.nd (BT.nd BT.lf nu BT.lf) p r).ids = nu :: p :: r.ids := by
            simp [BT.ids]
          rw [hids, List.nodup_cons]
          refine ⟨?_, hnd⟩
          intro hc
          rcases List.mem_cons.mp hc with hc | hc
          · exact hinu hc.symm
          · exact hnur hc
        · rw [hres1, valsOf_node (attachWritesL t p nu).heap (BT.nd BT.lf nu BT.lf) p r,
              valsOf_node t.heap BT.lf p r]
          have h1 : valsOf (attachWritesL t p nu).heap (BT.nd BT.lf nu BT.lf) = [v] := by
            simp [valsOf, BT.ids, F3, hnuv]
          have h2 : (((attachWritesL t p nu).heap p).value).getD 0
              = ((t.heap p).value).getD 0 := by
            rw [F2]
          have h3 : valsOf (attachWritesL t p nu).heap r = valsOf t.heap r :=
            valsOf_congr (fun j hj => by rw [hrfr j hj])
          rw [h1, h2, h3]
          show [v] ++ ((t.heap p).value).getD 0 :: valsOf t.heap r
            = insertSorted v (valsOf t.heap BT.lf ++ ((t.heap p).value).getD 0 :: valsOf t.heap r)
          rw [show valsOf t.heap BT.lf = [] from rfl, List.nil_append, insertSorted,
              if_pos (show v < ((t.heap p).value).getD 0 from hlt)]
          rfl
        · intro j hjS hjnu
          rw [hres1]
          exact F1 j (fun hc => hjS (by simp [BT.ids, hc])) hjnu
        · intro j
          rw [hres1]
          by_cases hji : j = p
          · subst hji
            rw [F2]
          · by_cases hjnu : j = nu
            · subst hjnu
              rw [F3]
            · rw [F1 j hji hjnu]
        · intro j hjnu
          rw [hres1]
          by_cases hji : j = p
          · subst hji
            rw [F2]
          · rw [F1 j hji hjnu]
        · rw [hres1, F3]
        · show subAt (BT.nd (BT.nd BT.lf nu BT.lf) p r) nu = some (BT.nd BT.lf nu BT.lf)
          simp only [subAt]
          rw [if_neg hinu]
          simp [subAt]
        · rw [hres1]
          have hbr : bhOf (attachWritesL t p nu).heap r = bhOf t.heap r :=
            bhOf_congr (fun j hj => by rw [hrfr j hj])
          have hcnu : ((attachWritesL t p nu).heap nu).color = RBColor.RED := by
            rw [F3]
          have hci : ((attachWritesL t p nu).heap p).color = (t.heap p).color := by
            rw [F2]
          simp [bhOf, hbr, hci, hcnu]
        · intro hNR
          obtain ⟨hcond, -, hnrr⟩ := hNR
          rw [hres1]
          have hredT : ∀ hred : (blacken (attachWritesL t p nu).heap nu p).color
              = RBColor.RED, (t.heap p).color = RBColor.RED := by
            intro hred
            rw [blacken_ne _ _ _ hinu, F2] at hred
            exact hred
          refine ⟨?_, ?_, ?_⟩
          · intro hred
            constructor
            · show (blacken (attachWritesL t p nu).heap nu nu).color = RBColor.BLACK
              rw [blacken_eq]
            · have hcc : colorOf (blacken (attachWritesL t p nu).heap nu) r
                  = colorOf t.heap r :=
                colorOf_congr (fun j hj => by
                  rw [blacken_ne _ _ j (show j ≠ nu from fun hc => hnur (hc ▸ hj)), hrfr j hj])
              rw [hcc]
              exact (hcond (hredT hred)).2
          · refine ⟨?_, trivial, trivial⟩
            intro hred
            exfalso
            rw [show (blacken (attachWritesL t p nu).heap nu nu).color = RBColor.BLACK
              from by rw [blacken_eq]] at hred
            exact RBColor.noConfusion hred
          · exact (noRR_congr (fun j hj => by
              rw [blacken_ne _ _ j (show j ≠ nu from fun hc => hnur (hc ▸ hj)), hrfr j hj])).mpr hnrr
        · rw [hres1]
          show ((attachWritesL t p nu).heap p).color = (t.heap p).color
          rw [F2]
        · simp [BT.ids]
      | nd la lj lb =>
        -- left child is real: descend left
        have hguardF : (t.heap (t.heap p).leftChild).value ≠ none := hl.2.1
        have hstep : get_position (f+1) t p nu
            = get_position f t ((t.heap p).leftChild) nu := by
          rw [get_position, if_neg hv, if_pos hcomp1, if_neg hguardF]
        obtain ⟨S'l, ihflag, ihRepr, ihids, ihnd, ihvals, ihframe, ihvalf, ihcolf,
            ihcolnu, ihsub, ihbh, ihnoRR, ihcolorOf, ihlen, SA, SB, ihshape⟩ :=
          @ihl p ((t.heap p).leftChild) f hl hndl hnul hnnl hpwl hvnotl (by simp)
            (by simp [BT.ids] at hfuel ⊢; omega)
        have hIeq : ((get_position f t ((t.heap p).leftChild) nu).1).heap p = t.heap p :=
          ihframe p hil hinu
        have hrfr : ∀ j ∈ r.ids,
            ((get_position f t ((t.heap p).leftChild) nu).1).heap j = t.heap j :=
          fun j hj => ihframe j (fun hc => hdisj hc (by simp [hj])) (fun hc => hnur (hc ▸ hj))
        have hlrnu : (t.heap p).leftChild ≠ nu := by
          rw [hl.1]
          exact fun hc => hnul (by rw [← hc]; simp [BT.ids])
        refine ⟨BT.nd S'l p r, ?_, ?_, ?_, ?_, ?_, ?_, ?_, ?_, ?_, ?_, ?_, ?_, ?_, ?_,
          ⟨_, _, rfl⟩⟩
        · rw [hstep]
          exact ihflag
        · rw [hstep]
          refine ⟨rfl, ?_, ?_, ?_, ?_⟩
          · rw [hIeq]
            exact hv
          · rw [hIeq]
            exact hpq
          · rw [hIeq]
            exact ihRepr
          · rw [hIeq]
            refine repr_congr hr ?_
            intro j hj
            rw [hrfr j hj]
            exact ⟨rfl, rfl, rfl, rfl⟩
        · intro j
          simp only [BT.ids, List.mem_append, List.mem_cons, ihids j]
          tauto
        · show (S'l.ids ++ p :: r.ids).Nodup
          refine List.nodup_append.mpr ⟨ihnd, hndcons, ?_⟩
          intro a ha hb
          rcases (ihids a).mp ha with ha' | ha'
          · subst ha'
            rcases List.mem_cons.mp hb with hb' | hb'
            · exact hinu hb'.symm
            · exact hnur hb'
          · exact hdisj ha' hb
        · rw [hstep, valsOf_node, valsOf_node]
          have h2 : ((((get_position f t ((t.heap p).leftChild) nu).1).heap p).value).getD 0
              = ((t.heap p).value).getD 0 := by
            rw [hIeq]
          have h3 : valsOf ((get_position f t ((t.heap p).leftChild) nu).1).heap r
              = valsOf t.heap r :=
            valsOf_congr (fun j hj => by rw [hrfr j hj])
          rw [h2, h3, ihvals]
          exact (insertSorted_append_lt v _ _ _ hlt).symm
        · intro j hjS hjnu
          rw [hstep]
          exact ihframe j (fun hc => hjS (by simp [BT.ids] at hc ⊢; tauto)) hjnu
        · intro j
          rw [hstep]
          exact ihvalf j
        · intro j hjnu
          rw [hstep]
          exact ihcolf j hjnu
        · rw [hstep]
          exact ihcolnu
        · show subAt (BT.nd S'l p r) nu = some (BT.nd BT.lf nu BT.lf)
          simp only [subAt]
          rw [if_neg hinu, ihsub]
        · rw [hstep]
          have hbr : bhOf ((get_position f t ((t.heap p).leftChild) nu).1).heap r
              = bhOf t.heap r :=
            bhOf_congr (fun j hj => by rw [hrfr j hj])
          have hci : (((get_position f t ((t.heap p).leftChild) nu).1).heap p).color
              = (t.heap p).color := by
            rw [hIeq]
          simp only [bhOf, hbr, hci, ihbh]
        · intro hNR
          obtain ⟨hcond, hnl, hnr⟩ := hNR
          rw [hstep]
          have hredT : ∀ hred : (blacken
              ((get_position f t ((t.heap p).leftChild) nu).1).heap nu p).color
              = RBColor.RED, (t.heap p).color = RBColor.RED := by
            intro hred
            rw [blacken_ne _ _ _ hinu, hIeq] at hred
            exact hred
          refine ⟨?_, ihnoRR hnl, ?_⟩
          · intro hred
            constructor
            · rw [ihshape]
              show (blacken ((get_position f t ((t.heap p).leftChild) nu).1).heap nu
                  ((t.heap p).leftChild)).color = RBColor.BLACK
              rw [blacken_ne _ _ _ hlrnu]
              have hco : (((get_position f t ((t.heap p).leftChild) nu).1).heap
                  ((t.heap p).leftChild)).color
                  = colorOf ((get_position f t ((t.heap p).leftChild) nu).1).heap
                    (BT.nd SA ((t.heap p).leftChild) SB) := rfl
              rw [hco, ← ihshape, ihcolorOf]
              exact (hcond (hredT hred)).1
            · have hcc : colorOf (blacken
                  ((get_position f t ((t.heap p).leftChild) nu).1).heap nu) r
                  = colorOf t.heap r :=
                colorOf_congr (fun j hj => by
                  rw [blacken_ne _ _ j (show j ≠ nu from fun hc => hnur (hc ▸ hj)), hrfr j hj])
              rw [hcc]
              exact (hcond (hredT hred)).2
          · exact (noRR_congr (fun j hj => by
              rw [blacken_ne _ _ j (show j ≠ nu from fun hc => hnur (hc ▸ hj)), hrfr j hj])).mpr hnr
        · rw [hstep]
          show (((get_position f t ((t.heap p).leftChild) nu).1).heap p).color
            = (t.heap p).color
          rw [hIeq]
        · simp [BT.ids] at ihlen ⊢
          omega
    · -- equal key: contradiction with "v is not among the keys"
      exact absurd (by
        rw [hveq]
        exact List.mem_append.mpr (Or.inr (List.mem_cons.mpr (Or.inl rfl))) : v ∈ _) hvnot
    · -- v belongs to the right: descend or attach right
      have hnlt : ¬ v < valOf t p := not_lt.mpr (le_of_lt hgt)
      have hcomp1 : comp (valOf t nu) (valOf t p) = false := by
        simp [comp, hvnu, hnlt]
      have hcomp1' : ¬ (comp (valOf t nu) (valOf t p) = true) := by
        rw [hcomp1]
        exact fun hc => Bool.noConfusion hc
      have hcomp2 : comp (valOf t p) (valOf t nu) = true := by
        simp [comp, hvnu, hgt]
      have hge : ∀ x ∈ valsOf t.heap l ++ [((t.heap p).value).getD 0], ¬ v < x := by
        intro x hx
        rcases List.mem_append.mp hx with hx | hx
        · exact lt_asymm (lt_trans (hlv x hx) hgt)
        · simp at hx
          rw [hx]
          exact hnlt
      cases r with
      | lf =>
        -- right child is the sentinel: attach here
        have hrc : (t.heap p).rightChild = t.nil := hr
        have hguard : (t.heap (t.heap p).rightChild).value = none := by
          rw [hrc]
          exact hnil
        have hstep : get_position (f+1) t p nu = (attachWritesR t p nu, p, true) := by
          rw [get_position, if_neg hv, if_neg hcomp1', if_pos hcomp2, if_pos hguard]
          rfl
        have hres1 : (get_position (f+1) t p nu).1 = attachWritesR t p nu := by
          rw [hstep]
        have hres22 : (get_position (f+1) t p nu).2.2 = true := by
          rw [hstep]
        obtain ⟨F1, F2, F3, -, -, -, -⟩ := attach_right_heap t p nu hinu
        have hlfr : ∀ j ∈ l.ids, (attachWritesR t p nu).heap j = t.heap j :=
          fun j hj => F1 j (fun hc => hil (hc ▸ hj)) (fun hc => hnul (hc ▸ hj))
        refine ⟨BT.nd l p (BT.nd BT.lf nu BT.lf), hres22, ?_, ?_, ?_, ?_, ?_, ?_, ?_, ?_,
          ?_, ?_, ?_, ?_, ?_, ⟨_, _, rfl⟩⟩
        · rw [hres1]
          refine ⟨rfl, ?_, ?_, ?_, ?_⟩
          · rw [F2]
            exact hv
          · rw [F2]
            exact hpq
          · rw [F2]
            show Repr (attachWritesR t p nu).heap t.nil p ((t.heap p).leftChild) l
            refine repr_congr hl ?_
            intro j hj
            rw [hlfr j hj]
            exact ⟨rfl, rfl, rfl, rfl⟩
          · rw [F2]
            show Repr (attachWritesR t p nu).heap t.nil p nu (BT.nd BT.lf nu BT.lf)
            refine ⟨rfl, ?_, ?_, ?_, ?_⟩
            · rw [F3]
              show (t.heap nu).value ≠ none
              rw [hnuv]
              exact fun hc => Option.noConfusion hc
            · rw [F3]
            · show ((attachWritesR t p nu).heap nu).leftChild = t.nil
              rw [F3]
            · show ((attachWritesR t p nu).heap nu).rightChild = t.nil
              rw [F3]
        · intro j
          simp [BT.ids]
          try tauto
        · have hids : (BT.nd l p (BT.nd BT.lf nu BT.lf)).ids = l.ids ++ p :: [nu] := by
            simp [BT.ids]
          rw [hids]
          refine List.nodup_append.mpr ⟨hndl, ?_, ?_⟩
          · simp [List.nodup_cons]
            exact hinu
          · intro a ha hb
            rcases List.mem_cons.mp hb with hb' | hb'
            · exact hdisj ha (by simp [hb'])
            · simp at hb'
              exact hnul (by rw [← hb']; exact ha)
        · rw [hres1, valsOf_node (attachWritesR t p nu).heap l p (BT.nd BT.lf nu BT.lf),
              valsOf_node t.heap l p BT.lf]
          have h1 : valsOf (attachWritesR t p nu).heap (BT.nd BT.lf nu BT.lf) = [v] := by
            simp [valsOf, BT.ids, F3, hnuv]
          have h2 : (((attachWritesR t p nu).heap p).value).getD 0
              = ((t.heap p).value).getD 0 := by
            rw [F2]
          have h3 : valsOf (attachWritesR t p nu).heap l = valsOf t.heap l :=
            valsOf_congr (fun j hj => by rw [hlfr j hj])
          rw [h1, h2, h3]
          have hre : valsOf t.heap l ++ ((t.heap p).value).getD 0 :: valsOf t.heap BT.lf
              = (valsOf t.heap l ++ [((t.heap p).value).getD 0]) ++ ([] : List Int) := by
            simp [valsOf, BT.ids]
          rw [hre, insertSorted_append_ge v _ _ hge]
          simp [insertSorted]
        · intro j hjS hjnu
          rw [hres1]
          exact F1 j (fun hc => hjS (by simp [BT.ids, hc])) hjnu
        · intro j
          rw [hres1]
          by_cases hji : j = p
          · subst hji
            rw [F2]
          · by_cases hjnu : j = nu
            · subst hjnu
              rw [F3]
            · rw [F1 j hji hjnu]
        · intro j hjnu
          rw [hres1]
          by_cases hji : j = p
          · subst hji
            rw [F2]
          · rw [F1 j hji hjnu]
        · rw [hres1, F3]
        · show subAt (BT.nd l p (BT.nd BT.lf nu BT.lf)) nu = some (BT.nd BT.lf nu BT.lf)
          simp only [subAt]
          rw [if_neg hinu]
          have hsubl : subAt l nu = none := by
            cases hsl : subAt l nu with
            | none => rfl
            | some s => exact absurd (subAt_ids_subset hsl nu (subAt_mem_self hsl)) hnul
          rw [hsubl]
          simp [subAt]
        · rw [hres1]
          have hbl2 : bhOf (attachWritesR t p nu).heap l = bhOf t.heap l :=
            bhOf_congr (fun j hj => by rw [hlfr j hj])
          have hcnu : ((attachWritesR t p nu).heap nu).color = RBColor.RED := by
            rw [F3]
          have hci : ((attachWritesR t p nu).heap p).color = (t.heap p).color := by
            rw [F2]
          simp [bhOf, hbl2, hci, hcnu]
        · intro hNR
          obtain ⟨hcond, hnrl, -⟩ := hNR
          rw [hres1]
          have hredT : ∀ hred : (blacken (attachWritesR t p nu).heap nu p).color
              = RBColor.RED, (t.heap p).color = RBColor.RED := by
            intro hred
            rw [blacken_ne _ _ _ hinu, F2] at hred
            exact hred
          refine ⟨?_, ?_, ?_⟩
          · intro hred
            constructor
            · have hcc : colorOf (blacken (attachWritesR t p nu).heap nu) l
                  = colorOf t.heap l :=
                colorOf_congr (fun j hj => by
                  rw [blacken_ne _ _ j (show j ≠ nu from fun hc => hnul (hc ▸ hj)), hlfr j hj])
              rw [hcc]
              exact (hcond (hredT hred)).1
            · show (blacken (attachWritesR t p nu).heap nu nu).color = RBColor.BLACK
              rw [blacken_eq]
          · exact (noRR_congr (fun j hj => by
              rw [blacken_ne _ _ j (show j ≠ nu from fun hc => hnul (hc ▸ hj)), hlfr j hj])).mpr hnrl
          · refine ⟨?_, trivial, trivial⟩
            intro hred
            exfalso
            rw [show (blacken (attachWritesR t p nu).heap nu nu).color = RBColor.BLACK
              from by rw [blacken_eq]] at hred
            exact RBColor.noConfusion hred
        · rw [hres1]
          show ((attachWritesR t p nu).heap p).color = (t.heap p).color
          rw [F2]
        · simp [BT.ids]
      | nd ra rj rb =>
        -- right child is real: descend right
        have hguardF : (t.heap (t.heap p).rightChild).value ≠ none := hr.2.1
        have hstep : get_position (f+1) t p nu
            = get_position f t ((t.heap p).rightChild) nu := by
          rw [get_position, if_neg hv, if_neg hcomp1', if_pos hcomp2, if_neg hguardF]
        obtain ⟨S'r, ihflag, ihRepr, ihids, ihnd, ihvals, ihframe, ihvalf, ihcolf,
            ihcolnu, ihsub, ihbh, ihnoRR, ihcolorOf, ihlen, SA, SB, ihshape⟩ :=
          @ihr p ((t.heap p).rightChild) f hr hndr hnur hnnr hpwr hvnotr (by simp)
            (by simp [BT.ids] at hfuel ⊢; omega)
        have hIeq : ((get_position f t ((t.heap p).rightChild) nu).1).heap p = t.heap p :=
          ihframe p hirn hinu
        have hlfr : ∀ j ∈ l.ids,
            ((get_position f t ((t.heap p).rightChild) nu).1).heap j = t.heap j :=
          fun j hj => ihframe j (fun hc => hdisj hj (by simp [hc]))
            (fun hc => hnul (hc ▸ hj))
        have hrrnu : (t.heap p).rightChild ≠ nu := by
          rw [hr.1]
          exact fun hc => hnur (by rw [← hc]; simp [BT.ids])
        refine ⟨BT.nd l p S'r, ?_, ?_, ?_, ?_, ?_, ?_, ?_, ?_, ?_, ?_, ?_, ?_, ?_, ?_,
          ⟨_, _, rfl⟩⟩
        · rw [hstep]
          exact ihflag
        · rw [hstep]
          refine ⟨rfl, ?_, ?_, ?_, ?_⟩
          · rw [hIeq]
            exact hv
          · rw [hIeq]
            exact hpq
          · rw [hIeq]
            refine repr_congr hl ?_
            intro j hj
            rw [hlfr j hj]
            exact ⟨rfl, rfl, rfl, rfl⟩
          · rw [hIeq]
            exact ihRepr
        · intro j
          simp only [BT.ids, List.mem_append, List.mem_cons, ihids j]
          tauto
        · show (l.ids ++ p :: S'r.ids).Nodup
          refine List.nodup_append.mpr ⟨hndl, ?_, ?_⟩
          · rw [List.nodup_cons]
            refine ⟨?_, ihnd⟩
            intro hc
            rcases (ihids p).mp hc with hc' | hc'
            · exact hinu hc'
            · exact hirn hc'
          · intro a ha hb
            rcases List.mem_cons.mp hb with hb' | hb'
            · exact hdisj ha (by simp [hb'])
            · rcases (ihids a).mp hb' with hb'' | hb''
              · exact hnul (hb'' ▸ ha)
              · exact hdisj ha (by simp [hb''])
        · rw [hstep, valsOf_node, valsOf_node]
          have h2 : ((((get_position f t ((t.heap p).rightChild) nu).1).heap p).value).getD 0
              = ((t.heap p).value).getD 0 := by
            rw [hIeq]
          have h3 : valsOf ((get_position f t ((t.heap p).rightChild) nu).1).heap l
              = valsOf t.heap l :=
            valsOf_congr (fun j hj => by rw [hlfr j hj])
          rw [h2, h3, ihvals]
          have hassoc : valsOf t.heap l ++ ((t.heap p).value).getD 0
                :: valsOf t.heap (BT.nd ra rj rb)
              = (valsOf t.heap l ++ [((t.heap p).value).getD 0])
                ++ valsOf t.heap (BT.nd ra rj rb) := by
            simp
          rw [hassoc, insertSorted_append_ge v _ _ hge]
          simp
        · intro j hjS hjnu
          rw [hstep]
          exact ihframe j (fun hc => hjS (by simp [BT.ids] at hc ⊢; tauto)) hjnu
        · intro j
          rw [hstep]
          exact ihvalf j
        · intro j hjnu
          rw [hstep]
          exact ihcolf j hjnu
        · rw [hstep]
          exact ihcolnu
        · show subAt (BT.nd l p S'r) nu = some (BT.nd BT.lf nu BT.lf)
          simp only [subAt]
          rw [if_neg hinu]
          have hsubl : subAt l nu = none := by
            cases hsl : subAt l nu with
            | none => rfl
            | some s => exact absurd (subAt_ids_subset hsl nu (subAt_mem_self hsl)) hnul
          rw [hsubl, ihsub]
        · rw [hstep]
          have hbl2 : bhOf ((get_position f t ((t.heap p).rightChild) nu).1).heap l
              = bhOf t.heap l :=
            bhOf_congr (fun j hj => by rw [hlfr j hj])
          have hci : (((get_position f t ((t.heap p).rightChild) nu).1).heap p).color
              = (t.heap p).color := by
            rw [hIeq]
          simp only [bhOf, hbl2, hci, ihbh]
        · intro hNR
          obtain ⟨hcond, hnl2, hnr2⟩ := hNR
          rw [hstep]
          have hredT : ∀ hred : (blacken
              ((get_position f t ((t.heap p).rightChild) nu).1).heap nu p).color
              = RBColor.RED, (t.heap p).color = RBColor.RED := by
            intro hred
            rw [blacken_ne _ _ _ hinu, hIeq] at hred
            exact hred
          refine ⟨?_, ?_, ihnoRR hnr2⟩
          · intro hred
            constructor
            · have hcc : colorOf (blacken
                  ((get_position f t ((t.heap p).rightChild) nu).1).heap nu) l
                  = colorOf t.heap l :=
                colorOf_congr (fun j hj => by
                  rw [blacken_ne _ _ j (show j ≠ nu from fun hc => hnul (hc ▸ hj)), hlfr j hj])
              rw [hcc]
              exact (hcond (hredT hred)).1
            · rw [ihshape]
              show (blacken ((get_position f t ((t.heap p).rightChild) nu).1).heap nu
                  ((t.heap p).rightChild)).color = RBColor.BLACK
              rw [blacken_ne _ _ _ hrrnu]
              have hco : (((get_position f t ((t.heap p).rightChild) nu).1).heap
                  ((t.heap p).rightChild)).color
                  = colorOf ((get_position f t ((t.heap p).rightChild) nu).1).heap
                    (BT.nd SA ((t.heap p).rightChild) SB) := rfl
              rw [hco, ← ihshape, ihcolorOf]
              exact (hcond (hredT hred)).2
          · exact (noRR_congr (fun j hj => by
              rw [blacken_ne _ _ j (show j ≠ nu from fun hc => hnul (hc ▸ hj)), hlfr j hj])).mpr hnl2
        · rw [hstep]
          show (((get_position f t ((t.heap p).rightChild) nu).1).heap p).color
            = (t.heap p).color
          rw [hIeq]
        · simp [BT.ids] at ihlen ⊢
          omega

/-- `subAt` fails exactly outside the id set. -/
theorem subAt_eq_none {bt : BT} {x : Nat} (hx : x ∉ bt.ids) : subAt bt x = none := by
  cases hs : subAt bt x with
  | none => rfl
  | some s => exact absurd (subAt_ids_subset hs x (subAt_mem_self hs)) hx

/-- Replacing a subtree by itself is the identity. -/
theorem repAt_self : ∀ {bt : BT} {x : Nat} {S : BT}, subAt bt x = some S →
    repAt bt x S = bt := by
  intro bt
  induction bt with
  | lf => intro x S hs; rfl
  | nd l i r ihl ihr =>
    intro x S hs
    simp only [subAt] at hs
    simp only [repAt]
    by_cases hix : i = x
    · rw [if_pos hix] at hs ⊢
      exact (Option.some.inj hs).symm
    · rw [if_neg hix] at hs ⊢
      cases hsl : subAt l x with
      | some s =>
        rw [hsl] at hs
        have hsS : s = S := Option.some.inj hs
        subst hsS
        show BT.nd (repAt l x s) i r = BT.nd l i r
        rw [ihl hsl]
      | none =>
        rw [hsl] at hs
        show BT.nd l i (repAt r x S) = BT.nd l i r
        rw [ihr hs]

/-- Replacing a subtree by one with the same in-order ids keeps the
whole tree's in-order ids. -/
theorem repAt_ids_eq {bt : BT} {x : Nat} {S S' : BT} (hs : subAt bt x = some S)
    (hid : S'.ids = S.ids) : (repAt bt x S').ids = bt.ids := by
  obtain ⟨pre, post, hdec, hrep⟩ := subAt_ids_decomp hs
  rw [hrep S', hid, hdec]

/-- A subtree found in the left child is found at the node. -/
theorem subAt_lift_left {l : BT} {i : Nat} {r : BT} {x : Nat} {S : BT}
    (hix : i ≠ x) (hs : subAt l x = some S) : subAt (BT.nd l i r) x = some S := by
  simp only [subAt]
  rw [if_neg hix, hs]

/-- A subtree found in the right child is found at the node when the
left child misses it. -/
theorem subAt_lift_right {l : BT} {i : Nat} {r : BT} {x : Nat} {S : BT}
    (hix : i ≠ x) (hl : subAt l x = none) (hs : subAt r x = some S) :
    subAt (BT.nd l i r) x = some S := by
  simp only [subAt]
  rw [if_neg hix, hl, hs]

/-- Every tree node has an ancestor path. -/
theorem pathTo_of_mem : ∀ {bt : BT} {x : Nat}, x ∈ bt.ids →
    ∃ pa, pathTo bt x = some pa := by
  intro bt
  induction bt with
  | lf => intro x hx; simp [BT.ids] at hx
  | nd l i r ihl ihr =>
    intro x hx
    rw [pathTo]
    by_cases hix : i = x
    · exact ⟨[], by rw [if_pos hix]⟩
    · rw [if_neg hix]
      simp only [BT.ids, List.mem_append, List.mem_cons] at hx
      rcases hx with hx | hx | hx
      · obtain ⟨pa, hpa⟩ := ihl hx
        exact ⟨i :: pa, by rw [hpa]⟩
      · exact absurd hx.symm hix
      · obtain ⟨pa, hpa⟩ := ihr hx
        cases hl : pathTo l x with
        | some pl => exact ⟨i :: pl, rfl⟩
        | none => exact ⟨i :: pa, by rw [hpa]⟩

/-- Ancestor paths are shorter than the tree. -/
theorem pathTo_length : ∀ {bt : BT} {x : Nat} {pa : List Nat},
    pathTo bt x = some pa → pa.length < bt.ids.length := by
  intro bt
  induction bt with
  | lf =>
    intro x pa hpa
    exact absurd hpa (by rw [pathTo]; exact fun h => Option.noConfusion h)
  | nd l i r ihl ihr =>
    intro x pa hpa
    rw [pathTo] at hpa
    have hlen : (BT.nd l i r).ids.length = l.ids.length + 1 + r.ids.length := by
      simp [BT.ids]
      omega
    by_cases hix : i = x
    · rw [if_pos hix] at hpa
      rw [← Option.some.inj hpa]
      simp [hlen]
    · rw [if_neg hix] at hpa
      cases hl : pathTo l x with
      | some pl =>
        rw [hl] at hpa
        rw [← Option.some.inj hpa]
        have := ihl hl
        simp [hlen]
        omega
      | none =>
        rw [hl] at hpa
        cases hr : pathTo r x with
        | some pr =>
          rw [hr] at hpa
          rw [← Option.some.inj hpa]
          have := ihr hr
          simp [hlen]
          omega
        | none =>
          rw [hr] at hpa
          exact absurd hpa (fun h => Option.noConfusion h)

/-- A found subtree is no longer than the tree. -/
theorem subAt_length_le {bt : BT} {x : Nat} {S : BT} (hs : subAt bt x = some S) :
    S.ids.length ≤ bt.ids.length := by
  obtain ⟨pre, post, hdec, -⟩ := subAt_ids_decomp hs
  rw [hdec]
  simp
  omega

/-- Locating the parent of a non-root node: the heap parent pointer of
`x` names a tree node whose subtree carries `x`'s subtree as the
matching child, on exactly one side. -/
theorem subAt_parent_split {h : Nat → Node} {nil : Nat} :
    ∀ {bt : BT} {q s : Nat}, Repr h nil q s bt → bt.ids.Nodup →
      (∀ j ∈ bt.ids, j ≠ nil) →
      ∀ {x : Nat} {Sx : BT}, subAt bt x = some Sx → x ≠ s →
      ∃ PL PR,
        subAt bt ((h x).parent) = some (BT.nd PL ((h x).parent) PR) ∧
        (((h ((h x).parent)).leftChild = x ∧ (h ((h x).parent)).rightChild ≠ x ∧ PL = Sx) ∨
         ((h ((h x).parent)).rightChild = x ∧ (h ((h x).parent)).leftChild ≠ x ∧ PR = Sx)) := by
  intro bt
  induction bt with
  | lf =>
    intro q s _ _ _ x Sx hsub _
    exact absurd hsub (fun hc => Option.noConfusion hc)
  | nd l i r ihl ihr =>
    intro q s hR hnd hnn x Sx hsub hxs
    obtain ⟨hsi, hv, hp, hl, hr⟩ := hR
    subst hsi
    simp only [subAt] at hsub
    rw [if_neg (fun hc => hxs hc.symm)] at hsub
    obtain ⟨hndl, hndcons, hdisj⟩ := List.nodup_append.mp (hnd : (l.ids ++ s :: r.ids).Nodup)
    obtain ⟨hsr, hndr⟩ := List.nodup_cons.mp hndcons
    have hsl : s ∉ l.ids := fun hc => hdisj hc (by simp)
    have hnnl : ∀ j ∈ l.ids, j ≠ nil := fun j hj => hnn j (by simp [BT.ids, hj])
    have hnnr : ∀ j ∈ r.ids, j ≠ nil := fun j hj => hnn j (by simp [BT.ids, hj])
    cases hsubl : subAt l x with
    | some sx =>
      rw [hsubl] at hsub
      have hsxSx : sx = Sx := Option.some.inj hsub
      subst hsxSx
      cases l with
      | lf => exact absurd hsubl (fun hc => Option.noConfusion hc)
      | nd A lj B =>
        by_cases hljx : lj = x
        · subst hljx
          have hSx : BT.nd A lj B = sx := by
            have hself : subAt (BT.nd A lj B) lj = some (BT.nd A lj B) := by
              simp [subAt]
            rw [hself] at hsubl
            exact Option.some.inj hsubl
          have hpx : (h lj).parent = s := by
            have h1 : (h s).leftChild = lj := hl.1
            have h2 : (h ((h s).leftChild)).parent = s := hl.2.2.1
            rw [h1] at h2
            exact h2
          refine ⟨BT.nd A lj B, r, ?_, ?_⟩
          · rw [hpx]
            simp [subAt]
          · left
            rw [hpx]
            refine ⟨hl.1, ?_, hSx⟩
            intro hc
            cases r with
            | lf =>
              have hrn : (h s).rightChild = nil := hr
              rw [hrn] at hc
              exact hnnl lj (by simp [BT.ids]) hc.symm
            | nd C rj D =>
              have hrj : (h s).rightChild = rj := hr.1
              rw [hrj] at hc
              exact hdisj (show lj ∈ (BT.nd A lj B).ids by simp [BT.ids])
                (by simp [BT.ids, ← hc])
        · obtain ⟨PL, PR, hsubp, hside⟩ :=
            ihl hl hndl hnnl hsubl (by rw [hl.1]; exact fun hc => hljx hc.symm)
          have hpin : (h x).parent ∈ (BT.nd A lj B).ids :=
            subAt_ids_subset hsubp _ (subAt_mem_self hsubp)
          refine ⟨PL, PR, ?_, hside⟩
          exact subAt_lift_left (fun hc => hsl (hc ▸ hpin)) hsubp
    | none =>
      rw [hsubl] at hsub
      cases r with
      | lf => exact absurd hsub (fun hc => Option.noConfusion hc)
      | nd C rj D =>
        by_cases hrjx : rj = x
        · subst hrjx
          have hSx : BT.nd C rj D = Sx := by
            have hself : subAt (BT.nd C rj D) rj = some (BT.nd C rj D) := by
              simp [subAt]
            rw [hself] at hsub
            exact Option.some.inj hsub
          have hpx : (h rj).parent = s := by
            have h1 : (h s).rightChild = rj := hr.1
            have h2 : (h ((h s).rightChild)).parent = s := hr.2.2.1
            rw [h1] at h2
            exact h2
          refine ⟨l, BT.nd C rj D, ?_, ?_⟩
          · rw [hpx]
            simp [subAt]
          · right
            rw [hpx]
            refine ⟨hr.1, ?_, hSx⟩
            intro hc
            cases l with
            | lf =>
              have hln : (h s).leftChild = nil := hl
              rw [hln] at hc
              exact hnnr rj (by simp [BT.ids]) hc.symm
            | nd A lj B =>
              have hlj : (h s).leftChild = lj := hl.1
              rw [hlj] at hc
              exact hdisj (show lj ∈ (BT.nd A lj B).ids by simp [BT.ids])
                (by simp [BT.ids, hc])
        · obtain ⟨PL, PR, hsubp, hside⟩ :=
            ihr hr hndr hnnr hsub (by rw [hr.1]; exact fun hc => hrjx hc.symm)
          have hpin : (h x).parent ∈ (BT.nd C rj D).ids :=
            subAt_ids_subset hsubp _ (subAt_mem_self hsubp)
          refine ⟨PL, PR, ?_, hside⟩
          refine subAt_lift_right ?_ (subAt_eq_none ?_) hsubp
          · intro hc
            exact hsr (hc ▸ hpin)
          · intro hc
            exact hdisj hc (by simp [hpin])

/-- Splitting the no-duplicates property of a node's id list into its
five standard pieces. -/
theorem nodup_nd_parts {l : BT} {j : Nat} {r : BT} (hnd : (BT.nd l j r).ids.Nodup) :
    l.ids.Nodup ∧ r.ids.Nodup ∧ j ∉ l.ids ∧ j ∉ r.ids ∧ ∀ a ∈ l.ids, a ∉ r.ids := by
  have hnd' : (l.ids ++ j :: r.ids).Nodup := hnd
  obtain ⟨h1, h2, h3⟩ := List.nodup_append.mp hnd'
  obtain ⟨h4, h5⟩ := List.nodup_cons.mp h2
  exact ⟨h1, h5, fun hc => h3 hc (by simp), h4, fun a ha hc => h3 ha (by simp [hc])⟩

/-- Replacing a subtree strictly below `g` commutes with looking up
`g`'s subtree. -/
theorem subAt_repAt_comm :
    ∀ {bt : BT} {g x : Nat} {G S S' : BT},
      subAt bt g = some G → subAt G x = some S → g ≠ x → bt.ids.Nodup →
      subAt (repAt bt x S') g = some (repAt G x S') := by
  intro bt
  induction bt with
  | lf => intro g x G S S' hg _ _ _; exact absurd hg (fun hc => Option.noConfusion hc)
  | nd l j r ihl ihr =>
    intro g x G S S' hg hx hgx hnd
    obtain ⟨hndl, hndr, hjl, hjr, hlr⟩ := nodup_nd_parts hnd
    simp only [subAt] at hg
    by_cases hjg : j = g
    · rw [if_pos hjg] at hg
      have hGw : G = BT.nd l j r := (Option.some.inj hg).symm
      subst hGw
      have hjx : ¬ j = x := fun hc => hgx (hjg ▸ hc.symm ▸ rfl)
      simp only [repAt, if_neg hjx]
      cases hax : subAt l x with
      | some s =>
        show subAt (BT.nd (repAt l x S') j r) g = _
        simp only [subAt, if_pos hjg]
      | none =>
        show subAt (BT.nd l j (repAt r x S')) g = _
        simp only [subAt, if_pos hjg]
    · rw [if_neg hjg] at hg
      have hxG : x ∈ G.ids := subAt_ids_subset hx x (subAt_mem_self hx)
      cases hlg : subAt l g with
      | some s =>
        rw [hlg] at hg
        have hsG : s = G := Option.some.inj hg
        subst hsG
        have hxl : x ∈ l.ids := subAt_ids_subset hlg x hxG
        have hjx : ¬ j = x := fun hc => hjl (hc ▸ hxl)
        simp only [repAt, if_neg hjx]
        cases hax : subAt l x with
        | some s2 =>
          show subAt (BT.nd (repAt l x S') j r) g = _
          simp only [subAt, if_neg hjg]
          rw [ihl hlg hx hgx hndl]
        | none =>
          exact absurd hax (by
            have := subAt_isSome_of_mem hxl
            intro hc
            rw [hc] at this
            simp at this)
      | none =>
        rw [hlg] at hg
        have hxr : x ∈ r.ids := subAt_ids_subset hg x hxG
        have hjx : ¬ j = x := fun hc => hjr (hc ▸ hxr)
        have hlx : subAt l x = none := subAt_eq_none (fun hc => hlr x hc hxr)
        simp only [repAt, if_neg hjx, hlx]
        show subAt (BT.nd l j (repAt r x S')) g = _
        simp only [subAt, if_neg hjg, hlg]
        exact ihr hg hx hgx hndr

/-- Two-heap black-height graft: replacing the subtree at `x` by one of
the same black-height under the new heap, while colors outside the old
subtree agree, keeps the black-height of the whole tree. -/
theorem bhOf_graft_local {h h' : Nat → Node} :
    ∀ {bt : BT} {x : Nat} {S S' : BT},
      subAt bt x = some S → bt.ids.Nodup →
      bhOf h' S' = bhOf h S →
      (∀ j ∈ bt.ids, j ∉ S.ids → (h' j).color = (h j).color) →
      bhOf h' (repAt bt x S') = bhOf h bt := by
  intro bt
  induction bt with
  | lf => intro x S S' hsub _ _ _; exact absurd hsub (fun hc => Option.noConfusion hc)
  | nd l j r ihl ihr =>
    intro x S S' hsub hnd hbh hag
    obtain ⟨hndl, hndr, hjl, hjr, hlr⟩ := nodup_nd_parts hnd
    simp only [subAt] at hsub
    by_cases hjx : j = x
    · rw [if_pos hjx] at hsub
      have hSw : S = BT.nd l j r := (Option.some.inj hsub).symm
      simp only [repAt, if_pos hjx]
      rw [hbh, hSw]
    · rw [if_neg hjx] at hsub
      simp only [repAt, if_neg hjx]
      cases hsl : subAt l x with
      | some s =>
        rw [hsl] at hsub
        have hsS : s = S := Option.some.inj hsub
        subst hsS
        have hSsub : s.ids ⊆ l.ids := subAt_ids_subset hsl
        have hl' : bhOf h' (repAt l x S') = bhOf h l :=
          ihl hsl hndl hbh (fun j2 hj2 hj2n => hag j2 (by simp [BT.ids, hj2]) hj2n)
        have hr' : bhOf h' r = bhOf h r :=
          bhOf_congr (fun j2 hj2 => hag j2 (by simp [BT.ids, hj2])
            (fun hc => hlr j2 (hSsub hc) hj2))
        have hj' : (h' j).color = (h j).color :=
          hag j (by simp [BT.ids]) (fun hc => hjl (hSsub hc))
        show bhOf h' (BT.nd (repAt l x S') j r) = bhOf h (BT.nd l j r)
        simp only [bhOf, hl', hr', hj']
      | none =>
        rw [hsl] at hsub
        have hSsub : S.ids ⊆ r.ids := subAt_ids_subset hsub
        have hr' : bhOf h' (repAt r x S') = bhOf h r :=
          ihr hsub hndr hbh (fun j2 hj2 hj2n => hag j2 (by simp [BT.ids, hj2]) hj2n)
        have hl' : bhOf h' l = bhOf h l :=
          bhOf_congr (fun j2 hj2 => hag j2 (by simp [BT.ids, hj2])
            (fun hc => hlr j2 hj2 (hSsub hc)))
        have hj' : (h' j).color = (h j).color :=
          hag j (by simp [BT.ids]) (fun hc => hjr (hSsub hc))
        show bhOf h' (BT.nd l j (repAt r x S')) = bhOf h (BT.nd l j r)
        simp only [bhOf, hl', hr', hj']

/-- Two-heap no-red-red graft: replacing the subtree at `x` by a
no-red-red subtree keeps the whole tree no-red-red, provided colors
outside the old subtree agree and the edge into the graft point stays
safe: either the new root is BLACK whenever the old one was, or the
tree parent of the graft point is BLACK under the new heap. -/
theorem noRR_graft_local {h h' : Nat → Node} :
    ∀ {bt : BT} {x : Nat} {S S' : BT},
      subAt bt x = some S → bt.ids.Nodup →
      noRR h bt → noRR h' S' →
      (∀ j ∈ bt.ids, j ∉ S.ids → (h' j).color = (h j).color) →
      ((colorOf h S = RBColor.BLACK → colorOf h' S' = RBColor.BLACK) ∨
       (∀ i L R, subAt bt i = some (BT.nd L i R) →
         ((∃ a b, L = BT.nd a x b) ∨ (∃ a b, R = BT.nd a x b)) →
         (h' i).color = RBColor.BLACK)) →
      noRR h' (repAt bt x S') := by
  intro bt
  induction bt with
  | lf => intro x S S' hsub _ _ _ _ _; exact trivial
  | nd l j r ihl ihr =>
    intro x S S' hsub hnd hNR hS' hag hcol
    obtain ⟨hndl, hndr, hjl, hjr, hlr⟩ := nodup_nd_parts hnd
    simp only [subAt] at hsub
    by_cases hjx : j = x
    · simp only [repAt, if_pos hjx]
      exact hS'
    · rw [if_neg hjx] at hsub
      simp only [repAt, if_neg hjx]
      cases hsl : subAt l x with
      | some s =>
        rw [hsl] at hsub
        have hsS : s = S := Option.some.inj hsub
        subst hsS
        have hSsub : s.ids ⊆ l.ids := subAt_ids_subset hsl
        have hxl : x ∈ l.ids := hSsub (subAt_mem_self hsl)
        have hcol' : (colorOf h s = RBColor.BLACK → colorOf h' S' = RBColor.BLACK) ∨
            (∀ i L R, subAt l i = some (BT.nd L i R) →
              ((∃ a b, L = BT.nd a x b) ∨ (∃ a b, R = BT.nd a x b)) →
              (h' i).color = RBColor.BLACK) := by
          rcases hcol with hcol | hcol
          · exact Or.inl hcol
          · right
            intro i L R hi hside
            have himem : i ∈ l.ids := subAt_ids_subset hi i (subAt_mem_self hi)
            exact hcol i L R (subAt_lift_left (fun hc => hjl (hc ▸ himem)) hi) hside
        have hlrec : noRR h' (repAt l x S') :=
          ihl hsl hndl hNR.2.1 hS'
            (fun j2 hj2 hj2n => hag j2 (by simp [BT.ids, hj2]) hj2n) hcol'
        have hrnr : noRR h' r :=
          (noRR_congr (fun j2 hj2 => hag j2 (by simp [BT.ids, hj2])
            (fun hc => hlr j2 (hSsub hc) hj2))).mpr hNR.2.2
        show noRR h' (BT.nd (repAt l x S') j r)
        refine ⟨?_, hlrec, hrnr⟩
        intro hred'
        have hjc : (h' j).color = (h j).color :=
          hag j (by simp [BT.ids]) (fun hc => hjl (hSsub hc))
        have hred : (h j).color = RBColor.RED := by rw [← hjc]; exact hred'
        obtain ⟨hclB, hcrB⟩ := hNR.1 hred
        have hcr' : colorOf h' r = colorOf h r :=
          colorOf_congr (fun j2 hj2 => hag j2 (by simp [BT.ids, hj2])
            (fun hc => hlr j2 (hSsub hc) hj2))
        refine ⟨?_, by rw [hcr']; exact hcrB⟩
        cases l with
        | lf => simp [BT.ids] at hxl
        | nd a c b =>
          by_cases hcx : c = x
          · have hls : BT.nd a c b = s := by
              have hself : subAt (BT.nd a c b) x = some (BT.nd a c b) := by
                simp [subAt, hcx]
              rw [hself] at hsl
              exact Option.some.inj hsl
            simp only [repAt, if_pos hcx]
            rcases hcol with hcol | hcol
            · exact hcol (by rw [hls] at hclB; exact hclB)
            · exact absurd (hcol j (BT.nd a c b) r
                (by simp [subAt])
                (Or.inl ⟨a, b, by rw [hcx]⟩))
                (by rw [hred']; intro hc; cases hc)
          · have hcs : c ∉ s.ids := by
              rcases subAt_strict hsl hcx with hin | hin
              · obtain ⟨hna, -, hca, -, -⟩ := nodup_nd_parts hndl
                exact fun hc => hca (hin c hc)
              · obtain ⟨-, -, -, hcb, -⟩ := nodup_nd_parts hndl
                exact fun hc => hcb (hin c hc)
            have hcc : (h' c).color = (h c).color :=
              hag c (by simp [BT.ids]) hcs
            have hcl : colorOf h (BT.nd a c b) = RBColor.BLACK := hclB
            simp only [repAt, if_neg hcx]
            cases hax : subAt a x with
            | some s2 =>
              show colorOf h' (BT.nd (repAt a x S') c b) = RBColor.BLACK
              show (h' c).color = RBColor.BLACK
              rw [hcc]
              exact hcl
            | none =>
              show colorOf h' (BT.nd a c (repAt b x S')) = RBColor.BLACK
              show (h' c).color = RBColor.BLACK
              rw [hcc]
              exact hcl
      | none =>
        rw [hsl] at hsub
        have hSsub : S.ids ⊆ r.ids := subAt_ids_subset hsub
        have hxr : x ∈ r.ids := hSsub (subAt_mem_self hsub)
        have hcol' : (colorOf h S = RBColor.BLACK → colorOf h' S' = RBColor.BLACK) ∨
            (∀ i L R, subAt r i = some (BT.nd L i R) →
              ((∃ a b, L = BT.nd a x b) ∨ (∃ a b, R = BT.nd a x b)) →
              (h' i).color = RBColor.BLACK) := by
          rcases hcol with hcol | hcol
          · exact Or.inl hcol
          · right
            intro i L R hi hside
            have himem : i ∈ r.ids := subAt_ids_subset hi i (subAt_mem_self hi)
            refine hcol i L R (subAt_lift_right (fun hc => hjr (hc ▸ himem))
              (subAt_eq_none (fun hc => hlr i hc himem)) hi) hside
        have hrrec : noRR h' (repAt r x S') :=
          ihr hsub hndr hNR.2.2 hS'
            (fun j2 hj2 hj2n => hag j2 (by simp [BT.ids, hj2]) hj2n) hcol'
        have hlnr : noRR h' l :=
          (noRR_congr (fun j2 hj2 => hag j2 (by simp [BT.ids, hj2])
            (fun hc => hlr j2 hj2 (hSsub hc)))).mpr hNR.2.1
        show noRR h' (BT.nd l j (repAt r x S'))
        refine ⟨?_, hlnr, hrrec⟩
        intro hred'
        have hjc : (h' j).color = (h j).color :=
          hag j (by simp [BT.ids]) (fun hc => hjr (hSsub hc))
        have hred : (h j).color = RBColor.RED := by rw [← hjc]; exact hred'
        obtain ⟨hclB, hcrB⟩ := hNR.1 hred
        have hcl' : colorOf h' l = colorOf h l :=
          colorOf_congr (fun j2 hj2 => hag j2 (by simp [BT.ids, hj2])
            (fun hc => hlr j2 hj2 (hSsub hc)))
        refine ⟨by rw [hcl']; exact hclB, ?_⟩
        cases r with
        | lf => simp [BT.ids] at hxr
        | nd a c b =>
          by_cases hcx : c = x
          · have hls : BT.nd a c b = S := by
              have hself : subAt (BT.nd a c b) x = some (BT.nd a c b) := by
                simp [subAt, hcx]
              rw [hself] at hsub
              exact Option.some.inj hsub
            simp only [repAt, if_pos hcx]
            rcases hcol with hcol | hcol
            · exact hcol (by rw [hls] at hcrB; exact hcrB)
            · exact absurd (hcol j l (BT.nd a c b)
                (by simp [subAt])
                (Or.inr ⟨a, b, by rw [hcx]⟩))
                (by rw [hred']; intro hc; cases hc)
          · have hcs : c ∉ S.ids := by
              rcases subAt_strict hsub hcx with hin | hin
              · obtain ⟨hna, -, hca, -, -⟩ := nodup_nd_parts hndr
                exact fun hc => hca (hin c hc)
              · obtain ⟨-, -, -, hcb, -⟩ := nodup_nd_parts hndr
                exact fun hc => hcb (hin c hc)
            have hcc : (h' c).color = (h c).color :=
              hag c (by simp [BT.ids]) hcs
            have hcl : colorOf h (BT.nd a c b) = RBColor.BLACK := hcrB
            simp only [repAt, if_neg hcx]
            cases hax : subAt a x with
            | some s2 =>
              show colorOf h' (BT.nd (repAt a x S') c b) = RBColor.BLACK
              show (h' c).color = RBColor.BLACK
              rw [hcc]
              exact hcl
            | none =>
              show colorOf h' (BT.nd a c (repAt b x S')) = RBColor.BLACK
              show (h' c).color = RBColor.BLACK
              rw [hcc]
              exact hcl

/-- If the tree is no-red-red with `x` pretended BLACK, `x`'s actual
children are black-rooted, and every tree parent of `x` is BLACK, then
the tree is no-red-red with `x`'s real color. -/
theorem noRR_unblacken {h : Nat → Node} {x : Nat} {XL XR : BT} {bt : BT}
    (hnd : bt.ids.Nodup)
    (hsub : subAt bt x = some (BT.nd XL x XR))
    (hNR : noRR (blacken h x) bt)
    (hXL : colorOf h XL = RBColor.BLACK) (hXR : colorOf h XR = RBColor.BLACK)
    (hpar : ∀ i L R, subAt bt i = some (BT.nd L i R) →
      ((∃ a b, L = BT.nd a x b) ∨ (∃ a b, R = BT.nd a x b)) →
      (h i).color = RBColor.BLACK) :
    noRR h bt := by
  have hxnotl : x ∉ XL.ids ∧ x ∉ XR.ids := by
    obtain ⟨h1, h2, h3, h4, h5⟩ := nodup_nd_parts (subAt_nodup hsub hnd)
    exact ⟨h3, h4⟩
  have hstep : noRR h (repAt bt x (BT.nd XL x XR)) := by
    refine noRR_graft_local hsub hnd hNR ?_ ?_ (Or.inr hpar)
    · refine ⟨fun _ => ⟨hXL, hXR⟩, ?_, ?_⟩
      · refine (noRR_congr ?_).mpr (noRR_subAt hsub hNR).2.1
        intro j hj
        rw [blacken_ne h x j (fun hc => hxnotl.1 (hc ▸ hj))]
      · refine (noRR_congr ?_).mpr (noRR_subAt hsub hNR).2.2
        intro j hj
        rw [blacken_ne h x j (fun hc => hxnotl.2 (hc ▸ hj))]
    · intro j hj hjn
      rw [blacken_ne h x j (fun hc => hjn (by rw [hc]; simp [BT.ids]))]
  rw [repAt_self hsub] at hstep
  exact hstep

theorem setLeft_color (t : RBTree) (i l j : Nat) :
    ((setLeft t i l).heap j).color = (t.heap j).color := by
  simp only [setLeft, writeNode]
  split <;> simp_all

theorem setRight_color (t : RBTree) (i r j : Nat) :
    ((setRight t i r).heap j).color = (t.heap j).color := by
  simp only [setRight, writeNode]
  split <;> simp_all

theorem setParent_color (t : RBTree) (i p j : Nat) :
    ((setParent t i p).heap j).color = (t.heap j).color := by
  simp only [setParent, writeNode]
  split <;> simp_all

/-- Rotations never touch a color. -/
theorem rotate_left_color (t : RBTree) (n j : Nat) :
    ((rotate_left t n).heap j).color = (t.heap j).color := by
  simp only [rotate_left]
  repeat' split
  all_goals simp [setLeft_color, setRight_color, setParent_color]

theorem rotate_right_color (t : RBTree) (n j : Nat) :
    ((rotate_right t n).heap j).color = (t.heap j).color := by
  simp only [rotate_right]
  repeat' split
  all_goals simp [setLeft_color, setRight_color, setParent_color]

/-- A left rotation writes only the four slots it names. -/
theorem rotate_left_heap_frame (t : RBTree) (n j : Nat)
    (h1 : j ≠ n) (h2 : j ≠ (t.heap n).rightChild)
    (h3 : j ≠ (t.heap (t.heap n).rightChild).leftChild)
    (h4 : j ≠ (t.heap n).parent) :
    (rotate_left t n).heap j = t.heap j := by
  simp only [rotate_left]
  repeat' split
  all_goals simp [setLeft, setRight, setParent, writeNode, h1, h2, h3, h4]

/-- A right rotation writes only the four slots it names. -/
theorem rotate_right_heap_frame (t : RBTree) (n j : Nat)
    (h1 : j ≠ n) (h2 : j ≠ (t.heap n).leftChild)
    (h3 : j ≠ (t.heap (t.heap n).leftChild).rightChild)
    (h4 : j ≠ (t.heap n).parent) :
    (rotate_right t n).heap j = t.heap j := by
  simp only [rotate_right]
  repeat' split
  all_goals simp [setLeft, setRight, setParent, writeNode, h1, h2, h3, h4]

theorem recolor5_heap_ne (t : RBTree) (p g j : Nat) (hjp : j ≠ p) (hjg : j ≠ g) :
    (recolor5 t p g).heap j = t.heap j := by
  rw [recolor5, setColor_heap_ne _ _ _ _ hjg, setColor_heap_ne _ _ _ _ hjp]

theorem recolor5_heap_p (t : RBTree) (p g : Nat) (hpg : p ≠ g) :
    (recolor5 t p g).heap p = { t.heap p with color := RBColor.BLACK } := by
  rw [recolor5, setColor_heap_ne _ _ _ _ hpg, setColor_heap_eq]

theorem recolor5_heap_g (t : RBTree) (p g : Nat) (hpg : p ≠ g) :
    (recolor5 t p g).heap g =
      { t.heap g with color := RBColor.RED } := by
  rw [recolor5, setColor_heap_eq, setColor_heap_ne _ _ _ _ (Ne.symm hpg)]

theorem recolor5_value (t : RBTree) (p g j : Nat) :
    ((recolor5 t p g).heap j).value = (t.heap j).value := by
  rw [recolor5]
  simp

theorem recolor5_root (t : RBTree) (p g : Nat) : (recolor5 t p g).root = t.root := rfl

theorem recolor5_nil (t : RBTree) (p g : Nat) : (recolor5 t p g).nil = t.nil := rfl

theorem recolor5_size (t : RBTree) (p g : Nat) : (recolor5 t p g).size = t.size := rfl

theorem recolor5_nextId (t : RBTree) (p g : Nat) : (recolor5 t p g).nextId = t.nextId := rfl

/-- Splitting a defined black-height at a node into its components. -/
theorem bhOf_nd_some {h : Nat → Node} {l : BT} {i : Nat} {r : BT}
    (hs : (bhOf h (BT.nd l i r)).isSome = true) :
    ∃ a, bhOf h l = some a ∧ bhOf h r = some a ∧
      bhOf h (BT.nd l i r) =
        some (a + (if (h i).color = RBColor.BLACK then 1 else 0)) := by
  cases hl : bhOf h l with
  | none => simp only [bhOf, hl] at hs; simp at hs
  | some a =>
    cases hr : bhOf h r with
    | none => simp only [bhOf, hl, hr] at hs; simp at hs
    | some b =>
      by_cases hab : a = b
      · subst hab
        exact ⟨a, rfl, rfl, by simp only [bhOf, hl, hr]; simp⟩
      · simp only [bhOf, hl, hr] at hs
        rw [if_neg hab] at hs
        simp at hs

/-- The color of a replaced tree: the graft's root color if the graft
point was the root, the unchanged root color otherwise. -/
theorem colorOf_repAt_cases {h : Nat → Node} {bt : BT} {x : Nat} {S' : BT} {l : BT}
    {j : Nat} {r : BT} (hbt : bt = BT.nd l j r) :
    (j = x ∧ colorOf h (repAt bt x S') = colorOf h S') ∨
    (j ≠ x ∧ colorOf h (repAt bt x S') = (h j).color) := by
  subst hbt
  by_cases hjx : j = x
  · left
    refine ⟨hjx, ?_⟩
    simp only [repAt, if_pos hjx]
  · right
    refine ⟨hjx, ?_⟩
    simp only [repAt, if_neg hjx]
    cases hax : subAt l x with
    | some s => rfl
    | none => rfl

/-- A represented slot is the sentinel or a tree node. -/
theorem repr_slot_mem {h : Nat → Node} {nil q i : Nat} {bt : BT}
    (hR : Repr h nil q i bt) : i = nil ∨ i ∈ bt.ids := by
  cases bt with
  | lf => exact Or.inl hR
  | nd l j r => exact Or.inr (by rw [hR.1]; simp [BT.ids])

/-- Building a node's black-height from matching components. -/
theorem bhOf_node_build {h : Nat → Node} {l : BT} {i : Nat} {r : BT} {a : Nat}
    (hl : bhOf h l = some a) (hr : bhOf h r = some a) :
    bhOf h (BT.nd l i r) =
      some (a + (if (h i).color = RBColor.BLACK then 1 else 0)) := by
  have : bhOf h (BT.nd l i r) = match bhOf h l, bhOf h r with
      | some a, some b =>
        if a = b then some (a + (if (h i).color = RBColor.BLACK then 1 else 0)) else none
      | _, _ => none := rfl
  rw [this, hl, hr]
  simp

/-- `insert_case5` on the straight left-left shape (`z` RED left child of
RED `p`, itself left child of BLACK `g`): recolor `p` BLACK and `g` RED,
rotate right at `g`.  Locally the subtree `nd (nd (nd ZL z ZR) p PRr) g U`
becomes `nd (nd ZL z ZR) p (nd PRr g U)`; no-red-red is restored, every
black-height is kept, and the root ends BLACK. -/
theorem insert_case5_left {t : RBTree} {bt ZL ZR PRr U S' : BT} {z p g : Nat}
    (hR : Repr t.heap t.nil t.nil t.root bt)
    (hnd : bt.ids.Nodup)
    (hnn : ∀ j ∈ bt.ids, j ≠ t.nil)
    (hnilv : (t.heap t.nil).value = none)
    (hnilc : (t.heap t.nil).color = RBColor.BLACK)
    (hsub : subAt bt g = some (BT.nd (BT.nd (BT.nd ZL z ZR) p PRr) g U))
    (hpc : (t.heap p).color = RBColor.RED)
    (hgc : (t.heap g).color = RBColor.BLACK)
    (hZL : colorOf t.heap ZL = RBColor.BLACK)
    (hZR : colorOf t.heap ZR = RBColor.BLACK)
    (hPR : colorOf t.heap PRr = RBColor.BLACK)
    (hU : colorOf t.heap U = RBColor.BLACK)
    (hNR : noRR (blacken t.heap z) bt)
    (hbh : (bhOf t.heap bt).isSome = true)
    (hroot : (t.heap t.root).color = RBColor.BLACK ∨ t.root = g)
    (hS' : S' = BT.nd (BT.nd ZL z ZR) p (BT.nd PRr g U)) :
    Repr (insert_case5 t z).heap t.nil t.nil (insert_case5 t z).root (repAt bt g S') ∧
      (repAt bt g S').ids = bt.ids ∧
      (∀ j, ((insert_case5 t z).heap j).value = (t.heap j).value) ∧
      (∀ j, j ∉ bt.ids → j ≠ t.nil → (insert_case5 t z).heap j = t.heap j) ∧
      (∀ j, j ≠ p → j ≠ g → ((insert_case5 t z).heap j).color = (t.heap j).color) ∧
      (insert_case5 t z).nil = t.nil ∧
      (insert_case5 t z).nextId = t.nextId ∧
      (insert_case5 t z).size = t.size ∧
      noRR (insert_case5 t z).heap (repAt bt g S') ∧
      bhOf (insert_case5 t z).heap (repAt bt g S') = bhOf t.heap bt ∧
      ((insert_case5 t z).heap (insert_case5 t z).root).color = RBColor.BLACK := by
  subst hS'
  -- pointer structure of the located shape
  have hGrep := repr_subAt hR hsub
  obtain ⟨-, hgv, -, hPrep0, hUrep0⟩ := hGrep
  have hglc : (t.heap g).leftChild = p := hPrep0.1
  obtain ⟨-, hpv0, hpp0, hZSrep0, hPRrep0⟩ := hPrep0
  rw [hglc] at hpv0 hpp0 hZSrep0 hPRrep0
  have hplc : (t.heap p).leftChild = z := hZSrep0.1
  obtain ⟨-, hzv0, hzp0, hZLrep0, hZRrep0⟩ := hZSrep0
  rw [hplc] at hzv0 hzp0 hZLrep0 hZRrep0
  -- distinctness and membership
  have hGnd := subAt_nodup hsub hnd
  obtain ⟨hPnd, hUnd, hgP, hgU, hPU⟩ := nodup_nd_parts hGnd
  obtain ⟨hZSnd, hPRnd, hpZS, hpPR, hZSPR⟩ := nodup_nd_parts hPnd
  obtain ⟨hZLnd, hZRnd, hzZL, hzZR, hZLZR⟩ := nodup_nd_parts hZSnd
  have hzZS : z ∈ (BT.nd ZL z ZR).ids := by simp [BT.ids]
  have hpP : p ∈ (BT.nd (BT.nd ZL z ZR) p PRr).ids := by simp [BT.ids]
  have hzP : z ∈ (BT.nd (BT.nd ZL z ZR) p PRr).ids := by simp [BT.ids]
  have hzG : z ∈ (BT.nd (BT.nd (BT.nd ZL z ZR) p PRr) g U).ids := by simp [BT.ids]
  have hpG : p ∈ (BT.nd (BT.nd (BT.nd ZL z ZR) p PRr) g U).ids := by simp [BT.ids]
  have hgG : g ∈ (BT.nd (BT.nd (BT.nd ZL z ZR) p PRr) g U).ids := by simp [BT.ids]
  have hgbt : g ∈ bt.ids := subAt_ids_subset hsub g hgG
  have hpbt : p ∈ bt.ids := subAt_ids_subset hsub p hpG
  have hzbt : z ∈ bt.ids := subAt_ids_subset hsub z hzG
  have hzp' : z ≠ p := fun hc => hpZS (hc ▸ hzZS)
  have hzg : z ≠ g := fun hc => hgP (hc ▸ hzP)
  have hpg : p ≠ g := fun hc => hgP (hc ▸ hpP)
  -- per-subtree slot inequalities
  have hZLp : ∀ j ∈ ZL.ids, j ≠ p :=
    fun j hj hc => hpZS (hc ▸ (by simp [BT.ids, hj] : j ∈ (BT.nd ZL z ZR).ids))
  have hZLg : ∀ j ∈ ZL.ids, j ≠ g :=
    fun j hj hc =>
      hgP (hc ▸ (by simp [BT.ids, hj] : j ∈ (BT.nd (BT.nd ZL z ZR) p PRr).ids))
  have hZLz : ∀ j ∈ ZL.ids, j ≠ z := fun j hj hc => hzZL (hc ▸ hj)
  have hZRp : ∀ j ∈ ZR.ids, j ≠ p :=
    fun j hj hc => hpZS (hc ▸ (by simp [BT.ids, hj] : j ∈ (BT.nd ZL z ZR).ids))
  have hZRg : ∀ j ∈ ZR.ids, j ≠ g :=
    fun j hj hc =>
      hgP (hc ▸ (by simp [BT.ids, hj] : j ∈ (BT.nd (BT.nd ZL z ZR) p PRr).ids))
  have hZRz : ∀ j ∈ ZR.ids, j ≠ z := fun j hj hc => hzZR (hc ▸ hj)
  have hZSp : ∀ j ∈ (BT.nd ZL z ZR).ids, j ≠ p := fun j hj hc => hpZS (hc ▸ hj)
  have hZSg : ∀ j ∈ (BT.nd ZL z ZR).ids, j ≠ g :=
    fun j hj hc =>
      hgP (hc ▸ (by simp [BT.ids] at hj ⊢; tauto : j ∈ (BT.nd (BT.nd ZL z ZR) p PRr).ids))
  have hPRp : ∀ j ∈ PRr.ids, j ≠ p := fun j hj hc => hpPR (hc ▸ hj)
  have hPRg : ∀ j ∈ PRr.ids, j ≠ g :=
    fun j hj hc =>
      hgP (hc ▸ (by simp [BT.ids, hj] : j ∈ (BT.nd (BT.nd ZL z ZR) p PRr).ids))
  have hPRz : ∀ j ∈ PRr.ids, j ≠ z := fun j hj hc => hZSPR z hzZS (hc ▸ hj)
  have hUp : ∀ j ∈ U.ids, j ≠ p := fun j hj hc => hPU p hpP (hc ▸ hj)
  have hUg : ∀ j ∈ U.ids, j ≠ g := fun j hj hc => hgU (hc ▸ hj)
  have hUz : ∀ j ∈ U.ids, j ≠ z := fun j hj hc => hPU z hzP (hc ▸ hj)
  -- color agreement between the recolored heap and the base heaps
  have hagT : ∀ j, j ≠ p → j ≠ g →
      ((recolor5 t p g).heap j).color = (t.heap j).color := by
    intro j hjp hjg
    rw [recolor5_heap_ne t p g j hjp hjg]
  have hagB : ∀ j, j ≠ z → j ≠ p → j ≠ g →
      ((recolor5 t p g).heap j).color = (blacken t.heap z j).color := by
    intro j hjz hjp hjg
    rw [recolor5_heap_ne t p g j hjp hjg, blacken_ne t.heap z j hjz]
  -- the unfolding of insert_case5 on this shape
  have hgrand : get_grandparent t z = g := by
    rw [get_grandparent, hzp0, hpp0]
  have hT2z : (recolor5 t p g).heap z = t.heap z := recolor5_heap_ne t p g z hzp' hzg
  have hcnd : z = ((recolor5 t p g).heap ((recolor5 t p g).heap z).parent).leftChild := by
    rw [hT2z, hzp0, recolor5_heap_p t p g hpg]
    exact hplc.symm
  have hfold : setColor (setColor t p RBColor.BLACK) g RBColor.RED = recolor5 t p g := rfl
  have hstep : insert_case5 t z = rotate_right (recolor5 t p g) g := by
    simp only [insert_case5, hgrand, hzp0, hfold]
    rw [if_pos hcnd]
  -- representation of the recolored tree and the rotation refinement
  have hRT2 : Repr (recolor5 t p g).heap t.nil t.nil t.root bt := by
    refine repr_congr hR ?_
    intro j hj
    by_cases hjp : j = p
    · rw [hjp, recolor5_heap_p t p g hpg]
      exact ⟨rfl, rfl, rfl, rfl⟩
    · by_cases hjg : j = g
      · rw [hjg, recolor5_heap_g t p g hpg]
        exact ⟨rfl, rfl, rfl, rfl⟩
      · rw [recolor5_heap_ne t p g j hjp hjg]
        exact ⟨rfl, rfl, rfl, rfl⟩
  have hnil2v : ((recolor5 t p g).heap (recolor5 t p g).nil).value = none := by
    show ((recolor5 t p g).heap t.nil).value = none
    rw [recolor5_value]
    exact hnilv
  have hrefine :
      Repr (rotate_right (recolor5 t p g) g).heap t.nil t.nil
        (rotate_right (recolor5 t p g) g).root
        (repAt bt g (BT.nd (BT.nd ZL z ZR) p (BT.nd PRr g U))) :=
    rotate_right_refine hRT2 hnd hnn hnil2v hsub
  have hids : (repAt bt g (BT.nd (BT.nd ZL z ZR) p (BT.nd PRr g U))).ids = bt.ids := by
    refine repAt_ids_eq hsub ?_
    simp [BT.ids]
  -- no-red-red of the rotated local shape, then of the whole tree
  have hNRG : noRR (blacken t.heap z) (BT.nd (BT.nd (BT.nd ZL z ZR) p PRr) g U) :=
    noRR_subAt hsub hNR
  have hNRZL : noRR (blacken t.heap z) ZL := hNRG.2.1.2.1.2.1
  have hNRZR : noRR (blacken t.heap z) ZR := hNRG.2.1.2.1.2.2
  have hNRPRr : noRR (blacken t.heap z) PRr := hNRG.2.1.2.2
  have hNRU : noRR (blacken t.heap z) U := hNRG.2.2
  have hT2S' : noRR (recolor5 t p g).heap
      (BT.nd (BT.nd ZL z ZR) p (BT.nd PRr g U)) := by
    refine ⟨?_, ⟨?_, ?_, ?_⟩, ?_, ?_, ?_⟩
    · intro hred
      rw [recolor5_heap_p t p g hpg] at hred
      simp at hred
    · intro _
      exact ⟨(colorOf_congr (fun j hj => hagT j (hZLp j hj) (hZLg j hj))).trans hZL,
        (colorOf_congr (fun j hj => hagT j (hZRp j hj) (hZRg j hj))).trans hZR⟩
    · exact (noRR_congr (fun j hj => hagB j (hZLz j hj) (hZLp j hj) (hZLg j hj))).mpr hNRZL
    · exact (noRR_congr (fun j hj => hagB j (hZRz j hj) (hZRp j hj) (hZRg j hj))).mpr hNRZR
    · intro _
      exact ⟨(colorOf_congr (fun j hj => hagT j (hPRp j hj) (hPRg j hj))).trans hPR,
        (colorOf_congr (fun j hj => hagT j (hUp j hj) (hUg j hj))).trans hU⟩
    · exact (noRR_congr (fun j hj => hagB j (hPRz j hj) (hPRp j hj) (hPRg j hj))).mpr hNRPRr
    · exact (noRR_congr (fun j hj => hagB j (hUz j hj) (hUp j hj) (hUg j hj))).mpr hNRU
  have hagOut : ∀ j ∈ bt.ids, j ∉ (BT.nd (BT.nd (BT.nd ZL z ZR) p PRr) g U).ids →
      ((recolor5 t p g).heap j).color = (blacken t.heap z j).color :=
    fun j _ hjn => hagB j (fun hc => hjn (hc ▸ hzG)) (fun hc => hjn (hc ▸ hpG))
      (fun hc => hjn (hc ▸ hgG))
  have hS'B : colorOf (recolor5 t p g).heap
      (BT.nd (BT.nd ZL z ZR) p (BT.nd PRr g U)) = RBColor.BLACK := by
    show ((recolor5 t p g).heap p).color = RBColor.BLACK
    rw [recolor5_heap_p t p g hpg]
  have hnr2 : noRR (recolor5 t p g).heap
      (repAt bt g (BT.nd (BT.nd ZL z ZR) p (BT.nd PRr g U))) :=
    noRR_graft_local hsub hnd hNR hT2S' hagOut (Or.inl (fun _ => hS'B))
  -- black-height bookkeeping
  obtain ⟨a, hPbh, hUbh, hGval⟩ := bhOf_nd_some (bhOf_subAt hsub hbh)
  have hGeq : bhOf t.heap (BT.nd (BT.nd (BT.nd ZL z ZR) p PRr) g U) = some (a + 1) := by
    rw [hGval, if_pos hgc]
  obtain ⟨b, hZSbh, hPRbh, hPval⟩ := bhOf_nd_some
    (show (bhOf t.heap (BT.nd (BT.nd ZL z ZR) p PRr)).isSome = true by rw [hPbh]; rfl)
  have hpnotB : ¬ (t.heap p).color = RBColor.BLACK := by
    rw [hpc]
    exact fun hc => RBColor.noConfusion hc
  have hba : b = a := by
    rw [hPbh, if_neg hpnotB] at hPval
    have := Option.some.inj hPval
    omega
  have hT2gc : ((recolor5 t p g).heap g).color = RBColor.RED := by
    rw [recolor5_heap_g t p g hpg]
  have hT2pc : ((recolor5 t p g).heap p).color = RBColor.BLACK := by
    rw [recolor5_heap_p t p g hpg]
  have hZSbh2 : bhOf (recolor5 t p g).heap (BT.nd ZL z ZR) = some a := by
    rw [bhOf_congr (fun j hj => hagT j (hZSp j hj) (hZSg j hj)), hZSbh, hba]
  have hPRbh2 : bhOf (recolor5 t p g).heap PRr = some a := by
    rw [bhOf_congr (fun j hj => hagT j (hPRp j hj) (hPRg j hj)), hPRbh, hba]
  have hUbh2 : bhOf (recolor5 t p g).heap U = some a := by
    rw [bhOf_congr (fun j hj => hagT j (hUp j hj) (hUg j hj)), hUbh]
  have hrt : bhOf (recolor5 t p g).heap (BT.nd PRr g U) = some a := by
    rw [bhOf_node_build hPRbh2 hUbh2, hT2gc]
    simp
  have hS'bh : bhOf (recolor5 t p g).heap (BT.nd (BT.nd ZL z ZR) p (BT.nd PRr g U))
      = bhOf t.heap (BT.nd (BT.nd (BT.nd ZL z ZR) p PRr) g U) := by
    rw [hGeq, bhOf_node_build hZSbh2 hrt, hT2pc]
    simp
  have hagOutT : ∀ j ∈ bt.ids, j ∉ (BT.nd (BT.nd (BT.nd ZL z ZR) p PRr) g U).ids →
      ((recolor5 t p g).heap j).color = (t.heap j).color :=
    fun j _ hjn => hagT j (fun hc => hjn (hc ▸ hpG)) (fun hc => hjn (hc ▸ hgG))
  have hbh2 : bhOf (recolor5 t p g).heap
      (repAt bt g (BT.nd (BT.nd ZL z ZR) p (BT.nd PRr g U))) = bhOf t.heap bt :=
    bhOf_graft_local hsub hnd hS'bh hagOutT
  -- the rotation's write frame
  have hT2g_lc : ((recolor5 t p g).heap g).leftChild = p := by
    rw [recolor5_heap_g t p g hpg]
    exact hglc
  have hT2p_rc : ((recolor5 t p g).heap p).rightChild = (t.heap p).rightChild := by
    rw [recolor5_heap_p t p g hpg]
  have hT2g_par : ((recolor5 t p g).heap g).parent = (t.heap g).parent := by
    rw [recolor5_heap_g t p g hpg]
  have hPRslot : (t.heap p).rightChild = t.nil ∨ (t.heap p).rightChild ∈ bt.ids := by
    rcases repr_slot_mem hPRrep0 with hsl | hsl
    · exact Or.inl hsl
    · right
      refine subAt_ids_subset hsub _ ?_
      simp only [BT.ids, List.mem_append, List.mem_cons]
      tauto
  have hgparslot : (t.heap g).parent = t.nil ∨ (t.heap g).parent ∈ bt.ids := by
    rcases repr_parent_cases (hnn g hgbt) hR hnd hsub with ⟨-, hpar⟩ | ⟨hpar, -, -⟩
    · exact Or.inl hpar
    · exact Or.inr hpar
  have hframe : ∀ j, j ∉ bt.ids → j ≠ t.nil →
      (rotate_right (recolor5 t p g) g).heap j = t.heap j := by
    intro j hjbt hjnil
    have hjp : j ≠ p := fun hc => hjbt (hc ▸ hpbt)
    have hjg : j ≠ g := fun hc => hjbt (hc ▸ hgbt)
    have h2 : j ≠ ((recolor5 t p g).heap g).leftChild := by
      rw [hT2g_lc]
      exact hjp
    have h3 : j ≠ ((recolor5 t p g).heap ((recolor5 t p g).heap g).leftChild).rightChild := by
      rw [hT2g_lc, hT2p_rc]
      rcases hPRslot with hsl | hsl
      · rw [hsl]; exact hjnil
      · exact fun hc => hjbt (hc ▸ hsl)
    have h4 : j ≠ ((recolor5 t p g).heap g).parent := by
      rw [hT2g_par]
      rcases hgparslot with hsl | hsl
      · rw [hsl]; exact hjnil
      · exact fun hc => hjbt (hc ▸ hsl)
    rw [rotate_right_heap_frame (recolor5 t p g) g j hjg h2 h3 h4,
      recolor5_heap_ne t p g j hjp hjg]
  -- the root ends BLACK
  have hnil2c : ((rotate_right (recolor5 t p g) g).heap t.nil).color = RBColor.BLACK := by
    rw [rotate_right_color, hagT t.nil (Ne.symm (hnn p hpbt)) (Ne.symm (hnn g hgbt)), hnilc]
  have hrootB : ((rotate_right (recolor5 t p g) g).heap
      (rotate_right (recolor5 t p g) g).root).color = RBColor.BLACK := by
    rw [repr_color_read hrefine hnil2c]
    cases bt with
    | lf => exact absurd hsub (by simp [subAt])
    | nd l0 j0 r0 =>
      rcases @colorOf_repAt_cases (rotate_right (recolor5 t p g) g).heap
          (BT.nd l0 j0 r0) g (BT.nd (BT.nd ZL z ZR) p (BT.nd PRr g U)) l0 j0 r0 rfl with
        ⟨hj0, hce⟩ | ⟨hj0, hce⟩
      · rw [hce]
        show ((rotate_right (recolor5 t p g) g).heap p).color = RBColor.BLACK
        rw [rotate_right_color]
        exact hT2pc
      · rw [hce, rotate_right_color]
        have hj0r : t.root = j0 := hR.1
        have hj0B : (t.heap j0).color = RBColor.BLACK := by
          rcases hroot with hb | hg0
          · rw [← hj0r]; exact hb
          · exfalso
            apply hj0
            rw [← hj0r]
            exact hg0
        have hj0p : j0 ≠ p := by
          intro hc
          rw [hc, hpc] at hj0B
          exact RBColor.noConfusion hj0B
        rw [hagT j0 hj0p hj0]
        exact hj0B
  -- assemble
  rw [hstep]
  refine ⟨hrefine, hids, ?_, hframe, ?_, ?_, ?_, ?_, ?_, ?_, hrootB⟩
  · intro j
    rw [rotate_right_value, recolor5_value]
  · intro j hjp hjg
    rw [rotate_right_color, hagT j hjp hjg]
  · rw [rotate_right_nil, recolor5_nil]
  · rw [rotate_right_nextId, recolor5_nextId]
  · rw [rotate_right_size, recolor5_size]
  · exact (noRR_congr (fun j _ => rotate_right_color (recolor5 t p g) g j)).mpr hnr2
  · rw [bhOf_congr (fun j _ => rotate_right_color (recolor5 t p g) g j), hbh2]

/-- `insert_case5` on the straight right-right shape (`z` RED right child
of RED `p`, itself right child of BLACK `g`): recolor `p` BLACK and `g`
RED, rotate left at `g`.  Locally the subtree
`nd U g (nd PLl p (nd ZL z ZR))` becomes `nd (nd U g PLl) p (nd ZL z ZR)`. -/
theorem insert_case5_right {t : RBTree} {bt ZL ZR PLl U S' : BT} {z p g : Nat}
    (hR : Repr t.heap t.nil t.nil t.root bt)
    (hnd : bt.ids.Nodup)
    (hnn : ∀ j ∈ bt.ids, j ≠ t.nil)
    (hnilv : (t.heap t.nil).value = none)
    (hnilc : (t.heap t.nil).color = RBColor.BLACK)
    (hsub : subAt bt g = some (BT.nd U g (BT.nd PLl p (BT.nd ZL z ZR))))
    (hpc : (t.heap p).color = RBColor.RED)
    (hgc : (t.heap g).color = RBColor.BLACK)
    (hZL : colorOf t.heap ZL = RBColor.BLACK)
    (hZR : colorOf t.heap ZR = RBColor.BLACK)
    (hPL : colorOf t.heap PLl = RBColor.BLACK)
    (hU : colorOf t.heap U = RBColor.BLACK)
    (hNR : noRR (blacken t.heap z) bt)
    (hbh : (bhOf t.heap bt).isSome = true)
    (hroot : (t.heap t.root).color = RBColor.BLACK ∨ t.root = g)
    (hS' : S' = BT.nd (BT.nd U g PLl) p (BT.nd ZL z ZR)) :
    Repr (insert_case5 t z).heap t.nil t.nil (insert_case5 t z).root (repAt bt g S') ∧
      (repAt bt g S').ids = bt.ids ∧
      (∀ j, ((insert_case5 t z).heap j).value = (t.heap j).value) ∧
      (∀ j, j ∉ bt.ids → j ≠ t.nil → (insert_case5 t z).heap j = t.heap j) ∧
      (∀ j, j ≠ p → j ≠ g → ((insert_case5 t z).heap j).color = (t.heap j).color) ∧
      (insert_case5 t z).nil = t.nil ∧
      (insert_case5 t z).nextId = t.nextId ∧
      (insert_case5 t z).size = t.size ∧
      noRR (insert_case5 t z).heap (repAt bt g S') ∧
      bhOf (insert_case5 t z).heap (repAt bt g S') = bhOf t.heap bt ∧
      ((insert_case5 t z).heap (insert_case5 t z).root).color = RBColor.BLACK := by
  subst hS'
  -- pointer structure of the located shape
  have hGrep := repr_subAt hR hsub
  obtain ⟨-, hgv, -, hUrep0, hPrep0⟩ := hGrep
  have hgrc : (t.heap g).rightChild = p := hPrep0.1
  obtain ⟨-, hpv0, hpp0, hPLrep0, hZSrep0⟩ := hPrep0
  rw [hgrc] at hpv0 hpp0 hPLrep0 hZSrep0
  have hprc : (t.heap p).rightChild = z := hZSrep0.1
  obtain ⟨-, hzv0, hzp0, hZLrep0, hZRrep0⟩ := hZSrep0
  rw [hprc] at hzv0 hzp0 hZLrep0 hZRrep0
  -- distinctness and membership
  have hGnd := subAt_nodup hsub hnd
  obtain ⟨hUnd, hP2nd, hgU, hgP2, hUP2⟩ := nodup_nd_parts hGnd
  obtain ⟨hPLnd, hZSnd, hpPL, hpZS, hPLZS⟩ := nodup_nd_parts hP2nd
  obtain ⟨hZLnd, hZRnd, hzZL, hzZR, hZLZR⟩ := nodup_nd_parts hZSnd
  have hzZS : z ∈ (BT.nd ZL z ZR).ids := by simp [BT.ids]
  have hpP2 : p ∈ (BT.nd PLl p (BT.nd ZL z ZR)).ids := by simp [BT.ids]
  have hzP2 : z ∈ (BT.nd PLl p (BT.nd ZL z ZR)).ids := by simp [BT.ids]
  have hzG : z ∈ (BT.nd U g (BT.nd PLl p (BT.nd ZL z ZR))).ids := by simp [BT.ids]
  have hpG : p ∈ (BT.nd U g (BT.nd PLl p (BT.nd ZL z ZR))).ids := by simp [BT.ids]
  have hgG : g ∈ (BT.nd U g (BT.nd PLl p (BT.nd ZL z ZR))).ids := by simp [BT.ids]
  have hgbt : g ∈ bt.ids := subAt_ids_subset hsub g hgG
  have hpbt : p ∈ bt.ids := subAt_ids_subset hsub p hpG
  have hzbt : z ∈ bt.ids := subAt_ids_subset hsub z hzG
  have hzp' : z ≠ p := fun hc => hpZS (hc ▸ hzZS)
  have hzg : z ≠ g := fun hc => hgP2 (hc ▸ hzP2)
  have hpg : p ≠ g := fun hc => hgP2 (hc ▸ hpP2)
  -- per-subtree slot inequalities
  have hZLp : ∀ j ∈ ZL.ids, j ≠ p :=
    fun j hj hc => hpZS (hc ▸ (by simp [BT.ids, hj] : j ∈ (BT.nd ZL z ZR).ids))
  have hZLg : ∀ j ∈ ZL.ids, j ≠ g :=
    fun j hj hc =>
      hgP2 (hc ▸ (by simp [BT.ids, hj] : j ∈ (BT.nd PLl p (BT.nd ZL z ZR)).ids))
  have hZLz : ∀ j ∈ ZL.ids, j ≠ z := fun j hj hc => hzZL (hc ▸ hj)
  have hZRp : ∀ j ∈ ZR.ids, j ≠ p :=
    fun j hj hc => hpZS (hc ▸ (by simp [BT.ids, hj] : j ∈ (BT.nd ZL z ZR).ids))
  have hZRg : ∀ j ∈ ZR.ids, j ≠ g :=
    fun j hj hc =>
      hgP2 (hc ▸ (by simp [BT.ids, hj] : j ∈ (BT.nd PLl p (BT.nd ZL z ZR)).ids))
  have hZRz : ∀ j ∈ ZR.ids, j ≠ z := fun j hj hc => hzZR (hc ▸ hj)
  have hZSp : ∀ j ∈ (BT.nd ZL z ZR).ids, j ≠ p := fun j hj hc => hpZS (hc ▸ hj)
  have hZSg : ∀ j ∈ (BT.nd ZL z ZR).ids, j ≠ g :=
    fun j hj hc =>
      hgP2 (hc ▸ (by simp [BT.ids] at hj ⊢; tauto : j ∈ (BT.nd PLl p (BT.nd ZL z ZR)).ids))
  have hPLp : ∀ j ∈ PLl.ids, j ≠ p := fun j hj hc => hpPL (hc ▸ hj)
  have hPLg : ∀ j ∈ PLl.ids, j ≠ g :=
    fun j hj hc =>
      hgP2 (hc ▸ (by simp [BT.ids, hj] : j ∈ (BT.nd PLl p (BT.nd ZL z ZR)).ids))
  have hPLz : ∀ j ∈ PLl.ids, j ≠ z := fun j hj hc => hPLZS z (hc ▸ hj) hzZS
  have hUp : ∀ j ∈ U.ids, j ≠ p := fun j hj hc => hUP2 j hj (hc ▸ hpP2)
  have hUg : ∀ j ∈ U.ids, j ≠ g := fun j hj hc => hgU (hc ▸ hj)
  have hUz : ∀ j ∈ U.ids, j ≠ z := fun j hj hc => hUP2 j hj (hc ▸ hzP2)
  -- color agreement between the recolored heap and the base heaps
  have hagT : ∀ j, j ≠ p → j ≠ g →
      ((recolor5 t p g).heap j).color = (t.heap j).color := by
    intro j hjp hjg
    rw [recolor5_heap_ne t p g j hjp hjg]
  have hagB : ∀ j, j ≠ z → j ≠ p → j ≠ g →
      ((recolor5 t p g).heap j).color = (blacken t.heap z j).color := by
    intro j hjz hjp hjg
    rw [recolor5_heap_ne t p g j hjp hjg, blacken_ne t.heap z j hjz]
  -- the unfolding of insert_case5 on this shape
  have hgrand : get_grandparent t z = g := by
    rw [get_grandparent, hzp0, hpp0]
  have hT2z : (recolor5 t p g).heap z = t.heap z := recolor5_heap_ne t p g z hzp' hzg
  have hplslot : (t.heap p).leftChild = t.nil ∨ (t.heap p).leftChild ∈ PLl.ids :=
    repr_slot_mem hPLrep0
  have hcnd : ¬ (z = ((recolor5 t p g).heap ((recolor5 t p g).heap z).parent).leftChild) := by
    rw [hT2z, hzp0, recolor5_heap_p t p g hpg]
    show ¬ z = (t.heap p).leftChild
    rcases hplslot with hsl | hsl
    · rw [hsl]
      exact hnn z hzbt
    · intro hc
      exact hPLz _ hsl (by rw [hc])
  have hfold : setColor (setColor t p RBColor.BLACK) g RBColor.RED = recolor5 t p g := rfl
  have hstep : insert_case5 t z = rotate_left (recolor5 t p g) g := by
    simp only [insert_case5, hgrand, hzp0, hfold]
    rw [if_neg hcnd]
  -- representation of the recolored tree and the rotation refinement
  have hRT2 : Repr (recolor5 t p g).heap t.nil t.nil t.root bt := by
    refine repr_congr hR ?_
    intro j hj
    by_cases hjp : j = p
    · rw [hjp, recolor5_heap_p t p g hpg]
      exact ⟨rfl, rfl, rfl, rfl⟩
    · by_cases hjg : j = g
      · rw [hjg, recolor5_heap_g t p g hpg]
        exact ⟨rfl, rfl, rfl, rfl⟩
      · rw [recolor5_heap_ne t p g j hjp hjg]
        exact ⟨rfl, rfl, rfl, rfl⟩
  have hnil2v : ((recolor5 t p g).heap (recolor5 t p g).nil).value = none := by
    show ((recolor5 t p g).heap t.nil).value = none
    rw [recolor5_value]
    exact hnilv
  have hrefine :
      Repr (rotate_left (recolor5 t p g) g).heap t.nil t.nil
        (rotate_left (recolor5 t p g) g).root
        (repAt bt g (BT.nd (BT.nd U g PLl) p (BT.nd ZL z ZR))) :=
    rotate_left_refine hRT2 hnd hnn hnil2v hsub
  have hids : (repAt bt g (BT.nd (BT.nd U g PLl) p (BT.nd ZL z ZR))).ids = bt.ids := by
    refine repAt_ids_eq hsub ?_
    simp [BT.ids]
  -- no-red-red of the rotated local shape, then of the whole tree
  have hNRG : noRR (blacken t.heap z) (BT.nd U g (BT.nd PLl p (BT.nd ZL z ZR))) :=
    noRR_subAt hsub hNR
  have hNRU : noRR (blacken t.heap z) U := hNRG.2.1
  have hNRPL : noRR (blacken t.heap z) PLl := hNRG.2.2.2.1
  have hNRZL : noRR (blacken t.heap z) ZL := hNRG.2.2.2.2.2.1
  have hNRZR : noRR (blacken t.heap z) ZR := hNRG.2.2.2.2.2.2
  have hT2S' : noRR (recolor5 t p g).heap
      (BT.nd (BT.nd U g PLl) p (BT.nd ZL z ZR)) := by
    refine ⟨?_, ⟨?_, ?_, ?_⟩, ?_, ?_, ?_⟩
    · intro hred
      rw [recolor5_heap_p t p g hpg] at hred
      simp at hred
    · intro _
      exact ⟨(colorOf_congr (fun j hj => hagT j (hUp j hj) (hUg j hj))).trans hU,
        (colorOf_congr (fun j hj => hagT j (hPLp j hj) (hPLg j hj))).trans hPL⟩
    · exact (noRR_congr (fun j hj => hagB j (hUz j hj) (hUp j hj) (hUg j hj))).mpr hNRU
    · exact (noRR_congr (fun j hj => hagB j (hPLz j hj) (hPLp j hj) (hPLg j hj))).mpr hNRPL
    · intro _
      exact ⟨(colorOf_congr (fun j hj => hagT j (hZLp j hj) (hZLg j hj))).trans hZL,
        (colorOf_congr (fun j hj => hagT j (hZRp j hj) (hZRg j hj))).trans hZR⟩
    · exact (noRR_congr (fun j hj => hagB j (hZLz j hj) (hZLp j hj) (hZLg j hj))).mpr hNRZL
    · exact (noRR_congr (fun j hj => hagB j (hZRz j hj) (hZRp j hj) (hZRg j hj))).mpr hNRZR
  have hagOut : ∀ j ∈ bt.ids, j ∉ (BT.nd U g (BT.nd PLl p (BT.nd ZL z ZR))).ids →
      ((recolor5 t p g).heap j).color = (blacken t.heap z j).color :=
    fun j _ hjn => hagB j (fun hc => hjn (hc ▸ hzG)) (fun hc => hjn (hc ▸ hpG))
      (fun hc => hjn (hc ▸ hgG))
  have hS'B : colorOf (recolor5 t p g).heap
      (BT.nd (BT.nd U g PLl) p (BT.nd ZL z ZR)) = RBColor.BLACK := by
    show ((recolor5 t p g).heap p).color = RBColor.BLACK
    rw [recolor5_heap_p t p g hpg]
  have hnr2 : noRR (recolor5 t p g).heap
      (repAt bt g (BT.nd (BT.nd U g PLl) p (BT.nd ZL z ZR))) :=
    noRR_graft_local hsub hnd hNR hT2S' hagOut (Or.inl (fun _ => hS'B))
  -- black-height bookkeeping
  obtain ⟨a, hUbh, hP2bh, hGval⟩ := bhOf_nd_some (bhOf_subAt hsub hbh)
  have hGeq : bhOf t.heap (BT.nd U g (BT.nd PLl p (BT.nd ZL z ZR))) = some (a + 1) := by
    rw [hGval, if_pos hgc]
  obtain ⟨b, hPLbh, hZSbh, hP2val⟩ := bhOf_nd_some
    (show (bhOf t.heap (BT.nd PLl p (BT.nd ZL z ZR))).isSome = true by rw [hP2bh]; rfl)
  have hpnotB : ¬ (t.heap p).color = RBColor.BLACK := by
    rw [hpc]
    exact fun hc => RBColor.noConfusion hc
  have hba : b = a := by
    rw [hP2bh, if_neg hpnotB] at hP2val
    have := Option.some.inj hP2val
    omega
  have hT2gc : ((recolor5 t p g).heap g).color = RBColor.RED := by
    rw [recolor5_heap_g t p g hpg]
  have hT2pc : ((recolor5 t p g).heap p).color = RBColor.BLACK := by
    rw [recolor5_heap_p t p g hpg]
  have hZSbh2 : bhOf (recolor5 t p g).heap (BT.nd ZL z ZR) = some a := by
    rw [bhOf_congr (fun j hj => hagT j (hZSp j hj) (hZSg j hj)), hZSbh, hba]
  have hPLbh2 : bhOf (recolor5 t p g).heap PLl = some a := by
    rw [bhOf_congr (fun j hj => hagT j (hPLp j hj) (hPLg j hj)), hPLbh, hba]
  have hUbh2 : bhOf (recolor5 t p g).heap U = some a := by
    rw [bhOf_congr (fun j hj => hagT j (hUp j hj) (hUg j hj)), hUbh]
  have hlt : bhOf (recolor5 t p g).heap (BT.nd U g PLl) = some a := by
    rw [bhOf_node_build hUbh2 hPLbh2, hT2gc]
    simp
  have hS'bh : bhOf (recolor5 t p g).heap (BT.nd (BT.nd U g PLl) p (BT.nd ZL z ZR))
      = bhOf t.heap (BT.nd U g (BT.nd PLl p (BT.nd ZL z ZR))) := by
    rw [hGeq, bhOf_node_build hlt hZSbh2, hT2pc]
    simp
  have hagOutT : ∀ j ∈ bt.ids, j ∉ (BT.nd U g (BT.nd PLl p (BT.nd ZL z ZR))).ids →
      ((recolor5 t p g).heap j).color = (t.heap j).color :=
    fun j _ hjn => hagT j (fun hc => hjn (hc ▸ hpG)) (fun hc => hjn (hc ▸ hgG))
  have hbh2 : bhOf (recolor5 t p g).heap
      (repAt bt g (BT.nd (BT.nd U g PLl) p (BT.nd ZL z ZR))) = bhOf t.heap bt :=
    bhOf_graft_local hsub hnd hS'bh hagOutT
  -- the rotation's write frame
  have hT2g_rc : ((recolor5 t p g).heap g).rightChild = p := by
    rw [recolor5_heap_g t p g hpg]
    exact hgrc
  have hT2p_lc : ((recolor5 t p g).heap p).leftChild = (t.heap p).leftChild := by
    rw [recolor5_heap_p t p g hpg]
  have hT2g_par : ((recolor5 t p g).heap g).parent = (t.heap g).parent := by
    rw [recolor5_heap_g t p g hpg]
  have hPLslot : (t.heap p).leftChild = t.nil ∨ (t.heap p).leftChild ∈ bt.ids := by
    rcases hplslot with hsl | hsl
    · exact Or.inl hsl
    · right
      refine subAt_ids_subset hsub _ ?_
      simp only [BT.ids, List.mem_append, List.mem_cons]
      tauto
  have hgparslot : (t.heap g).parent = t.nil ∨ (t.heap g).parent ∈ bt.ids := by
    rcases repr_parent_cases (hnn g hgbt) hR hnd hsub with ⟨-, hpar⟩ | ⟨hpar, -, -⟩
    · exact Or.inl hpar
    · exact Or.inr hpar
  have hframe : ∀ j, j ∉ bt.ids → j ≠ t.nil →
      (rotate_left (recolor5 t p g) g).heap j = t.heap j := by
    intro j hjbt hjnil
    have hjp : j ≠ p := fun hc => hjbt (hc ▸ hpbt)
    have hjg : j ≠ g := fun hc => hjbt (hc ▸ hgbt)
    have h2 : j ≠ ((recolor5 t p g).heap g).rightChild := by
      rw [hT2g_rc]
      exact hjp
    have h3 : j ≠ ((recolor5 t p g).heap ((recolor5 t p g).heap g).rightChild).leftChild := by
      rw [hT2g_rc, hT2p_lc]
      rcases hPLslot with hsl | hsl
      · rw [hsl]; exact hjnil
      · exact fun hc => hjbt (hc ▸ hsl)
    have h4 : j ≠ ((recolor5 t p g).heap g).parent := by
      rw [hT2g_par]
      rcases hgparslot with hsl | hsl
      · rw [hsl]; exact hjnil
      · exact fun hc => hjbt (hc ▸ hsl)
    rw [rotate_left_heap_frame (recolor5 t p g) g j hjg h2 h3 h4,
      recolor5_heap_ne t p g j hjp hjg]
  -- the root ends BLACK
  have hnil2c : ((rotate_left (recolor5 t p g) g).heap t.nil).color = RBColor.BLACK := by
    rw [rotate_left_color, hagT t.nil (Ne.symm (hnn p hpbt)) (Ne.symm (hnn g hgbt)), hnilc]
  have hrootB : ((rotate_left (recolor5 t p g) g).heap
      (rotate_left (recolor5 t p g) g).root).color = RBColor.BLACK := by
    rw [repr_color_read hrefine hnil2c]
    cases bt with
    | lf => exact absurd hsub (by simp [subAt])
    | nd l0 j0 r0 =>
      rcases @colorOf_repAt_cases (rotate_left (recolor5 t p g) g).heap
          (BT.nd l0 j0 r0) g (BT.nd (BT.nd U g PLl) p (BT.nd ZL z ZR)) l0 j0 r0 rfl with
        ⟨hj0, hce⟩ | ⟨hj0, hce⟩
      · rw [hce]
        show ((rotate_left (recolor5 t p g) g).heap p).color = RBColor.BLACK
        rw [rotate_left_color]
        exact hT2pc
      · rw [hce, rotate_left_color]
        have hj0r : t.root = j0 := hR.1
        have hj0B : (t.heap j0).color = RBColor.BLACK := by
          rcases hroot with hb | hg0
          · rw [← hj0r]; exact hb
          · exfalso
            apply hj0
            rw [← hj0r]
            exact hg0
        have hj0p : j0 ≠ p := by
          intro hc
          rw [hc, hpc] at hj0B
          exact RBColor.noConfusion hj0B
        rw [hagT j0 hj0p hj0]
        exact hj0B
  -- assemble
  rw [hstep]
  refine ⟨hrefine, hids, ?_, hframe, ?_, ?_, ?_, ?_, ?_, ?_, hrootB⟩
  · intro j
    rw [rotate_left_value, recolor5_value]
  · intro j hjp hjg
    rw [rotate_left_color, hagT j hjp hjg]
  · rw [rotate_left_nil, recolor5_nil]
  · rw [rotate_left_nextId, recolor5_nextId]
  · rw [rotate_left_size, recolor5_size]
  · exact (noRR_congr (fun j _ => rotate_left_color (recolor5 t p g) g j)).mpr hnr2
  · rw [bhOf_congr (fun j _ => rotate_left_color (recolor5 t p g) g j), hbh2]

/-- Subtree lookup is transitive on a duplicate-free tree. -/
theorem subAt_trans :
    ∀ {bt : BT} {g x : Nat} {G S : BT},
      subAt bt g = some G → subAt G x = some S → bt.ids.Nodup →
      subAt bt x = some S := by
  intro bt
  induction bt with
  | lf => intro g x G S hg _ _; exact absurd hg (fun hc => Option.noConfusion hc)
  | nd l j r ihl ihr =>
    intro g x G S hg hx hnd
    obtain ⟨hndl, hndr, hjl, hjr, hlr⟩ := nodup_nd_parts hnd
    simp only [subAt] at hg
    by_cases hjg : j = g
    · rw [if_pos hjg] at hg
      rw [← (Option.some.inj hg)] at hx
      exact hx
    · rw [if_neg hjg] at hg
      have hxG : x ∈ G.ids := subAt_ids_subset hx x (subAt_mem_self hx)
      cases hlg : subAt l g with
      | some s =>
        rw [hlg] at hg
        have hsG : s = G := Option.some.inj hg
        subst hsG
        have hxl : x ∈ l.ids := subAt_ids_subset hlg x hxG
        exact subAt_lift_left (fun hc => hjl (hc ▸ hxl)) (ihl hlg hx hndl)
      | none =>
        rw [hlg] at hg
        have hxr : x ∈ r.ids := subAt_ids_subset hg x hxG
        exact subAt_lift_right (fun hc => hjr (hc ▸ hxr))
          (subAt_eq_none (fun hc => hlr x hc hxr)) (ihr hg hx hndr)

/-- A left rotation at a node whose parent is real keeps the root. -/
theorem rotate_left_root_real (t : RBTree) (n : Nat)
    (h : (t.heap (t.heap n).parent).value ≠ none) : (rotate_left t n).root = t.root := by
  simp only [rotate_left]
  repeat' split
  all_goals simp_all

/-- A right rotation at a node whose parent is real keeps the root. -/
theorem rotate_right_root_real (t : RBTree) (n : Nat)
    (h : (t.heap (t.heap n).parent).value ≠ none) : (rotate_right t n).root = t.root := by
  simp only [rotate_right]
  repeat' split
  all_goals simp_all

/-- `insert_case4` on the straight left-left shape: both zig-zag guards
fail and `insert_case5` resolves the double red. -/
theorem insert_case4_LL {t : RBTree} {bt XL XR PR U : BT} {x p g : Nat}
    (hR : Repr t.heap t.nil t.nil t.root bt)
    (hnd : bt.ids.Nodup)
    (hnn : ∀ j ∈ bt.ids, j ≠ t.nil)
    (hnilv : (t.heap t.nil).value = none)
    (hnilc : (t.heap t.nil).color = RBColor.BLACK)
    (hsub : subAt bt g = some (BT.nd (BT.nd (BT.nd XL x XR) p PR) g U))
    (hpc : (t.heap p).color = RBColor.RED)
    (hgc : (t.heap g).color = RBColor.BLACK)
    (hXL : colorOf t.heap XL = RBColor.BLACK)
    (hXR : colorOf t.heap XR = RBColor.BLACK)
    (hU : colorOf t.heap U = RBColor.BLACK)
    (hNR : noRR (blacken t.heap x) bt)
    (hbh : (bhOf t.heap bt).isSome = true)
    (hroot : (t.heap t.root).color = RBColor.BLACK ∨ t.root = g) :
    ∃ bt', FixOut t bt (insert_case4 t x) bt' := by
  -- pointer structure
  have hGrep := repr_subAt hR hsub
  obtain ⟨-, hgv, -, hPrep0, hUrep0⟩ := hGrep
  have hglc : (t.heap g).leftChild = p := hPrep0.1
  obtain ⟨-, hpv0, hpp0, hSxrep0, hPRrep0⟩ := hPrep0
  rw [hglc] at hpv0 hpp0 hSxrep0 hPRrep0
  have hplc : (t.heap p).leftChild = x := hSxrep0.1
  obtain ⟨-, hxv0, hxp0, hXLrep0, hXRrep0⟩ := hSxrep0
  rw [hplc] at hxv0 hxp0 hXLrep0 hXRrep0
  -- distinctness
  have hGnd := subAt_nodup hsub hnd
  obtain ⟨hPnd, hUnd, hgP, hgU, hPU⟩ := nodup_nd_parts hGnd
  obtain ⟨hSxnd, hPRnd, hpSx, hpPR, hSxPR⟩ := nodup_nd_parts hPnd
  have hxSx : x ∈ (BT.nd XL x XR).ids := by simp [BT.ids]
  have hpP : p ∈ (BT.nd (BT.nd XL x XR) p PR).ids := by simp [BT.ids]
  have hxP : x ∈ (BT.nd (BT.nd XL x XR) p PR).ids := by simp [BT.ids]
  have hxG : x ∈ (BT.nd (BT.nd (BT.nd XL x XR) p PR) g U).ids := by simp [BT.ids]
  have hpG : p ∈ (BT.nd (BT.nd (BT.nd XL x XR) p PR) g U).ids := by simp [BT.ids]
  have hxbt : x ∈ bt.ids := subAt_ids_subset hsub x hxG
  have hpbt : p ∈ bt.ids := subAt_ids_subset hsub p hpG
  have hpx : p ≠ x := fun hc => hpSx (hc ▸ hxSx)
  -- the two zig-zag guards fail
  have hgrand : get_grandparent t x = g := by
    rw [get_grandparent, hxp0, hpp0]
  have hct1 : ¬ (x = (t.heap p).rightChild ∧ p = (t.heap g).leftChild) := by
    rintro ⟨h1, -⟩
    rcases repr_slot_mem hPRrep0 with hsl | hsl
    · rw [hsl] at h1
      exact hnn x hxbt h1
    · rw [← h1] at hsl
      exact hSxPR x hxSx hsl
  have hct2 : ¬ (x = (t.heap p).leftChild ∧ p = (t.heap g).rightChild) := by
    rintro ⟨-, h2⟩
    rcases repr_slot_mem hUrep0 with hsl | hsl
    · rw [hsl] at h2
      exact hnn p hpbt h2
    · rw [← h2] at hsl
      exact hPU p hpP hsl
  have hstep : insert_case4 t x = insert_case5 t x := by
    simp only [insert_case4, hgrand, hxp0]
    rw [if_neg hct1, if_neg hct2]
  -- the right sibling of x's parent is black
  have hNRG : noRR (blacken t.heap x)
      (BT.nd (BT.nd (BT.nd XL x XR) p PR) g U) := noRR_subAt hsub hNR
  have hPRc : colorOf t.heap PR = RBColor.BLACK := by
    have hpr : ((blacken t.heap x) p).color = RBColor.RED := by
      rw [blacken_ne t.heap x p hpx]
      exact hpc
    have h1 := (hNRG.2.1.1 hpr).2
    rw [← h1]
    refine (colorOf_congr ?_).symm
    intro j hj
    rw [blacken_ne t.heap x j (fun hc => hSxPR x hxSx (hc ▸ hj))]
  obtain ⟨hrep, hids, hval, hfr, hcolfr, hnil, hnext, hsize, hNR', hbh', hrootB⟩ :=
    insert_case5_left hR hnd hnn hnilv hnilc hsub hpc hgc hXL hXR hPRc hU hNR hbh hroot rfl
  rw [hstep]
  refine ⟨_, hrep, hids, hval, hfr, hnil, hnext, hsize, hNR', hbh', hrootB, ?_⟩
  rw [hcolfr t.nil (Ne.symm (hnn p hpbt))
    (Ne.symm (hnn g (subAt_ids_subset hsub g (by simp [BT.ids]))))]
  exact hnilc

/-- `insert_case4` on the straight right-right shape. -/
theorem insert_case4_RR {t : RBTree} {bt XL XR PL U : BT} {x p g : Nat}
    (hR : Repr t.heap t.nil t.nil t.root bt)
    (hnd : bt.ids.Nodup)
    (hnn : ∀ j ∈ bt.ids, j ≠ t.nil)
    (hnilv : (t.heap t.nil).value = none)
    (hnilc : (t.heap t.nil).color = RBColor.BLACK)
    (hsub : subAt bt g = some (BT.nd U g (BT.nd PL p (BT.nd XL x XR))))
    (hpc : (t.heap p).color = RBColor.RED)
    (hgc : (t.heap g).color = RBColor.BLACK)
    (hXL : colorOf t.heap XL = RBColor.BLACK)
    (hXR : colorOf t.heap XR = RBColor.BLACK)
    (hU : colorOf t.heap U = RBColor.BLACK)
    (hNR : noRR (blacken t.heap x) bt)
    (hbh : (bhOf t.heap bt).isSome = true)
    (hroot : (t.heap t.root).color = RBColor.BLACK ∨ t.root = g) :
    ∃ bt', FixOut t bt (insert_case4 t x) bt' := by
  -- pointer structure
  have hGrep := repr_subAt hR hsub
  obtain ⟨-, hgv, -, hUrep0, hPrep0⟩ := hGrep
  have hgrc : (t.heap g).rightChild = p := hPrep0.1
  obtain ⟨-, hpv0, hpp0, hPLrep0, hSxrep0⟩ := hPrep0
  rw [hgrc] at hpv0 hpp0 hPLrep0 hSxrep0
  have hprc : (t.heap p).rightChild = x := hSxrep0.1
  obtain ⟨-, hxv0, hxp0, hXLrep0, hXRrep0⟩ := hSxrep0
  rw [hprc] at hxv0 hxp0 hXLrep0 hXRrep0
  -- distinctness
  have hGnd := subAt_nodup hsub hnd
  obtain ⟨hUnd, hPnd, hgU, hgP, hUP⟩ := nodup_nd_parts hGnd
  obtain ⟨hPLnd, hSxnd, hpPL, hpSx, hPLSx⟩ := nodup_nd_parts hPnd
  have hxSx : x ∈ (BT.nd XL x XR).ids := by simp [BT.ids]
  have hpP : p ∈ (BT.nd PL p (BT.nd XL x XR)).ids := by simp [BT.ids]
  have hxP : x ∈ (BT.nd PL p (BT.nd XL x XR)).ids := by simp [BT.ids]
  have hxG : x ∈ (BT.nd U g (BT.nd PL p (BT.nd XL x XR))).ids := by simp [BT.ids]
  have hpG : p ∈ (BT.nd U g (BT.nd PL p (BT.nd XL x XR))).ids := by simp [BT.ids]
  have hxbt : x ∈ bt.ids := subAt_ids_subset hsub x hxG
  have hpbt : p ∈ bt.ids := subAt_ids_subset hsub p hpG
  have hpx : p ≠ x := fun hc => hpSx (hc ▸ hxSx)
  -- the two zig-zag guards fail
  have hgrand : get_grandparent t x = g := by
    rw [get_grandparent, hxp0, hpp0]
  have hct1 : ¬ (x = (t.heap p).rightChild ∧ p = (t.heap g).leftChild) := by
    rintro ⟨-, h2⟩
    rcases repr_slot_mem hUrep0 with hsl | hsl
    · rw [hsl] at h2
      exact hnn p hpbt h2
    · rw [← h2] at hsl
      exact hUP p hsl hpP
  have hct2 : ¬ (x = (t.heap p).leftChild ∧ p = (t.heap g).rightChild) := by
    rintro ⟨h1, -⟩
    rcases repr_slot_mem hPLrep0 with hsl | hsl
    · rw [hsl] at h1
      exact hnn x hxbt h1
    · rw [← h1] at hsl
      exact hPLSx x hsl hxSx
  have hstep : insert_case4 t x = insert_case5 t x := by
    simp only [insert_case4, hgrand, hxp0]
    rw [if_neg hct1, if_neg hct2]
  -- the left sibling of x's parent is black
  have hNRG : noRR (blacken t.heap x)
      (BT.nd U g (BT.nd PL p (BT.nd XL x XR))) := noRR_subAt hsub hNR
  have hPLc : colorOf t.heap PL = RBColor.BLACK := by
    have hpr : ((blacken t.heap x) p).color = RBColor.RED := by
      rw [blacken_ne t.heap x p hpx]
      exact hpc
    have h1 := (hNRG.2.2.1 hpr).1
    rw [← h1]
    refine (colorOf_congr ?_).symm
    intro j hj
    rw [blacken_ne t.heap x j (fun hc => hPLSx j hj (hc ▸ hxSx))]
  obtain ⟨hrep, hids, hval, hfr, hcolfr, hnil, hnext, hsize, hNR', hbh', hrootB⟩ :=
    insert_case5_right hR hnd hnn hnilv hnilc hsub hpc hgc hXL hXR hPLc hU hNR hbh hroot rfl
  rw [hstep]
  refine ⟨_, hrep, hids, hval, hfr, hnil, hnext, hsize, hNR', hbh', hrootB, ?_⟩
  rw [hcolfr t.nil (Ne.symm (hnn p hpbt))
    (Ne.symm (hnn g (subAt_ids_subset hsub g (by simp [BT.ids]))))]
  exact hnilc

/-- `insert_case4` on the left-right zig-zag shape (`x` RED right child
of RED `p`, itself left child of BLACK `g`): a left rotation at `p`
straightens the chain, then `insert_case5` (applied to the demoted `p`)
resolves the double red. -/
theorem insert_case4_LR {t : RBTree} {bt XL XR PL U : BT} {x p g : Nat}
    (hR : Repr t.heap t.nil t.nil t.root bt)
    (hnd : bt.ids.Nodup)
    (hnn : ∀ j ∈ bt.ids, j ≠ t.nil)
    (hnilv : (t.heap t.nil).value = none)
    (hnilc : (t.heap t.nil).color = RBColor.BLACK)
    (hsub : subAt bt g = some (BT.nd (BT.nd PL p (BT.nd XL x XR)) g U))
    (hxc : (t.heap x).color = RBColor.RED)
    (hpc : (t.heap p).color = RBColor.RED)
    (hgc : (t.heap g).color = RBColor.BLACK)
    (hXL : colorOf t.heap XL = RBColor.BLACK)
    (hXR : colorOf t.heap XR = RBColor.BLACK)
    (hU : colorOf t.heap U = RBColor.BLACK)
    (hNR : noRR (blacken t.heap x) bt)
    (hbh : (bhOf t.heap bt).isSome = true)
    (hroot : (t.heap t.root).color = RBColor.BLACK ∨ t.root = g) :
    ∃ bt', FixOut t bt (insert_case4 t x) bt' := by
  -- pointer structure
  have hGrep := repr_subAt hR hsub
  obtain ⟨-, hgv, -, hPrep0, hUrep0⟩ := hGrep
  have hglc : (t.heap g).leftChild = p := hPrep0.1
  obtain ⟨-, hpv0, hpp0, hPLrep0, hSxrep0⟩ := hPrep0
  rw [hglc] at hpv0 hpp0 hPLrep0 hSxrep0
  have hprc : (t.heap p).rightChild = x := hSxrep0.1
  obtain ⟨-, hxv0, hxp0, hXLrep0, hXRrep0⟩ := hSxrep0
  rw [hprc] at hxv0 hxp0 hXLrep0 hXRrep0
  -- distinctness
  have hGnd := subAt_nodup hsub hnd
  obtain ⟨hPnd, hUnd, hgP, hgU, hPU⟩ := nodup_nd_parts hGnd
  obtain ⟨hPLnd, hSxnd, hpPL, hpSx, hPLSx⟩ := nodup_nd_parts hPnd
  obtain ⟨hXLnd, hXRnd, hxXL, hxXR, hXLXR⟩ := nodup_nd_parts hSxnd
  have hxSx : x ∈ (BT.nd XL x XR).ids := by simp [BT.ids]
  have hpP : p ∈ (BT.nd PL p (BT.nd XL x XR)).ids := by simp [BT.ids]
  have hxP : x ∈ (BT.nd PL p (BT.nd XL x XR)).ids := by simp [BT.ids]
  have hxG : x ∈ (BT.nd (BT.nd PL p (BT.nd XL x XR)) g U).ids := by simp [BT.ids]
  have hpG : p ∈ (BT.nd (BT.nd PL p (BT.nd XL x XR)) g U).ids := by simp [BT.ids]
  have hgG : g ∈ (BT.nd (BT.nd PL p (BT.nd XL x XR)) g U).ids := by simp [BT.ids]
  have hxbt : x ∈ bt.ids := subAt_ids_subset hsub x hxG
  have hpbt : p ∈ bt.ids := subAt_ids_subset hsub p hpG
  have hgbt : g ∈ bt.ids := subAt_ids_subset hsub g hgG
  have hpx : p ≠ x := fun hc => hpSx (hc ▸ hxSx)
  have hgp' : ¬ (g = p) := fun hc => hgP (hc ▸ hpP)
  have hgx' : ¬ (g = x) := fun hc => hgP (hc ▸ hxP)
  have hXLx : ∀ j ∈ XL.ids, j ≠ x := fun j hj hc => hxXL (hc ▸ hj)
  have hXLp : ∀ j ∈ XL.ids, j ≠ p :=
    fun j hj hc => hpSx (hc ▸ (by simp [BT.ids, hj] : j ∈ (BT.nd XL x XR).ids))
  have hXRx : ∀ j ∈ XR.ids, j ≠ x := fun j hj hc => hxXR (hc ▸ hj)
  have hXRp : ∀ j ∈ XR.ids, j ≠ p :=
    fun j hj hc => hpSx (hc ▸ (by simp [BT.ids, hj] : j ∈ (BT.nd XL x XR).ids))
  have hPLp : ∀ j ∈ PL.ids, j ≠ p := fun j hj hc => hpPL (hc ▸ hj)
  have hPLx : ∀ j ∈ PL.ids, j ≠ x := fun j hj hc => hPLSx j hj (hc ▸ hxSx)
  -- the first zig-zag guard fires
  have hgrand : get_grandparent t x = g := by
    rw [get_grandparent, hxp0, hpp0]
  have hstep : insert_case4 t x
      = insert_case5 (rotate_left t p) ((rotate_left t p).heap x).leftChild := by
    simp only [insert_case4, hgrand, hxp0]
    rw [if_pos ⟨hprc.symm, hglc.symm⟩]
  -- the rotation at p
  have hGP : subAt (BT.nd (BT.nd PL p (BT.nd XL x XR)) g U) p
      = some (BT.nd PL p (BT.nd XL x XR)) := by
    simp [subAt, hgp']
  have hsubP : subAt bt p = some (BT.nd PL p (BT.nd XL x XR)) :=
    subAt_trans hsub hGP hnd
  have hrefine1 : Repr (rotate_left t p).heap t.nil t.nil (rotate_left t p).root
      (repAt bt p (BT.nd (BT.nd PL p XL) x XR)) :=
    rotate_left_refine hR hnd hnn hnilv hsubP
  have hids1 : (repAt bt p (BT.nd (BT.nd PL p XL) x XR)).ids = bt.ids := by
    refine repAt_ids_eq hsubP ?_
    simp [BT.ids]
  have hnd1 : (repAt bt p (BT.nd (BT.nd PL p XL) x XR)).ids.Nodup := by
    rw [hids1]
    exact hnd
  have hrootT1 : (rotate_left t p).root = t.root := by
    refine rotate_left_root_real t p ?_
    rw [hpp0]
    exact hgv
  -- the new shape around g
  have hrepG : repAt (BT.nd (BT.nd PL p (BT.nd XL x XR)) g U) p (BT.nd (BT.nd PL p XL) x XR)
      = BT.nd (BT.nd (BT.nd PL p XL) x XR) g U := by
    simp [repAt, subAt, hgp']
  have hsub1 : subAt (repAt bt p (BT.nd (BT.nd PL p XL) x XR)) g
      = some (BT.nd (BT.nd (BT.nd PL p XL) x XR) g U) := by
    have h1 := @subAt_repAt_comm bt g p _ _ (BT.nd (BT.nd PL p XL) x XR) hsub hGP hgp' hnd
    rw [hrepG] at h1
    exact h1
  have hGx : subAt (BT.nd (BT.nd (BT.nd PL p XL) x XR) g U) x
      = some (BT.nd (BT.nd PL p XL) x XR) := by
    simp [subAt, hgx']
  have hS1sub : subAt (repAt bt p (BT.nd (BT.nd PL p XL) x XR)) x
      = some (BT.nd (BT.nd PL p XL) x XR) :=
    subAt_trans hsub1 hGx hnd1
  have hlc1 : ((rotate_left t p).heap x).leftChild = p :=
    (repr_subAt hrefine1 hS1sub).2.2.2.1.1
  -- hypotheses of insert_case5_left on the rotated tree
  have hR1 : Repr (rotate_left t p).heap (rotate_left t p).nil (rotate_left t p).nil
      (rotate_left t p).root (repAt bt p (BT.nd (BT.nd PL p XL) x XR)) := by
    rw [rotate_left_nil]
    exact hrefine1
  have hnn1 : ∀ j ∈ (repAt bt p (BT.nd (BT.nd PL p XL) x XR)).ids,
      j ≠ (rotate_left t p).nil := by
    rw [hids1, rotate_left_nil]
    exact hnn
  have hnilv1 : ((rotate_left t p).heap (rotate_left t p).nil).value = none := by
    rw [rotate_left_nil, rotate_left_value]
    exact hnilv
  have hnilc1 : ((rotate_left t p).heap (rotate_left t p).nil).color = RBColor.BLACK := by
    rw [rotate_left_nil, rotate_left_color]
    exact hnilc
  have hpc1 : ((rotate_left t p).heap x).color = RBColor.RED := by
    rw [rotate_left_color]
    exact hxc
  have hgc1 : ((rotate_left t p).heap g).color = RBColor.BLACK := by
    rw [rotate_left_color]
    exact hgc
  have hcPL1 : colorOf (rotate_left t p).heap PL = RBColor.BLACK := by
    have hNRP : noRR (blacken t.heap x) (BT.nd PL p (BT.nd XL x XR)) :=
      (noRR_subAt hsub hNR).2.1
    have hpr : ((blacken t.heap x) p).color = RBColor.RED := by
      rw [blacken_ne t.heap x p hpx]
      exact hpc
    have hPLc : colorOf t.heap PL = RBColor.BLACK := by
      rw [← (hNRP.1 hpr).1]
      refine (colorOf_congr ?_).symm
      intro j hj
      rw [blacken_ne t.heap x j (hPLx j hj)]
    exact (colorOf_congr (fun j _ => rotate_left_color t p j)).trans hPLc
  have hcXL1 : colorOf (rotate_left t p).heap XL = RBColor.BLACK :=
    (colorOf_congr (fun j _ => rotate_left_color t p j)).trans hXL
  have hcXR1 : colorOf (rotate_left t p).heap XR = RBColor.BLACK :=
    (colorOf_congr (fun j _ => rotate_left_color t p j)).trans hXR
  have hcU1 : colorOf (rotate_left t p).heap U = RBColor.BLACK :=
    (colorOf_congr (fun j _ => rotate_left_color t p j)).trans hU
  -- the blackened-p no-red-red invariant after the rotation
  have hagB1 : ∀ j, j ≠ x → j ≠ p →
      ((blacken (rotate_left t p).heap p) j).color = ((blacken t.heap x) j).color := by
    intro j hjx hjp
    rw [blacken_ne _ p j hjp, blacken_ne _ x j hjx, rotate_left_color]
  have hNRS1 : noRR (blacken (rotate_left t p).heap p) (BT.nd (BT.nd PL p XL) x XR) := by
    have hNRG2 : noRR (blacken t.heap x)
        (BT.nd (BT.nd PL p (BT.nd XL x XR)) g U) := noRR_subAt hsub hNR
    refine ⟨?_, ⟨?_, ?_, ?_⟩, ?_⟩
    · intro _
      constructor
      · show ((blacken (rotate_left t p).heap p) p).color = RBColor.BLACK
        rw [blacken_eq]
      · refine (colorOf_congr ?_).trans hXR
        intro j hj
        rw [blacken_ne _ p j (hXRp j hj), rotate_left_color]
    · intro hred
      rw [blacken_eq] at hred
      simp at hred
    · refine (noRR_congr (fun j hj => hagB1 j (hPLx j hj) (hPLp j hj))).mpr ?_
      exact hNRG2.2.1.2.1
    · refine (noRR_congr (fun j hj => hagB1 j (hXLx j hj) (hXLp j hj))).mpr ?_
      exact hNRG2.2.1.2.2.2.1
    · refine (noRR_congr (fun j hj => hagB1 j (hXRx j hj) (hXRp j hj))).mpr ?_
      exact hNRG2.2.1.2.2.2.2
  have hPnotB : ¬ colorOf (blacken t.heap x) (BT.nd PL p (BT.nd XL x XR))
      = RBColor.BLACK := by
    show ¬ ((blacken t.heap x) p).color = RBColor.BLACK
    rw [blacken_ne t.heap x p hpx, hpc]
    exact fun hc => RBColor.noConfusion hc
  have hNR1 : noRR (blacken (rotate_left t p).heap p)
      (repAt bt p (BT.nd (BT.nd PL p XL) x XR)) := by
    refine noRR_graft_local hsubP hnd hNR hNRS1 ?_ (Or.inl (fun hc => absurd hc hPnotB))
    intro j hj hjn
    refine hagB1 j ?_ ?_
    · exact fun hc => hjn (hc ▸ hxP)
    · exact fun hc => hjn (hc ▸ hpP)
  -- black-height across the rotation
  obtain ⟨a, hPbh, hUbh, hGval⟩ := bhOf_nd_some (bhOf_subAt hsub hbh)
  obtain ⟨b, hPLbh, hSxbh, hPval⟩ := bhOf_nd_some
    (show (bhOf t.heap (BT.nd PL p (BT.nd XL x XR))).isSome = true by rw [hPbh]; rfl)
  obtain ⟨c, hXLbh, hXRbh, hSxval⟩ := bhOf_nd_some
    (show (bhOf t.heap (BT.nd XL x XR)).isSome = true by rw [hSxbh]; rfl)
  have hxnotB : ¬ (t.heap x).color = RBColor.BLACK := by
    rw [hxc]
    exact fun hc => RBColor.noConfusion hc
  have hpnotB : ¬ (t.heap p).color = RBColor.BLACK := by
    rw [hpc]
    exact fun hc => RBColor.noConfusion hc
  have hcb : c = b := by
    rw [hSxbh, if_neg hxnotB] at hSxval
    have := Option.some.inj hSxval
    omega
  have hXLb : bhOf t.heap XL = some b := by rw [hXLbh, hcb]
  have hXRb : bhOf t.heap XR = some b := by rw [hXRbh, hcb]
  have hS1l : bhOf t.heap (BT.nd PL p XL) = some b := by
    rw [bhOf_node_build hPLbh hXLb, hpc]
    simp
  have hS1bh : bhOf t.heap (BT.nd (BT.nd PL p XL) x XR) = some b := by
    rw [bhOf_node_build hS1l hXRb, hxc]
    simp
  have hPb : bhOf t.heap (BT.nd PL p (BT.nd XL x XR)) = some b := by
    rw [bhOf_node_build hPLbh hSxbh, hpc]
    simp
  have hbheq : bhOf t.heap (BT.nd (BT.nd PL p XL) x XR)
      = bhOf t.heap (BT.nd PL p (BT.nd XL x XR)) := by
    rw [hS1bh, hPb]
  have hbh1eq : bhOf (rotate_left t p).heap (repAt bt p (BT.nd (BT.nd PL p XL) x XR))
      = bhOf t.heap bt := by
    rw [bhOf_congr (fun j _ => rotate_left_color t p j)]
    exact bhOf_graft_local hsubP hnd hbheq (fun j _ _ => rfl)
  have hbh1 : (bhOf (rotate_left t p).heap
      (repAt bt p (BT.nd (BT.nd PL p XL) x XR))).isSome = true := by
    rw [hbh1eq]
    exact hbh
  have hroot1 : ((rotate_left t p).heap (rotate_left t p).root).color = RBColor.BLACK
      ∨ (rotate_left t p).root = g := by
    rw [hrootT1, rotate_left_color]
    exact hroot
  -- resolve with insert_case5 and translate the contract back to t
  obtain ⟨hrep, hids5, hval5, hfr5, hcolfr5, hnil5, hnext5, hsize5, hNR5, hbh5, hrootB5⟩ :=
    insert_case5_left hR1 hnd1 hnn1 hnilv1 hnilc1 hsub1 hpc1 hgc1 hcPL1 hcXL1 hcXR1 hcU1
      hNR1 hbh1 hroot1 rfl
  rw [rotate_left_nil] at hrep hfr5 hnil5
  rw [hstep, hlc1]
  refine ⟨repAt (repAt bt p (BT.nd (BT.nd PL p XL) x XR)) g
      (BT.nd (BT.nd PL p XL) x (BT.nd XR g U)), hrep, ?_, ?_, ?_, ?_, ?_, ?_, hNR5, ?_, hrootB5, ?_⟩
  · rw [hids5, hids1]
  · intro j
    rw [hval5 j, rotate_left_value]
  · intro j hjbt hjnil
    have hjp : j ≠ p := fun hc => hjbt (hc ▸ hpbt)
    have hjx : j ≠ x := fun hc => hjbt (hc ▸ hxbt)
    have hjg : j ≠ g := fun hc => hjbt (hc ▸ hgbt)
    rw [hfr5 j (by rw [hids1]; exact hjbt) hjnil]
    refine rotate_left_heap_frame t p j hjp ?_ ?_ ?_
    · rw [hprc]
      exact hjx
    · rw [hprc]
      rcases repr_slot_mem hXLrep0 with hsl | hsl
      · rw [hsl]
        exact hjnil
      · exact fun hc => hjbt (hc ▸ subAt_ids_subset hsub _ (by
          simp only [BT.ids, List.mem_append, List.mem_cons]
          tauto))
    · rw [hpp0]
      exact hjg
  · rw [hnil5]
  · rw [hnext5, rotate_left_nextId]
  · rw [hsize5, rotate_left_size]
  · rw [hbh5, hbh1eq]
  · rw [hcolfr5 t.nil (Ne.symm (hnn x hxbt)) (Ne.symm (hnn g hgbt)), rotate_left_color]
    exact hnilc

set_option maxHeartbeats 1600000 in

/-- `insert_case4` on the right-left zig-zag shape (`x` RED left child
of RED `p`, itself right child of BLACK `g`): a right rotation at `p`
straightens the chain, then `insert_case5` (applied to the demoted `p`)
resolves the double red. -/
theorem insert_case4_RL {t : RBTree} {bt XL XR PR U : BT} {x p g : Nat}
    (hR : Repr t.heap t.nil t.nil t.root bt)
    (hnd : bt.ids.Nodup)
    (hnn : ∀ j ∈ bt.ids, j ≠ t.nil)
    (hnilv : (t.heap t.nil).value = none)
    (hnilc : (t.heap t.nil).color = RBColor.BLACK)
    (hsub : subAt bt g = some (BT.nd U g (BT.nd (BT.nd XL x XR) p PR)))
    (hxc : (t.heap x).color = RBColor.RED)
    (hpc : (t.heap p).color = RBColor.RED)
    (hgc : (t.heap g).color = RBColor.BLACK)
    (hXL : colorOf t.heap XL = RBColor.BLACK)
    (hXR : colorOf t.heap XR = RBColor.BLACK)
    (hU : colorOf t.heap U = RBColor.BLACK)
    (hNR : noRR (blacken t.heap x) bt)
    (hbh : (bhOf t.heap bt).isSome = true)
    (hroot : (t.heap t.root).color = RBColor.BLACK ∨ t.root = g) :
    ∃ bt', FixOut t bt (insert_case4 t x) bt' := by
  -- pointer structure
  have hGrep := repr_subAt hR hsub
  obtain ⟨-, hgv, -, hUrep0, hPrep0⟩ := hGrep
  have hgrc : (t.heap g).rightChild = p := hPrep0.1
  obtain ⟨-, hpv0, hpp0, hSxrep0, hPRrep0⟩ := hPrep0
  rw [hgrc] at hpv0 hpp0 hSxrep0 hPRrep0
  have hplc : (t.heap p).leftChild = x := hSxrep0.1
  obtain ⟨-, hxv0, hxp0, hXLrep0, hXRrep0⟩ := hSxrep0
  rw [hplc] at hxv0 hxp0 hXLrep0 hXRrep0
  -- distinctness
  have hGnd := subAt_nodup hsub hnd
  obtain ⟨hUnd, hPnd, hgU, hgP, hUP⟩ := nodup_nd_parts hGnd
  obtain ⟨hSxnd, hPRnd, hpSx, hpPR, hSxPR⟩ := nodup_nd_parts hPnd
  obtain ⟨hXLnd, hXRnd, hxXL, hxXR, hXLXR⟩ := nodup_nd_parts hSxnd
  have hxSx : x ∈ (BT.nd XL x XR).ids := by simp [BT.ids]
  have hpP : p ∈ (BT.nd (BT.nd XL x XR) p PR).ids := by simp [BT.ids]
  have hxP : x ∈ (BT.nd (BT.nd XL x XR) p PR).ids := by simp [BT.ids]
  have hxG : x ∈ (BT.nd U g (BT.nd (BT.nd XL x XR) p PR)).ids := by simp [BT.ids]
  have hpG : p ∈ (BT.nd U g (BT.nd (BT.nd XL x XR) p PR)).ids := by simp [BT.ids]
  have hgG : g ∈ (BT.nd U g (BT.nd (BT.nd XL x XR) p PR)).ids := by simp [BT.ids]
  have hxbt : x ∈ bt.ids := subAt_ids_subset hsub x hxG
  have hpbt : p ∈ bt.ids := subAt_ids_subset hsub p hpG
  have hgbt : g ∈ bt.ids := subAt_ids_subset hsub g hgG
  have hpx : p ≠ x := fun hc => hpSx (hc ▸ hxSx)
  have hgp' : ¬ (g = p) := fun hc => hgP (hc ▸ hpP)
  have hgx' : ¬ (g = x) := fun hc => hgP (hc ▸ hxP)
  have hXLx : ∀ j ∈ XL.ids, j ≠ x := fun j hj hc => hxXL (hc ▸ hj)
  have hXLp : ∀ j ∈ XL.ids, j ≠ p :=
    fun j hj hc => hpSx (hc ▸ (by simp [BT.ids, hj] : j ∈ (BT.nd XL x XR).ids))
  have hXRx : ∀ j ∈ XR.ids, j ≠ x := fun j hj hc => hxXR (hc ▸ hj)
  have hXRp : ∀ j ∈ XR.ids, j ≠ p :=
    fun j hj hc => hpSx (hc ▸ (by simp [BT.ids, hj] : j ∈ (BT.nd XL x XR).ids))
  have hPRp : ∀ j ∈ PR.ids, j ≠ p := fun j hj hc => hpPR (hc ▸ hj)
  have hPRx : ∀ j ∈ PR.ids, j ≠ x := fun j hj hc => hSxPR x hxSx (hc ▸ hj)
  -- the second zig-zag guard fires
  have hgrand : get_grandparent t x = g := by
    rw [get_grandparent, hxp0, hpp0]
  have hct1 : ¬ (x = (t.heap p).rightChild ∧ p = (t.heap g).leftChild) := by
    rintro ⟨-, h2⟩
    rcases repr_slot_mem hUrep0 with hsl | hsl
    · rw [hsl] at h2
      exact hnn p hpbt h2
    · rw [← h2] at hsl
      exact hUP p hsl hpP
  have hstep : insert_case4 t x
      = insert_case5 (rotate_right t p) ((rotate_right t p).heap x).rightChild := by
    simp only [insert_case4, hgrand, hxp0]
    rw [if_neg hct1, if_pos ⟨hplc.symm, hgrc.symm⟩]
  -- the rotation at p
  have hGP : subAt (BT.nd U g (BT.nd (BT.nd XL x XR) p PR)) p
      = some (BT.nd (BT.nd XL x XR) p PR) := by
    have hUnone : subAt U p = none := subAt_eq_none (fun hc => hUP p hc hpP)
    simp [subAt, hgp', hUnone]
  have hsubP : subAt bt p = some (BT.nd (BT.nd XL x XR) p PR) :=
    subAt_trans hsub hGP hnd
  have hrefine1 : Repr (rotate_right t p).heap t.nil t.nil (rotate_right t p).root
      (repAt bt p (BT.nd XL x (BT.nd XR p PR))) :=
    rotate_right_refine hR hnd hnn hnilv hsubP
  have hids1 : (repAt bt p (BT.nd XL x (BT.nd XR p PR))).ids = bt.ids := by
    refine repAt_ids_eq hsubP ?_
    simp [BT.ids]
  have hnd1 : (repAt bt p (BT.nd XL x (BT.nd XR p PR))).ids.Nodup := by
    rw [hids1]
    exact hnd
  have hrootT1 : (rotate_right t p).root = t.root := by
    refine rotate_right_root_real t p ?_
    rw [hpp0]
    exact hgv
  -- the new shape around g
  have hrepG : repAt (BT.nd U g (BT.nd (BT.nd XL x XR) p PR)) p (BT.nd XL x (BT.nd XR p PR))
      = BT.nd U g (BT.nd XL x (BT.nd XR p PR)) := by
    have hUnone : subAt U p = none := subAt_eq_none (fun hc => hUP p hc hpP)
    simp [repAt, subAt, hgp', hUnone]
  have hsub1 : subAt (repAt bt p (BT.nd XL x (BT.nd XR p PR))) g
      = some (BT.nd U g (BT.nd XL x (BT.nd XR p PR))) := by
    have h1 := @subAt_repAt_comm bt g p _ _ (BT.nd XL x (BT.nd XR p PR)) hsub hGP hgp' hnd
    rw [hrepG] at h1
    exact h1
  have hGx : subAt (BT.nd U g (BT.nd XL x (BT.nd XR p PR))) x
      = some (BT.nd XL x (BT.nd XR p PR)) := by
    have hUnone : subAt U x = none := subAt_eq_none (fun hc => hUP x hc hxP)
    simp [subAt, hgx', hUnone]
  have hS1sub : subAt (repAt bt p (BT.nd XL x (BT.nd XR p PR))) x
      = some (BT.nd XL x (BT.nd XR p PR)) :=
    subAt_trans hsub1 hGx hnd1
  have hrc1 : ((rotate_right t p).heap x).rightChild = p :=
    (repr_subAt hrefine1 hS1sub).2.2.2.2.1
  -- hypotheses of insert_case5_right on the rotated tree
  have hR1 : Repr (rotate_right t p).heap (rotate_right t p).nil (rotate_right t p).nil
      (rotate_right t p).root (repAt bt p (BT.nd XL x (BT.nd XR p PR))) := by
    rw [rotate_right_nil]
    exact hrefine1
  have hnn1 : ∀ j ∈ (repAt bt p (BT.nd XL x (BT.nd XR p PR))).ids,
      j ≠ (rotate_right t p).nil := by
    rw [hids1, rotate_right_nil]
    exact hnn
  have hnilv1 : ((rotate_right t p).heap (rotate_right t p).nil).value = none := by
    rw [rotate_right_nil, rotate_right_value]
    exact hnilv
  have hnilc1 : ((rotate_right t p).heap (rotate_right t p).nil).color = RBColor.BLACK := by
    rw [rotate_right_nil, rotate_right_color]
    exact hnilc
  have hpc1 : ((rotate_right t p).heap x).color = RBColor.RED := by
    rw [rotate_right_color]
    exact hxc
  have hgc1 : ((rotate_right t p).heap g).color = RBColor.BLACK := by
    rw [rotate_right_color]
    exact hgc
  have hcPR1 : colorOf (rotate_right t p).heap PR = RBColor.BLACK := by
    have hNRP : noRR (blacken t.heap x) (BT.nd (BT.nd XL x XR) p PR) :=
      (noRR_subAt hsub hNR).2.2
    have hpr : ((blacken t.heap x) p).color = RBColor.RED := by
      rw [blacken_ne t.heap x p hpx]
      exact hpc
    have hPRc : colorOf t.heap PR = RBColor.BLACK := by
      rw [← (hNRP.1 hpr).2]
      refine (colorOf_congr ?_).symm
      intro j hj
      rw [blacken_ne t.heap x j (hPRx j hj)]
    exact (colorOf_congr (fun j _ => rotate_right_color t p j)).trans hPRc
  have hcXL1 : colorOf (rotate_right t p).heap XL = RBColor.BLACK :=
    (colorOf_congr (fun j _ => rotate_right_color t p j)).trans hXL
  have hcXR1 : colorOf (rotate_right t p).heap XR = RBColor.BLACK :=
    (colorOf_congr (fun j _ => rotate_right_color t p j)).trans hXR
  have hcU1 : colorOf (rotate_right t p).heap U = RBColor.BLACK :=
    (colorOf_congr (fun j _ => rotate_right_color t p j)).trans hU
  -- the blackened-p no-red-red invariant after the rotation
  have hagB1 : ∀ j, j ≠ x → j ≠ p →
      ((blacken (rotate_right t p).heap p) j).color = ((blacken t.heap x) j).color := by
    intro j hjx hjp
    rw [blacken_ne _ p j hjp, blacken_ne _ x j hjx, rotate_right_color]
  have hNRS1 : noRR (blacken (rotate_right t p).heap p) (BT.nd XL x (BT.nd XR p PR)) := by
    have hNRG2 : noRR (blacken t.heap x)
        (BT.nd U g (BT.nd (BT.nd XL x XR) p PR)) := noRR_subAt hsub hNR
    refine ⟨?_, ?_, ?_, ?_, ?_⟩
    · intro _
      constructor
      · refine (colorOf_congr ?_).trans hXL
        intro j hj
        rw [blacken_ne _ p j (hXLp j hj), rotate_right_color]
      · show ((blacken (rotate_right t p).heap p) p).color = RBColor.BLACK
        rw [blacken_eq]
    · refine (noRR_congr (fun j hj => hagB1 j (hXLx j hj) (hXLp j hj))).mpr ?_
      exact hNRG2.2.2.2.1.2.1
    · intro hred
      rw [blacken_eq] at hred
      simp at hred
    · refine (noRR_congr (fun j hj => hagB1 j (hXRx j hj) (hXRp j hj))).mpr ?_
      exact hNRG2.2.2.2.1.2.2
    · refine (noRR_congr (fun j hj => hagB1 j (hPRx j hj) (hPRp j hj))).mpr ?_
      exact hNRG2.2.2.2.2
  have hPnotB : ¬ colorOf (blacken t.heap x) (BT.nd (BT.nd XL x XR) p PR)
      = RBColor.BLACK := by
    show ¬ ((blacken t.heap x) p).color = RBColor.BLACK
    rw [blacken_ne t.heap x p hpx, hpc]
    exact fun hc => RBColor.noConfusion hc
  have hNR1 : noRR (blacken (rotate_right t p).heap p)
      (repAt bt p (BT.nd XL x (BT.nd XR p PR))) := by
    refine noRR_graft_local hsubP hnd hNR hNRS1 ?_ (Or.inl (fun hc => absurd hc hPnotB))
    intro j hj hjn
    refine hagB1 j ?_ ?_
    · exact fun hc => hjn (hc ▸ hxP)
    · exact fun hc => hjn (hc ▸ hpP)
  -- black-height across the rotation
  obtain ⟨a, hUbh, hPbh, hGval⟩ := bhOf_nd_some (bhOf_subAt hsub hbh)
  obtain ⟨b, hSxbh, hPRbh, hPval⟩ := bhOf_nd_some
    (show (bhOf t.heap (BT.nd (BT.nd XL x XR) p PR)).isSome = true by rw [hPbh]; rfl)
  obtain ⟨c, hXLbh, hXRbh, hSxval⟩ := bhOf_nd_some
    (show (bhOf t.heap (BT.nd XL x XR)).isSome = true by rw [hSxbh]; rfl)
  have hxnotB : ¬ (t.heap x).color = RBColor.BLACK := by
    rw [hxc]
    exact fun hc => RBColor.noConfusion hc
  have hcb : c = b := by
    rw [hSxbh, if_neg hxnotB] at hSxval
    have := Option.some.inj hSxval
    omega
  have hXLb : bhOf t.heap XL = some b := by rw [hXLbh, hcb]
  have hXRb : bhOf t.heap XR = some b := by rw [hXRbh, hcb]
  have hS1r : bhOf t.heap (BT.nd XR p PR) = some b := by
    rw [bhOf_node_build hXRb hPRbh, hpc]
    simp
  have hS1bh : bhOf t.heap (BT.nd XL x (BT.nd XR p PR)) = some b := by
    rw [bhOf_node_build hXLb hS1r, hxc]
    simp
  have hPb : bhOf t.heap (BT.nd (BT.nd XL x XR) p PR) = some b := by
    rw [bhOf_node_build hSxbh hPRbh, hpc]
    simp
  have hbheq : bhOf t.heap (BT.nd XL x (BT.nd XR p PR))
      = bhOf t.heap (BT.nd (BT.nd XL x XR) p PR) := by
    rw [hS1bh, hPb]
  have hbh1eq : bhOf (rotate_right t p).heap (repAt bt p (BT.nd XL x (BT.nd XR p PR)))
      = bhOf t.heap bt := by
    rw [bhOf_congr (fun j _ => rotate_right_color t p j)]
    exact bhOf_graft_local hsubP hnd hbheq (fun j _ _ => rfl)
  have hbh1 : (bhOf (rotate_right t p).heap
      (repAt bt p (BT.nd XL x (BT.nd XR p PR)))).isSome = true := by
    rw [hbh1eq]
    exact hbh
  have hroot1 : ((rotate_right t p).heap (rotate_right t p).root).color = RBColor.BLACK
      ∨ (rotate_right t p).root = g := by
    rw [hrootT1, rotate_right_color]
    exact hroot
  -- resolve with insert_case5 and translate the contract back to t
  obtain ⟨hrep, hids5, hval5, hfr5, hcolfr5, hnil5, hnext5, hsize5, hNR5, hbh5, hrootB5⟩ :=
    insert_case5_right hR1 hnd1 hnn1 hnilv1 hnilc1 hsub1 hpc1 hgc1 hcXR1 hcPR1 hcXL1 hcU1
      hNR1 hbh1 hroot1 rfl
  rw [rotate_right_nil] at hrep hfr5 hnil5
  rw [hstep, hrc1]
  refine ⟨repAt (repAt bt p (BT.nd XL x (BT.nd XR p PR))) g
      (BT.nd (BT.nd U g XL) x (BT.nd XR p PR)), hrep, ?_, ?_, ?_, ?_, ?_, ?_, hNR5, ?_,
      hrootB5, ?_⟩
  · rw [hids5, hids1]
  · intro j
    rw [hval5 j, rotate_right_value]
  · intro j hjbt hjnil
    have hjp : j ≠ p := fun hc => hjbt (hc ▸ hpbt)
    have hjx : j ≠ x := fun hc => hjbt (hc ▸ hxbt)
    have hjg : j ≠ g := fun hc => hjbt (hc ▸ hgbt)
    rw [hfr5 j (by rw [hids1]; exact hjbt) hjnil]
    refine rotate_right_heap_frame t p j hjp ?_ ?_ ?_
    · rw [hplc]
      exact hjx
    · rw [hplc]
      rcases repr_slot_mem hXRrep0 with hsl | hsl
      · rw [hsl]
        exact hjnil
      · exact fun hc => hjbt (hc ▸ subAt_ids_subset hsub _ (by
          simp only [BT.ids, List.mem_append, List.mem_cons]
          tauto))
    · rw [hpp0]
      exact hjg
  · rw [hnil5]
  · rw [hnext5, rotate_right_nextId]
  · rw [hsize5, rotate_right_size]
  · rw [hbh5, hbh1eq]
  · rw [hcolfr5 t.nil (Ne.symm (hnn x hxbt)) (Ne.symm (hnn g hgbt)), rotate_right_color]
    exact hnilc

theorem setColor_parent (t : RBTree) (i : Nat) (c : RBColor) (j : Nat) :
    ((setColor t i c).heap j).parent = (t.heap j).parent := by
  simp only [setColor, writeNode]
  split <;> simp_all

theorem setColor_leftChild (t : RBTree) (i : Nat) (c : RBColor) (j : Nat) :
    ((setColor t i c).heap j).leftChild = (t.heap j).leftChild := by
  simp only [setColor, writeNode]
  split <;> simp_all

theorem setColor_rightChild (t : RBTree) (i : Nat) (c : RBColor) (j : Nat) :
    ((setColor t i c).heap j).rightChild = (t.heap j).rightChild := by
  simp only [setColor, writeNode]
  split <;> simp_all

set_option maxHeartbeats 3200000 in

/-- The recoloring step of `insert_case3` with the parent on the
grandparent's left: painting the parent and uncle BLACK and the
grandparent RED re-establishes the insert-fixup invariant with the
grandparent as the new problem node, keeping the tree shape, every
payload and every black-height. -/
theorem insert_case3_recolor_left {t : RBTree} {bt SL SR PL PR UA UB : BT}
    {x px u g : Nat}
    (hR : Repr t.heap t.nil t.nil t.root bt)
    (hnd : bt.ids.Nodup)
    (hsubx : subAt bt x = some (BT.nd SL x SR))
    (hxc : (t.heap x).color = RBColor.RED)
    (hSL : colorOf t.heap SL = RBColor.BLACK)
    (hSR : colorOf t.heap SR = RBColor.BLACK)
    (hNR : noRR (blacken t.heap x) bt)
    (hbh : (bhOf t.heap bt).isSome = true)
    (hpxc : (t.heap px).color = RBColor.RED)
    (hsubg : subAt bt g = some (BT.nd (BT.nd PL px PR) g (BT.nd UA u UB)))
    (hgc : (t.heap g).color = RBColor.BLACK)
    (huc : (t.heap u).color = RBColor.RED)
    (hPx : PL = BT.nd SL x SR ∨ PR = BT.nd SL x SR) :
    Repr (setColor (setColor (setColor t px RBColor.BLACK) u RBColor.BLACK) g
        RBColor.RED).heap t.nil t.nil t.root bt ∧
    ((setColor (setColor (setColor t px RBColor.BLACK) u RBColor.BLACK) g
        RBColor.RED).heap g).color = RBColor.RED ∧
    colorOf (setColor (setColor (setColor t px RBColor.BLACK) u RBColor.BLACK) g
        RBColor.RED).heap (BT.nd PL px PR) = RBColor.BLACK ∧
    colorOf (setColor (setColor (setColor t px RBColor.BLACK) u RBColor.BLACK) g
        RBColor.RED).heap (BT.nd UA u UB) = RBColor.BLACK ∧
    noRR (blacken (setColor (setColor (setColor t px RBColor.BLACK) u RBColor.BLACK) g
        RBColor.RED).heap g) bt ∧
    bhOf (setColor (setColor (setColor t px RBColor.BLACK) u RBColor.BLACK) g
        RBColor.RED).heap bt = bhOf t.heap bt := by
  -- distinctness of the recolored slots
  have hGnd := subAt_nodup hsubg hnd
  obtain ⟨hPnd, hUnd, hgP, hgU, hPU⟩ := nodup_nd_parts hGnd
  obtain ⟨hPLnd, hPRnd, hpxPL, hpxPR, hPLPR⟩ := nodup_nd_parts hPnd
  have hSxnd : (BT.nd SL x SR).ids.Nodup := subAt_nodup hsubx hnd
  obtain ⟨hSLnd, hSRnd, hxSL, hxSR, hSLSR⟩ := nodup_nd_parts hSxnd
  have hxSx : x ∈ (BT.nd SL x SR).ids := by simp [BT.ids]
  have hpxP : px ∈ (BT.nd PL px PR).ids := by simp [BT.ids]
  have huU : u ∈ (BT.nd UA u UB).ids := by simp [BT.ids]
  have hxP : x ∈ (BT.nd PL px PR).ids := by
    rcases hPx with hpl | hpr
    · rw [hpl] at hpxPL hPLPR ⊢
      simp [BT.ids]
    · rw [hpr] at hpxPR ⊢
      simp [BT.ids]
  have hpxx : px ≠ x := by
    rcases hPx with hpl | hpr
    · exact fun hc => hpxPL (by rw [hpl, hc]; exact hxSx)
    · exact fun hc => hpxPR (by rw [hpr, hc]; exact hxSx)
  have hpxSx : px ∉ (BT.nd SL x SR).ids := by
    rcases hPx with hpl | hpr
    · rw [← hpl]
      exact hpxPL
    · rw [← hpr]
      exact hpxPR
  have hpxu : px ≠ u := fun hc => hPU px hpxP (by rw [hc]; exact huU)
  have hxu : x ≠ u := fun hc => hPU x hxP (by rw [hc]; exact huU)
  have hgpx : g ≠ px := fun hc => hgP (by rw [hc]; exact hpxP)
  have hgx : g ≠ x := fun hc => hgP (by rw [hc]; exact hxP)
  have hgu : g ≠ u := fun hc => hgU (by rw [hc]; exact huU)
  -- subtree lookup for the parent
  have hGpx : subAt (BT.nd (BT.nd PL px PR) g (BT.nd UA u UB)) px
      = some (BT.nd PL px PR) := by
    simp [subAt, hgpx]
  have hsubpx : subAt bt px = some (BT.nd PL px PR) := subAt_trans hsubg hGpx hnd
  -- pointwise colors of the recolored heap
  have hcol3 : ∀ j, j ≠ px → j ≠ u → j ≠ g →
      ((setColor (setColor (setColor t px RBColor.BLACK) u RBColor.BLACK) g
        RBColor.RED).heap j).color = (t.heap j).color := by
    intro j h1 h2 h3
    rw [setColor_heap_ne _ _ _ _ h3, setColor_heap_ne _ _ _ _ h2,
      setColor_heap_ne _ _ _ _ h1]
  have hcpx : ((setColor (setColor (setColor t px RBColor.BLACK) u RBColor.BLACK) g
      RBColor.RED).heap px).color = RBColor.BLACK := by
    rw [setColor_heap_ne _ _ _ _ (Ne.symm hgpx), setColor_heap_ne _ _ _ _ hpxu,
      setColor_heap_eq]
  have hcu : ((setColor (setColor (setColor t px RBColor.BLACK) u RBColor.BLACK) g
      RBColor.RED).heap u).color = RBColor.BLACK := by
    rw [setColor_heap_ne _ _ _ _ (Ne.symm hgu), setColor_heap_eq]
  have hcg : ((setColor (setColor (setColor t px RBColor.BLACK) u RBColor.BLACK) g
      RBColor.RED).heap g).color = RBColor.RED := by
    rw [setColor_heap_eq]
  have hcx : ((setColor (setColor (setColor t px RBColor.BLACK) u RBColor.BLACK) g
      RBColor.RED).heap x).color = RBColor.RED := by
    rw [hcol3 x (Ne.symm hpxx) hxu (Ne.symm hgx)]
    exact hxc
  -- membership transfer down the grandparent subtree
  have hPG : ∀ j ∈ (BT.nd PL px PR).ids,
      j ∈ (BT.nd (BT.nd PL px PR) g (BT.nd UA u UB)).ids := by
    intro j hj
    simp only [BT.ids, List.mem_append, List.mem_cons] at hj ⊢
    tauto
  have hUG : ∀ j ∈ (BT.nd UA u UB).ids,
      j ∈ (BT.nd (BT.nd PL px PR) g (BT.nd UA u UB)).ids := by
    intro j hj
    simp only [BT.ids, List.mem_append, List.mem_cons] at hj ⊢
    tauto
  have hPex : ∀ j ∈ (BT.nd PL px PR).ids, j ≠ u ∧ j ≠ g :=
    fun j hj => ⟨fun hc => hPU j hj (by rw [hc]; exact huU),
      fun hc => hgP (by rw [← hc]; exact hj)⟩
  have hUex : ∀ j ∈ (BT.nd UA u UB).ids, j ≠ px ∧ j ≠ g ∧ j ≠ x :=
    fun j hj => ⟨fun hc => hPU px hpxP (by rw [← hc]; exact hj),
      fun hc => hgU (by rw [← hc]; exact hj),
      fun hc => hPU x hxP (by rw [← hc]; exact hj)⟩
  -- agreement of the blackened recolored heap with the two base heaps
  have hagTT : ∀ j, j ≠ px → j ≠ u → j ≠ g →
      ((blacken (setColor (setColor (setColor t px RBColor.BLACK) u RBColor.BLACK) g
        RBColor.RED).heap g) j).color = (t.heap j).color := by
    intro j h1 h2 h3
    rw [blacken_ne _ g j h3]
    exact hcol3 j h1 h2 h3
  have hagT : ∀ j, j ≠ px → j ≠ u → j ≠ g → j ≠ x →
      ((blacken (setColor (setColor (setColor t px RBColor.BLACK) u RBColor.BLACK) g
        RBColor.RED).heap g) j).color = ((blacken t.heap x) j).color := by
    intro j h1 h2 h3 h4
    rw [blacken_ne _ x j h4]
    exact hagTT j h1 h2 h3
  have hbg : ((blacken (setColor (setColor (setColor t px RBColor.BLACK) u RBColor.BLACK) g
      RBColor.RED).heap g) g).color = RBColor.BLACK := by
    rw [blacken_eq]
  have hbpx : ((blacken (setColor (setColor (setColor t px RBColor.BLACK) u RBColor.BLACK) g
      RBColor.RED).heap g) px).color = RBColor.BLACK := by
    rw [blacken_ne _ g px (fun hc => hgpx hc.symm)]
    exact hcpx
  have hbu : ((blacken (setColor (setColor (setColor t px RBColor.BLACK) u RBColor.BLACK) g
      RBColor.RED).heap g) u).color = RBColor.BLACK := by
    rw [blacken_ne _ g u (fun hc => hgu hc.symm)]
    exact hcu
  have hbx : ((blacken (setColor (setColor (setColor t px RBColor.BLACK) u RBColor.BLACK) g
      RBColor.RED).heap g) x).color = RBColor.RED := by
    rw [blacken_ne _ g x (fun hc => hgx hc.symm)]
    exact hcx
  -- base no-red-red pieces
  have hNRSx : noRR (blacken t.heap x) (BT.nd SL x SR) := noRR_subAt hsubx hNR
  have hNRP : noRR (blacken t.heap x) (BT.nd PL px PR) := noRR_subAt hsubpx hNR
  have hNRG : noRR (blacken t.heap x) (BT.nd (BT.nd PL px PR) g (BT.nd UA u UB)) :=
    noRR_subAt hsubg hNR
  have hNRUA : noRR (blacken t.heap x) UA := hNRG.2.2.2.1
  have hNRUB : noRR (blacken t.heap x) UB := hNRG.2.2.2.2
  -- exclusions for every leaf subtree
  have hSLex : ∀ j ∈ SL.ids, j ≠ px ∧ j ≠ u ∧ j ≠ g ∧ j ≠ x := by
    intro j hj
    have hjSx : j ∈ (BT.nd SL x SR).ids := by simp [BT.ids, hj]
    have hjP : j ∈ (BT.nd PL px PR).ids := by
      rcases hPx with hpl | hpr
      · rw [hpl] at hpxPL hPLPR ⊢
        simp only [BT.ids, List.mem_append, List.mem_cons] at hjSx ⊢
        tauto
      · rw [hpr] at hpxPR ⊢
        simp only [BT.ids, List.mem_append, List.mem_cons] at hjSx ⊢
        tauto
    refine ⟨fun hc => hpxSx (by rw [← hc]; exact hjSx), (hPex j hjP).1, (hPex j hjP).2,
      fun hc => hxSL (by rw [← hc]; exact hj)⟩
  have hSRex : ∀ j ∈ SR.ids, j ≠ px ∧ j ≠ u ∧ j ≠ g ∧ j ≠ x := by
    intro j hj
    have hjSx : j ∈ (BT.nd SL x SR).ids := by simp [BT.ids, hj]
    have hjP : j ∈ (BT.nd PL px PR).ids := by
      rcases hPx with hpl | hpr
      · rw [hpl] at hpxPL hPLPR ⊢
        simp only [BT.ids, List.mem_append, List.mem_cons] at hjSx ⊢
        tauto
      · rw [hpr] at hpxPR ⊢
        simp only [BT.ids, List.mem_append, List.mem_cons] at hjSx ⊢
        tauto
    refine ⟨fun hc => hpxSx (by rw [← hc]; exact hjSx), (hPex j hjP).1, (hPex j hjP).2,
      fun hc => hxSR (by rw [← hc]; exact hj)⟩
  have hUAex : ∀ j ∈ UA.ids, j ≠ px ∧ j ≠ u ∧ j ≠ g ∧ j ≠ x := by
    intro j hj
    have hjU : j ∈ (BT.nd UA u UB).ids := by simp [BT.ids, hj]
    obtain ⟨h1, h2, h3⟩ := hUex j hjU
    obtain ⟨hUAnd, hUBnd, huUA, huUB, hUAUB⟩ := nodup_nd_parts hUnd
    exact ⟨h1, fun hc => huUA (by rw [← hc]; exact hj), h2, h3⟩
  have hUBex : ∀ j ∈ UB.ids, j ≠ px ∧ j ≠ u ∧ j ≠ g ∧ j ≠ x := by
    intro j hj
    have hjU : j ∈ (BT.nd UA u UB).ids := by simp [BT.ids, hj]
    obtain ⟨h1, h2, h3⟩ := hUex j hjU
    obtain ⟨hUAnd, hUBnd, huUA, huUB, hUAUB⟩ := nodup_nd_parts hUnd
    exact ⟨h1, fun hc => huUB (by rw [← hc]; exact hj), h2, h3⟩
  -- no-red-red of the recolored grandparent subtree (with g blackened)
  have hS'nr : noRR (blacken (setColor (setColor (setColor t px RBColor.BLACK) u
      RBColor.BLACK) g RBColor.RED).heap g)
      (BT.nd (BT.nd PL px PR) g (BT.nd UA u UB)) := by
    refine ⟨?_, ⟨?_, ?_, ?_⟩, ?_, ?_, ?_⟩
    · intro hred
      rw [hbg] at hred
      simp at hred
    · intro hred
      rw [hbpx] at hred
      simp at hred
    · -- noRR of PL
      rcases hPx with hpl | hpr
      · rw [hpl]
        refine ⟨?_, ?_, ?_⟩
        · intro _
          refine ⟨?_, ?_⟩
          · refine (colorOf_congr (fun j hj => ?_)).trans hSL
            obtain ⟨e1, e2, e3, -⟩ := hSLex j hj
            exact hagTT j e1 e2 e3
          · refine (colorOf_congr (fun j hj => ?_)).trans hSR
            obtain ⟨e1, e2, e3, -⟩ := hSRex j hj
            exact hagTT j e1 e2 e3
        · refine (noRR_congr (fun j hj => ?_)).mpr hNRSx.2.1
          obtain ⟨e1, e2, e3, e4⟩ := hSLex j hj
          exact hagT j e1 e2 e3 e4
        · refine (noRR_congr (fun j hj => ?_)).mpr hNRSx.2.2
          obtain ⟨e1, e2, e3, e4⟩ := hSRex j hj
          exact hagT j e1 e2 e3 e4
      · -- x lives in PR: PL carries no recolored slot
        have hPLex : ∀ j ∈ PL.ids, j ≠ px ∧ j ≠ u ∧ j ≠ g ∧ j ≠ x := by
          intro j hj
          have hjP : j ∈ (BT.nd PL px PR).ids := by
            simp only [BT.ids, List.mem_append, List.mem_cons]
            tauto
          exact ⟨fun hc => hpxPL (by rw [← hc]; exact hj), (hPex j hjP).1,
            (hPex j hjP).2, fun hc => hPLPR j hj (by rw [hc, hpr]; exact hxSx)⟩
        refine (noRR_congr (fun j hj => ?_)).mpr hNRP.2.1
        obtain ⟨e1, e2, e3, e4⟩ := hPLex j hj
        exact hagT j e1 e2 e3 e4
    · -- noRR of PR
      rcases hPx with hpl | hpr
      · -- x lives in PL: PR carries no recolored slot
        have hPRex : ∀ j ∈ PR.ids, j ≠ px ∧ j ≠ u ∧ j ≠ g ∧ j ≠ x := by
          intro j hj
          have hjP : j ∈ (BT.nd PL px PR).ids := by
            simp only [BT.ids, List.mem_append, List.mem_cons]
            tauto
          refine ⟨fun hc => hpxPR (by rw [← hc]; exact hj), (hPex j hjP).1,
            (hPex j hjP).2, fun hc => ?_⟩
          have hxPL : x ∈ PL.ids := by
            rw [hpl]
            exact hxSx
          exact hPLPR x hxPL (by rw [← hc]; exact hj)
        refine (noRR_congr (fun j hj => ?_)).mpr hNRP.2.2
        obtain ⟨e1, e2, e3, e4⟩ := hPRex j hj
        exact hagT j e1 e2 e3 e4
      · rw [hpr]
        refine ⟨?_, ?_, ?_⟩
        · intro _
          refine ⟨?_, ?_⟩
          · refine (colorOf_congr (fun j hj => ?_)).trans hSL
            obtain ⟨e1, e2, e3, -⟩ := hSLex j hj
            exact hagTT j e1 e2 e3
          · refine (colorOf_congr (fun j hj => ?_)).trans hSR
            obtain ⟨e1, e2, e3, -⟩ := hSRex j hj
            exact hagTT j e1 e2 e3
        · refine (noRR_congr (fun j hj => ?_)).mpr hNRSx.2.1
          obtain ⟨e1, e2, e3, e4⟩ := hSLex j hj
          exact hagT j e1 e2 e3 e4
        · refine (noRR_congr (fun j hj => ?_)).mpr hNRSx.2.2
          obtain ⟨e1, e2, e3, e4⟩ := hSRex j hj
          exact hagT j e1 e2 e3 e4
    · intro hred
      rw [hbu] at hred
      simp at hred
    · refine (noRR_congr (fun j hj => ?_)).mpr hNRUA
      obtain ⟨e1, e2, e3, e4⟩ := hUAex j hj
      exact hagT j e1 e2 e3 e4
    · refine (noRR_congr (fun j hj => ?_)).mpr hNRUB
      obtain ⟨e1, e2, e3, e4⟩ := hUBex j hj
      exact hagT j e1 e2 e3 e4
  -- compose the pieces for the five structural conclusions
  have hrepr3 : Repr (setColor (setColor (setColor t px RBColor.BLACK) u
      RBColor.BLACK) g RBColor.RED).heap t.nil t.nil t.root bt := by
    refine repr_congr hR (fun j _ => ⟨?_, ?_, ?_, ?_⟩)
    · simp
    · simp [setColor_parent]
    · simp [setColor_leftChild]
    · simp [setColor_rightChild]
  have hnr3 : noRR (blacken (setColor (setColor (setColor t px RBColor.BLACK) u
      RBColor.BLACK) g RBColor.RED).heap g) bt := by
    have hstepnr := noRR_graft_local hsubg hnd hNR hS'nr
      (fun j _ hjn => hagT j (fun hc => hjn (by rw [hc]; exact hPG px hpxP))
        (fun hc => hjn (by rw [hc]; exact hUG u huU))
        (fun hc => hjn (by rw [hc]; simp [BT.ids]))
        (fun hc => hjn (by rw [hc]; exact hPG x hxP)))
      (Or.inl (fun _ => hbg))
    rw [repAt_self hsubg] at hstepnr
    exact hstepnr
  -- black-height bookkeeping
  obtain ⟨a, hPbh, hUbh, hGval⟩ := bhOf_nd_some (bhOf_subAt hsubg hbh)
  obtain ⟨b, hPLbh, hPRbh, hPval⟩ := bhOf_nd_some
    (show (bhOf t.heap (BT.nd PL px PR)).isSome = true by rw [hPbh]; rfl)
  obtain ⟨e, hUAbh, hUBbh, hUval⟩ := bhOf_nd_some
    (show (bhOf t.heap (BT.nd UA u UB)).isSome = true by rw [hUbh]; rfl)
  have hpxnotB : ¬ (t.heap px).color = RBColor.BLACK := by
    rw [hpxc]
    exact fun hc => RBColor.noConfusion hc
  have hunotB : ¬ (t.heap u).color = RBColor.BLACK := by
    rw [huc]
    exact fun hc => RBColor.noConfusion hc
  have hba : b = a := by
    rw [hPbh, if_neg hpxnotB] at hPval
    have := Option.some.inj hPval
    omega
  have hea : e = a := by
    rw [hUbh, if_neg hunotB] at hUval
    have := Option.some.inj hUval
    omega
  have hPL3 : bhOf (setColor (setColor (setColor t px RBColor.BLACK) u
      RBColor.BLACK) g RBColor.RED).heap PL = some a := by
    rw [bhOf_congr (fun j hj => ?_), hPLbh, hba]
    have hjP : j ∈ (BT.nd PL px PR).ids := by
      simp only [BT.ids, List.mem_append, List.mem_cons]
      tauto
    exact hcol3 j (fun hc => hpxPL (by rw [← hc]; exact hj)) (hPex j hjP).1 (hPex j hjP).2
  have hPR3 : bhOf (setColor (setColor (setColor t px RBColor.BLACK) u
      RBColor.BLACK) g RBColor.RED).heap PR = some a := by
    rw [bhOf_congr (fun j hj => ?_), hPRbh, hba]
    have hjP : j ∈ (BT.nd PL px PR).ids := by
      simp only [BT.ids, List.mem_append, List.mem_cons]
      tauto
    exact hcol3 j (fun hc => hpxPR (by rw [← hc]; exact hj)) (hPex j hjP).1 (hPex j hjP).2
  have hUA3 : bhOf (setColor (setColor (setColor t px RBColor.BLACK) u
      RBColor.BLACK) g RBColor.RED).heap UA = some a := by
    rw [bhOf_congr (fun j hj => ?_), hUAbh, hea]
    obtain ⟨e1, e2, e3, -⟩ := hUAex j hj
    exact hcol3 j e1 e2 e3
  have hUB3 : bhOf (setColor (setColor (setColor t px RBColor.BLACK) u
      RBColor.BLACK) g RBColor.RED).heap UB = some a := by
    rw [bhOf_congr (fun j hj => ?_), hUBbh, hea]
    obtain ⟨e1, e2, e3, -⟩ := hUBex j hj
    exact hcol3 j e1 e2 e3
  have hP3 : bhOf (setColor (setColor (setColor t px RBColor.BLACK) u
      RBColor.BLACK) g RBColor.RED).heap (BT.nd PL px PR) = some (a + 1) := by
    rw [bhOf_node_build hPL3 hPR3, hcpx]
    simp
  have hU3 : bhOf (setColor (setColor (setColor t px RBColor.BLACK) u
      RBColor.BLACK) g RBColor.RED).heap (BT.nd UA u UB) = some (a + 1) := by
    rw [bhOf_node_build hUA3 hUB3, hcu]
    simp
  have hG3 : bhOf (setColor (setColor (setColor t px RBColor.BLACK) u
      RBColor.BLACK) g RBColor.RED).heap
      (BT.nd (BT.nd PL px PR) g (BT.nd UA u UB)) = some (a + 1) := by
    rw [bhOf_node_build hP3 hU3, hcg]
    simp
  have hGeq : bhOf t.heap (BT.nd (BT.nd PL px PR) g (BT.nd UA u UB)) = some (a + 1) := by
    rw [hGval, if_pos hgc]
  have hbh3 : bhOf (setColor (setColor (setColor t px RBColor.BLACK) u
      RBColor.BLACK) g RBColor.RED).heap bt = bhOf t.heap bt := by
    have hstep := bhOf_graft_local hsubg hnd (hG3.trans hGeq.symm)
      (fun j _ hjn => hcol3 j (fun hc => hjn (by rw [hc]; exact hPG px hpxP))
        (fun hc => hjn (by rw [hc]; exact hUG u huU))
        (fun hc => hjn (by rw [hc]; simp [BT.ids])))
    rw [repAt_self hsubg] at hstep
    exact hstep
  -- conclusions
  refine ⟨hrepr3, hcg, ?_, ?_, hnr3, hbh3⟩
  · exact hcpx
  · exact hcu

set_option maxHeartbeats 3200000 in

/-- The recoloring step of `insert_case3` with the parent on the
grandparent's right: mirror of `insert_case3_recolor_left`. -/
theorem insert_case3_recolor_right {t : RBTree} {bt SL SR PL PR UA UB : BT}
    {x px u g : Nat}
    (hR : Repr t.heap t.nil t.nil t.root bt)
    (hnd : bt.ids.Nodup)
    (hsubx : subAt bt x = some (BT.nd SL x SR))
    (hxc : (t.heap x).color = RBColor.RED)
    (hSL : colorOf t.heap SL = RBColor.BLACK)
    (hSR : colorOf t.heap SR = RBColor.BLACK)
    (hNR : noRR (blacken t.heap x) bt)
    (hbh : (bhOf t.heap bt).isSome = true)
    (hpxc : (t.heap px).color = RBColor.RED)
    (hsubg : subAt bt g = some (BT.nd (BT.nd UA u UB) g (BT.nd PL px PR)))
    (hgc : (t.heap g).color = RBColor.BLACK)
    (huc : (t.heap u).color = RBColor.RED)
    (hPx : PL = BT.nd SL x SR ∨ PR = BT.nd SL x SR) :
    Repr (setColor (setColor (setColor t px RBColor.BLACK) u RBColor.BLACK) g
        RBColor.RED).heap t.nil t.nil t.root bt ∧
    ((setColor (setColor (setColor t px RBColor.BLACK) u RBColor.BLACK) g
        RBColor.RED).heap g).color = RBColor.RED ∧
    colorOf (setColor (setColor (setColor t px RBColor.BLACK) u RBColor.BLACK) g
        RBColor.RED).heap (BT.nd PL px PR) = RBColor.BLACK ∧
    colorOf (setColor (setColor (setColor t px RBColor.BLACK) u RBColor.BLACK) g
        RBColor.RED).heap (BT.nd UA u UB) = RBColor.BLACK ∧
    noRR (blacken (setColor (setColor (setColor t px RBColor.BLACK) u RBColor.BLACK) g
        RBColor.RED).heap g) bt ∧
    bhOf (setColor (setColor (setColor t px RBColor.BLACK) u RBColor.BLACK) g
        RBColor.RED).heap bt = bhOf t.heap bt := by
  -- distinctness of the recolored slots
  have hGnd := subAt_nodup hsubg hnd
  obtain ⟨hUnd, hPnd, hgU, hgP, hUP⟩ := nodup_nd_parts hGnd
  obtain ⟨hPLnd, hPRnd, hpxPL, hpxPR, hPLPR⟩ := nodup_nd_parts hPnd
  have hSxnd : (BT.nd SL x SR).ids.Nodup := subAt_nodup hsubx hnd
  obtain ⟨hSLnd, hSRnd, hxSL, hxSR, hSLSR⟩ := nodup_nd_parts hSxnd
  have hxSx : x ∈ (BT.nd SL x SR).ids := by simp [BT.ids]
  have hpxP : px ∈ (BT.nd PL px PR).ids := by simp [BT.ids]
  have huU : u ∈ (BT.nd UA u UB).ids := by simp [BT.ids]
  have hxP : x ∈ (BT.nd PL px PR).ids := by
    rcases hPx with hpl | hpr
    · rw [hpl] at hpxPL hPLPR ⊢
      simp [BT.ids]
    · rw [hpr] at hpxPR ⊢
      simp [BT.ids]
  have hpxx : px ≠ x := by
    rcases hPx with hpl | hpr
    · exact fun hc => hpxPL (by rw [hpl, hc]; exact hxSx)
    · exact fun hc => hpxPR (by rw [hpr, hc]; exact hxSx)
  have hpxSx : px ∉ (BT.nd SL x SR).ids := by
    rcases hPx with hpl | hpr
    · rw [← hpl]
      exact hpxPL
    · rw [← hpr]
      exact hpxPR
  have hpxu : px ≠ u := fun hc => hUP u huU (by rw [← hc]; exact hpxP)
  have hxu : x ≠ u := fun hc => hUP u huU (by rw [← hc]; exact hxP)
  have hgpx : g ≠ px := fun hc => hgP (by rw [hc]; exact hpxP)
  have hgx : g ≠ x := fun hc => hgP (by rw [hc]; exact hxP)
  have hgu : g ≠ u := fun hc => hgU (by rw [hc]; exact huU)
  -- subtree lookup for the parent
  have hUnone : subAt (BT.nd UA u UB) px = none :=
    subAt_eq_none (fun hc => hUP px hc hpxP)
  have hGpx : subAt (BT.nd (BT.nd UA u UB) g (BT.nd PL px PR)) px
      = some (BT.nd PL px PR) :=
    subAt_lift_right hgpx hUnone (by simp [subAt])
  have hsubpx : subAt bt px = some (BT.nd PL px PR) := subAt_trans hsubg hGpx hnd
  -- pointwise colors of the recolored heap
  have hcol3 : ∀ j, j ≠ px → j ≠ u → j ≠ g →
      ((setColor (setColor (setColor t px RBColor.BLACK) u RBColor.BLACK) g
        RBColor.RED).heap j).color = (t.heap j).color := by
    intro j h1 h2 h3
    rw [setColor_heap_ne _ _ _ _ h3, setColor_heap_ne _ _ _ _ h2,
      setColor_heap_ne _ _ _ _ h1]
  have hcpx : ((setColor (setColor (setColor t px RBColor.BLACK) u RBColor.BLACK) g
      RBColor.RED).heap px).color = RBColor.BLACK := by
    rw [setColor_heap_ne _ _ _ _ (Ne.symm hgpx), setColor_heap_ne _ _ _ _ hpxu,
      setColor_heap_eq]
  have hcu : ((setColor (setColor (setColor t px RBColor.BLACK) u RBColor.BLACK) g
      RBColor.RED).heap u).color = RBColor.BLACK := by
    rw [setColor_heap_ne _ _ _ _ (Ne.symm hgu), setColor_heap_eq]
  have hcg : ((setColor (setColor (setColor t px RBColor.BLACK) u RBColor.BLACK) g
      RBColor.RED).heap g).color = RBColor.RED := by
    rw [setColor_heap_eq]
  have hcx : ((setColor (setColor (setColor t px RBColor.BLACK) u RBColor.BLACK) g
      RBColor.RED).heap x).color = RBColor.RED := by
    rw [hcol3 x (Ne.symm hpxx) hxu (Ne.symm hgx)]
    exact hxc
  -- membership transfer down the grandparent subtree
  have hPG : ∀ j ∈ (BT.nd PL px PR).ids,
      j ∈ (BT.nd (BT.nd UA u UB) g (BT.nd PL px PR)).ids := by
    intro j hj
    simp only [BT.ids, List.mem_append, List.mem_cons] at hj ⊢
    tauto
  have hUG : ∀ j ∈ (BT.nd UA u UB).ids,
      j ∈ (BT.nd (BT.nd UA u UB) g (BT.nd PL px PR)).ids := by
    intro j hj
    simp only [BT.ids, List.mem_append, List.mem_cons] at hj ⊢
    tauto
  have hPex : ∀ j ∈ (BT.nd PL px PR).ids, j ≠ u ∧ j ≠ g :=
    fun j hj => ⟨fun hc => hUP u huU (by rw [← hc]; exact hj),
      fun hc => hgP (by rw [← hc]; exact hj)⟩
  have hUex : ∀ j ∈ (BT.nd UA u UB).ids, j ≠ px ∧ j ≠ g ∧ j ≠ x :=
    fun j hj => ⟨fun hc => hUP j hj (by rw [hc]; exact hpxP),
      fun hc => hgU (by rw [← hc]; exact hj),
      fun hc => hUP j hj (by rw [hc]; exact hxP)⟩
  -- agreement of the blackened recolored heap with the two base heaps
  have hagTT : ∀ j, j ≠ px → j ≠ u → j ≠ g →
      ((blacken (setColor (setColor (setColor t px RBColor.BLACK) u RBColor.BLACK) g
        RBColor.RED).heap g) j).color = (t.heap j).color := by
    intro j h1 h2 h3
    rw [blacken_ne _ g j h3]
    exact hcol3 j h1 h2 h3
  have hagT : ∀ j, j ≠ px → j ≠ u → j ≠ g → j ≠ x →
      ((blacken (setColor (setColor (setColor t px RBColor.BLACK) u RBColor.BLACK) g
        RBColor.RED).heap g) j).color = ((blacken t.heap x) j).color := by
    intro j h1 h2 h3 h4
    rw [blacken_ne _ x j h4]
    exact hagTT j h1 h2 h3
  have hbg : ((blacken (setColor (setColor (setColor t px RBColor.BLACK) u RBColor.BLACK) g
      RBColor.RED).heap g) g).color = RBColor.BLACK := by
    rw [blacken_eq]
  have hbpx : ((blacken (setColor (setColor (setColor t px RBColor.BLACK) u RBColor.BLACK) g
      RBColor.RED).heap g) px).color = RBColor.BLACK := by
    rw [blacken_ne _ g px (fun hc => hgpx hc.symm)]
    exact hcpx
  have hbu : ((blacken (setColor (setColor (setColor t px RBColor.BLACK) u RBColor.BLACK) g
      RBColor.RED).heap g) u).color = RBColor.BLACK := by
    rw [blacken_ne _ g u (fun hc => hgu hc.symm)]
    exact hcu
  -- base no-red-red pieces
  have hNRSx : noRR (blacken t.heap x) (BT.nd SL x SR) := noRR_subAt hsubx hNR
  have hNRP : noRR (blacken t.heap x) (BT.nd PL px PR) := noRR_subAt hsubpx hNR
  have hNRG : noRR (blacken t.heap x) (BT.nd (BT.nd UA u UB) g (BT.nd PL px PR)) :=
    noRR_subAt hsubg hNR
  have hNRUA : noRR (blacken t.heap x) UA := hNRG.2.1.2.1
  have hNRUB : noRR (blacken t.heap x) UB := hNRG.2.1.2.2
  -- exclusions for every leaf subtree
  have hSLex : ∀ j ∈ SL.ids, j ≠ px ∧ j ≠ u ∧ j ≠ g ∧ j ≠ x := by
    intro j hj
    have hjSx : j ∈ (BT.nd SL x SR).ids := by simp [BT.ids, hj]
    have hjP : j ∈ (BT.nd PL px PR).ids := by
      rcases hPx with hpl | hpr
      · rw [hpl] at hpxPL hPLPR ⊢
        simp only [BT.ids, List.mem_append, List.mem_cons] at hjSx ⊢
        tauto
      · rw [hpr] at hpxPR ⊢
        simp only [BT.ids, List.mem_append, List.mem_cons] at hjSx ⊢
        tauto
    refine ⟨fun hc => hpxSx (by rw [← hc]; exact hjSx), (hPex j hjP).1, (hPex j hjP).2,
      fun hc => hxSL (by rw [← hc]; exact hj)⟩
  have hSRex : ∀ j ∈ SR.ids, j ≠ px ∧ j ≠ u ∧ j ≠ g ∧ j ≠ x := by
    intro j hj
    have hjSx : j ∈ (BT.nd SL x SR).ids := by simp [BT.ids, hj]
    have hjP : j ∈ (BT.nd PL px PR).ids := by
      rcases hPx with hpl | hpr
      · rw [hpl] at hpxPL hPLPR ⊢
        simp only [BT.ids, List.mem_append, List.mem_cons] at hjSx ⊢
        tauto
      · rw [hpr] at hpxPR ⊢
        simp only [BT.ids, List.mem_append, List.mem_cons] at hjSx ⊢
        tauto
    refine ⟨fun hc => hpxSx (by rw [← hc]; exact hjSx), (hPex j hjP).1, (hPex j hjP).2,
      fun hc => hxSR (by rw [← hc]; exact hj)⟩
  have hUAex : ∀ j ∈ UA.ids, j ≠ px ∧ j ≠ u ∧ j ≠ g ∧ j ≠ x := by
    intro j hj
    have hjU : j ∈ (BT.nd UA u UB).ids := by simp [BT.ids, hj]
    obtain ⟨h1, h2, h3⟩ := hUex j hjU
    obtain ⟨hUAnd, hUBnd, huUA, huUB, hUAUB⟩ := nodup_nd_parts hUnd
    exact ⟨h1, fun hc => huUA (by rw [← hc]; exact hj), h2, h3⟩
  have hUBex : ∀ j ∈ UB.ids, j ≠ px ∧ j ≠ u ∧ j ≠ g ∧ j ≠ x := by
    intro j hj
    have hjU : j ∈ (BT.nd UA u UB).ids := by simp [BT.ids, hj]
    obtain ⟨h1, h2, h3⟩ := hUex j hjU
    obtain ⟨hUAnd, hUBnd, huUA, huUB, hUAUB⟩ := nodup_nd_parts hUnd
    exact ⟨h1, fun hc => huUB (by rw [← hc]; exact hj), h2, h3⟩
  -- no-red-red of the recolored grandparent subtree (with g blackened)
  have hS'nr : noRR (blacken (setColor (setColor (setColor t px RBColor.BLACK) u
      RBColor.BLACK) g RBColor.RED).heap g)
      (BT.nd (BT.nd UA u UB) g (BT.nd PL px PR)) := by
    refine ⟨?_, ⟨?_, ?_, ?_⟩, ?_, ?_, ?_⟩
    · intro hred
      rw [hbg] at hred
      simp at hred
    · intro hred
      rw [hbu] at hred
      simp at hred
    · refine (noRR_congr (fun j hj => ?_)).mpr hNRUA
      obtain ⟨e1, e2, e3, e4⟩ := hUAex j hj
      exact hagT j e1 e2 e3 e4
    · refine (noRR_congr (fun j hj => ?_)).mpr hNRUB
      obtain ⟨e1, e2, e3, e4⟩ := hUBex j hj
      exact hagT j e1 e2 e3 e4
    · intro hred
      rw [hbpx] at hred
      simp at hred
    · -- noRR of PL
      rcases hPx with hpl | hpr
      · rw [hpl]
        refine ⟨?_, ?_, ?_⟩
        · intro _
          refine ⟨?_, ?_⟩
          · refine (colorOf_congr (fun j hj => ?_)).trans hSL
            obtain ⟨e1, e2, e3, -⟩ := hSLex j hj
            exact hagTT j e1 e2 e3
          · refine (colorOf_congr (fun j hj => ?_)).trans hSR
            obtain ⟨e1, e2, e3, -⟩ := hSRex j hj
            exact hagTT j e1 e2 e3
        · refine (noRR_congr (fun j hj => ?_)).mpr hNRSx.2.1
          obtain ⟨e1, e2, e3, e4⟩ := hSLex j hj
          exact hagT j e1 e2 e3 e4
        · refine (noRR_congr (fun j hj => ?_)).mpr hNRSx.2.2
          obtain ⟨e1, e2, e3, e4⟩ := hSRex j hj
          exact hagT j e1 e2 e3 e4
      · have hPLex : ∀ j ∈ PL.ids, j ≠ px ∧ j ≠ u ∧ j ≠ g ∧ j ≠ x := by
          intro j hj
          have hjP : j ∈ (BT.nd PL px PR).ids := by
            simp only [BT.ids, List.mem_append, List.mem_cons]
            tauto
          exact ⟨fun hc => hpxPL (by rw [← hc]; exact hj), (hPex j hjP).1,
            (hPex j hjP).2, fun hc => hPLPR j hj (by rw [hc, hpr]; exact hxSx)⟩
        refine (noRR_congr (fun j hj => ?_)).mpr hNRP.2.1
        obtain ⟨e1, e2, e3, e4⟩ := hPLex j hj
        exact hagT j e1 e2 e3 e4
    · -- noRR of PR
      rcases hPx with hpl | hpr
      · have hPRex : ∀ j ∈ PR.ids, j ≠ px ∧ j ≠ u ∧ j ≠ g ∧ j ≠ x := by
          intro j hj
          have hjP : j ∈ (BT.nd PL px PR).ids := by
            simp only [BT.ids, List.mem_append, List.mem_cons]
            tauto
          refine ⟨fun hc => hpxPR (by rw [← hc]; exact hj), (hPex j hjP).1,
            (hPex j hjP).2, fun hc => ?_⟩
          have hxPL : x ∈ PL.ids := by
            rw [hpl]
            exact hxSx
          exact hPLPR x hxPL (by rw [← hc]; exact hj)
        refine (noRR_congr (fun j hj => ?_)).mpr hNRP.2.2
        obtain ⟨e1, e2, e3, e4⟩ := hPRex j hj
        exact hagT j e1 e2 e3 e4
      · rw [hpr]
        refine ⟨?_, ?_, ?_⟩
        · intro _
          refine ⟨?_, ?_⟩
          · refine (colorOf_congr (fun j hj => ?_)).trans hSL
            obtain ⟨e1, e2, e3, -⟩ := hSLex j hj
            exact hagTT j e1 e2 e3
          · refine (colorOf_congr (fun j hj => ?_)).trans hSR
            obtain ⟨e1, e2, e3, -⟩ := hSRex j hj
            exact hagTT j e1 e2 e3
        · refine (noRR_congr (fun j hj => ?_)).mpr hNRSx.2.1
          obtain ⟨e1, e2, e3, e4⟩ := hSLex j hj
          exact hagT j e1 e2 e3 e4
        · refine (noRR_congr (fun j hj => ?_)).mpr hNRSx.2.2
          obtain ⟨e1, e2, e3, e4⟩ := hSRex j hj
          exact hagT j e1 e2 e3 e4
  -- structural conclusions
  have hrepr3 : Repr (setColor (setColor (setColor t px RBColor.BLACK) u
      RBColor.BLACK) g RBColor.RED).heap t.nil t.nil t.root bt := by
    refine repr_congr hR (fun j _ => ⟨?_, ?_, ?_, ?_⟩)
    · simp
    · simp [setColor_parent]
    · simp [setColor_leftChild]
    · simp [setColor_rightChild]
  have hnr3 : noRR (blacken (setColor (setColor (setColor t px RBColor.BLACK) u
      RBColor.BLACK) g RBColor.RED).heap g) bt := by
    have hstepnr := noRR_graft_local hsubg hnd hNR hS'nr
      (fun j _ hjn => hagT j (fun hc => hjn (by rw [hc]; exact hPG px hpxP))
        (fun hc => hjn (by rw [hc]; exact hUG u huU))
        (fun hc => hjn (by rw [hc]; simp [BT.ids]))
        (fun hc => hjn (by rw [hc]; exact hPG x hxP)))
      (Or.inl (fun _ => hbg))
    rw [repAt_self hsubg] at hstepnr
    exact hstepnr
  -- black-height bookkeeping
  obtain ⟨a, hUbh, hPbh, hGval⟩ := bhOf_nd_some (bhOf_subAt hsubg hbh)
  obtain ⟨b, hPLbh, hPRbh, hPval⟩ := bhOf_nd_some
    (show (bhOf t.heap (BT.nd PL px PR)).isSome = true by rw [hPbh]; rfl)
  obtain ⟨e, hUAbh, hUBbh, hUval⟩ := bhOf_nd_some
    (show (bhOf t.heap (BT.nd UA u UB)).isSome = true by rw [hUbh]; rfl)
  have hpxnotB : ¬ (t.heap px).color = RBColor.BLACK := by
    rw [hpxc]
    exact fun hc => RBColor.noConfusion hc
  have hunotB : ¬ (t.heap u).color = RBColor.BLACK := by
    rw [huc]
    exact fun hc => RBColor.noConfusion hc
  have hba : b = a := by
    rw [hPbh, if_neg hpxnotB] at hPval
    have := Option.some.inj hPval
    omega
  have hea : e = a := by
    rw [hUbh, if_neg hunotB] at hUval
    have := Option.some.inj hUval
    omega
  have hPL3 : bhOf (setColor (setColor (setColor t px RBColor.BLACK) u
      RBColor.BLACK) g RBColor.RED).heap PL = some a := by
    rw [bhOf_congr (fun j hj => ?_), hPLbh, hba]
    have hjP : j ∈ (BT.nd PL px PR).ids := by
      simp only [BT.ids, List.mem_append, List.mem_cons]
      tauto
    exact hcol3 j (fun hc => hpxPL (by rw [← hc]; exact hj)) (hPex j hjP).1 (hPex j hjP).2
  have hPR3 : bhOf (setColor (setColor (setColor t px RBColor.BLACK) u
      RBColor.BLACK) g RBColor.RED).heap PR = some a := by
    rw [bhOf_congr (fun j hj => ?_), hPRbh, hba]
    have hjP : j ∈ (BT.nd PL px PR).ids := by
      simp only [BT.ids, List.mem_append, List.mem_cons]
      tauto
    exact hcol3 j (fun hc => hpxPR (by rw [← hc]; exact hj)) (hPex j hjP).1 (hPex j hjP).2
  have hUA3 : bhOf (setColor (setColor (setColor t px RBColor.BLACK) u
      RBColor.BLACK) g RBColor.RED).heap UA = some a := by
    rw [bhOf_congr (fun j hj => ?_), hUAbh, hea]
    obtain ⟨e1, e2, e3, -⟩ := hUAex j hj
    exact hcol3 j e1 e2 e3
  have hUB3 : bhOf (setColor (setColor (setColor t px RBColor.BLACK) u
      RBColor.BLACK) g RBColor.RED).heap UB = some a := by
    rw [bhOf_congr (fun j hj => ?_), hUBbh, hea]
    obtain ⟨e1, e2, e3, -⟩ := hUBex j hj
    exact hcol3 j e1 e2 e3
  have hP3 : bhOf (setColor (setColor (setColor t px RBColor.BLACK) u
      RBColor.BLACK) g RBColor.RED).heap (BT.nd PL px PR) = some (a + 1) := by
    rw [bhOf_node_build hPL3 hPR3, hcpx]
    simp
  have hU3 : bhOf (setColor (setColor (setColor t px RBColor.BLACK) u
      RBColor.BLACK) g RBColor.RED).heap (BT.nd UA u UB) = some (a + 1) := by
    rw [bhOf_node_build hUA3 hUB3, hcu]
    simp
  have hG3 : bhOf (setColor (setColor (setColor t px RBColor.BLACK) u
      RBColor.BLACK) g RBColor.RED).heap
      (BT.nd (BT.nd UA u UB) g (BT.nd PL px PR)) = some (a + 1) := by
    rw [bhOf_node_build hU3 hP3, hcg]
    simp
  have hGeq : bhOf t.heap (BT.nd (BT.nd UA u UB) g (BT.nd PL px PR)) = some (a + 1) := by
    rw [hGval, if_pos hgc]
  have hbh3 : bhOf (setColor (setColor (setColor t px RBColor.BLACK) u
      RBColor.BLACK) g RBColor.RED).heap bt = bhOf t.heap bt := by
    have hstep := bhOf_graft_local hsubg hnd (hG3.trans hGeq.symm)
      (fun j _ hjn => hcol3 j (fun hc => hjn (by rw [hc]; exact hPG px hpxP))
        (fun hc => hjn (by rw [hc]; exact hUG u huU))
        (fun hc => hjn (by rw [hc]; simp [BT.ids])))
    rw [repAt_self hsubg] at hstep
    exact hstep
  exact ⟨hrepr3, hcg, hcpx, hcu, hnr3, hbh3⟩

theorem fixOut_weaken {t : RBTree} {bt : BT} {t' : RBTree} {bt' : BT}
    (h : FixOut t bt t' bt') (hbh : (bhOf t.heap bt).isSome = true) :
    FixOutW t bt t' bt' := by
  obtain ⟨h1, h2, h3, h4, h5, h6, h7, h8, h9, h10, h11⟩ := h
  exact ⟨h1, h2, h3, h4, h5, h6, h7, h8, by rw [h9]; exact hbh, h10, h11⟩

theorem fixOutW_precompose {t t3 out : RBTree} {bt bt' : BT}
    (hFW : FixOutW t3 bt out bt')
    (hnil : t3.nil = t.nil) (hnext : t3.nextId = t.nextId) (hsize : t3.size = t.size)
    (hval : ∀ j, (t3.heap j).value = (t.heap j).value)
    (hfr : ∀ j, j ∉ bt.ids → j ≠ t.nil → t3.heap j = t.heap j) :
    FixOutW t bt out bt' := by
  obtain ⟨h1, h2, h3, h4, h5, h6, h7, h8, h9, h10, h11⟩ := hFW
  rw [hnil] at h1 h11
  refine ⟨h1, h2, fun j => (h3 j).trans (hval j), ?_, h5.trans hnil,
    h6.trans hnext, h7.trans hsize, h8, h9, h10, h11⟩
  intro j hj hn
  exact (h4 j hj (by rw [hnil]; exact hn)).trans (hfr j hj hn)

set_option maxHeartbeats 3200000 in

/-- The insert-fixup state machine `insert_case1` restores all red-black
invariants: started on a tree that would be no-red-red if the RED
problem node `x` were BLACK, with enough fuel for every case-3 restart,
it terminates in a represented tree over the same ids and payloads with
no-red-red restored, a consistent black-height and a BLACK root. -/
theorem insert_case1_spec :
    ∀ (m : Nat) {t : RBTree} {bt SL SR : BT} {x fuel : Nat},
      Repr t.heap t.nil t.nil t.root bt →
      bt.ids.Nodup →
      (∀ j ∈ bt.ids, j ≠ t.nil) →
      (t.heap t.nil).value = none →
      (t.heap t.nil).color = RBColor.BLACK →
      subAt bt x = some (BT.nd SL x SR) →
      (t.heap x).color = RBColor.RED →
      colorOf t.heap SL = RBColor.BLACK →
      colorOf t.heap SR = RBColor.BLACK →
      noRR (blacken t.heap x) bt →
      (bhOf t.heap bt).isSome = true →
      (t.root ≠ x → (t.heap t.root).color = RBColor.BLACK) →
      bt.ids.length ≤ m + (BT.nd SL x SR).ids.length →
      3 * m + 3 ≤ fuel →
      ∃ bt', FixOutW t bt (insert_case1 fuel t x) bt' := by
  intro m
  induction m using Nat.strong_induction_on with
  | _ m IH =>
  intro t bt SL SR x fuel hR hnd hnn hnilv hnilc hsub hxc hSL hSR hNR hbh hroot hm hfuel
  have hxbt : x ∈ bt.ids := subAt_ids_subset hsub x (by simp [BT.ids])
  have hxnil : x ≠ t.nil := hnn x hxbt
  cases fuel with
  | zero => omega
  | succ f1 =>
  have hunf1 : insert_case1 (f1 + 1) t x =
      if (t.heap (t.heap x).parent).value ≠ none then insert_case2 f1 t x
      else setColor t x RBColor.BLACK := rfl
  rw [hunf1]
  by_cases hpar : (t.heap (t.heap x).parent).value ≠ none
  case neg =>
    -- the parent slot is empty: x is the root, recolor it BLACK
    rw [if_neg hpar]
    have hparv : (t.heap (t.heap x).parent).value = none := not_not.mp hpar
    have hxroot : t.root = x := by
      rcases repr_parent_cases hxnil hR hnd hsub with ⟨h1, -⟩ | ⟨hmem, -, -⟩
      · exact h1
      · exact absurd hparv (repr_ids_value hR _ hmem)
    cases bt with
    | lf => exact absurd hsub (by simp [subAt])
    | nd l0 j0 r0 =>
      have hj0x : j0 = x := (hR.1.symm.trans hxroot)
      subst hj0x
      have hsubself : subAt (BT.nd l0 j0 r0) j0 = some (BT.nd l0 j0 r0) := by
        simp [subAt]
      rw [hsubself] at hsub
      have hbteq := Option.some.inj hsub
      injection hbteq with hl0 hmid hr0
      subst hl0
      subst hr0
      obtain ⟨hLnd, hRnd, hxL, hxR, hLR⟩ := nodup_nd_parts hnd
      have hcolagree : ∀ j, ((setColor t j0 RBColor.BLACK).heap j).color
          = ((blacken t.heap j0) j).color := by
        intro j
        by_cases hj : j = j0
        · rw [hj, setColor_heap_eq, blacken_eq]
        · rw [setColor_heap_ne _ _ _ _ hj, blacken_ne _ _ _ hj]
      refine ⟨BT.nd l0 j0 r0, ?_, rfl, ?_, ?_, rfl, rfl, rfl, ?_, ?_, ?_, ?_⟩
      · refine repr_congr hR (fun j _ => ?_)
        by_cases hj : j = j0
        · rw [hj, setColor_heap_eq]
          exact ⟨rfl, rfl, rfl, rfl⟩
        · rw [setColor_heap_ne _ _ _ _ hj]
          exact ⟨rfl, rfl, rfl, rfl⟩
      · intro j
        simp
      · intro j hjn _
        refine setColor_heap_ne _ _ _ _ (fun hc => hjn ?_)
        rw [hc]
        simp [BT.ids]
      · exact (noRR_congr (fun j _ => hcolagree j)).mpr hNR
      · obtain ⟨a, hSLbh, hSRbh, -⟩ := bhOf_nd_some hbh
        have hSLc : bhOf (setColor t j0 RBColor.BLACK).heap l0 = some a := by
          rw [bhOf_congr (fun j hj => by
            rw [setColor_heap_ne t j0 RBColor.BLACK j (fun hc => hxL (hc ▸ hj))]), hSLbh]
        have hSRc : bhOf (setColor t j0 RBColor.BLACK).heap r0 = some a := by
          rw [bhOf_congr (fun j hj => by
            rw [setColor_heap_ne t j0 RBColor.BLACK j (fun hc => hxR (hc ▸ hj))]), hSRbh]
        rw [bhOf_node_build hSLc hSRc]
        simp
      · show ((setColor t j0 RBColor.BLACK).heap (setColor t j0 RBColor.BLACK).root).color
            = RBColor.BLACK
        have hrt : (setColor t j0 RBColor.BLACK).root = t.root := rfl
        rw [hrt, hxroot, setColor_heap_eq]
      · rw [setColor_heap_ne _ _ _ _ (Ne.symm hxnil)]
        exact hnilc
  case pos =>
    -- the parent is a real node: proceed to case 2
    rw [if_pos hpar]
    have hnotroot : t.root ≠ x := by
      intro hrx
      rcases repr_parent_cases hxnil hR hnd hsub with ⟨-, hp⟩ | ⟨hmem, hnotin, -⟩
      · exact hpar (hp ▸ hnilv)
      · cases bt with
        | lf => simp [subAt] at hsub
        | nd l0 j0 r0 =>
          have hj0 : j0 = x := hR.1.symm.trans hrx
          have hself : subAt (BT.nd l0 j0 r0) x = some (BT.nd l0 j0 r0) := by
            simp [subAt, hj0]
          rw [hself] at hsub
          injection (Option.some.inj hsub) with h1 h2 h3
          have hmem' := hmem
          rw [hj0] at hmem'
          exact hnotin (by rw [← h1, ← h3]; exact hmem')
    cases f1 with
    | zero => omega
    | succ f2 =>
    have hunf2 : insert_case2 (f2 + 1) t x =
        if (t.heap (t.heap x).parent).color = RBColor.RED then insert_case3 f2 t x
        else t := rfl
    rw [hunf2]
    by_cases hpxc : (t.heap (t.heap x).parent).color = RBColor.RED
    case neg =>
      -- BLACK parent: nothing is violated, the machine stops here
      rw [if_neg hpxc]
      have hpxb : (t.heap (t.heap x).parent).color = RBColor.BLACK := by
        cases hc : (t.heap (t.heap x).parent).color with
        | RED => exact absurd hc hpxc
        | BLACK => rfl
      refine ⟨bt, hR, rfl, fun j => rfl, fun j _ _ => rfl, rfl, rfl, rfl, ?_, hbh,
        hroot hnotroot, hnilc⟩
      refine noRR_unblacken hnd hsub hNR hSL hSR ?_
      intro i L R hsubi hor
      have hichild : (t.heap i).leftChild = x ∨ (t.heap i).rightChild = x := by
        have hrepi := repr_subAt hR hsubi
        rcases hor with ⟨a, b, hL⟩ | ⟨a, b, hRr⟩
        · left
          have := hrepi.2.2.2.1
          rw [hL] at this
          exact this.1
        · right
          have := hrepi.2.2.2.2
          rw [hRr] at this
          exact this.1
      have hieq : i = (t.heap x).parent :=
        repr_parent_unique hR hnd hxnil i
          (subAt_ids_subset hsubi i (by simp [BT.ids])) hichild
      rw [hieq]
      exact hpxb
    case pos =>
      -- RED parent: go to case 3
      rw [if_pos hpxc]
      cases f2 with
      | zero => omega
      | succ f3 =>
      have hunf3 : insert_case3 (f3 + 1) t x =
          if (t.heap (get_uncle t x)).value ≠ none ∧
              (t.heap (get_uncle t x)).color = RBColor.RED then
            insert_case1 f3
              (setColor
                (setColor (setColor t ((t.heap x).parent) RBColor.BLACK)
                  (get_uncle t x) RBColor.BLACK)
                (get_grandparent
                  (setColor (setColor t ((t.heap x).parent) RBColor.BLACK)
                    (get_uncle t x) RBColor.BLACK) x)
                RBColor.RED)
              (get_grandparent
                (setColor (setColor t ((t.heap x).parent) RBColor.BLACK)
                  (get_uncle t x) RBColor.BLACK) x)
          else insert_case4 t x := rfl
      rw [hunf3]
      -- structure around the parent and grandparent
      obtain ⟨PL, PR, hsubpx, hsidex⟩ :=
        subAt_parent_split hR hnd hnn hsub (Ne.symm hnotroot)
      have hpxmem : (t.heap x).parent ∈ bt.ids :=
        subAt_ids_subset hsubpx _ (by simp [BT.ids])
      have hpxnotroot : t.root ≠ (t.heap x).parent := by
        intro hr
        have hb := hroot hnotroot
        rw [hr] at hb
        rw [hb] at hpxc
        exact RBColor.noConfusion hpxc
      obtain ⟨GA, GB, hsubg, hsideP⟩ :=
        subAt_parent_split hR hnd hnn hsubpx (Ne.symm hpxnotroot)
      have hxSx : x ∈ (BT.nd SL x SR).ids := by simp [BT.ids]
      have hxP : x ∈ (BT.nd PL ((t.heap x).parent) PR).ids := by
        rcases hsidex with ⟨-, -, he⟩ | ⟨-, -, he⟩ <;> simp [BT.ids, he]
      have hgmem : (t.heap (t.heap x).parent).parent ∈ bt.ids :=
        subAt_ids_subset hsubg _ (by simp [BT.ids])
      rcases hsideP with ⟨hglc, hgrc, hGA⟩ | ⟨hgrc, hglc, hGB⟩
      · -- the parent is the left child of the grandparent
        subst hGA
        obtain ⟨-, hgv, hgp, hGArep, hGBrep⟩ := repr_subAt hR hsubg
        obtain ⟨hPnd, hGBnd, hgP, hgGB, hPGB⟩ := nodup_nd_parts (subAt_nodup hsubg hnd)
        obtain ⟨hPLnd, hPRnd, hpxPL, hpxPR, hPLPR⟩ := nodup_nd_parts hPnd
        have hpxx : (t.heap x).parent ≠ x := by
          intro hc
          rcases hsidex with ⟨-, -, he⟩ | ⟨-, -, he⟩
          · exact hpxPL (by rw [he, hc]; exact hxSx)
          · exact hpxPR (by rw [he, hc]; exact hxSx)
        have hgx : (t.heap (t.heap x).parent).parent ≠ x := by
          intro hc
          exact hgP (by rw [hc]; exact hxP)
        have hNRg := noRR_subAt hsubg hNR
        have hgc : (t.heap ((t.heap (t.heap x).parent).parent)).color = RBColor.BLACK := by
          cases hc : (t.heap ((t.heap (t.heap x).parent).parent)).color with
          | BLACK => rfl
          | RED =>
            exfalso
            have h1 := (hNRg.1 (by
              rw [blacken_ne t.heap x ((t.heap (t.heap x).parent).parent) hgx]
              exact hc)).1
            rw [show colorOf (blacken t.heap x) (BT.nd PL ((t.heap x).parent) PR)
                = ((blacken t.heap x) ((t.heap x).parent)).color from rfl,
              blacken_ne t.heap x ((t.heap x).parent) hpxx, hpxc] at h1
            exact RBColor.noConfusion h1
        have huncle : get_uncle t x
            = (t.heap ((t.heap (t.heap x).parent).parent)).rightChild := by
          simp [get_uncle, get_grandparent, hglc]
        cases GB with
        | lf =>
          have hrcnil : (t.heap ((t.heap (t.heap x).parent).parent)).rightChild
              = t.nil := hGBrep
          have huncle2 : get_uncle t x = t.nil := by rw [huncle, hrcnil]
          rw [huncle2, if_neg (by simp [hnilv])]
          rcases hsidex with ⟨hplc, hprc, hPLe⟩ | ⟨hprc2, hplc2, hPRe⟩
          · subst hPLe
            obtain ⟨bt', hFO⟩ := insert_case4_LL hR hnd hnn hnilv hnilc hsubg hpxc
              hgc hSL hSR rfl hNR hbh (Or.inl (hroot hnotroot))
            exact ⟨bt', fixOut_weaken hFO hbh⟩
          · subst hPRe
            obtain ⟨bt', hFO⟩ := insert_case4_LR hR hnd hnn hnilv hnilc hsubg hxc hpxc
              hgc hSL hSR rfl hNR hbh (Or.inl (hroot hnotroot))
            exact ⟨bt', fixOut_weaken hFO hbh⟩
        | nd UA u UB =>
          have hrcu : (t.heap ((t.heap (t.heap x).parent).parent)).rightChild
              = u := hGBrep.1
          have huncle2 : get_uncle t x = u := by rw [huncle, hrcu]
          rw [huncle2]
          have humem : u ∈ bt.ids := subAt_ids_subset hsubg u (by simp [BT.ids])
          have huval : (t.heap u).value ≠ none := repr_ids_value hR u humem
          by_cases huc : (t.heap u).color = RBColor.RED
          case neg =>
            rw [if_neg (fun hcon => huc hcon.2)]
            have hub : colorOf t.heap (BT.nd UA u UB) = RBColor.BLACK := by
              show (t.heap u).color = RBColor.BLACK
              cases hcu : (t.heap u).color with
              | RED => exact absurd hcu huc
              | BLACK => rfl
            rcases hsidex with ⟨hplc, hprc, hPLe⟩ | ⟨hprc2, hplc2, hPRe⟩
            · subst hPLe
              obtain ⟨bt', hFO⟩ := insert_case4_LL hR hnd hnn hnilv hnilc hsubg hpxc
                hgc hSL hSR hub hNR hbh (Or.inl (hroot hnotroot))
              exact ⟨bt', fixOut_weaken hFO hbh⟩
            · subst hPRe
              obtain ⟨bt', hFO⟩ := insert_case4_LR hR hnd hnn hnilv hnilc hsubg hxc hpxc
                hgc hSL hSR hub hNR hbh (Or.inl (hroot hnotroot))
              exact ⟨bt', fixOut_weaken hFO hbh⟩
          case pos =>
            rw [if_pos ⟨huval, huc⟩]
            rw [show get_grandparent
                (setColor (setColor t ((t.heap x).parent) RBColor.BLACK) u RBColor.BLACK) x
                = (t.heap (t.heap x).parent).parent from by
              simp [get_grandparent, setColor_parent]]
            obtain ⟨hR3, hg3red, hGA3, hGB3, hNR3, hbh3⟩ :=
              insert_case3_recolor_left hR hnd hsub hxc hSL hSR hNR hbh hpxc hsubg hgc huc
                (hsidex.elim (fun h => Or.inl h.2.2) (fun h => Or.inr h.2.2))
            have hGlen := subAt_length_le hsubg
            have hlen2 : (BT.nd SL x SR).ids.length + 2
                ≤ (BT.nd (BT.nd PL ((t.heap x).parent) PR)
                    ((t.heap (t.heap x).parent).parent) (BT.nd UA u UB)).ids.length := by
              rcases hsidex with ⟨-, -, he⟩ | ⟨-, -, he⟩ <;>
                subst he <;> simp [BT.ids] <;> omega
            have hroot3 : (setColor (setColor (setColor t ((t.heap x).parent)
                RBColor.BLACK) u RBColor.BLACK) ((t.heap (t.heap x).parent).parent)
                RBColor.RED).root ≠ (t.heap (t.heap x).parent).parent →
                ((setColor (setColor (setColor t ((t.heap x).parent) RBColor.BLACK) u
                  RBColor.BLACK) ((t.heap (t.heap x).parent).parent) RBColor.RED).heap
                  (setColor (setColor (setColor t ((t.heap x).parent) RBColor.BLACK) u
                  RBColor.BLACK) ((t.heap (t.heap x).parent).parent)
                  RBColor.RED).root).color = RBColor.BLACK := by
              intro hne
              have hne' : t.root ≠ (t.heap (t.heap x).parent).parent := hne
              have hrb := hroot hnotroot
              have hru : t.root ≠ u := by
                intro hc
                rw [← hc] at huc
                rw [hrb] at huc
                exact RBColor.noConfusion huc
              show ((setColor (setColor (setColor t ((t.heap x).parent) RBColor.BLACK) u
                  RBColor.BLACK) ((t.heap (t.heap x).parent).parent) RBColor.RED).heap
                  t.root).color = RBColor.BLACK
              rw [setColor_heap_ne _ _ _ _ hne', setColor_heap_ne _ _ _ _ hru,
                setColor_heap_ne _ _ _ _ hpxnotroot]
              exact hrb
            have hnilc3 : ((setColor (setColor (setColor t ((t.heap x).parent)
                RBColor.BLACK) u RBColor.BLACK) ((t.heap (t.heap x).parent).parent)
                RBColor.RED).heap t.nil).color = RBColor.BLACK := by
              rw [setColor_heap_ne _ _ _ _ (Ne.symm (hnn _ hgmem)),
                setColor_heap_ne _ _ _ _ (Ne.symm (hnn u humem)),
                setColor_heap_ne _ _ _ _ (Ne.symm (hnn _ hpxmem))]
              exact hnilc
            have hm2 : 2 ≤ m := by omega
            have hm3 : bt.ids.length ≤ (m - 2)
                + (BT.nd (BT.nd PL ((t.heap x).parent) PR)
                    ((t.heap (t.heap x).parent).parent) (BT.nd UA u UB)).ids.length := by
              omega
            have hfuel3 : 3 * (m - 2) + 3 ≤ f3 := by omega
            obtain ⟨bt', hFW⟩ := IH (m - 2) (by omega) hR3 hnd hnn (by simp [hnilv])
              hnilc3 hsubg hg3red hGA3 hGB3 hNR3 (by rw [hbh3]; exact hbh) hroot3
              hm3 hfuel3
            refine ⟨bt', fixOutW_precompose hFW rfl rfl rfl (fun j => by simp) ?_⟩
            intro j hj hn
            rw [setColor_heap_ne _ _ _ _ (fun hc => hj (by rw [hc]; exact hgmem)),
              setColor_heap_ne _ _ _ _ (fun hc => hj (by rw [hc]; exact humem)),
              setColor_heap_ne _ _ _ _ (fun hc => hj (by rw [hc]; exact hpxmem))]
      · -- the parent is the right child of the grandparent (mirror)
        subst hGB
        obtain ⟨-, hgv, hgp, hGArep, hGBrep⟩ := repr_subAt hR hsubg
        obtain ⟨hGAnd, hPnd, hgGA, hgP, hGAP⟩ := nodup_nd_parts (subAt_nodup hsubg hnd)
        obtain ⟨hPLnd, hPRnd, hpxPL, hpxPR, hPLPR⟩ := nodup_nd_parts hPnd
        have hpxx : (t.heap x).parent ≠ x := by
          intro hc
          rcases hsidex with ⟨-, -, he⟩ | ⟨-, -, he⟩
          · exact hpxPL (by rw [he, hc]; exact hxSx)
          · exact hpxPR (by rw [he, hc]; exact hxSx)
        have hgx : (t.heap (t.heap x).parent).parent ≠ x := by
          intro hc
          exact hgP (by rw [hc]; exact hxP)
        have hNRg := noRR_subAt hsubg hNR
        have hgc : (t.heap ((t.heap (t.heap x).parent).parent)).color = RBColor.BLACK := by
          cases hc : (t.heap ((t.heap (t.heap x).parent).parent)).color with
          | BLACK => rfl
          | RED =>
            exfalso
            have h1 := (hNRg.1 (by
              rw [blacken_ne t.heap x ((t.heap (t.heap x).parent).parent) hgx]
              exact hc)).2
            rw [show colorOf (blacken t.heap x) (BT.nd PL ((t.heap x).parent) PR)
                = ((blacken t.heap x) ((t.heap x).parent)).color from rfl,
              blacken_ne t.heap x ((t.heap x).parent) hpxx, hpxc] at h1
            exact RBColor.noConfusion h1
        have huncle : get_uncle t x
            = (t.heap ((t.heap (t.heap x).parent).parent)).leftChild := by
          simp [get_uncle, get_grandparent, hglc]
        cases GA with
        | lf =>
          have hlcnil : (t.heap ((t.heap (t.heap x).parent).parent)).leftChild
              = t.nil := hGArep
          have huncle2 : get_uncle t x = t.nil := by rw [huncle, hlcnil]
          rw [huncle2, if_neg (by simp [hnilv])]
          rcases hsidex with ⟨hplc, hprc, hPLe⟩ | ⟨hprc2, hplc2, hPRe⟩
          · subst hPLe
            obtain ⟨bt', hFO⟩ := insert_case4_RL hR hnd hnn hnilv hnilc hsubg hxc hpxc
              hgc hSL hSR rfl hNR hbh (Or.inl (hroot hnotroot))
            exact ⟨bt', fixOut_weaken hFO hbh⟩
          · subst hPRe
            obtain ⟨bt', hFO⟩ := insert_case4_RR hR hnd hnn hnilv hnilc hsubg hpxc
              hgc hSL hSR rfl hNR hbh (Or.inl (hroot hnotroot))
            exact ⟨bt', fixOut_weaken hFO hbh⟩
        | nd UA u UB =>
          have hlcu : (t.heap ((t.heap (t.heap x).parent).parent)).leftChild
              = u := hGArep.1
          have huncle2 : get_uncle t x = u := by rw [huncle, hlcu]
          rw [huncle2]
          have humem : u ∈ bt.ids := subAt_ids_subset hsubg u (by simp [BT.ids])
          have huval : (t.heap u).value ≠ none := repr_ids_value hR u humem
          by_cases huc : (t.heap u).color = RBColor.RED
          case neg =>
            rw [if_neg (fun hcon => huc hcon.2)]
            have hub : colorOf t.heap (BT.nd UA u UB) = RBColor.BLACK := by
              show (t.heap u).color = RBColor.BLACK
              cases hcu : (t.heap u).color with
              | RED => exact absurd hcu huc
              | BLACK => rfl
            rcases hsidex with ⟨hplc, hprc, hPLe⟩ | ⟨hprc2, hplc2, hPRe⟩
            · subst hPLe
              obtain ⟨bt', hFO⟩ := insert_case4_RL hR hnd hnn hnilv hnilc hsubg hxc hpxc
                hgc hSL hSR hub hNR hbh (Or.inl (hroot hnotroot))
              exact ⟨bt', fixOut_weaken hFO hbh⟩
            · subst hPRe
              obtain ⟨bt', hFO⟩ := insert_case4_RR hR hnd hnn hnilv hnilc hsubg hpxc
                hgc hSL hSR hub hNR hbh (Or.inl (hroot hnotroot))
              exact ⟨bt', fixOut_weaken hFO hbh⟩
          case pos =>
            rw [if_pos ⟨huval, huc⟩]
            rw [show get_grandparent
                (setColor (setColor t ((t.heap x).parent) RBColor.BLACK) u RBColor.BLACK) x
                = (t.heap (t.heap x).parent).parent from by
              simp [get_grandparent, setColor_parent]]
            obtain ⟨hR3, hg3red, hGA3, hGB3, hNR3, hbh3⟩ :=
              insert_case3_recolor_right hR hnd hsub hxc hSL hSR hNR hbh hpxc hsubg hgc huc
                (hsidex.elim (fun h => Or.inl h.2.2) (fun h => Or.inr h.2.2))
            have hGlen := subAt_length_le hsubg
            have hlen2 : (BT.nd SL x SR).ids.length + 2
                ≤ (BT.nd (BT.nd UA u UB) ((t.heap (t.heap x).parent).parent)
                    (BT.nd PL ((t.heap x).parent) PR)).ids.length := by
              rcases hsidex with ⟨-, -, he⟩ | ⟨-, -, he⟩ <;>
                subst he <;> simp [BT.ids] <;> omega
            have hroot3 : (setColor (setColor (setColor t ((t.heap x).parent)
                RBColor.BLACK) u RBColor.BLACK) ((t.heap (t.heap x).parent).parent)
                RBColor.RED).root ≠ (t.heap (t.heap x).parent).parent →
                ((setColor (setColor (setColor t ((t.heap x).parent) RBColor.BLACK) u
                  RBColor.BLACK) ((t.heap (t.heap x).parent).parent) RBColor.RED).heap
                  (setColor (setColor (setColor t ((t.heap x).parent) RBColor.BLACK) u
                  RBColor.BLACK) ((t.heap (t.heap x).parent).parent)
                  RBColor.RED).root).color = RBColor.BLACK := by
              intro hne
              have hne' : t.root ≠ (t.heap (t.heap x).parent).parent := hne
              have hrb := hroot hnotroot
              have hru : t.root ≠ u := by
                intro hc
                rw [← hc] at huc
                rw [hrb] at huc
                exact RBColor.noConfusion huc
              show ((setColor (setColor (setColor t ((t.heap x).parent) RBColor.BLACK) u
                  RBColor.BLACK) ((t.heap (t.heap x).parent).parent) RBColor.RED).heap
                  t.root).color = RBColor.BLACK
              rw [setColor_heap_ne _ _ _ _ hne', setColor_heap_ne _ _ _ _ hru,
                setColor_heap_ne _ _ _ _ hpxnotroot]
              exact hrb
            have hnilc3 : ((setColor (setColor (setColor t ((t.heap x).parent)
                RBColor.BLACK) u RBColor.BLACK) ((t.heap (t.heap x).parent).parent)
                RBColor.RED).heap t.nil).color = RBColor.BLACK := by
              rw [setColor_heap_ne _ _ _ _ (Ne.symm (hnn _ hgmem)),
                setColor_heap_ne _ _ _ _ (Ne.symm (hnn u humem)),
                setColor_heap_ne _ _ _ _ (Ne.symm (hnn _ hpxmem))]
              exact hnilc
            have hm2 : 2 ≤ m := by omega
            have hm3 : bt.ids.length ≤ (m - 2)
                + (BT.nd (BT.nd UA u UB) ((t.heap (t.heap x).parent).parent)
                    (BT.nd PL ((t.heap x).parent) PR)).ids.length := by
              omega
            have hfuel3 : 3 * (m - 2) + 3 ≤ f3 := by omega
            obtain ⟨bt', hFW⟩ := IH (m - 2) (by omega) hR3 hnd hnn (by simp [hnilv])
              hnilc3 hsubg hg3red hGB3 hGA3 hNR3 (by rw [hbh3]; exact hbh) hroot3
              hm3 hfuel3
            refine ⟨bt', fixOutW_precompose hFW rfl rfl rfl (fun j => by simp) ?_⟩
            intro j hj hn
            rw [setColor_heap_ne _ _ _ _ (fun hc => hj (by rw [hc]; exact hgmem)),
              setColor_heap_ne _ _ _ _ (fun hc => hj (by rw [hc]; exact humem)),
              setColor_heap_ne _ _ _ _ (fun hc => hj (by rw [hc]; exact hpxmem))]

theorem Inv_new : Inv RBTree.new BT.lf := by
  refine ⟨rfl, List.nodup_nil, ?_, rfl, fun i _ => rfl, rfl, Nat.zero_lt_one,
    List.Pairwise.nil, rfl, rfl, trivial, rfl, ?_⟩
  · intro i hi
    simp [BT.ids] at hi
  · intro A r B hc
    exact BT.noConfusion hc

theorem ids_length_le {l : List Nat} {n : Nat} (hnd : l.Nodup)
    (hlt : ∀ i ∈ l, i < n) : l.length ≤ n := by
  have hcard : l.toFinset.card = l.length := List.toFinset_card_of_nodup hnd
  have hsubs : l.toFinset ⊆ Finset.range n := by
    intro a ha
    rw [List.mem_toFinset] at ha
    exact Finset.mem_range.mpr (hlt a ha)
  calc l.length = l.toFinset.card := hcard.symm
    _ ≤ (Finset.range n).card := Finset.card_le_card hsubs
    _ = n := Finset.card_range _

theorem get_position_frame (fuel : Nat) :
    ∀ t pos node, (get_position fuel t pos node).1.root = t.root ∧
      (get_position fuel t pos node).1.nil = t.nil ∧
      (get_position fuel t pos node).1.nextId = t.nextId ∧
      (get_position fuel t pos node).1.size = t.size := by
  induction fuel with
  | zero => intro t pos node; exact ⟨rfl, rfl, rfl, rfl⟩
  | succ f ih =>
    intro t pos node
    simp only [get_position]
    split
    · exact ⟨rfl, rfl, rfl, rfl⟩
    · split
      · split
        · exact ⟨rfl, rfl, rfl, rfl⟩
        · exact ih t _ node
      · split
        · split
          · exact ⟨rfl, rfl, rfl, rfl⟩
          · exact ih t _ node
        · exact ⟨rfl, rfl, rfl, rfl⟩

/-- BST search correctness: on a represented, strictly sorted subtree
that contains the key, `find_go` lands on the node storing it. -/
theorem find_go_found {t : RBTree} {v : Int} :
    ∀ {S : BT} {q p fuel : Nat},
      Repr t.heap t.nil q p S →
      (valsOf t.heap S).Pairwise (fun a b => a < b) →
      v ∈ valsOf t.heap S →
      S.ids.length < fuel →
      (t.heap (find_go fuel t v p)).value = some v := by
  intro S
  induction S with
  | lf =>
    intro q p fuel _ _ hv _
    simp [valsOf, BT.ids] at hv
  | nd l i r ihl ihr =>
    intro q p fuel hR hpw hv hfuel
    obtain ⟨hpi, hval, hpq, hlrep, hrrep⟩ := hR
    subst hpi
    cases fuel with
    | zero => simp [BT.ids] at hfuel
    | succ f =>
    obtain ⟨w, hw⟩ : ∃ w, (t.heap p).value = some w := by
      cases hvv : (t.heap p).value with
      | none => exact absurd hvv hval
      | some w => exact ⟨w, rfl⟩
    have hvalp : valOf t p = w := by simp [valOf, hw]
    rw [valsOf_node] at hv hpw
    obtain ⟨hpwl, hpwcons, hcross⟩ := List.pairwise_append.mp hpw
    have hrgt : ∀ b ∈ valsOf t.heap r, w < b := by
      have := (List.pairwise_cons.mp hpwcons).1
      intro b hb
      have h2 := this b hb
      rw [hw] at h2
      exact h2
    have hlft : ∀ a ∈ valsOf t.heap l, a < w := by
      intro a ha
      have h2 := hcross a ha (((t.heap p).value).getD 0) (by simp)
      rw [hw] at h2
      exact h2
    have hlenl : l.ids.length < f := by
      simp [BT.ids] at hfuel
      omega
    have hlenr : r.ids.length < f := by
      simp [BT.ids] at hfuel
      omega
    rcases lt_trichotomy v w with hlt | heq | hgt
    · have hvl : v ∈ valsOf t.heap l := by
        rcases List.mem_append.mp hv with hm | hm
        · exact hm
        · rcases List.mem_cons.mp hm with hm2 | hm2
          · rw [hw] at hm2
            simp at hm2
            omega
          · exact absurd (hrgt v hm2) (by omega)
      rw [find_go]
      rw [if_pos ⟨hval, by simp [comp, hvalp, hlt]⟩,
        if_pos (by simp [comp, hvalp, hlt])]
      exact ihl hlrep hpwl hvl hlenl
    · rw [find_go]
      rw [if_neg (by
        intro hcon
        have h2 := hcon.2
        simp [comp, hvalp, heq] at h2)]
      rw [hw, heq]
    · have hvr : v ∈ valsOf t.heap r := by
        rcases List.mem_append.mp hv with hm | hm
        · exact absurd (hlft v hm) (by omega)
        · rcases List.mem_cons.mp hm with hm2 | hm2
          · rw [hw] at hm2
            simp at hm2
            omega
          · exact hm2
      rw [find_go]
      rw [if_pos ⟨hval, by simp [comp, hvalp, hgt]⟩,
        if_neg (by simp [comp, hvalp]; omega)]
      exact ihr hrrep ((List.pairwise_cons.mp hpwcons).2) hvr hlenr

theorem insert_empty_eq (t0 : RBTree) (v : Int)
    (hsz : (make_node t0 v).1.size = 0) :
    RBTree.insert t0 v none
      = (fresh_root_writes (make_node t0 v).1 (make_node t0 v).2,
         (fresh_root_writes (make_node t0 v).1 (make_node t0 v).2).root, true) := by
  rw [RBTree.insert.eq_def, if_pos hsz]
  rfl

theorem insert_attach_eq (t0 : RBTree) (v : Int)
    (hsz : ¬ (make_node t0 v).1.size = 0)
    (htrue : (get_position (make_node t0 v).1.nextId (make_node t0 v).1
        (make_node t0 v).1.root (make_node t0 v).2).2.2 = true) :
    RBTree.insert t0 v none
      = (insert_attach_tail
          (get_position (make_node t0 v).1.nextId (make_node t0 v).1
            (make_node t0 v).1.root (make_node t0 v).2).1 (make_node t0 v).2,
         (make_node t0 v).2, true) := by
  rw [RBTree.insert.eq_def, if_neg hsz]
  rw [if_neg (by rw [htrue]; exact fun hc => Bool.noConfusion hc)]
  rfl

theorem fresh_root_writes_root (t1 : RBTree) (n : Nat) :
    (fresh_root_writes t1 n).root = n := rfl

theorem fresh_root_writes_nil (t1 : RBTree) (n : Nat) :
    (fresh_root_writes t1 n).nil = t1.nil := rfl

theorem fresh_root_writes_nextId (t1 : RBTree) (n : Nat) :
    (fresh_root_writes t1 n).nextId = t1.nextId := rfl

theorem fresh_root_writes_size (t1 : RBTree) (n : Nat) :
    (fresh_root_writes t1 n).size = t1.size + 1 := rfl

theorem fresh_root_writes_heap_n (t1 : RBTree) (n : Nat) (h : t1.nil ≠ n) :
    (fresh_root_writes t1 n).heap n =
      { value := (t1.heap n).value, color := RBColor.BLACK,
        parent := t1.nil, leftChild := t1.nil, rightChild := t1.nil } := by
  simp [fresh_root_writes, setLeft, setRight, setParent, setColor, writeNode, h]
  intro hc
  exact absurd hc (Ne.symm h)

theorem fresh_root_writes_heap_nil (t1 : RBTree) (n : Nat) (h : t1.nil ≠ n) :
    (fresh_root_writes t1 n).heap t1.nil = { t1.heap t1.nil with parent := n } := by
  have h6 : (setColor (setParent (setRight (setLeft { t1 with root := n } n t1.nil)
      n t1.nil) n t1.nil) n RBColor.BLACK).heap t1.nil = t1.heap t1.nil := by
    rw [setColor_heap_ne _ _ _ _ h, setParent_heap_ne _ _ _ _ h,
      setRight_heap_ne _ _ _ _ h, setLeft_heap_ne _ _ _ _ h]
  show (setParent (setColor (setParent (setRight (setLeft { t1 with root := n } n t1.nil)
      n t1.nil) n t1.nil) n RBColor.BLACK) t1.nil n).heap t1.nil
    = { t1.heap t1.nil with parent := n }
  rw [setParent_heap_eq, h6]

theorem fresh_root_writes_heap_other (t1 : RBTree) (n j : Nat) (hj : j ≠ n)
    (hjn : j ≠ t1.nil) :
    (fresh_root_writes t1 n).heap j = t1.heap j := by
  simp [fresh_root_writes, setLeft, setRight, setParent, setColor, writeNode, hj, hjn]

theorem make_node_heap_eq (t0 : RBTree) (v : Int) :
    (make_node t0 v).1.heap t0.nextId =
      { value := some v, color := RBColor.RED, parent := 0,
        leftChild := 0, rightChild := 0 } := by
  simp [make_node, writeNode]

theorem make_node_heap_ne (t0 : RBTree) (v : Int) (j : Nat) (hj : j ≠ t0.nextId) :
    (make_node t0 v).1.heap j = t0.heap j := by
  simp [make_node, writeNode, hj]

theorem make_node_snd (t0 : RBTree) (v : Int) : (make_node t0 v).2 = t0.nextId := rfl

theorem make_node_nextId (t0 : RBTree) (v : Int) :
    (make_node t0 v).1.nextId = t0.nextId + 1 := rfl

theorem make_node_root (t0 : RBTree) (v : Int) : (make_node t0 v).1.root = t0.root := rfl

theorem make_node_nil (t0 : RBTree) (v : Int) : (make_node t0 v).1.nil = t0.nil := rfl

theorem make_node_size (t0 : RBTree) (v : Int) : (make_node t0 v).1.size = t0.size := rfl

theorem ids_length_lt {l : List Nat} {n nil : Nat} (hnd : l.Nodup)
    (hlt : ∀ i ∈ l, i < n) (hnil : nil < n) (hnotin : nil ∉ l) : l.length < n := by
  have hcard : l.toFinset.card = l.length := List.toFinset_card_of_nodup hnd
  have hsubs : l.toFinset ⊆ (Finset.range n).erase nil := by
    intro a ha
    rw [List.mem_toFinset] at ha
    exact Finset.mem_erase.mpr ⟨fun hc => hnotin (hc ▸ ha), Finset.mem_range.mpr (hlt a ha)⟩
  have h2 : l.length ≤ ((Finset.range n).erase nil).card := by
    rw [← hcard]
    exact Finset.card_le_card hsubs
  have h3 : ((Finset.range n).erase nil).card = n - 1 := by
    rw [Finset.card_erase_of_mem (Finset.mem_range.mpr hnil), Finset.card_range]
  omega

theorem pairwise_sortedLt {xs : List Int}
    (h : xs.Pairwise (fun a b => a < b)) : sortedLt xs = true :=
  (sortedLt_chain xs).mpr (List.chain'_iff_pairwise.mpr h)

set_option maxHeartbeats 1600000 in

/-- `insert` with no hint preserves the master invariant. -/
theorem insert_preserves {t0 : RBTree} {bt : BT} (hInv : Inv t0 bt) (v : Int) :
    ∃ bt', Inv (RBTree.insert t0 v none).1 bt' := by
  obtain ⟨hR, hnd, hbound, hnilv, hfresh, hsize, hniln, hpw, hrootc, hnilc, hNR, hbh,
    hcache⟩ := hInv
  have hnilnu : t0.nil ≠ t0.nextId := Nat.ne_of_lt hniln
  by_cases hsz : (make_node t0 v).1.size = 0
  · -- empty-tree branch
    rw [insert_empty_eq t0 v hsz]
    have hszt0 : t0.size = 0 := hsz
    have hbt : bt = BT.lf := by
      cases bt with
      | lf => rfl
      | nd l i r =>
        rw [hszt0] at hsize
        simp [BT.ids] at hsize
        omega
    subst hbt
    have hrootnil : t0.root = t0.nil := hR
    have hh_n : (fresh_root_writes (make_node t0 v).1 (make_node t0 v).2).heap t0.nextId
        = { value := some v, color := RBColor.BLACK, parent := t0.nil,
            leftChild := t0.nil, rightChild := t0.nil } := by
      rw [show (fresh_root_writes (make_node t0 v).1 (make_node t0 v).2).heap t0.nextId
          = _ from fresh_root_writes_heap_n (make_node t0 v).1 t0.nextId hnilnu,
        make_node_heap_eq]
      rfl
    have hh_nil : (fresh_root_writes (make_node t0 v).1 (make_node t0 v).2).heap t0.nil
        = { t0.heap t0.nil with parent := t0.nextId } := by
      rw [show (fresh_root_writes (make_node t0 v).1 (make_node t0 v).2).heap t0.nil
          = { (make_node t0 v).1.heap t0.nil with parent := t0.nextId }
          from fresh_root_writes_heap_nil (make_node t0 v).1 t0.nextId hnilnu,
        make_node_heap_ne t0 v t0.nil hnilnu]
    have hh_other : ∀ j, j ≠ t0.nextId → j ≠ t0.nil →
        (fresh_root_writes (make_node t0 v).1 (make_node t0 v).2).heap j = t0.heap j := by
      intro j hj hjn
      rw [fresh_root_writes_heap_other (make_node t0 v).1 (make_node t0 v).2 j hj hjn,
        make_node_heap_ne t0 v j hj]
    refine ⟨BT.nd BT.lf t0.nextId BT.lf, ⟨rfl, ?_, ?_, ?_, ?_⟩, by simp [BT.ids], ?_,
      ?_, ?_, ?_, ?_, ?_, ?_, ?_, ?_, ?_, ?_⟩
    · show ((fresh_root_writes (make_node t0 v).1 (make_node t0 v).2).heap
        t0.nextId).value ≠ none
      rw [hh_n]
      exact fun hc => Option.noConfusion hc
    · show ((fresh_root_writes (make_node t0 v).1 (make_node t0 v).2).heap
        t0.nextId).parent = t0.nil
      rw [hh_n]
    · show ((fresh_root_writes (make_node t0 v).1 (make_node t0 v).2).heap
        t0.nextId).leftChild = t0.nil
      rw [hh_n]
    · show ((fresh_root_writes (make_node t0 v).1 (make_node t0 v).2).heap
        t0.nextId).rightChild = t0.nil
      rw [hh_n]
    · intro i hi
      simp [BT.ids] at hi
      subst hi
      exact ⟨by rw [fresh_root_writes_nextId, make_node_nextId]; omega,
        Ne.symm hnilnu⟩
    · show ((fresh_root_writes (make_node t0 v).1 (make_node t0 v).2).heap
        t0.nil).value = none
      rw [hh_nil]
      exact hnilv
    · intro i hi
      rw [fresh_root_writes_nextId, make_node_nextId] at hi
      rw [hh_other i (by omega) (by omega)]
      exact hfresh i (by omega)
    · rw [fresh_root_writes_size, make_node_size, hszt0]
      simp [BT.ids]
    · rw [show (fresh_root_writes (make_node t0 v).1 (make_node t0 v).2).nil = t0.nil
        from rfl, fresh_root_writes_nextId, make_node_nextId]
      omega
    · rw [valsOf_node]
      simp [valsOf, BT.ids, hh_n]
    · show ((fresh_root_writes (make_node t0 v).1 (make_node t0 v).2).heap
        t0.nextId).color = RBColor.BLACK
      rw [hh_n]
    · show ((fresh_root_writes (make_node t0 v).1 (make_node t0 v).2).heap
        t0.nil).color = RBColor.BLACK
      rw [hh_nil]
      exact hnilc
    · refine ⟨fun hc => ?_, trivial, trivial⟩
      exfalso
      have hc2 : ((fresh_root_writes (make_node t0 v).1 (make_node t0 v).2).heap
          t0.nextId).color = RBColor.RED := hc
      rw [hh_n] at hc2
      exact RBColor.noConfusion hc2
    · have hb : bhOf (fresh_root_writes (make_node t0 v).1 (make_node t0 v).2).heap
          (BT.nd BT.lf t0.nextId BT.lf) = some (1 + 1) := by
        rw [bhOf_node_build
            (show bhOf (fresh_root_writes (make_node t0 v).1
              (make_node t0 v).2).heap BT.lf = some 1 from rfl)
            (show bhOf (fresh_root_writes (make_node t0 v).1
              (make_node t0 v).2).heap BT.lf = some 1 from rfl), hh_n]
        simp
      rw [hb]
      rfl
    · intro A r B heq
      injection heq with h1 h2 h3
      subst h2
      subst h3
      show ((fresh_root_writes (make_node t0 v).1 (make_node t0 v).2).heap
        t0.nil).parent = _
      rw [hh_nil]
      rfl
  · -- non-empty tree
    have hszt0 : t0.size ≠ 0 := fun hc => hsz (by rw [make_node_size]; exact hc)
    cases bt with
    | lf =>
      exact absurd hsize hszt0
    | nd A r B =>
    have hidlt : ∀ i ∈ (BT.nd A r B).ids, i < t0.nextId := fun i hi => (hbound i hi).1
    have hlenle : (BT.nd A r B).ids.length ≤ t0.nextId := ids_length_le hnd hidlt
    have hlenlt : (BT.nd A r B).ids.length < t0.nextId :=
      ids_length_lt hnd hidlt hniln (fun hc => (hbound t0.nil hc).2 rfl)
    by_cases hvmem : v ∈ valsOf t0.heap (BT.nd A r B)
    · -- duplicate key: no mutation beyond the allocation counter
      have hfind : (t0.heap (RBTree.find t0 v)).value = some v := by
        rw [RBTree.find, if_neg hszt0]
        exact find_go_found hR hpw hvmem hlenlt
      have hdup := C7_duplicate_insert_no_mutation t0 v
        (hfresh t0.nextId (le_refl _)) hnilv hfind
      rw [hdup]
      refine ⟨BT.nd A r B, hR, hnd, ?_, hnilv, ?_, hsize,
        (by show t0.nil < t0.nextId + 1; omega), hpw, hrootc,
        hnilc, hNR, hbh, hcache⟩
      · intro i hi
        refine ⟨?_, (hbound i hi).2⟩
        show i < t0.nextId + 1
        have := (hbound i hi).1
        omega
      · intro i hi
        have hi2 : t0.nextId + 1 ≤ i := hi
        exact hfresh i (by omega)
    · -- fresh key: attach and fix up
      have hnotnu : ∀ j ∈ (BT.nd A r B).ids, j ≠ t0.nextId :=
        fun j hj hc => absurd (hidlt j hj) (by rw [hc]; omega)
      have hR1 : Repr (make_node t0 v).1.heap t0.nil t0.nil t0.root (BT.nd A r B) :=
        repr_congr hR (fun j hj => by
          rw [make_node_heap_ne t0 v j (hnotnu j hj)]
          exact ⟨rfl, rfl, rfl, rfl⟩)
      have hvals1 : valsOf (make_node t0 v).1.heap (BT.nd A r B)
          = valsOf t0.heap (BT.nd A r B) :=
        valsOf_congr (fun j hj => by rw [make_node_heap_ne t0 v j (hnotnu j hj)])
      have hcols1 : ∀ j ∈ (BT.nd A r B).ids,
          ((make_node t0 v).1.heap j).color = (t0.heap j).color :=
        fun j hj => by rw [make_node_heap_ne t0 v j (hnotnu j hj)]
      have h1nil : ((make_node t0 v).1.heap t0.nil).value = none := by
        rw [make_node_heap_ne t0 v t0.nil hnilnu]
        exact hnilv
      have hnuv : ((make_node t0 v).1.heap t0.nextId).value = some v := by
        rw [make_node_heap_eq]
      obtain ⟨S', h22, hRS', hidsS', hndS', hvalsS', hframeS', hvaleqS', hcoleqS',
        hnucol, hsubnu, hbhS', hNRimp, hcolS', hlenS', SA, SB, hS'shape⟩ :=
        get_position_attach hnuv h1nil hR1 hnd
          (fun hc => absurd (hidlt _ hc) (by omega))
          (fun j hj => (hbound j hj).2) (hvals1 ▸ hpw) (hvals1 ▸ hvmem)
          (fun hc => BT.noConfusion hc)
          (show (BT.nd A r B).ids.length < (make_node t0 v).1.nextId from by
            rw [make_node_nextId]
            omega)
      rw [insert_attach_eq t0 v hsz h22]
      show ∃ bt', Inv (insert_attach_tail
        (get_position (make_node t0 v).1.nextId (make_node t0 v).1 t0.root
          t0.nextId).1 t0.nextId) bt'
      obtain ⟨hfrR, hfrN, hfrX, hfrS⟩ := get_position_frame
        (make_node t0 v).1.nextId (make_node t0 v).1 t0.root t0.nextId
      set T2 := (get_position (make_node t0 v).1.nextId (make_node t0 v).1 t0.root
        t0.nextId).1 with hT2def
      have hT2nil : T2.nil = t0.nil := hfrN
      have hT2root : T2.root = t0.root := hfrR
      have hT2next : T2.nextId = t0.nextId + 1 := by
        rw [hfrX, make_node_nextId]
      have hT2size : T2.size = t0.size := hfrS
      have hR2 : Repr T2.heap T2.nil T2.nil T2.root S' := by
        rw [hT2nil, hT2root]
        exact hRS'
      have hnn2 : ∀ j ∈ S'.ids, j ≠ T2.nil := by
        intro j hj
        rw [hT2nil]
        rcases (hidsS' j).mp hj with hj2 | hj2
        · rw [hj2]
          exact Ne.symm hnilnu
        · exact (hbound j hj2).2
      have hnilv2 : (T2.heap T2.nil).value = none := by
        rw [hT2nil, hvaleqS' t0.nil]
        exact h1nil
      have hnilc2 : (T2.heap T2.nil).color = RBColor.BLACK := by
        rw [hT2nil, hcoleqS' t0.nil hnilnu, make_node_heap_ne t0 v t0.nil hnilnu]
        exact hnilc
      have hNR2 : noRR (blacken T2.heap t0.nextId) S' :=
        hNRimp ((noRR_congr hcols1).mpr hNR)
      have hbh2 : (bhOf T2.heap S').isSome = true := by
        rw [hbhS', bhOf_congr hcols1]
        exact hbh
      have hrootmem : t0.root ∈ (BT.nd A r B).ids := by
        have hrr : t0.root = r := hR.1
        rw [hrr]
        simp [BT.ids]
      have hroot2 : T2.root ≠ t0.nextId → (T2.heap T2.root).color = RBColor.BLACK := by
        intro hne
        rw [hT2root, hcoleqS' t0.root (hnotnu t0.root hrootmem),
          make_node_heap_ne t0 v t0.root (hnotnu t0.root hrootmem)]
        exact hrootc
      have hm2 : S'.ids.length
          ≤ (BT.nd A r B).ids.length + (BT.nd BT.lf t0.nextId BT.lf).ids.length := by
        rw [hlenS']
        simp [BT.ids]
      have hfuel2 : 3 * (BT.nd A r B).ids.length + 3 ≤ 3 * T2.nextId + 3 := by
        rw [hT2next]
        omega
      obtain ⟨bt', hFW⟩ := insert_case1_spec (BT.nd A r B).ids.length hR2 hndS' hnn2
        hnilv2 hnilc2 hsubnu hnucol rfl rfl hNR2 hbh2 hroot2 hm2 hfuel2
      obtain ⟨hRout, hidsout, hvalout, hfrout, hnilout, hnextout, hsizeout, hNRout,
        hbhout, hrootout, hnilcout⟩ := hFW
      show ∃ bt2, Inv (setParent
        { insert_case1 (3 * T2.nextId + 3) T2 t0.nextId with
          size := (insert_case1 (3 * T2.nextId + 3) T2 t0.nextId).size + 1 }
        (insert_case1 (3 * T2.nextId + 3) T2 t0.nextId).nil
        (get_max_value_node { insert_case1 (3 * T2.nextId + 3) T2 t0.nextId with
          size := (insert_case1 (3 * T2.nextId + 3) T2 t0.nextId).size + 1 })) bt2
      set T3 := insert_case1 (3 * T2.nextId + 3) T2 t0.nextId with hT3def
      set T5 := setParent { T3 with size := T3.size + 1 } T3.nil
        (get_max_value_node { T3 with size := T3.size + 1 }) with hT5def
      have hT3nil : T3.nil = t0.nil := by rw [hnilout, hT2nil]
      have hT3next : T3.nextId = t0.nextId + 1 := by rw [hnextout, hT2next]
      rw [← hnilout] at hRout
      obtain ⟨A2, r2, B2, hbt'⟩ : ∃ A2 r2 B2, bt' = BT.nd A2 r2 B2 := by
        cases bt' with
        | lf =>
          exfalso
          rw [hS'shape] at hidsout
          simp [BT.ids] at hidsout
        | nd a b c => exact ⟨a, b, c, rfl⟩
      subst hbt'
      have h5ne : ∀ j, j ≠ t0.nil → T5.heap j = T3.heap j := by
        intro j hj
        show (setParent { T3 with size := T3.size + 1 } T3.nil
          (get_max_value_node { T3 with size := T3.size + 1 })).heap j = T3.heap j
        rw [setParent_heap_ne _ _ _ j (by rw [hT3nil]; exact hj)]
      have h5nil : T5.heap t0.nil = { T3.heap t0.nil with
          parent := get_max_value_node { T3 with size := T3.size + 1 } } := by
        rw [← hT3nil]
        exact setParent_heap_eq { T3 with size := T3.size + 1 } T3.nil
          (get_max_value_node { T3 with size := T3.size + 1 })
      have hidsne : ∀ j ∈ (BT.nd A2 r2 B2).ids, j ≠ t0.nil := by
        intro j hj
        have h2 := hnn2 j (hidsout ▸ hj)
        rw [hT2nil] at h2
        exact h2
      have hS'lt : ∀ j ∈ S'.ids, j < t0.nextId + 1 := by
        intro j hj
        rcases (hidsS' j).mp hj with h | h
        · omega
        · have := hidlt j h
          omega
      have hrootmem5 : T3.root ∈ (BT.nd A2 r2 B2).ids := by
        have hr2 : T3.root = r2 := hRout.1
        rw [hr2]
        simp [BT.ids]
      have hRoutNil : Repr T3.heap t0.nil t0.nil T3.root (BT.nd A2 r2 B2) := by
        rw [← hT3nil]
        exact hRout
      have hR5 : Repr T5.heap t0.nil t0.nil T3.root (BT.nd A2 r2 B2) :=
        repr_congr hRoutNil (fun j hj => by
          rw [h5ne j (hidsne j hj)]
          exact ⟨rfl, rfl, rfl, rfl⟩)
      have hcol5 : ∀ j ∈ (BT.nd A2 r2 B2).ids,
          (T5.heap j).color = (T3.heap j).color :=
        fun j hj => by rw [h5ne j (hidsne j hj)]
      have hv5 : valsOf T5.heap (BT.nd A2 r2 B2)
          = insertSorted v (valsOf t0.heap (BT.nd A r B)) := by
        have hv5a : valsOf T5.heap (BT.nd A2 r2 B2) = valsOf T3.heap (BT.nd A2 r2 B2) :=
          valsOf_congr (fun j hj => by rw [h5ne j (hidsne j hj)])
        have hv5b : valsOf T3.heap (BT.nd A2 r2 B2) = valsOf T2.heap (BT.nd A2 r2 B2) :=
          valsOf_congr (fun j _ => hvalout j)
        have hv5c : valsOf T2.heap (BT.nd A2 r2 B2) = valsOf T2.heap S' := by
          rw [valsOf, valsOf, hidsout]
        rw [hv5a, hv5b, hv5c, hvalsS', hvals1]
      have hpw5 : (valsOf T5.heap (BT.nd A2 r2 B2)).Pairwise (fun a b => a < b) := by
        rw [hv5]
        exact insertSorted_pairwise v _ hpw hvmem
      have hnilv5 : (T5.heap t0.nil).value = none := by
        rw [h5nil]
        show (T3.heap t0.nil).value = none
        rw [hvalout t0.nil, hvaleqS' t0.nil]
        exact h1nil
      have hlt5 : ∀ i ∈ (BT.nd A2 r2 B2).ids, i < t0.nextId + 1 :=
        fun i hi => hS'lt i (hidsout ▸ hi)
      have hnd5 : (BT.nd A2 r2 B2).ids.Nodup := by
        rw [hidsout]
        exact hndS'
      have hR5main : Repr T5.heap T5.nil T5.nil T5.root (BT.nd A2 r2 B2) := by
        show Repr T5.heap T3.nil T3.nil T3.root (BT.nd A2 r2 B2)
        rw [hT3nil]
        exact hR5
      refine ⟨BT.nd A2 r2 B2, hR5main, hnd5, ?_, ?_, ?_, ?_, ?_, hpw5, ?_, ?_, ?_, ?_, ?_⟩
      · intro i hi
        refine ⟨?_, ?_⟩
        · show i < T3.nextId
          rw [hT3next]
          exact hlt5 i hi
        · show i ≠ T3.nil
          rw [hT3nil]
          exact hidsne i hi
      · show (T5.heap T3.nil).value = none
        rw [hT3nil]
        exact hnilv5
      · intro i hi
        have hi' : t0.nextId + 1 ≤ i := by
          rw [show T5.nextId = T3.nextId from rfl, hT3next] at hi
          exact hi
        rw [h5ne i (fun hc => by rw [hc] at hi'; omega)]
        rw [hfrout i (fun hc => absurd (hS'lt i hc) (by omega))
            (by rw [hT2nil]; intro hc; rw [hc] at hi'; omega),
          hframeS' i (fun hc => absurd (hidlt i hc) (by omega)) (by omega),
          make_node_heap_ne t0 v i (by omega)]
        exact hfresh i (by omega)
      · show T3.size + 1 = (BT.nd A2 r2 B2).ids.length
        rw [hsizeout, hT2size, hsize, hidsout, hlenS']
      · show T3.nil < T3.nextId
        rw [hT3nil, hT3next]
        omega
      · show (T5.heap T3.root).color = RBColor.BLACK
        rw [h5ne T3.root (hidsne _ hrootmem5)]
        exact hrootout
      · show (T5.heap T3.nil).color = RBColor.BLACK
        rw [hT3nil, h5nil]
        show (T3.heap t0.nil).color = RBColor.BLACK
        have h2 := hnilcout
        rw [hT2nil] at h2
        exact h2
      · exact (noRR_congr hcol5).mpr hNRout
      · rw [bhOf_congr hcol5]
        exact hbhout
      · intro A3 r3 B3 heq
        injection heq with e1 e2 e3
        subst e1
        subst e2
        subst e3
        have hc5 : (T5.heap T5.nil).parent = get_max_value_node T5 :=
          setParent_nil_max_cache { T3 with size := T3.size + 1 }
        have hgm := get_max_is_max hR5main hnd5
          (fun i hi => by
            rw [show T5.nextId = T3.nextId from rfl, hT3next]
            exact hlt5 i hi)
          (by show (T5.heap T3.nil).value = none; rw [hT3nil]; exact hnilv5)
          (pairwise_sortedLt hpw5)
        exact hc5.trans hgm.1
end FtContainers
